import Mathlib

/-! Output-sparsity-aware convolution kernels of `src/layer/convolution.cpp`.

A shallow embedding of the convolution kernels of the repository and proofs of the
properties its specification states about them.

Conventions of the embedding.

* Floating point values are elements of a linearly ordered field `α`; the square root
  and the exponential used by the source are passed to the kernels as functions.  The
  theorems instantiate `α` with `ℝ`, `Real.sqrt` and `Real.exp` (exact real arithmetic);
  concrete runs can use `ℚ`.
* `ncnn::Mat` is a record of its dimensions together with its storage, addressed by
  channel and by element offset inside the channel (`channel(q)` followed by pointer
  arithmetic).  One-dimensional blobs (weights, bias, norms) live in channel `0`.
* Blob extents and loop counters are natural numbers; the `int` kernel geometry (kernel
  size, stride, dilation) and all pointer offsets are integers, because the source
  computes `gap` by a subtraction that may be negative and steps back by `stride_w` for
  the left neighbour.
* A `for (int i = lo; i < hi; i++)` loop is `forLoop lo hi body state`.
* The conversion `(int) v` of a float needs a floor function on `α`, asked for by the
  kernel that uses it.
-/

namespace Conv

/-! ## Loops -/

/-- Run `f lo`, `f (lo+1)`, ... for `n` consecutive counter values. -/
def loopN {σ : Type} : Nat → Nat → (Nat → σ → σ) → σ → σ
  | 0, _, _, s => s
  | n + 1, lo, f, s => loopN n (lo + 1) f (f lo s)

/-- The C loop `for (int i = lo; i < hi; i++) s = f i s`. -/
def forLoop {σ : Type} (lo hi : Nat) (f : Nat → σ → σ) (s : σ) : σ :=
  loopN (hi - lo) lo f s

/-- Traversal order of the kernels (`i` outer, `j` middle, `k` inner): position
`(i', j', k')` is visited before `(i, j, k)`. -/
def lex_lt (i' j' k' i j k : Nat) : Prop :=
  i' < i ∨ (i' = i ∧ (j' < j ∨ (j' = j ∧ k' < k)))

/-- The nested summation over a patch: the sum over `q < n` and `t < m`. -/
def dsum {β : Type} [AddCommMonoid β] (n m : Nat) (g : Nat → Nat → β) : β :=
  ∑ q in Finset.range n, ∑ t in Finset.range m, g q t

/-! ## Tensors -/

/-- The part of `ncnn::Mat` the kernels use: dimension count, width, height, channel
count, element packing and the float storage, read as `data q p` for channel `q` and
element offset `p` within the channel. -/
structure Mat (α : Type) where
  dims : Nat
  w : Nat
  h : Nat
  c : Nat
  elempack : Nat
  data : Nat → Int → α

namespace Mat

variable {α : Type}

/-- The default constructed blob `Mat()`: all dimensions zero. -/
def nil [Zero α] : Mat α := ⟨0, 0, 0, 0, 0, fun _ _ => 0⟩

/-- The element count `Mat::total()`, `cstep * c`. -/
def total (m : Mat α) : Nat := m.w * m.h * m.c

/-- The emptiness test `Mat::empty()`. -/
def empty (m : Mat α) : Bool := m.total == 0

/-- The call `Mat::create(w)`: a one-dimensional blob; the storage is not initialised, so
the previous contents stand for the unspecified values. -/
def create1 (m : Mat α) (w : Nat) : Mat α :=
  { m with dims := 1, w := w, h := 1, c := 1, elempack := 1 }

/-- The call `Mat::create(w, h)`: a two-dimensional blob with uninitialised storage. -/
def create2 (m : Mat α) (w h : Nat) : Mat α :=
  { m with dims := 2, w := w, h := h, c := 1, elempack := 1 }

/-- The call `Mat::create(w, h, c, elemsize, allocator)` with `int` arguments: a
three-dimensional blob with uninitialised storage; a non-positive extent leaves it empty. -/
def create3 (m : Mat α) (w h c : Int) : Mat α :=
  { m with dims := 3, w := w.toNat, h := h.toNat, c := c.toNat, elempack := 1 }

/-- The store `channel(q)[p] = v`. -/
def set (m : Mat α) (q : Nat) (p : Int) (v : α) : Mat α :=
  { m with data := fun q' p' => if q' = q ∧ p' = p then v else m.data q' p' }

/-- The flat read `((const float*)m)[p]`, also `m[p]`, of a one-dimensional blob. -/
def flat (m : Mat α) (p : Int) : α := m.data 0 p

/-- The flat store `((float*)m.data)[p] = v` of a one-dimensional blob. -/
def setFlat (m : Mat α) (p : Int) (v : α) : Mat α := m.set 0 p v

end Mat

/-- The arguments every kernel receives unchanged from `Convolution::forward`: weights,
bias, kernel geometry and activation. -/
structure ConvArgs (α : Type) where
  weight_data : Mat α
  bias_data : Mat α
  kernel_w : Int
  kernel_h : Int
  stride_w : Int
  stride_h : Int
  dilation_w : Int
  dilation_h : Int
  activation_type : Int
  activation_params : Mat α

/-- The compile-time constant `E` (`#define E 6`). -/
def E : Nat := 6

/-- The compile-time constant `E_pow_num` (`#define E_pow_num 64`). -/
def E_pow_num : Nat := 64

/-! ## Shared pieces of the kernels -/

section Kernels

variable {α : Type} [LinearOrderedField α]

/-- The kernel offset table `space_ofs` built at the top of every kernel
(`convolution.cpp` 163-180, 2627-2644, ...): the state is `(space_ofs, p1, p2)`. -/
def make_space_ofs (w : Nat) (kernel_w kernel_h dilation_w dilation_h : Int) : Nat → Int :=
  let gap : Int := (w : Int) * dilation_h - kernel_w * dilation_w
  (forLoop 0 kernel_h.toNat (fun _ (s : (Nat → Int) × Nat × Int) =>
    let s1 := forLoop 0 kernel_w.toNat (fun _ (t : (Nat → Int) × Nat × Int) =>
      (Function.update t.1 t.2.1 t.2.2, t.2.1 + 1, t.2.2 + dilation_w)) s
    (s1.1, s1.2.1, s1.2.2 + gap)) (fun _ => 0, 0, 0)).1

/-- The table `space_ofs` of a call on input `in_x`. -/
def ConvArgs.space_ofs (a : ConvArgs α) (in_x : Mat α) : Nat → Int :=
  make_space_ofs in_x.w a.kernel_w a.kernel_h a.dilation_w a.dilation_h

/-- The constant `maxk = kernel_w * kernel_h` as a loop bound. -/
def ConvArgs.maxk (a : ConvArgs α) : Nat := (a.kernel_w * a.kernel_h).toNat

/-- The flag `bias_term = bias_data.empty() ? 0 : 1`. -/
def ConvArgs.bias_term (a : ConvArgs α) : Bool := !a.bias_data.empty

/-- The initial value of `y_kij`: `bias_data[k]` when `bias_term`, else `0.f`. -/
def ConvArgs.y_init (a : ConvArgs α) (k : Nat) : α :=
  if a.bias_term then a.bias_data.flat k else 0

/-- The filter pointer `(const float*)weight_data + maxk * inch * k` as an offset. -/
def ConvArgs.kptr (a : ConvArgs α) (inch k : Nat) : Int :=
  a.kernel_w * a.kernel_h * inch * k

/-- The pointer `m.row(i * stride_h) + j * stride_w` as an offset inside a channel of `m`. -/
def row_ptr (m : Mat α) (stride_w stride_h : Int) (i j : Nat) : Int :=
  (i : Int) * stride_h * m.w + (j : Int) * stride_w

/-- The read `sptr[space_ofs[w_i]]` in channel `q` of `m`. -/
def patch_at (m : Mat α) (space_ofs : Nat → Int) (q : Nat) (sptr : Int) (w_i : Nat) : α :=
  m.data q (sptr + space_ofs w_i)

/-- The exact dot-product loops shared by all kernels,
`for q < inch { for w_i < maxk { y_kij += sptr[space_ofs[w_i]] * kptr[w_i]; } kptr += maxk; }`;
the state is `(y_kij, kptr)`. -/
def accumulate (in_x weight_data : Mat α) (space_ofs : Nat → Int) (inch maxk : Nat)
    (sptr : Int) (kptr : Int) (y_kij : α) : α :=
  (forLoop 0 inch (fun q (s : α × Int) =>
    (forLoop 0 maxk (fun w_i y =>
        let val := patch_at in_x space_ofs q sptr w_i
        let wt := weight_data.flat (s.2 + w_i)
        y + val * wt) s.1,
      s.2 + maxk)) (y_kij, kptr)).1

/-- The exact pre-activation of output `(k, i, j)` as every kernel computes it: `y_kij`
initialised from the bias and run through the dot-product loops. -/
def exact_y (a : ConvArgs α) (in_x : Mat α) (i j k : Nat) : α :=
  accumulate in_x a.weight_data (a.space_ofs in_x) in_x.c a.maxk
    (row_ptr in_x a.stride_w a.stride_h i j) (a.kptr in_x.c k) (a.y_init k)

/-- The weight `W[k, q, t]` of the flat layout `(K, C_in, maxk)` for `inch` input channels. -/
def ConvArgs.weight (a : ConvArgs α) (inch k q t : Nat) : α :=
  a.weight_data.flat (a.kptr inch k + (q : Int) * (a.maxk : Int) + (t : Int))

/-- The bias-free pre-activation of output `(k, i, j)` written as a sum,
`sum_q sum_t x[q, patch(i, j, t)] * W[k, q, t]`. -/
def conv_sum (a : ConvArgs α) (in_x : Mat α) (i j k : Nat) : α :=
  dsum in_x.c a.maxk (fun q t =>
    patch_at in_x (a.space_ofs in_x) q (row_ptr in_x a.stride_w a.stride_h i j) t
      * a.weight in_x.c k q t)

/-- The squared norm of filter `k`, `sum_q sum_t W[k, q, t]^2`. -/
def weight_sq (a : ConvArgs α) (inch k : Nat) : α :=
  dsum inch a.maxk (fun q t => a.weight inch k q t * a.weight inch k q t)

/-- The squared temporal patch delta of position `(i, j)` written as a sum. -/
def temporal_sq (a : ConvArgs α) (in_x last_x : Mat α) (i j : Nat) : α :=
  dsum in_x.c a.maxk (fun q t =>
    (patch_at in_x (a.space_ofs in_x) q (row_ptr in_x a.stride_w a.stride_h i j) t
      - patch_at last_x (a.space_ofs in_x) q (row_ptr last_x a.stride_w a.stride_h i j) t)
    * (patch_at in_x (a.space_ofs in_x) q (row_ptr in_x a.stride_w a.stride_h i j) t
      - patch_at last_x (a.space_ofs in_x) q (row_ptr last_x a.stride_w a.stride_h i j) t))

/-- Modelled from the spec: `activation_ss` of `fused_activation.h`, which is not among the
sources.  The activation codes are those listed in `convolution.h`
(`0=none 1=relu 2=leakyrelu 3=clip 4=sigmoid`); `exp` is the exponential function. -/
def activation_ss (exp : α → α) (v : α) (activation_type : Int) (activation_params : Mat α) : α :=
  if activation_type = 1 then max v 0
  else if activation_type = 2 then (if v > 0 then v else v * activation_params.flat 0)
  else if activation_type = 3 then
    min (max v (activation_params.flat 0)) (activation_params.flat 1)
  else if activation_type = 4 then 1 / (1 + exp (-v))
  else v

/-- The activation call `activation_ss(y_kij, activation_type, activation_params)`. -/
def ConvArgs.act (a : ConvArgs α) (exp : α → α) (v : α) : α :=
  activation_ss exp v a.activation_type a.activation_params

/-- The output offset `outptr + j` with `outptr = channel(k) + i * outw`. -/
def out_pos (outw i j : Nat) : Int := (i : Int) * outw + j

/-- Two blobs hold the same tensor: same extents and same elements inside them. -/
def Mat.same_tensor {β : Type} (x y : Mat β) : Prop :=
  x.w = y.w ∧ x.h = y.h ∧ x.c = y.c ∧
    ∀ k i j, k < x.c → i < x.h → j < x.w →
      x.data k (out_pos x.w i j) = y.data k (out_pos x.w i j)

/-! ## The reference kernel -/

/-- The reference kernel `raw_convolution` (`convolution.cpp` 2614-2694); it returns the
written `top_blob` (the return code is always `0`). -/
def raw_convolution (exp : α → α) (bottom_blob top_blob : Mat α) (a : ConvArgs α) : Mat α :=
  let outw := top_blob.w
  let outh := top_blob.h
  let outch := top_blob.c
  forLoop 0 outh (fun i top_blob =>
    forLoop 0 outw (fun j top_blob =>
      forLoop 0 outch (fun k top_blob =>
        let y_kij := exact_y a bottom_blob i j k
        top_blob.set k (out_pos outw i j) (a.act exp y_kij)) top_blob) top_blob)
    top_blob

/-- The reference pre-activation in the words of the specification (section 4.3):
`y = bias[k]` (or `0`), then for `q` outer and the taps `(r, c)` inner
`y += x[q, i*stride_h + r*dilation_h, j*stride_w + c*dilation_w] * W[k, q, r*kernel_w + c]`,
with `x[q, row, col]` element `row * w + col` of channel `q` and `W` in the flat layout
`(K, C_in, maxk)`. -/
def reference_y (a : ConvArgs α) (x : Mat α) (i j k : Nat) : α :=
  forLoop 0 x.c (fun q y =>
    forLoop 0 a.kernel_h.toNat (fun r y =>
      forLoop 0 a.kernel_w.toNat (fun c y =>
        y + x.data q
            (((i : Int) * a.stride_h + (r : Int) * a.dilation_h) * (x.w : Int)
              + ((j : Int) * a.stride_w + (c : Int) * a.dilation_w))
          * a.weight_data.flat
            ((k : Int) * ((x.c : Int) * (a.kernel_w * a.kernel_h))
              + (q : Int) * (a.kernel_w * a.kernel_h) + ((r : Int) * a.kernel_w + (c : Int))))
        y) y)
    (if a.bias_data.empty then 0 else a.bias_data.flat k)

/-! ## Pieces shared by the bound kernels -/

/-- The sum-of-squares loops of the weight norm,
`for q < inch { for w_i < maxk { w_norm2_data[k] += kptr[w_i] * kptr[w_i]; } kptr += maxk; }`;
the state is `(w_norm2, kptr)`. -/
def norm_accumulate (weight_data : Mat α) (inch maxk k : Nat) (kptr : Int) (w_norm2 : Mat α) :
    Mat α :=
  (forLoop 0 inch (fun _ (s : Mat α × Int) =>
    (forLoop 0 maxk (fun w_i wn =>
        wn.setFlat k (wn.flat k + weight_data.flat (s.2 + w_i) * weight_data.flat (s.2 + w_i)))
        s.1,
      s.2 + maxk)) (w_norm2, kptr)).1

/-- The block "calculate w_norm2" of the first-call branch (`convolution.cpp` 189-200,
1320-1331, 2468-2479): for every output channel accumulate the squares in place, then
replace the entry by its square root. -/
def calc_w_norm2 (sqrt : α → α) (a : ConvArgs α) (inch outch : Nat) (w_norm2 : Mat α) : Mat α :=
  forLoop 0 outch (fun k w_norm2 =>
    let w_norm2 := w_norm2.setFlat k 0
    let w_norm2 := norm_accumulate a.weight_data inch a.maxk k (a.kptr inch k) w_norm2
    w_norm2.setFlat k (sqrt (w_norm2.flat k))) w_norm2

/-- One output position of the block "exact compute" of a first call (`convolution.cpp`
213-251): the state is `(out_y, last_y)`. -/
def exact_compute_step (exp : α → α) (a : ConvArgs α) (in_x : Mat α) (outw i j k : Nat)
    (s : Mat α × Mat α) : Mat α × Mat α :=
  let y_kij := exact_y a in_x i j k
  let last_y :=
    if a.bias_term then s.2.set k (out_pos outw i j) (y_kij - a.bias_data.flat k)
    else s.2.set k (out_pos outw i j) y_kij
  let out_y := s.1.set k (out_pos outw i j) (a.act exp y_kij)
  (out_y, last_y)

/-- The loops of the block "exact compute" of a first call (`convolution.cpp` 209-253). -/
def exact_compute (exp : α → α) (a : ConvArgs α) (in_x out_y last_y : Mat α) : Mat α × Mat α :=
  forLoop 0 out_y.h (fun i s =>
    forLoop 0 out_y.w (fun j s =>
      forLoop 0 out_y.c (fun k s => exact_compute_step exp a in_x out_y.w i j k s) s) s)
    (out_y, last_y)

/-- The squared temporal delta `dx2_sum` of position `(i, j)` (`convolution.cpp` 266-281):
the sum over the patch of `(val - val_last_x)^2`. -/
def temporal_dx2_sum (a : ConvArgs α) (in_x last_x : Mat α) (i j : Nat) : α :=
  forLoop 0 in_x.c (fun q dx2_sum =>
    forLoop 0 a.maxk (fun w_i dx2_sum =>
      let val := patch_at in_x (a.space_ofs in_x) q (row_ptr in_x a.stride_w a.stride_h i j) w_i
      let val_last_x :=
        patch_at last_x (a.space_ofs in_x) q (row_ptr last_x a.stride_w a.stride_h i j) w_i
      dx2_sum + (val - val_last_x) * (val - val_last_x)) dx2_sum) 0

/-! ## The temporal kernel -/

/-- What a temporal kernel call leaves behind: the written output and the three caches. -/
structure TemporalResult (α : Type) where
  out_y : Mat α
  last_x : Mat α
  last_y : Mat α
  w_norm2 : Mat α

/-- One output position of the bound branch of `mlsys_convolution` (`convolution.cpp`
286-342); `dx_norm` is the temporal delta of `(i, j)` and the state is `(out_y, last_y)`. -/
def mlsys_step (exp : α → α) (a : ConvArgs α) (in_x w_norm2 : Mat α) (dx_norm : α)
    (outw i j k : Nat) (s : Mat α × Mat α) : Mat α × Mat α :=
  let y_kij := a.y_init k
  let norm_norm := w_norm2.flat k * dx_norm
  let p := out_pos outw i j
  if s.2.data k p + norm_norm ≤ -y_kij then
    (s.1.set k p 0, s.2.set k p (s.2.data k p + norm_norm))
  else
    let last_y := s.2.set k p (-y_kij)
    let y_kij := exact_y a in_x i j k
    let last_y := last_y.set k p (last_y.data k p + y_kij)
    (s.1.set k p (a.act exp y_kij), last_y)

/-- The skip test of the bound branch of `mlsys_convolution` at `(i, j, k)`,
`out_bar_ptr[j] + norm_norm <= -y_kij`, for the cached value `v = out_bar_ptr[j]`. -/
def mlsys_skips (sqrt : α → α) (a : ConvArgs α) (in_x last_x w_norm2 : Mat α) (i j k : Nat)
    (v : α) : Prop :=
  v + w_norm2.flat k * sqrt (temporal_dx2_sum a in_x last_x i j) ≤ -a.y_init k

/-- Position `(i, j, k)` takes an exact dot-product branch in a call of `mlsys_convolution`:
the call is a first call (empty `last_x`) or the skip test fails. -/
def mlsys_takes_exact (sqrt : α → α) (a : ConvArgs α) (in_x last_x last_y w_norm2 : Mat α)
    (outw i j k : Nat) : Prop :=
  last_x.total ≤ 0 ∨
    ¬ mlsys_skips sqrt a in_x last_x w_norm2 i j k (last_y.data k (out_pos outw i j))

/-- The cache invariant of the temporal kernels for inputs of width `W` with `C` channels
and outputs of extent `OW x OH x OC`: `last_x` has the input shape, `w_norm2` holds the
filter norms and `last_y` bounds the bias-free pre-activation of `last_x` from above. -/
def temporal_inv (sqrt : α → α) (a : ConvArgs α) (W C OW OH OC : Nat)
    (s : Mat α × Mat α × Mat α) : Prop :=
  s.1.w = W ∧ s.1.c = C ∧
  (∀ k, k < OC → s.2.2.flat k = sqrt (weight_sq a C k)) ∧
  ∀ i j k, i < OH → j < OW → k < OC → conv_sum a s.1 i j k ≤ s.2.1.data k (out_pos OW i j)

/-- The kernel `mlsys_convolution` (`convolution.cpp` 147-357): the first call (empty
`last_x`) computes the weight norms and every output exactly; later calls test the temporal
bound at every position and fall back to the exact dot product. -/
def mlsys_convolution (sqrt exp : α → α) (in_x out_y : Mat α) (a : ConvArgs α)
    (last_x last_y w_norm2 : Mat α) : TemporalResult α :=
  let inch := in_x.c
  let outw := out_y.w
  let outh := out_y.h
  let outch := out_y.c
  if last_x.total ≤ 0 then
    let w_norm2 := calc_w_norm2 sqrt a inch outch (w_norm2.create1 outch)
    let last_x := in_x
    let last_y := out_y
    let s := exact_compute exp a in_x out_y last_y
    ⟨s.1, last_x, s.2, w_norm2⟩
  else
    let s := forLoop 0 outh (fun i s =>
      forLoop 0 outw (fun j s =>
        let dx2_sum := temporal_dx2_sum a in_x last_x i j
        let dx_norm := sqrt dx2_sum
        forLoop 0 outch (fun k s => mlsys_step exp a in_x w_norm2 dx_norm outw i j k s) s) s)
      (out_y, last_y)
    ⟨s.1, in_x, s.2, w_norm2⟩

/-- A sequence of calls of a stateful kernel: `step` maps the caches and one call's
arguments to the call's result and the new caches; the caches left by the whole sequence
are returned. -/
def run_state {σ β ρ : Type} (step : σ → β → ρ × σ) : σ → List β → σ
  | s, [] => s
  | s, b :: bs => run_state step (step s b).2 bs

/-- One call of `mlsys_convolution` on the pair `(in_x, out_y)` from the caches
`(last_x, last_y, w_norm2)`, as a step of `run_state`. -/
def mlsys_call (sqrt exp : α → α) (a : ConvArgs α) (s : Mat α × Mat α × Mat α)
    (xy : Mat α × Mat α) : TemporalResult α × (Mat α × Mat α × Mat α) :=
  let r := mlsys_convolution sqrt exp xy.1 xy.2 a s.1 s.2.1 s.2.2
  (r, (r.last_x, r.last_y, r.w_norm2))

/-- The caches `(last_x, last_y, w_norm2)` left by the calls `calls` of `mlsys_convolution`
made one after the other from the caches `s`. -/
def mlsys_caches (sqrt exp : α → α) (a : ConvArgs α) (s : Mat α × Mat α × Mat α)
    (calls : List (Mat α × Mat α)) : Mat α × Mat α × Mat α :=
  run_state (mlsys_call sqrt exp a) s calls

/-- The result of calling `mlsys_convolution` on `(in_x, out_y)` after the calls `calls`
made from the caches `s`. -/
def mlsys_after (sqrt exp : α → α) (a : ConvArgs α) (s : Mat α × Mat α × Mat α)
    (calls : List (Mat α × Mat α)) (in_x out_y : Mat α) : TemporalResult α :=
  mlsys_convolution sqrt exp in_x out_y a (mlsys_caches sqrt exp a s calls).1
    (mlsys_caches sqrt exp a s calls).2.1 (mlsys_caches sqrt exp a s calls).2.2

/-- All calls of a sequence have inputs of the shape of `in_x` and outputs of the shape
of `out_y`. -/
def same_shapes {β : Type} (calls : List (Mat β × Mat β)) (in_x out_y : Mat β) : Prop :=
  ∀ c ∈ calls, c.1.w = in_x.w ∧ c.1.h = in_x.h ∧ c.1.c = in_x.c ∧
    c.2.w = out_y.w ∧ c.2.h = out_y.h ∧ c.2.c = out_y.c

/-! ## Concrete scenarios -/

/-- A one-dimensional blob holding the listed values. -/
def Mat.of_list {β : Type} [Zero β] (l : List β) : Mat β :=
  ⟨1, l.length, 1, 1, 1, fun q p => if q = 0 ∧ 0 ≤ p then l.getD p.toNat 0 else 0⟩

/-- A blob of extent `w x h x c` whose channels all hold the listed row-major values. -/
def Mat.of_rows {β : Type} [Zero β] (w h c : Nat) (l : List β) : Mat β :=
  ⟨3, w, h, c, 1, fun _ p => if 0 ≤ p then l.getD p.toNat 0 else 0⟩

/-- Scenario S1 of the specification: one input channel, one output channel, a `1 x 1`
kernel with weight `1`, no bias, ReLU. -/
def s1_args : ConvArgs α :=
  { weight_data := Mat.of_list [1], bias_data := Mat.nil,
    kernel_w := 1, kernel_h := 1, stride_w := 1, stride_h := 1,
    dilation_w := 1, dilation_h := 1, activation_type := 1, activation_params := Mat.nil }

/-- The input `[[1, -2, 3]]` of scenario S1. -/
def s1_input : Mat α := Mat.of_rows 3 1 1 [1, -2, 3]

/-- A fresh `1 x 3` output blob with one channel. -/
def s1_top : Mat α := Mat.of_rows 3 1 1 []

/-! ## The spatial kernels -/

/-- The squared column delta of position `(i, j)`, `j != 0` (`convolution.cpp` 2509-2521):
the sum over the patch of `(sptr[ofs] - prev_sptr[ofs])^2` with `prev_sptr = sptr - stride_w`. -/
def col_delta_sum (a : ConvArgs α) (bottom_blob : Mat α) (i j : Nat) : α :=
  forLoop 0 bottom_blob.c (fun q delta_x_col =>
    let sptr := row_ptr bottom_blob a.stride_w a.stride_h i j
    let prev_sptr := sptr - a.stride_w
    forLoop 0 a.maxk (fun w_i delta_x_col =>
      let delta := patch_at bottom_blob (a.space_ofs bottom_blob) q sptr w_i
        - patch_at bottom_blob (a.space_ofs bottom_blob) q prev_sptr w_i
      delta_x_col + delta * delta) delta_x_col) 0

/-- The squared row delta of position `(i, j)`, `i != 0` (`convolution.cpp` 2529-2541):
the sum over the patch of `(sptr[ofs] - prev_sptr[ofs])^2` with
`prev_sptr = m.row((i-1) * stride_h) + j * stride_w`. -/
def row_delta_sum (a : ConvArgs α) (bottom_blob : Mat α) (i j : Nat) : α :=
  forLoop 0 bottom_blob.c (fun q delta_x_row =>
    let sptr := row_ptr bottom_blob a.stride_w a.stride_h i j
    let prev_sptr := row_ptr bottom_blob a.stride_w a.stride_h (i - 1) j
    forLoop 0 a.maxk (fun w_i delta_x_row =>
      let delta := patch_at bottom_blob (a.space_ofs bottom_blob) q sptr w_i
        - patch_at bottom_blob (a.space_ofs bottom_blob) q prev_sptr w_i
      delta_x_row + delta * delta) delta_x_row) 0

/-- What a call of `spatial_convolution` leaves behind. -/
structure SpatialResult (α : Type) where
  top_blob : Mat α
  w_norm2 : Mat α
  last_y_col : Mat α
  last_y_row : Mat α
  call_time : α

/-- The decision of the spatial kernels at one output position, the text shared by
`spatial_convolution` (`convolution.cpp` 2559-2598) and
`spatial_convolution_lower_bound_first_one` (2146-2190): from the column bound
`norm_norm_col` (used when `j != 0`) and the row bound `norm_norm_row` (used when `i != 0`)
form `min_norm_norm`, then skip or compute exactly.  The state is
`(top_blob, last_y_col, last_y_row)`; `last_y_row_ptr`, reset to the start of the buffer for
every `i` and advanced by `outch` after every `j`, points at element `j * outch`.  The local
`min_norm_norm` is only read when `i != 0 || j != 0`, where it has just been set. -/
def spatial_decide (exp : α → α) (a : ConvArgs α) (bottom_blob : Mat α)
    (norm_norm_col norm_norm_row : α) (outw outch i j k : Nat) (s : Mat α × Mat α × Mat α) :
    Mat α × Mat α × Mat α :=
  let y_kij := a.y_init k
  let min_norm_norm :=
    if i ≠ 0 then (if j ≠ 0 then min norm_norm_row norm_norm_col else norm_norm_row)
    else norm_norm_col
  if (i ≠ 0 ∨ j ≠ 0) ∧ min_norm_norm + y_kij ≤ 0 then
    (s.1.set k (out_pos outw i j) 0, s.2.1.setFlat k min_norm_norm,
      s.2.2.setFlat (out_pos outch j k) min_norm_norm)
  else
    let last_y_col := s.2.1.setFlat k (-y_kij)
    let last_y_row := s.2.2.setFlat (out_pos outch j k) (-y_kij)
    let y_kij := exact_y a bottom_blob i j k
    let last_y_col := last_y_col.setFlat k (last_y_col.flat k + y_kij)
    let last_y_row :=
      last_y_row.setFlat (out_pos outch j k) (last_y_row.flat (out_pos outch j k) + y_kij)
    (s.1.set k (out_pos outw i j) (a.act exp y_kij), last_y_col, last_y_row)

/-- One output position of `spatial_convolution` (`convolution.cpp` 2545-2599): the bounds
are `last_y_col_ptr[k] + delta_x_col * w_norm2[k]` and
`last_y_row_ptr[k] + delta_x_row * w_norm2[k]`. -/
def spatial_step (exp : α → α) (a : ConvArgs α) (bottom_blob w_norm2 : Mat α)
    (delta_x_col delta_x_row : α) (outw outch i j k : Nat) (s : Mat α × Mat α × Mat α) :
    Mat α × Mat α × Mat α :=
  let norm_norm_col := s.2.1.flat k + delta_x_col * w_norm2.flat k
  let norm_norm_row := s.2.2.flat (out_pos outch j k) + delta_x_row * w_norm2.flat k
  spatial_decide exp a bottom_blob norm_norm_col norm_norm_row outw outch i j k s

/-- The kernel `spatial_convolution` (`convolution.cpp` 2424-2610). -/
def spatial_convolution (sqrt exp : α → α) (bottom_blob top_blob : Mat α) (a : ConvArgs α)
    (w_norm2 last_y_col last_y_row : Mat α) (call_time : α) : SpatialResult α :=
  let call_time := call_time + 1
  let inch := bottom_blob.c
  let outw := top_blob.w
  let outh := top_blob.h
  let outch := top_blob.c
  let c : Mat α × Mat α × Mat α :=
    if w_norm2.total ≤ 0 then
      (calc_w_norm2 sqrt a inch outch (w_norm2.create1 outch), last_y_col.create1 outch,
        last_y_row.create2 outch outw)
    else (w_norm2, last_y_col, last_y_row)
  let s := forLoop 0 outh (fun i s =>
    forLoop 0 outw (fun j s =>
      let delta_x_col := if j ≠ 0 then sqrt (col_delta_sum a bottom_blob i j) else 0
      let delta_x_row := if i ≠ 0 then sqrt (row_delta_sum a bottom_blob i j) else 0
      forLoop 0 outch (fun k s =>
        spatial_step exp a bottom_blob c.1 delta_x_col delta_x_row outw outch i j k s) s) s)
    (top_blob, c.2.1, c.2.2)
  ⟨s.1, c.1, s.2.1, s.2.2, call_time⟩

/-- The block "calculate w_norm2" of `spatial_convolution_lower_bound_first_one`
(`convolution.cpp` 2027-2045): the state is `(w_norm2, w_norm2_lower)`. -/
def calc_w_norm2_first_one (sqrt : α → α) (a : ConvArgs α) (inch outch : Nat)
    (s : Mat α × Mat α) : Mat α × Mat α :=
  forLoop 0 outch (fun k (s : Mat α × Mat α) =>
    let kptr := a.kptr inch k
    let w_norm2_lower := s.2.setFlat k (a.weight_data.flat kptr * a.weight_data.flat kptr)
    let w_norm2 := s.1.setFlat k 0
    let w_norm2 := norm_accumulate a.weight_data inch a.maxk k kptr w_norm2
    let w_norm2_lower := w_norm2_lower.setFlat k (sqrt (w_norm2.flat k - w_norm2_lower.flat k))
    let w_norm2 := w_norm2.setFlat k (sqrt (w_norm2.flat k))
    (w_norm2, w_norm2_lower)) s

/-- The row delta loops of `spatial_convolution_lower_bound_first_one` (`convolution.cpp`
2097-2128), which peel off the first element to record its delta: the state is
`(delta_x_row, record_delta_xij_0)`. -/
def row_delta_first_one (a : ConvArgs α) (bottom_blob : Mat α) (i j : Nat) : α × α :=
  let so := a.space_ofs bottom_blob
  let sptr := row_ptr bottom_blob a.stride_w a.stride_h i j
  let prev_sptr := row_ptr bottom_blob a.stride_w a.stride_h (i - 1) j
  let s := forLoop 0 1 (fun q (s : α × α) =>
    let s := forLoop 0 1 (fun w_i (s : α × α) =>
      let delta := patch_at bottom_blob so q sptr w_i - patch_at bottom_blob so q prev_sptr w_i
      (s.1 + delta * delta, delta)) s
    forLoop 1 a.maxk (fun w_i (s : α × α) =>
      let delta := patch_at bottom_blob so q sptr w_i - patch_at bottom_blob so q prev_sptr w_i
      (s.1 + delta * delta, s.2)) s) (0, 0)
  forLoop 1 bottom_blob.c (fun q (s : α × α) =>
    forLoop 0 a.maxk (fun w_i (s : α × α) =>
      let delta := patch_at bottom_blob so q sptr w_i - patch_at bottom_blob so q prev_sptr w_i
      (s.1 + delta * delta, s.2)) s) s

/-- The row bound of `spatial_convolution_lower_bound_first_one` (`convolution.cpp`
2152-2156) for the cached value `last_y_row_ptr[k]`, with `temp = record_delta_xij_0 * kptr[0]`. -/
def first_one_row_bound (last_y_row_k delta_x_row w_norm2_k w_norm2_lower_k temp : α) : α :=
  if temp ≤ 0 then last_y_row_k + delta_x_row * w_norm2_lower_k + temp
  else last_y_row_k + delta_x_row * w_norm2_k

/-- One output position of `spatial_convolution_lower_bound_first_one` (`convolution.cpp`
2132-2191): the column bound is that of `spatial_convolution`, the row bound is
`first_one_row_bound` with `temp = record_delta_xij_0 * kptr[0]`. -/
def first_one_step (exp : α → α) (a : ConvArgs α) (bottom_blob w_norm2 w_norm2_lower : Mat α)
    (delta_x_col delta_x_row record_delta_xij_0 : α) (outw outch i j k : Nat)
    (s : Mat α × Mat α × Mat α) : Mat α × Mat α × Mat α :=
  let kptr := a.kptr bottom_blob.c k
  let norm_norm_col := s.2.1.flat k + delta_x_col * w_norm2.flat k
  let temp := record_delta_xij_0 * a.weight_data.flat kptr
  let norm_norm_row := first_one_row_bound (s.2.2.flat (out_pos outch j k)) delta_x_row
    (w_norm2.flat k) (w_norm2_lower.flat k) temp
  spatial_decide exp a bottom_blob norm_norm_col norm_norm_row outw outch i j k s

/-- What a call of `spatial_convolution_lower_bound_first_one` leaves behind. -/
structure FirstOneResult (α : Type) where
  top_blob : Mat α
  w_norm2 : Mat α
  last_y_col : Mat α
  last_y_row : Mat α
  w_norm2_lower : Mat α

/-- The kernel `spatial_convolution_lower_bound_first_one` (`convolution.cpp` 1981-2198). -/
def spatial_convolution_lower_bound_first_one (sqrt exp : α → α) (bottom_blob top_blob : Mat α)
    (a : ConvArgs α) (w_norm2 last_y_col last_y_row w_norm2_lower : Mat α) :
    FirstOneResult α :=
  let inch := bottom_blob.c
  let outw := top_blob.w
  let outh := top_blob.h
  let outch := top_blob.c
  let c : (Mat α × Mat α) × Mat α × Mat α :=
    if w_norm2.total ≤ 0 then
      (calc_w_norm2_first_one sqrt a inch outch
          (w_norm2.create1 outch, w_norm2_lower.create1 outch),
        last_y_col.create1 outch, last_y_row.create2 outch outw)
    else ((w_norm2, w_norm2_lower), last_y_col, last_y_row)
  let s := forLoop 0 outh (fun i s =>
    forLoop 0 outw (fun j s =>
      let delta_x_col := if j ≠ 0 then sqrt (col_delta_sum a bottom_blob i j) else 0
      let r := if i ≠ 0 then row_delta_first_one a bottom_blob i j else (0, 0)
      let delta_x_row := if i ≠ 0 then sqrt r.1 else 0
      let record_delta_xij_0 := r.2
      forLoop 0 outch (fun k s =>
        first_one_step exp a bottom_blob c.1.1 c.1.2 delta_x_col delta_x_row
          record_delta_xij_0 outw outch i j k s) s) s)
    (top_blob, c.2.1, c.2.2)
  ⟨s.1, c.1.1, s.2.1, s.2.2, c.1.2⟩

/-! ## The temporal and spatial kernel -/

/-- The fused delta loops of `temporal_spatial_convolution` (`convolution.cpp` 1399-1435):
the state is `(dx2_sum, delta_x_row, delta_x_col)`, all before the square root. -/
def fused_delta_sums (a : ConvArgs α) (bottom_blob last_x : Mat α) (i j : Nat) : α × α × α :=
  forLoop 0 bottom_blob.c (fun q (s : α × α × α) =>
    let so := a.space_ofs bottom_blob
    let sptr := row_ptr bottom_blob a.stride_w a.stride_h i j
    let sptr_last_x := row_ptr last_x a.stride_w a.stride_h i j
    let prev_i_sptr := row_ptr bottom_blob a.stride_w a.stride_h (i - 1) j
    let prev_j_sptr := sptr - a.stride_w
    forLoop 0 a.maxk (fun w_i (s : α × α × α) =>
      let base := patch_at bottom_blob so q sptr w_i
      let temporal_diff := patch_at last_x so q sptr_last_x w_i - base
      let dx2_sum := s.1 + temporal_diff * temporal_diff
      let delta_x_row :=
        if i ≠ 0 then
          s.2.1 + (patch_at bottom_blob so q prev_i_sptr w_i - base)
            * (patch_at bottom_blob so q prev_i_sptr w_i - base)
        else s.2.1
      let delta_x_col :=
        if j ≠ 0 then
          s.2.2 + (patch_at bottom_blob so q prev_j_sptr w_i - base)
            * (patch_at bottom_blob so q prev_j_sptr w_i - base)
        else s.2.2
      (dx2_sum, delta_x_row, delta_x_col)) s) (0, 0, 0)

/-- The candidate `min_norm_norm` of `temporal_spatial_convolution` (`convolution.cpp`
1464-1475): the temporal bound, lowered by the column bound when `j != 0` and by the row
bound when `i != 0`. -/
def ts_candidate (i j : Nat) (last_y_kij last_y_col_k last_y_row_k w_norm2_k dx_norm
    delta_x_col delta_x_row : α) : α :=
  let norm_norm := last_y_kij + w_norm2_k * dx_norm
  let min_norm_norm := norm_norm
  let min_norm_norm :=
    if j ≠ 0 then min min_norm_norm (last_y_col_k + delta_x_col * w_norm2_k) else min_norm_norm
  if i ≠ 0 then min min_norm_norm (last_y_row_k + delta_x_row * w_norm2_k) else min_norm_norm

/-- The state of the bound branch of `temporal_spatial_convolution`. -/
structure TSState (α : Type) where
  top_blob : Mat α
  last_y : Mat α
  last_y_col : Mat α
  last_y_row : Mat α

/-- One output position of the bound branch of `temporal_spatial_convolution`
(`convolution.cpp` 1445-1513). -/
def ts_step (exp : α → α) (a : ConvArgs α) (bottom_blob w_norm2 : Mat α)
    (dx_norm delta_x_col delta_x_row : α) (outw outch i j k : Nat) (s : TSState α) :
    TSState α :=
  let y_kij := a.y_init k
  let p := out_pos outw i j
  let min_norm_norm := ts_candidate i j (s.last_y.data k p) (s.last_y_col.flat k)
    (s.last_y_row.flat (out_pos outch j k)) (w_norm2.flat k) dx_norm delta_x_col delta_x_row
  if min_norm_norm + y_kij ≤ 0 then
    { top_blob := s.top_blob.set k p 0,
      last_y := s.last_y.set k p min_norm_norm,
      last_y_col := s.last_y_col.setFlat k min_norm_norm,
      last_y_row := s.last_y_row.setFlat (out_pos outch j k) min_norm_norm }
  else
    let y_kij := exact_y a bottom_blob i j k
    let v := if a.bias_term then y_kij - a.bias_data.flat k else y_kij
    { top_blob := s.top_blob.set k p (a.act exp y_kij),
      last_y := s.last_y.set k p v,
      last_y_col := s.last_y_col.setFlat k v,
      last_y_row := s.last_y_row.setFlat (out_pos outch j k) v }

/-- What a call of `temporal_spatial_convolution` leaves behind. -/
structure TSResult (α : Type) where
  top_blob : Mat α
  last_x : Mat α
  last_y : Mat α
  w_norm2 : Mat α
  last_y_col : Mat α
  last_y_row : Mat α

/-- The kernel `temporal_spatial_convolution` (`convolution.cpp` 1267-1530). -/
def temporal_spatial_convolution (sqrt exp : α → α) (bottom_blob top_blob : Mat α)
    (a : ConvArgs α) (last_x last_y w_norm2 last_y_col last_y_row : Mat α) : TSResult α :=
  let inch := bottom_blob.c
  let outw := top_blob.w
  let outh := top_blob.h
  let outch := top_blob.c
  if last_x.total ≤ 0 then
    let w_norm2 := calc_w_norm2 sqrt a inch outch (w_norm2.create1 outch)
    let last_y_col := last_y_col.create1 outch
    let last_y_row := last_y_row.create2 outch outw
    let last_x := bottom_blob
    let last_y := top_blob
    let s := exact_compute exp a bottom_blob top_blob last_y
    ⟨s.1, last_x, s.2, w_norm2, last_y_col, last_y_row⟩
  else
    let s := forLoop 0 outh (fun i s =>
      forLoop 0 outw (fun j s =>
        let d := fused_delta_sums a bottom_blob last_x i j
        let delta_x_row := if i ≠ 0 then sqrt d.2.1 else d.2.1
        let delta_x_col := if j ≠ 0 then sqrt d.2.2 else d.2.2
        let dx_norm := sqrt d.1
        forLoop 0 outch (fun k s =>
          ts_step exp a bottom_blob w_norm2 dx_norm delta_x_col delta_x_row outw outch i j k s)
          s) s)
      (⟨top_blob, last_y, last_y_col, last_y_row⟩ : TSState α)
    ⟨s.top_blob, bottom_blob, s.last_y, w_norm2, s.last_y_col, s.last_y_row⟩

/-- One call of `temporal_spatial_convolution` on the pair `(bottom_blob, top_blob)` from
the caches `(last_x, last_y, w_norm2, last_y_col, last_y_row)`, as a step of `run_state`. -/
def ts_call (sqrt exp : α → α) (a : ConvArgs α) (s : Mat α × Mat α × Mat α × Mat α × Mat α)
    (xy : Mat α × Mat α) : TSResult α × (Mat α × Mat α × Mat α × Mat α × Mat α) :=
  let r := temporal_spatial_convolution sqrt exp xy.1 xy.2 a s.1 s.2.1 s.2.2.1 s.2.2.2.1
    s.2.2.2.2
  (r, (r.last_x, r.last_y, r.w_norm2, r.last_y_col, r.last_y_row))

/-- The caches left by the calls `calls` of `temporal_spatial_convolution` made one after
the other from the caches `s`. -/
def ts_caches (sqrt exp : α → α) (a : ConvArgs α) (s : Mat α × Mat α × Mat α × Mat α × Mat α)
    (calls : List (Mat α × Mat α)) : Mat α × Mat α × Mat α × Mat α × Mat α :=
  run_state (ts_call sqrt exp a) s calls

/-- The result of calling `temporal_spatial_convolution` on `(bottom_blob, top_blob)` after
the calls `calls` made from the caches `s`. -/
def ts_after (sqrt exp : α → α) (a : ConvArgs α) (s : Mat α × Mat α × Mat α × Mat α × Mat α)
    (calls : List (Mat α × Mat α)) (bottom_blob top_blob : Mat α) : TSResult α :=
  temporal_spatial_convolution sqrt exp bottom_blob top_blob a (ts_caches sqrt exp a s calls).1
    (ts_caches sqrt exp a s calls).2.1 (ts_caches sqrt exp a s calls).2.2.1
    (ts_caches sqrt exp a s calls).2.2.2.1 (ts_caches sqrt exp a s calls).2.2.2.2

/-! ## The temporal and spatial kernel with the lower bound -/

/-- The block "calculate w_norm2" of `temporal_spatial_convolution_lower_bound`
(`convolution.cpp` 1590-1605): the state is `(w_norm2, w_norm2_lower)`. -/
def calc_w_norm2_ts_lower (sqrt : α → α) (a : ConvArgs α) (inch outch : Nat)
    (s : Mat α × Mat α) : Mat α × Mat α :=
  forLoop 0 outch (fun k (s : Mat α × Mat α) =>
    let kptr := a.kptr inch k
    let w_norm2 := s.1.setFlat k 0
    let w_norm2 := norm_accumulate a.weight_data inch a.maxk k kptr w_norm2
    let w_norm2_lower := s.2.setFlat k
      (sqrt (w_norm2.flat k - a.weight_data.flat kptr * a.weight_data.flat kptr))
    let w_norm2 := w_norm2.setFlat k (sqrt (w_norm2.flat k))
    (w_norm2, w_norm2_lower)) s

/-- The temporal delta loops of `temporal_spatial_convolution_lower_bound` at column
`j = 0` (`convolution.cpp` 1668-1727), which peel off the first element to record its
delta: the state is `(dx2_sum, record_xij_0)`. -/
def tslb_delta_j0 (a : ConvArgs α) (bottom_blob last_x : Mat α) (i j : Nat) : α × α :=
  let so := a.space_ofs bottom_blob
  let sptr := row_ptr bottom_blob a.stride_w a.stride_h i j
  let sptr_last_x := row_ptr last_x a.stride_w a.stride_h i j
  let s := forLoop 0 1 (fun q (s : α × α) =>
    let s := forLoop 0 1 (fun w_i (s : α × α) =>
      let temporal_diff := patch_at bottom_blob so q sptr w_i
        - patch_at last_x so q sptr_last_x w_i
      (s.1 + temporal_diff * temporal_diff, temporal_diff)) s
    forLoop 1 a.maxk (fun w_i (s : α × α) =>
      let temporal_diff := patch_at bottom_blob so q sptr w_i
        - patch_at last_x so q sptr_last_x w_i
      (s.1 + temporal_diff * temporal_diff, s.2)) s) (0, 0)
  forLoop 1 bottom_blob.c (fun q (s : α × α) =>
    forLoop 0 a.maxk (fun w_i (s : α × α) =>
      let temporal_diff := patch_at bottom_blob so q sptr w_i
        - patch_at last_x so q sptr_last_x w_i
      (s.1 + temporal_diff * temporal_diff, s.2)) s) s

/-- The fused delta loops of `temporal_spatial_convolution_lower_bound` at a column
`j >= 1` (`convolution.cpp` 1795-1864): the state is
`(dx2_sum, delta_x_col, record_xij_0)`. -/
def tslb_delta (a : ConvArgs α) (bottom_blob last_x : Mat α) (i j : Nat) : α × α × α :=
  let so := a.space_ofs bottom_blob
  let sptr := row_ptr bottom_blob a.stride_w a.stride_h i j
  let sptr_last_x := row_ptr last_x a.stride_w a.stride_h i j
  let prev_j_sptr := sptr - a.stride_w
  let s := forLoop 0 1 (fun q (s : α × α × α) =>
    let s := forLoop 0 1 (fun w_i (s : α × α × α) =>
      let base := patch_at bottom_blob so q sptr w_i
      let temporal_diff := base - patch_at last_x so q sptr_last_x w_i
      let spatial_j_diff := patch_at bottom_blob so q prev_j_sptr w_i - base
      (s.1 + temporal_diff * temporal_diff, s.2.1 + spatial_j_diff * spatial_j_diff,
        temporal_diff)) s
    forLoop 1 a.maxk (fun w_i (s : α × α × α) =>
      let base := patch_at bottom_blob so q sptr w_i
      let temporal_diff := base - patch_at last_x so q sptr_last_x w_i
      let spatial_j_diff := patch_at bottom_blob so q prev_j_sptr w_i - base
      (s.1 + temporal_diff * temporal_diff, s.2.1 + spatial_j_diff * spatial_j_diff, s.2.2))
      s) (0, 0, 0)
  forLoop 1 bottom_blob.c (fun q (s : α × α × α) =>
    forLoop 0 a.maxk (fun w_i (s : α × α × α) =>
      let base := patch_at bottom_blob so q sptr w_i
      let temporal_diff := base - patch_at last_x so q sptr_last_x w_i
      let spatial_j_diff := patch_at bottom_blob so q prev_j_sptr w_i - base
      (s.1 + temporal_diff * temporal_diff, s.2.1 + spatial_j_diff * spatial_j_diff, s.2.2))
      s) s

/-- The candidate of `temporal_spatial_convolution_lower_bound` at column `j = 0`
(`convolution.cpp` 1750-1756), with `kptr0 = kptr[0]`. -/
def tslb_candidate_j0 (last_y_kij w_norm2_k w_norm2_lower_k dx_norm record_xij_0 kptr0 : α) :
    α :=
  if record_xij_0 * kptr0 ≤ 0 then
    last_y_kij + w_norm2_lower_k * dx_norm + record_xij_0 * kptr0
  else last_y_kij + w_norm2_k * dx_norm

/-- The candidate of `temporal_spatial_convolution_lower_bound` at a column `j >= 1`
(`convolution.cpp` 1890-1899), with `kptr0 = kptr[0]`. -/
def tslb_candidate (last_y_kij last_y_col_k w_norm2_k w_norm2_lower_k dx_norm delta_x_col
    record_xij_0 kptr0 : α) : α :=
  let norm_norm :=
    if kptr0 ≤ 0 ∨ record_xij_0 * kptr0 > 0 then last_y_kij + w_norm2_lower_k * dx_norm
    else last_y_kij + w_norm2_k * dx_norm
  let min_norm_norm := norm_norm
  let norm_norm_col := last_y_col_k + delta_x_col * w_norm2_k
  min min_norm_norm norm_norm_col

/-- The decision of `temporal_spatial_convolution_lower_bound` at one output position
(`convolution.cpp` 1758-1789 and 1902-1934), from the candidate `min_norm_norm`: the state
is `(top_blob, last_y, last_y_col)`; the row buffer is not used. -/
def tslb_decide (exp : α → α) (a : ConvArgs α) (bottom_blob : Mat α) (min_norm_norm : α)
    (outw i j k : Nat) (s : Mat α × Mat α × Mat α) : Mat α × Mat α × Mat α :=
  let y_kij := a.y_init k
  let p := out_pos outw i j
  if min_norm_norm + y_kij ≤ 0 then
    (s.1.set k p 0, s.2.1.set k p min_norm_norm, s.2.2.setFlat k min_norm_norm)
  else
    let y_kij := exact_y a bottom_blob i j k
    let v := if a.bias_term then y_kij - a.bias_data.flat k else y_kij
    (s.1.set k p (a.act exp y_kij), s.2.1.set k p v, s.2.2.setFlat k v)

/-- What a call of `temporal_spatial_convolution_lower_bound` leaves behind. -/
structure TSLowerResult (α : Type) where
  top_blob : Mat α
  last_x : Mat α
  last_y : Mat α
  w_norm2 : Mat α
  last_y_col : Mat α
  last_y_row : Mat α
  w_norm2_lower : Mat α

/-- The kernel `temporal_spatial_convolution_lower_bound` (`convolution.cpp` 1533-1950).  In
the bound branch every row first runs the loop `for (j = 0; j < 1; j++)` and then the loop
`for (j = 1; j < outw; j++)`. -/
def temporal_spatial_convolution_lower_bound (sqrt exp : α → α) (bottom_blob top_blob : Mat α)
    (a : ConvArgs α) (last_x last_y w_norm2 last_y_col last_y_row w_norm2_lower : Mat α) :
    TSLowerResult α :=
  let inch := bottom_blob.c
  let outw := top_blob.w
  let outh := top_blob.h
  let outch := top_blob.c
  if last_x.total ≤ 0 then
    let n := calc_w_norm2_ts_lower sqrt a inch outch
      (w_norm2.create1 outch, w_norm2_lower.create1 outch)
    let last_y_col := last_y_col.create1 outch
    let last_y_row := last_y_row.create2 outch outw
    let last_x := bottom_blob
    let last_y := top_blob
    let s := exact_compute exp a bottom_blob top_blob last_y
    ⟨s.1, last_x, s.2, n.1, last_y_col, last_y_row, n.2⟩
  else
    let s := forLoop 0 outh (fun i s =>
      let s := forLoop 0 1 (fun j s =>
        let d := tslb_delta_j0 a bottom_blob last_x i j
        let dx_norm := sqrt d.1
        forLoop 0 outch (fun k (s : Mat α × Mat α × Mat α) =>
          let min_norm_norm := tslb_candidate_j0 (s.2.1.data k (out_pos outw i j))
            (w_norm2.flat k) (w_norm2_lower.flat k) dx_norm d.2
            (a.weight_data.flat (a.kptr inch k))
          tslb_decide exp a bottom_blob min_norm_norm outw i j k s) s) s
      forLoop 1 outw (fun j s =>
        let d := tslb_delta a bottom_blob last_x i j
        let delta_x_col := sqrt d.2.1
        let dx_norm := sqrt d.1
        forLoop 0 outch (fun k (s : Mat α × Mat α × Mat α) =>
          let min_norm_norm := tslb_candidate (s.2.1.data k (out_pos outw i j))
            (s.2.2.flat k) (w_norm2.flat k) (w_norm2_lower.flat k) dx_norm delta_x_col d.2.2
            (a.weight_data.flat (a.kptr inch k))
          tslb_decide exp a bottom_blob min_norm_norm outw i j k s) s) s)
      (top_blob, last_y, last_y_col)
    ⟨s.1, bottom_blob, s.2.1, w_norm2, s.2.2, last_y_row, w_norm2_lower⟩

/-- One call of `temporal_spatial_convolution_lower_bound` on `(bottom_blob, top_blob)`
from the caches `(last_x, last_y, w_norm2, last_y_col, last_y_row, w_norm2_lower)`, as a
step of `run_state`. -/
def tslb_call (sqrt exp : α → α) (a : ConvArgs α)
    (s : Mat α × Mat α × Mat α × Mat α × Mat α × Mat α) (xy : Mat α × Mat α) :
    TSLowerResult α × (Mat α × Mat α × Mat α × Mat α × Mat α × Mat α) :=
  let r := temporal_spatial_convolution_lower_bound sqrt exp xy.1 xy.2 a s.1 s.2.1 s.2.2.1
    s.2.2.2.1 s.2.2.2.2.1 s.2.2.2.2.2
  (r, (r.last_x, r.last_y, r.w_norm2, r.last_y_col, r.last_y_row, r.w_norm2_lower))

/-- The caches left by the calls `calls` of `temporal_spatial_convolution_lower_bound` made
one after the other from the caches `s`. -/
def tslb_caches (sqrt exp : α → α) (a : ConvArgs α)
    (s : Mat α × Mat α × Mat α × Mat α × Mat α × Mat α) (calls : List (Mat α × Mat α)) :
    Mat α × Mat α × Mat α × Mat α × Mat α × Mat α :=
  run_state (tslb_call sqrt exp a) s calls

/-- The result of calling `temporal_spatial_convolution_lower_bound` on
`(bottom_blob, top_blob)` after the calls `calls` made from the caches `s`. -/
def tslb_after (sqrt exp : α → α) (a : ConvArgs α)
    (s : Mat α × Mat α × Mat α × Mat α × Mat α × Mat α) (calls : List (Mat α × Mat α))
    (bottom_blob top_blob : Mat α) : TSLowerResult α :=
  temporal_spatial_convolution_lower_bound sqrt exp bottom_blob top_blob a
    (tslb_caches sqrt exp a s calls).1 (tslb_caches sqrt exp a s calls).2.1
    (tslb_caches sqrt exp a s calls).2.2.1 (tslb_caches sqrt exp a s calls).2.2.2.1
    (tslb_caches sqrt exp a s calls).2.2.2.2.1 (tslb_caches sqrt exp a s calls).2.2.2.2.2

/-- The candidate `min_norm_norm` of `temporal_spatial_convolution_lower_bound` at position
`(i, j, k)` of the bound branch, for the cached value `v = out_bar_ptr[j]` and the column
buffer entry `c = last_y_col_ptr[k]`: the loop of column `0` or the loop of the columns
`j >= 1`. -/
def tslb_min_norm_norm (sqrt : α → α) (a : ConvArgs α)
    (bottom_blob last_x w_norm2 w_norm2_lower : Mat α) (i j k : Nat) (v c : α) : α :=
  if j = 0 then
    tslb_candidate_j0 v (w_norm2.flat k) (w_norm2_lower.flat k)
      (sqrt (tslb_delta_j0 a bottom_blob last_x i j).1) (tslb_delta_j0 a bottom_blob last_x i j).2
      (a.weight_data.flat (a.kptr bottom_blob.c k))
  else
    tslb_candidate v c (w_norm2.flat k) (w_norm2_lower.flat k)
      (sqrt (tslb_delta a bottom_blob last_x i j).1)
      (sqrt (tslb_delta a bottom_blob last_x i j).2.1) (tslb_delta a bottom_blob last_x i j).2.2
      (a.weight_data.flat (a.kptr bottom_blob.c k))

/-- The cache invariant of `temporal_spatial_convolution_lower_bound` at column `0`, for
inputs of width `W` with `C` channels and outputs of extent `OW x OH x OC`: `last_x` has the
input shape, `w_norm2` and `w_norm2_lower` hold the filter norms with and without the first
weight, and `last_y` bounds the bias-free pre-activation of `last_x` from above at every
position of column `0`.  The caches are `(last_x, last_y, w_norm2, last_y_col, last_y_row,
w_norm2_lower)`. -/
def tslb_inv (sqrt : α → α) (a : ConvArgs α) (W C OW OH OC : Nat)
    (s : Mat α × Mat α × Mat α × Mat α × Mat α × Mat α) : Prop :=
  s.1.w = W ∧ s.1.c = C ∧
  (∀ k, k < OC → s.2.2.1.flat k = sqrt (weight_sq a C k) ∧
    s.2.2.2.2.2.flat k = sqrt (weight_sq a C k - a.weight C k 0 0 * a.weight C k 0 0)) ∧
  ∀ i k, i < OH → k < OC → conv_sum a s.1 i 0 k ≤ s.2.1.data k (out_pos OW i 0)

/-- The input `[[0, 0]]`: one channel, one row, two columns. -/
def pair_zero : Mat α := Mat.of_rows 2 1 1 [0, 0]

/-- The input `[[0, 1]]`: one channel, one row, two columns. -/
def pair_step : Mat α := Mat.of_rows 2 1 1 [0, 1]

/-- A fresh `1 x 2` output blob with one channel. -/
def pair_top : Mat α := Mat.of_rows 2 1 1 []

/-! ## The temporal kernel with the top-E refinement -/

/-- The order of `std::pair<float, int>` that `std::sort` uses: by the first component, then
by the second. -/
def pair_le (p q : α × Nat) : Prop := p.1 < q.1 ∨ (p.1 = q.1 ∧ p.2 ≤ q.2)

instance pair_le_decidable : DecidableRel (pair_le : α × Nat → α × Nat → Prop) :=
  fun p q => inferInstanceAs (Decidable (p.1 < q.1 ∨ (p.1 = q.1 ∧ p.2 ≤ q.2)))

/-- The read `w_ordered[idx]` of the sorted vector at an `int` index; a read outside the
vector is undefined in the source and yields `(0, 0)` here. -/
def vec_at (l : List (α × Nat)) (idx : Int) : α × Nat :=
  if 0 ≤ idx then l.getD idx.toNat (0, 0) else (0, 0)

/-- The conversion `(int) v` of a float: truncation towards zero. -/
def to_int [FloorRing α] (v : α) : Int := if 0 ≤ v then Int.floor v else Int.ceil v

/-- The vector `w_ordered` of `find_top_E` after `std::sort` (`convolution.cpp` 368-375): the
pairs `(abs(w_arr[i]), i)`, pushed in index order and sorted.  The pairs are pairwise
distinct, so `std::sort` yields their one sorted arrangement, computed here by insertion
sort; `abs` is the absolute value of a float. -/
def w_ordered_sorted (w_arr : Int → α) (w_arr_len : Nat) : List (α × Nat) :=
  (forLoop 0 w_arr_len (fun i (l : List (α × Nat)) => l ++ [(|w_arr i|, i)]) []).insertionSort
    pair_le

/-- The value `tobe_sub` of `find_top_E` for the bit pattern `i` (`convolution.cpp` 392-397):
the squares of the entries `w_topE_val_arr[E-1-norm_index]` whose bit `norm_index` is set in
`i`, for `norm_index` from `E-1` down to `0`. -/
def select_tobe_sub (top_E_w_vals : Mat α) (val_base : Int) (i : Nat) : α :=
  forLoop 0 E (fun t (tobe_sub : α) =>
    let norm_index := E - 1 - t
    if (i >>> norm_index) &&& 1 ≠ 0 then
      tobe_sub + top_E_w_vals.flat (val_base + ((E - 1 - norm_index : Nat) : Int))
        * top_E_w_vals.flat (val_base + ((E - 1 - norm_index : Nat) : Int))
    else tobe_sub) 0

/-- The function `find_top_E` (`convolution.cpp` 359-410) on the filter `w_arr` of length
`w_arr_len` with squared norm `w_full_2`.  The output arrays `w_topE_indices_arr`,
`w_topE_val_arr` and `all_select_norms` are the slices of `top_E_indices`, `top_E_w_vals`
and `all_select_norms` that start at `idx_base`, `val_base` and `sel_base`; the state is
`(top_E_indices, top_E_w_vals, all_select_norms)`. -/
def find_top_E [FloorRing α] (sqrt : α → α) (w_arr : Int → α) (w_arr_len : Nat) (w_full_2 : α)
    (idx_base val_base sel_base : Int) (s : Mat α × Mat α × Mat α) : Mat α × Mat α × Mat α :=
  let w_ordered := w_ordered_sorted w_arr w_arr_len
  let s := forLoop 0 E (fun i (s : Mat α × Mat α × Mat α) =>
    let top_E_w_vals := s.2.1.setFlat (val_base + i) (vec_at w_ordered (w_arr_len - 1 - i)).1
    let top_E_indices := s.1.setFlat (idx_base + i) (vec_at w_ordered (w_arr_len - 1 - i)).2
    (top_E_indices, top_E_w_vals, s.2.2)) s
  let s := forLoop 0 E_pow_num (fun i (s : Mat α × Mat α × Mat α) =>
    (s.1, s.2.1,
      s.2.2.setFlat (sel_base + i) (sqrt (w_full_2 - select_tobe_sub s.2.1 val_base i)))) s
  forLoop 0 E (fun i (s : Mat α × Mat α × Mat α) =>
    (s.1, s.2.1.setFlat (val_base + i) (w_arr (to_int (s.1.flat (idx_base + i)))), s.2.2)) s

/-- The delta loops of the bound branch of `mlsys_convolution_lower_top_E` (`convolution.cpp`
555-572), which also store the delta vector: the state is `(dx2_sum, x_vector_diff)`. -/
def top_E_dx2_sum (a : ConvArgs α) (in_x last_x : Mat α) (i j : Nat) (x_vector_diff : Mat α) :
    α × Mat α :=
  forLoop 0 in_x.c (fun q (s : α × Mat α) =>
    forLoop 0 a.maxk (fun w_i (s : α × Mat α) =>
      let q_i : Int := (q : Int) * a.maxk + w_i
      let val := patch_at in_x (a.space_ofs in_x) q (row_ptr in_x a.stride_w a.stride_h i j) w_i
      let val_last_x :=
        patch_at last_x (a.space_ofs in_x) q (row_ptr last_x a.stride_w a.stride_h i j) w_i
      let x_vector_diff := s.2.setFlat q_i (val - val_last_x)
      (s.1 + x_vector_diff.flat q_i * x_vector_diff.flat q_i, x_vector_diff)) s)
    (0, x_vector_diff)

/-- The index `select_norm_index` of the bound branch of `mlsys_convolution_lower_top_E`
(`convolution.cpp` 604-615) for output channel `k`; `top_E_w_vals[ii]` is read without the
channel offset, as the source has it.  The `unsigned int` stays below `2^E`. -/
def top_E_select [FloorRing α] (top_E_indices top_E_w_vals x_vector_diff : Mat α) (k : Nat) :
    Nat :=
  forLoop 0 E (fun ii (select_norm_index : Nat) =>
    let temp_ii := x_vector_diff.flat (to_int (top_E_indices.flat ((k : Int) * E + ii)))
      * top_E_w_vals.flat ii
    let select_norm_index := select_norm_index <<< 1
    if temp_ii > 0 then select_norm_index ||| 1 else select_norm_index) 0

/-- One output position of the bound branch of `mlsys_convolution_lower_top_E`
(`convolution.cpp` 580-659); the state is `(out_y, last_y)`. -/
def top_E_step [FloorRing α] (exp : α → α) (a : ConvArgs α)
    (in_x all_select_norms top_E_indices top_E_w_vals x_vector_diff : Mat α) (dx_norm : α)
    (outw i j k : Nat) (s : Mat α × Mat α) : Mat α × Mat α :=
  let y_kij := a.y_init k
  let select_norm_index := top_E_select top_E_indices top_E_w_vals x_vector_diff k
  let p := out_pos outw i j
  let last_y := s.2.set k p (s.2.data k p
    + dx_norm * all_select_norms.flat ((k : Int) * E_pow_num + select_norm_index))
  if last_y.data k p + y_kij ≤ 0 then
    (s.1.set k p 0, last_y)
  else
    let last_y := last_y.set k p (-y_kij)
    let y_kij := exact_y a in_x i j k
    let last_y := last_y.set k p (last_y.data k p + y_kij)
    (s.1.set k p (a.act exp y_kij), last_y)

/-- What a call of `mlsys_convolution_lower_top_E` leaves behind. -/
structure TopEResult (α : Type) where
  out_y : Mat α
  last_x : Mat α
  last_y : Mat α
  w_norm2 : Mat α
  all_select_norms : Mat α
  top_E_indices : Mat α
  top_E_w_vals : Mat α
  x_vector_diff : Mat α

/-- The kernel `mlsys_convolution_lower_top_E` (`convolution.cpp` 412-674). -/
def mlsys_convolution_lower_top_E [FloorRing α] (sqrt exp : α → α) (in_x out_y : Mat α)
    (a : ConvArgs α)
    (last_x last_y w_norm2 all_select_norms top_E_indices top_E_w_vals x_vector_diff : Mat α) :
    TopEResult α :=
  let inch := in_x.c
  let outw := out_y.w
  let outh := out_y.h
  let outch := out_y.c
  if last_x.total ≤ 0 then
    let w_norm2 := w_norm2.create1 outch
    let all_select_norms := all_select_norms.create1 (outch * E_pow_num)
    let top_E_indices := top_E_indices.create1 (outch * E)
    let top_E_w_vals := top_E_w_vals.create1 (outch * E)
    let x_vector_diff := x_vector_diff.create1 (inch * a.maxk)
    let n := forLoop 0 outch (fun k (s : Mat α × Mat α × Mat α × Mat α) =>
      let kptr := a.kptr inch k
      let w_norm2 := s.1.setFlat k 0
      let w_norm2 := norm_accumulate a.weight_data inch a.maxk k kptr w_norm2
      let t := find_top_E sqrt (fun i => a.weight_data.flat (kptr + i)) (a.maxk * inch)
        (w_norm2.flat k) ((E : Int) * k) ((E : Int) * k) ((k : Int) * E_pow_num) s.2
      (w_norm2.setFlat k (sqrt (w_norm2.flat k)), t))
      (w_norm2, top_E_indices, top_E_w_vals, all_select_norms)
    let last_x := in_x
    let last_y := out_y
    let s := exact_compute exp a in_x out_y last_y
    ⟨s.1, last_x, s.2, n.1, n.2.2.2, n.2.1, n.2.2.1, x_vector_diff⟩
  else
    let s := forLoop 0 outh (fun i s =>
      forLoop 0 outw (fun j (s : (Mat α × Mat α) × Mat α) =>
        let d := top_E_dx2_sum a in_x last_x i j s.2
        let dx_norm := sqrt d.1
        (forLoop 0 outch (fun k s =>
          top_E_step exp a in_x all_select_norms top_E_indices top_E_w_vals d.2 dx_norm
            outw i j k s) s.1, d.2)) s)
      ((out_y, last_y), x_vector_diff)
    ⟨s.1.1, in_x, s.1.2, w_norm2, all_select_norms, top_E_indices, top_E_w_vals, s.2⟩

/-- One call of `mlsys_convolution_lower_top_E` on `(in_x, out_y)` from the caches `(last_x,
last_y, w_norm2, all_select_norms, top_E_indices, top_E_w_vals, x_vector_diff)`, as a step
of `run_state`. -/
def top_E_call [FloorRing α] (sqrt exp : α → α) (a : ConvArgs α)
    (s : Mat α × Mat α × Mat α × Mat α × Mat α × Mat α × Mat α) (xy : Mat α × Mat α) :
    TopEResult α × (Mat α × Mat α × Mat α × Mat α × Mat α × Mat α × Mat α) :=
  let r := mlsys_convolution_lower_top_E sqrt exp xy.1 xy.2 a s.1 s.2.1 s.2.2.1 s.2.2.2.1
    s.2.2.2.2.1 s.2.2.2.2.2.1 s.2.2.2.2.2.2
  (r, (r.last_x, r.last_y, r.w_norm2, r.all_select_norms, r.top_E_indices, r.top_E_w_vals,
    r.x_vector_diff))

/-- The result of calling `mlsys_convolution_lower_top_E` on `(in_x, out_y)` after the calls
`calls` made one after the other from the caches `s`. -/
def top_E_after [FloorRing α] (sqrt exp : α → α) (a : ConvArgs α)
    (s : Mat α × Mat α × Mat α × Mat α × Mat α × Mat α × Mat α) (calls : List (Mat α × Mat α))
    (in_x out_y : Mat α) : TopEResult α :=
  (top_E_call sqrt exp a (run_state (top_E_call sqrt exp a) s calls) (in_x, out_y)).1

/-- A filter of six taps in a row whose first weight is `1` and whose other weights are `0`,
one input and one output channel, no bias, ReLU. -/
def first_tap_args : ConvArgs α :=
  { weight_data := Mat.of_list [1, 0, 0, 0, 0, 0], bias_data := Mat.nil,
    kernel_w := 6, kernel_h := 1, stride_w := 1, stride_h := 1,
    dilation_w := 1, dilation_h := 1, activation_type := 1, activation_params := Mat.nil }

/-- The input `[[0, 0, 0, 0, 0, 0]]`: one channel, one row, six columns. -/
def six_zero : Mat α := Mat.of_rows 6 1 1 [0, 0, 0, 0, 0, 0]

/-- The input `[[1, 0, 0, 0, 0, 0]]`: one channel, one row, six columns. -/
def six_step : Mat α := Mat.of_rows 6 1 1 [1, 0, 0, 0, 0, 0]

/-- A fresh `1 x 1` output blob with one channel. -/
def one_top : Mat α := Mat.of_rows 1 1 1 []

/-! ## The layer -/

/-- The parameter dictionary read by `load_param`: integer, float and array entries by
key; `none` is an absent key. -/
structure ParamDict (α : Type) where
  ints : Nat → Option Int
  floats : Nat → Option α
  arrays : Nat → Option (Mat α)

/-- The lookup `pd.get(id, def)` of an `int`. -/
def ParamDict.get_int (pd : ParamDict α) (id : Nat) (dflt : Int) : Int := (pd.ints id).getD dflt

/-- The lookup `pd.get(id, def)` of a `float`. -/
def ParamDict.get_float (pd : ParamDict α) (id : Nat) (dflt : α) : α := (pd.floats id).getD dflt

/-- The lookup `pd.get(id, Mat())` of an array. -/
def ParamDict.get_array (pd : ParamDict α) (id : Nat) (dflt : Mat α) : Mat α :=
  (pd.arrays id).getD dflt

/-- The fields of `class Convolution` (`convolution.h`) used when the library is built
without `NCNN_INT8`. -/
structure Convolution (α : Type) where
  one_blob_only : Bool
  support_inplace : Bool
  num_output : Int
  kernel_w : Int
  kernel_h : Int
  dilation_w : Int
  dilation_h : Int
  stride_w : Int
  stride_h : Int
  pad_left : Int
  pad_right : Int
  pad_top : Int
  pad_bottom : Int
  pad_value : α
  bias_term : Int
  weight_data_size : Int
  int8_scale_term : Int
  activation_type : Int
  activation_params : Mat α
  dynamic_weight : Int
  weight_data : Mat α
  bias_data : Mat α
  record1 : Mat α
  record2 : Mat α
  record3 : Mat α
  record4 : Mat α
  all_select_norms : Mat α
  top_E_indices : Mat α
  top_E_w_vals : Mat α
  exact_compute : Bool
  call_count : α
  last_time_sparsity : α

/-- The collaborators of the layer that are outside the sources: the model reader
`ModelBin::load`, the padding helper `copy_make_border`, and the `InnerProduct` layer run
for flattened blobs (it returns the written `top_blob`). -/
structure Externals (α : Type) where
  load : Int → Int → Mat α
  copy_make_border : Mat α → Int → Int → Int → Int → α → Mat α
  inner_product : Convolution α → Mat α → Mat α → Mat α

/-- The options of a forward call that the layer reads. -/
structure Opt where
  use_reserved_0 : Bool

/-- The method `Convolution::load_param` (`convolution.cpp` 32-82), built without
`NCNN_INT8`: it returns the status and the updated layer. -/
def Convolution.load_param (self : Convolution α) (pd : ParamDict α) : Int × Convolution α :=
  let num_output := pd.get_int 0 0
  let kernel_w := pd.get_int 1 0
  let kernel_h := pd.get_int 11 kernel_w
  let dilation_w := pd.get_int 2 1
  let dilation_h := pd.get_int 12 dilation_w
  let stride_w := pd.get_int 3 1
  let stride_h := pd.get_int 13 stride_w
  let pad_left := pd.get_int 4 0
  let pad_right := pd.get_int 15 pad_left
  let pad_top := pd.get_int 14 pad_left
  let pad_bottom := pd.get_int 16 pad_top
  let pad_value := pd.get_float 18 0
  let bias_term := pd.get_int 5 0
  let weight_data_size := pd.get_int 6 0
  let int8_scale_term := pd.get_int 8 0
  let activation_type := pd.get_int 9 0
  let activation_params := pd.get_array 10 Mat.nil
  let dynamic_weight := pd.get_int 19 0
  let self : Convolution α :=
    { self with
      num_output := num_output, kernel_w := kernel_w, kernel_h := kernel_h,
      dilation_w := dilation_w, dilation_h := dilation_h,
      stride_w := stride_w, stride_h := stride_h,
      pad_left := pad_left, pad_right := pad_right, pad_top := pad_top,
      pad_bottom := pad_bottom, pad_value := pad_value,
      bias_term := bias_term, weight_data_size := weight_data_size,
      int8_scale_term := int8_scale_term,
      activation_type := activation_type, activation_params := activation_params,
      dynamic_weight := dynamic_weight,
      record1 := Mat.nil, record2 := Mat.nil, record3 := Mat.nil, record4 := Mat.nil,
      all_select_norms := Mat.nil, top_E_indices := Mat.nil, top_E_w_vals := Mat.nil,
      exact_compute := true, call_count := 0, last_time_sparsity := -1 }
  let self := if dynamic_weight ≠ 0 then { self with one_blob_only := false } else self
  if int8_scale_term ≠ 0 then (-1, self) else (0, self)

/-- The method `Convolution::load_model` (`convolution.cpp` 84-114), built without
`NCNN_INT8`. -/
def Convolution.load_model (ext : Externals α) (self : Convolution α) : Int × Convolution α :=
  if self.dynamic_weight ≠ 0 then (0, self)
  else
    let self := { self with weight_data := ext.load self.weight_data_size 0 }
    if self.weight_data.empty then (-100, self)
    else if self.bias_term ≠ 0 then
      let self := { self with bias_data := ext.load self.num_output 1 }
      if self.bias_data.empty then (-100, self) else (0, self)
    else (0, self)

/-- The method `Convolution::make_padding` (`convolution.cpp` 2878-2922) with the layer's
own kernel size. -/
def Convolution.make_padding (ext : Externals α) (self : Convolution α) (bottom_blob : Mat α) :
    Mat α :=
  let w : Int := bottom_blob.w
  let h : Int := bottom_blob.h
  let kernel_extent_w := self.dilation_w * (self.kernel_w - 1) + 1
  let kernel_extent_h := self.dilation_h * (self.kernel_h - 1) + 1
  if self.pad_left > 0 ∨ self.pad_right > 0 ∨ self.pad_top > 0 ∨ self.pad_bottom > 0 then
    ext.copy_make_border bottom_blob self.pad_top self.pad_bottom self.pad_left self.pad_right
      self.pad_value
  else if self.pad_left = -233 ∧ self.pad_right = -233 ∧ self.pad_top = -233
      ∧ self.pad_bottom = -233 then
    let wpad := kernel_extent_w + Int.tdiv (w - 1) self.stride_w * self.stride_w - w
    let hpad := kernel_extent_h + Int.tdiv (h - 1) self.stride_h * self.stride_h - h
    if wpad > 0 ∨ hpad > 0 then
      ext.copy_make_border bottom_blob (Int.tdiv hpad 2) (hpad - Int.tdiv hpad 2)
        (Int.tdiv wpad 2) (wpad - Int.tdiv wpad 2) self.pad_value
    else bottom_blob
  else if self.pad_left = -234 ∧ self.pad_right = -234 ∧ self.pad_top = -234
      ∧ self.pad_bottom = -234 then
    let wpad := kernel_extent_w + Int.tdiv (w - 1) self.stride_w * self.stride_w - w
    let hpad := kernel_extent_h + Int.tdiv (h - 1) self.stride_h * self.stride_h - h
    if wpad > 0 ∨ hpad > 0 then
      ext.copy_make_border bottom_blob (hpad - Int.tdiv hpad 2) (Int.tdiv hpad 2)
        (wpad - Int.tdiv wpad 2) (Int.tdiv wpad 2) self.pad_value
    else bottom_blob
  else bottom_blob

/-- The kernel arguments `forward` passes on from the layer's fields. -/
def Convolution.args (self : Convolution α) : ConvArgs α :=
  { weight_data := self.weight_data, bias_data := self.bias_data,
    kernel_w := self.kernel_w, kernel_h := self.kernel_h,
    stride_w := self.stride_w, stride_h := self.stride_h,
    dilation_w := self.dilation_w, dilation_h := self.dilation_h,
    activation_type := self.activation_type, activation_params := self.activation_params }

/-- The test that sends a flattened blob to `InnerProduct` (`convolution.cpp` 2706-2751). -/
def Convolution.is_flattened (self : Convolution α) (bottom_blob : Mat α) : Bool :=
  decide (bottom_blob.dims = 1 ∧ self.kernel_w = 1 ∧ self.kernel_h = 1) &&
    decide (((bottom_blob.w * bottom_blob.elempack : Nat) : Int)
      = Int.tdiv self.weight_data_size self.num_output)

/-- The blob `top_blob.create(outw, outh, num_output, ...)` of a forward call on the padded
input `bottom_blob_bordered` (`convolution.cpp` 2758-2768). -/
def Convolution.create_top (self : Convolution α) (bottom_blob_bordered top_blob : Mat α) :
    Mat α :=
  let w : Int := bottom_blob_bordered.w
  let h : Int := bottom_blob_bordered.h
  let kernel_extent_w := self.dilation_w * (self.kernel_w - 1) + 1
  let kernel_extent_h := self.dilation_h * (self.kernel_h - 1) + 1
  let outw := Int.tdiv (w - kernel_extent_w) self.stride_w + 1
  let outh := Int.tdiv (h - kernel_extent_h) self.stride_h + 1
  top_blob.create3 outw outh self.num_output

/-- The method `Convolution::forward` for one input blob (`convolution.cpp` 2696-2825),
built without `NCNN_INT8`: it returns the status, the `top_blob` and the updated layer.
With `opt.use_reserved_0` the call goes to `mlsys_convolution` on the caches `record1`
(`last_x`), `record2` (`last_y`) and `record3` (`w_norm2`), otherwise to `raw_convolution`. -/
def Convolution.forward (sqrt exp : α → α) (ext : Externals α) (self : Convolution α)
    (bottom_blob top_blob : Mat α) (opt : Opt) : Int × Mat α × Convolution α :=
  if self.is_flattened bottom_blob then
    (0, ext.inner_product self bottom_blob top_blob, self)
  else
    let bottom_blob_bordered := self.make_padding ext bottom_blob
    if bottom_blob_bordered.empty then (-100, top_blob, self)
    else
      let top_blob := self.create_top bottom_blob_bordered top_blob
      if top_blob.empty then (-100, top_blob, self)
      else if opt.use_reserved_0 then
        let r := mlsys_convolution sqrt exp bottom_blob_bordered top_blob self.args
          self.record1 self.record2 self.record3
        (0, r.out_y, { self with record1 := r.last_x, record2 := r.last_y, record3 := r.w_norm2 })
      else
        (0, raw_convolution exp bottom_blob_bordered top_blob self.args, self)

/-- One forward call on `(bottom_blob, top_blob, opt)` as a step of `run_state`: the result
is the status and the output, the state is the layer. -/
def forward_call (sqrt exp : α → α) (ext : Externals α) (self : Convolution α)
    (io : Mat α × Mat α × Opt) : (Int × Mat α) × Convolution α :=
  (((Convolution.forward sqrt exp ext self io.1 io.2.1 io.2.2).1,
      (Convolution.forward sqrt exp ext self io.1 io.2.1 io.2.2).2.1),
    (Convolution.forward sqrt exp ext self io.1 io.2.1 io.2.2).2.2)

/-- The layer left by the forward calls `calls` made one after the other on `self`. -/
def forward_state (sqrt exp : α → α) (ext : Externals α) (self : Convolution α)
    (calls : List (Mat α × Mat α × Opt)) : Convolution α :=
  run_state (forward_call sqrt exp ext) self calls

/-- All forward calls of a sequence have padded inputs of the shape of the padded
`bottom_blob`. -/
def same_padded_shapes (ext : Externals α) (self : Convolution α)
    (calls : List (Mat α × Mat α × Opt)) (bottom_blob : Mat α) : Prop :=
  ∀ c ∈ calls, (self.make_padding ext c.1).w = (self.make_padding ext bottom_blob).w ∧
    (self.make_padding ext c.1).h = (self.make_padding ext bottom_blob).h ∧
    (self.make_padding ext c.1).c = (self.make_padding ext bottom_blob).c

/-- The layer after `load_param` on the dictionary `pd` followed by `load_model`. -/
def Convolution.loaded (ext : Externals α) (self : Convolution α) (pd : ParamDict α) :
    Convolution α :=
  (Convolution.load_model ext (Convolution.load_param self pd).2).2

/-- A parameter dictionary holding the listed integer entries only. -/
def ParamDict.of_ints (l : List (Nat × Int)) : ParamDict α :=
  ⟨fun id => (l.find? (fun e => e.1 == id)).map (fun e => e.2), fun _ => none, fun _ => none⟩

/-- A layer object before any parameter is loaded: every field zero or empty. -/
def Convolution.blank : Convolution α :=
  { one_blob_only := true, support_inplace := false, num_output := 0, kernel_w := 0,
    kernel_h := 0, dilation_w := 0, dilation_h := 0, stride_w := 0, stride_h := 0,
    pad_left := 0, pad_right := 0, pad_top := 0, pad_bottom := 0, pad_value := 0,
    bias_term := 0, weight_data_size := 0, int8_scale_term := 0, activation_type := 0,
    activation_params := Mat.nil, dynamic_weight := 0, weight_data := Mat.nil,
    bias_data := Mat.nil, record1 := Mat.nil, record2 := Mat.nil, record3 := Mat.nil,
    record4 := Mat.nil, all_select_norms := Mat.nil, top_E_indices := Mat.nil,
    top_E_w_vals := Mat.nil, exact_compute := true, call_count := 0,
    last_time_sparsity := 0 }

/-- Collaborators for the scenarios: the model file holds the listed weights (and no
bias), padding copies the blob unchanged, `InnerProduct` leaves the output untouched. -/
def scenario_ext (weights : List α) : Externals α :=
  { load := fun _ type => if type = 0 then Mat.of_list weights else Mat.nil,
    copy_make_border := fun m _ _ _ _ _ => m,
    inner_product := fun _ _ top => top }

/-- The parameters of scenario S1: one output, a `1 x 1` kernel, one weight, ReLU. -/
def s1_params : ParamDict α := ParamDict.of_ints [(0, 1), (1, 1), (6, 1), (9, 1)]

/-- The parameters of scenario S6: those of scenario S1 with sigmoid activation. -/
def s6_params : ParamDict α := ParamDict.of_ints [(0, 1), (1, 1), (6, 1), (9, 4)]

/-- The layer of scenario S1 after `load_param` and `load_model`. -/
def s1_layer : Convolution α := Convolution.loaded (scenario_ext [1]) Convolution.blank s1_params

/-- The layer of scenario S6 after `load_param` and `load_model`. -/
def s6_layer : Convolution α := Convolution.loaded (scenario_ext [1]) Convolution.blank s6_params

/-- The local `outw` of `Convolution::forward` for the padded input `bottom_blob_bordered`
(`convolution.cpp` 2758-2765). -/
def Convolution.outw (self : Convolution α) (bottom_blob_bordered : Mat α) : Int :=
  let w : Int := bottom_blob_bordered.w
  let kernel_extent_w := self.dilation_w * (self.kernel_w - 1) + 1
  Int.tdiv (w - kernel_extent_w) self.stride_w + 1

/-- The local `outh` of `Convolution::forward` for the padded input `bottom_blob_bordered`
(`convolution.cpp` 2759-2766). -/
def Convolution.outh (self : Convolution α) (bottom_blob_bordered : Mat α) : Int :=
  let h : Int := bottom_blob_bordered.h
  let kernel_extent_h := self.dilation_h * (self.kernel_h - 1) + 1
  Int.tdiv (h - kernel_extent_h) self.stride_h + 1

/-- Parameters with a `2 x 1` kernel: one output, `kernel_w = 2`, `kernel_h = 1`, two
weights, ReLU. -/
def wide_params : ParamDict α := ParamDict.of_ints [(0, 1), (1, 2), (11, 1), (6, 2), (9, 1)]

/-- The layer with the parameters `wide_params` and the weights `[1, 1]`. -/
def wide_layer : Convolution α :=
  Convolution.loaded (scenario_ext [1, 1]) Convolution.blank wide_params

/-- The input `[[5]]`: one channel, one row, one column. -/
def unit_input : Mat α := Mat.of_rows 1 1 1 [5]

/-- Parameters whose `weight_data_size = 2` differs from `num_output * C_in * kernel_w *
kernel_h = 1` for inputs with one channel: one output, a `1 x 1` kernel, ReLU. -/
def oversized_params : ParamDict α := ParamDict.of_ints [(0, 1), (1, 1), (6, 2), (9, 1)]

/-- The layer with the parameters `oversized_params` and a model file of two weights. -/
def oversized_layer : Convolution α :=
  Convolution.loaded (scenario_ext [1, 1]) Convolution.blank oversized_params

/-! ## The loop nest position by position -/

/-- The state of the loop nest `for i { for j < W { for k < K { s = f i j k s } } }` on
reaching iteration `(i, j, k)` from the state `s`: the rows before `i`, then the columns of
row `i` before `j`, then the channels of `(i, j)` before `k` have been run. -/
def loop3_at {σ : Type} (W K : Nat) (f : Nat → Nat → Nat → σ → σ) (i j k : Nat) (s : σ) : σ :=
  forLoop 0 k (fun k s => f i j k s)
    (forLoop 0 j (fun j s => forLoop 0 K (fun k s => f i j k s) s)
      (forLoop 0 i (fun i s =>
        forLoop 0 W (fun j s => forLoop 0 K (fun k s => f i j k s) s) s) s))

/-- The body of the loop nest of the bound branch of `temporal_spatial_convolution`
(`convolution.cpp` 1396-1514) at `(i, j, k)`: the deltas of `(i, j)` and the decision
step. -/
def ts_body (sqrt exp : α → α) (a : ConvArgs α) (bottom_blob last_x w_norm2 : Mat α)
    (outw outch i j k : Nat) (s : TSState α) : TSState α :=
  let d := fused_delta_sums a bottom_blob last_x i j
  let delta_x_row := if i ≠ 0 then sqrt d.2.1 else d.2.1
  let delta_x_col := if j ≠ 0 then sqrt d.2.2 else d.2.2
  let dx_norm := sqrt d.1
  ts_step exp a bottom_blob w_norm2 dx_norm delta_x_col delta_x_row outw outch i j k s

/-- The state `(top_blob, last_y, last_y_col, last_y_row)` of a bound-branch call of
`temporal_spatial_convolution` on reaching position `(i, j, k)`. -/
def ts_state_at (sqrt exp : α → α) (bottom_blob top_blob : Mat α) (a : ConvArgs α)
    (last_x last_y w_norm2 last_y_col last_y_row : Mat α) (i j k : Nat) : TSState α :=
  loop3_at top_blob.w top_blob.c
    (ts_body sqrt exp a bottom_blob last_x w_norm2 top_blob.w top_blob.c) i j k
    ⟨top_blob, last_y, last_y_col, last_y_row⟩

/-- Scenario S2 of the specification: one input channel, one output channel, a `3 x 3`
kernel with all weights `0.1`, bias `-1`, ReLU. -/
def s2_args : ConvArgs α :=
  { weight_data := Mat.of_list [1 / 10, 1 / 10, 1 / 10, 1 / 10, 1 / 10, 1 / 10, 1 / 10,
      1 / 10, 1 / 10],
    bias_data := Mat.of_list [-1],
    kernel_w := 3, kernel_h := 3, stride_w := 1, stride_h := 1,
    dilation_w := 1, dilation_h := 1, activation_type := 1, activation_params := Mat.nil }

/-- The zero input of scenario S2: one channel of `4 x 4` zeros. -/
def s2_zero : Mat α := Mat.of_rows 4 4 1 []

/-- An input of scenario S2 perturbed in its first element: one channel of `4 x 4` values,
the first `1`, the others `0`. -/
def s2_step : Mat α := Mat.of_rows 4 4 1 [1]

/-- A fresh `2 x 2` output blob with one channel. -/
def s2_top : Mat α := Mat.of_rows 2 2 1 []

/-- Two filters of six taps in a row, `[1, 0, 0, 0, 0, 0]` and `[-1, 0, 0, 0, 0, 0]`: one
input channel, two output channels, no bias, ReLU. -/
def two_tap_args : ConvArgs α :=
  { weight_data := Mat.of_list [1, 0, 0, 0, 0, 0, -1, 0, 0, 0, 0, 0], bias_data := Mat.nil,
    kernel_w := 6, kernel_h := 1, stride_w := 1, stride_h := 1,
    dilation_w := 1, dilation_h := 1, activation_type := 1, activation_params := Mat.nil }

/-- A fresh `1 x 1` output blob with two channels. -/
def two_top : Mat α := Mat.of_rows 1 1 2 []

/-- The input `[[-1, -1]]`: one channel, one row, two columns. -/
def pair_neg : Mat α := Mat.of_rows 2 1 1 [-1, -1]

/-! ## SAME padding -/

/-- Modelled from the spec: the padding helper `copy_make_border`, which is outside the
sources; the spec says of it that it "takes an input tensor and padding policy, returns a
bordered tensor".  Here it returns the input with `top` and `bottom` rows and `left` and
`right` columns of the value `v` added around every channel. -/
def copy_make_border_spec (m : Mat α) (top bottom left right : Int) (v : α) : Mat α :=
  { m with
    w := ((m.w : Int) + left + right).toNat,
    h := ((m.h : Int) + top + bottom).toNat,
    data := fun q p =>
      let y := p / ((m.w : Int) + left + right)
      let x := p % ((m.w : Int) + left + right)
      if top ≤ y ∧ y < top + m.h ∧ left ≤ x ∧ x < left + m.w then
        m.data q ((y - top) * m.w + (x - left))
      else v }

/-- Collaborators for the padding scenarios: those of `scenario_ext`, with the padding helper
`copy_make_border_spec`. -/
def border_ext (weights : List α) : Externals α :=
  { load := fun _ type => if type = 0 then Mat.of_list weights else Mat.nil,
    copy_make_border := copy_make_border_spec,
    inner_product := fun _ _ top => top }

/-- Parameters with SAME_UPPER padding: one output, a `3 x 3` kernel, stride `2`, all pads
`-233`, nine weights, ReLU. -/
def same_params : ParamDict α :=
  ParamDict.of_ints [(0, 1), (1, 3), (3, 2), (4, -233), (6, 9), (9, 1)]

/-- The layer with the parameters `same_params` and nine weights `1`. -/
def same_layer : Convolution α :=
  Convolution.loaded (border_ext [1, 1, 1, 1, 1, 1, 1, 1, 1]) Convolution.blank same_params

end Kernels

/-! ## Binary32 arithmetic -/

/-- A value of the C type `float` (IEEE 754 binary32): the finite number `n * 2^-149`, where
`n` has at most 24 significant bits and `|n| < 2^277`; an infinity, `neg` telling its sign;
or a NaN.  The two zeros are not told apart. -/
inductive F32 where
  | fin (n : Int)
  | inf (neg : Bool)
  | nan
  deriving DecidableEq

namespace F32

/-- The number of binary digits of `n`, counted with the fuel `f >= n`. -/
def bits : Nat → Nat → Nat
  | 0, _ => 0
  | f + 1, n => if n = 0 then 0 else bits f (n / 2) + 1

/-- Rounding to nearest, ties to even: the `float` nearest to `N * 2^(-149 - s)`.  The last
`sh` bits of `|N|` are dropped, enough to leave 24 significant bits and to land on the grid
of `2^-149`; a result of `2^128` or more is an infinity. -/
def round (N : Int) (s : Nat) : F32 :=
  let a := N.natAbs
  let sh := max (bits a a - 24) s
  let q := a >>> sh
  let rem := a - (q <<< sh)
  let q := if 1 <<< sh < 2 * rem ∨ (2 * rem = 1 <<< sh ∧ q % 2 = 1) then q + 1 else q
  let n := q <<< (sh - s)
  if 1 <<< 277 ≤ n then inf (decide (N < 0)) else fin (if N < 0 then -(n : Int) else n)

/-- The conversion `(float) z` of an `int`. -/
def of_int (z : Int) : F32 := round (z * 2 ^ 149) 0

/-- The conversion `(int) v`: truncation towards zero (undefined in the source for an infinity
or a NaN, `0` here). -/
def to_int : F32 → Int
  | fin n => Int.tdiv n (2 ^ 149)
  | _ => 0

/-- The negation `-a`. -/
def neg : F32 → F32
  | fin n => fin (-n)
  | inf s => inf (!s)
  | nan => nan

/-- The absolute value `abs(a)`. -/
def abs : F32 → F32
  | fin n => fin |n|
  | inf _ => inf false
  | nan => nan

/-- The sum `a + b`, rounded. -/
def add : F32 → F32 → F32
  | fin a, fin b => round (a + b) 0
  | fin _, inf s => inf s
  | inf s, fin _ => inf s
  | inf s, inf t => if s = t then inf s else nan
  | _, _ => nan

/-- The difference `a - b`, rounded. -/
def sub (a b : F32) : F32 := add a (neg b)

/-- The product `a * b`, rounded. -/
def mul : F32 → F32 → F32
  | fin a, fin b => round (a * b) 149
  | fin a, inf s => if a = 0 then nan else inf (xor (decide (a < 0)) s)
  | inf s, fin b => if b = 0 then nan else inf (xor s (decide (b < 0)))
  | inf s, inf t => inf (xor s t)
  | _, _ => nan

/-- The digits of the integer square root of `M`, from bit `b - 1` down to bit `0`. -/
def isqrt_loop : Nat → Nat → Nat → Nat
  | 0, _, r => r
  | b + 1, M, r => isqrt_loop b M (if (r + 2 ^ b) * (r + 2 ^ b) ≤ M then r + 2 ^ b else r)

/-- The integer square root: the largest `r` with `r * r <= M`. -/
def isqrt (M : Nat) : Nat := isqrt_loop (bits M M / 2 + 1) M 0

/-- The square root `sqrt(a)`, correctly rounded; the square root of a negative number is a
NaN.  The root of `n * 2^-149` is `sqrt(n * 2^149) * 2^-149`; an inexact root lies strictly
between `r` and `r + 1` and rounds as `r + 1/2` does. -/
def sqrt : F32 → F32
  | fin n =>
    if n < 0 then nan
    else if isqrt (n.toNat * 2 ^ 149) * isqrt (n.toNat * 2 ^ 149) = n.toNat * 2 ^ 149 then
      round (isqrt (n.toNat * 2 ^ 149)) 0
    else round (2 * isqrt (n.toNat * 2 ^ 149) + 1) 1
  | inf s => if s then nan else inf false
  | nan => nan

/-- The comparison `a < b`; it is false when an operand is a NaN. -/
def lt : F32 → F32 → Bool
  | fin a, fin b => decide (a < b)
  | fin _, inf s => !s
  | inf s, fin _ => s
  | inf s, inf t => s && !t
  | _, _ => false

/-- The comparison `a <= b`; it is false when an operand is a NaN. -/
def le : F32 → F32 → Bool
  | fin a, fin b => decide (a ≤ b)
  | fin _, inf s => !s
  | inf s, fin _ => s
  | inf s, inf t => s || !t
  | _, _ => false

instance : Zero F32 := ⟨fin 0⟩

instance : Add F32 := ⟨add⟩

instance : Sub F32 := ⟨sub⟩

instance : Mul F32 := ⟨mul⟩

instance (n : Nat) : OfNat F32 n := ⟨of_int n⟩

end F32

/-! ## The top-E tables in binary32 arithmetic -/

/-- The sum-of-squares loops of `norm_accumulate` with the `float` operations of the source:
`w_norm2_data[k] += kptr[w_i] * kptr[w_i]` rounds the product and then the sum. -/
def norm_accumulate_f32 (weight_data : Mat F32) (inch maxk k : Nat) (kptr : Int)
    (w_norm2 : Mat F32) : Mat F32 :=
  (forLoop 0 inch (fun _ (s : Mat F32 × Int) =>
    (forLoop 0 maxk (fun w_i wn =>
        wn.setFlat k (wn.flat k + weight_data.flat (s.2 + w_i) * weight_data.flat (s.2 + w_i)))
        s.1,
      s.2 + maxk)) (w_norm2, kptr)).1

/-- The order `operator<` of `std::pair<float, int>`:
`a.first < b.first || (!(b.first < a.first) && a.second < b.second)`. -/
def pair_lt_f32 (p q : F32 × Nat) : Bool :=
  F32.lt p.1 q.1 || (!F32.lt q.1 p.1 && decide (p.2 < q.2))

/-- The vector `w_ordered` of `find_top_E` after `std::sort` (`convolution.cpp` 368-375) with
`float` keys: the pairs `(abs(w_arr[i]), i)`, pushed in index order and sorted by
`operator<`.  Without a NaN among the keys the pairs are strictly ordered, and `std::sort`
yields their one sorted arrangement, computed here by insertion sort. -/
def w_ordered_sorted_f32 (w_arr : Int → F32) (w_arr_len : Nat) : List (F32 × Nat) :=
  (forLoop 0 w_arr_len (fun i (l : List (F32 × Nat)) => l ++ [(F32.abs (w_arr i), i)])
    []).insertionSort (fun p q => pair_lt_f32 q p = false)

/-- The read `w_ordered[idx]` of the sorted vector of `float` pairs; a read outside the
vector is undefined in the source and yields `(0, 0)` here. -/
def vec_at_f32 (l : List (F32 × Nat)) (idx : Int) : F32 × Nat :=
  if 0 ≤ idx then l.getD idx.toNat (0, 0) else (0, 0)

/-- The value `tobe_sub` of `find_top_E` for the bit pattern `i` (`convolution.cpp` 392-397)
with the `float` operations of the source. -/
def select_tobe_sub_f32 (top_E_w_vals : Mat F32) (val_base : Int) (i : Nat) : F32 :=
  forLoop 0 E (fun t (tobe_sub : F32) =>
    let norm_index := E - 1 - t
    if (i >>> norm_index) &&& 1 ≠ 0 then
      tobe_sub + top_E_w_vals.flat (val_base + ((E - 1 - norm_index : Nat) : Int))
        * top_E_w_vals.flat (val_base + ((E - 1 - norm_index : Nat) : Int))
    else tobe_sub) 0

/-- The function `find_top_E` (`convolution.cpp` 359-410) with the `float` operations of the
source; the arguments and the state are those of `find_top_E`.  The indices are stored as
`float`s and read back with `int(...)`; `all_select_norms[i] = sqrt(w_full_2 - tobe_sub)` has
no guard against a negative difference. -/
def find_top_E_f32 (w_arr : Int → F32) (w_arr_len : Nat) (w_full_2 : F32)
    (idx_base val_base sel_base : Int) (s : Mat F32 × Mat F32 × Mat F32) :
    Mat F32 × Mat F32 × Mat F32 :=
  let w_ordered := w_ordered_sorted_f32 w_arr w_arr_len
  let s := forLoop 0 E (fun i (s : Mat F32 × Mat F32 × Mat F32) =>
    let top_E_w_vals :=
      s.2.1.setFlat (val_base + i) (vec_at_f32 w_ordered (w_arr_len - 1 - i)).1
    let top_E_indices :=
      s.1.setFlat (idx_base + i) (F32.of_int (vec_at_f32 w_ordered (w_arr_len - 1 - i)).2)
    (top_E_indices, top_E_w_vals, s.2.2)) s
  let s := forLoop 0 E_pow_num (fun i (s : Mat F32 × Mat F32 × Mat F32) =>
    (s.1, s.2.1,
      s.2.2.setFlat (sel_base + i)
        (F32.sqrt (w_full_2 - select_tobe_sub_f32 s.2.1 val_base i)))) s
  forLoop 0 E (fun i (s : Mat F32 × Mat F32 × Mat F32) =>
    (s.1, s.2.1.setFlat (val_base + i) (w_arr (F32.to_int (s.1.flat (idx_base + i)))),
      s.2.2)) s

/-- The block "calculate w_norm2" of the first-call branch of `mlsys_convolution_lower_top_E`
(`convolution.cpp` 446-488) with the `float` operations of the source, for `inch` input and
`outch` output channels: it returns `(w_norm2, top_E_indices, top_E_w_vals,
all_select_norms)`. -/
def top_E_tables_f32 (a : ConvArgs F32) (inch outch : Nat)
    (w_norm2 all_select_norms top_E_indices top_E_w_vals : Mat F32) :
    Mat F32 × Mat F32 × Mat F32 × Mat F32 :=
  let w_norm2 := w_norm2.create1 outch
  let all_select_norms := all_select_norms.create1 (outch * E_pow_num)
  let top_E_indices := top_E_indices.create1 (outch * E)
  let top_E_w_vals := top_E_w_vals.create1 (outch * E)
  forLoop 0 outch (fun k (s : Mat F32 × Mat F32 × Mat F32 × Mat F32) =>
    let kptr := a.kptr inch k
    let w_norm2 := s.1.setFlat k 0
    let w_norm2 := norm_accumulate_f32 a.weight_data inch a.maxk k kptr w_norm2
    let t := find_top_E_f32 (fun i => a.weight_data.flat (kptr + i)) (a.maxk * inch)
      (w_norm2.flat k) ((E : Int) * k) ((E : Int) * k) ((k : Int) * E_pow_num) s.2
    (w_norm2.setFlat k (F32.sqrt (w_norm2.flat k)), t))
    (w_norm2, top_E_indices, top_E_w_vals, all_select_norms)

/-- The delta loops of the bound branch of `mlsys_convolution_lower_top_E` (`convolution.cpp`
555-572) with the `float` operations of the source; the state is `(dx2_sum, x_vector_diff)`. -/
def top_E_dx2_sum_f32 (a : ConvArgs F32) (in_x last_x : Mat F32) (i j : Nat)
    (x_vector_diff : Mat F32) : F32 × Mat F32 :=
  forLoop 0 in_x.c (fun q (s : F32 × Mat F32) =>
    forLoop 0 a.maxk (fun w_i (s : F32 × Mat F32) =>
      let q_i : Int := (q : Int) * a.maxk + w_i
      let val := patch_at in_x (a.space_ofs in_x) q (row_ptr in_x a.stride_w a.stride_h i j) w_i
      let val_last_x :=
        patch_at last_x (a.space_ofs in_x) q (row_ptr last_x a.stride_w a.stride_h i j) w_i
      let x_vector_diff := s.2.setFlat q_i (val - val_last_x)
      (s.1 + x_vector_diff.flat q_i * x_vector_diff.flat q_i, x_vector_diff)) s)
    (0, x_vector_diff)

/-- The index `select_norm_index` of the bound branch of `mlsys_convolution_lower_top_E`
(`convolution.cpp` 604-615) with the `float` product and comparison of the source. -/
def top_E_select_f32 (top_E_indices top_E_w_vals x_vector_diff : Mat F32) (k : Nat) : Nat :=
  forLoop 0 E (fun ii (select_norm_index : Nat) =>
    let temp_ii := x_vector_diff.flat (F32.to_int (top_E_indices.flat ((k : Int) * E + ii)))
      * top_E_w_vals.flat ii
    let select_norm_index := select_norm_index <<< 1
    if F32.lt 0 temp_ii then select_norm_index ||| 1 else select_norm_index) 0

/-- A filter of six taps in a row with the integer weights `1332, 1704, 2075, 1452, 2660,
2199`, all of them `float`s; one input and one output channel, no bias, ReLU. -/
def rounded_args : ConvArgs F32 :=
  { weight_data := Mat.of_list [1332, 1704, 2075, 1452, 2660, 2199], bias_data := Mat.nil,
    kernel_w := 6, kernel_h := 1, stride_w := 1, stride_h := 1,
    dilation_w := 1, dilation_h := 1, activation_type := 1, activation_params := Mat.nil }

/-- The input `[[1332, 1704, 2075, 1452, 2660, 2199]]`: one channel, one row, six columns of
`float`s. -/
def rounded_input : Mat F32 := Mat.of_rows 6 1 1 [1332, 1704, 2075, 1452, 2660, 2199]

/-- The input `[[0, 0, 0, 0, 0, 0]]` of `float`s. -/
def rounded_zero : Mat F32 := Mat.of_rows 6 1 1 [0, 0, 0, 0, 0, 0]

end Conv

/-! # Proofs -/

namespace Conv

/-! ## Loop rules -/

theorem loopN_succ_last {σ : Type} (n lo : Nat) (f : Nat → σ → σ) (s : σ) :
    loopN (n + 1) lo f s = f (lo + n) (loopN n lo f s) := by
  induction n generalizing lo s with
  | zero => simp [loopN]
  | succ n ih =>
    rw [loopN, ih (lo + 1) (f lo s)]
    have h : lo + 1 + n = lo + (n + 1) := by omega
    rw [h]
    rfl

theorem forLoop_of_le {σ : Type} {lo hi : Nat} (h : hi ≤ lo) (f : Nat → σ → σ) (s : σ) :
    forLoop lo hi f s = s := by
  unfold forLoop
  rw [Nat.sub_eq_zero_of_le h]
  rfl

theorem forLoop_succ {σ : Type} {lo hi : Nat} (h : lo ≤ hi) (f : Nat → σ → σ) (s : σ) :
    forLoop lo (hi + 1) f s = f hi (forLoop lo hi f s) := by
  unfold forLoop
  have e : hi + 1 - lo = (hi - lo) + 1 := by omega
  rw [e, loopN_succ_last]
  have e2 : lo + (hi - lo) = hi := by omega
  rw [e2]

theorem forLoop_one {σ : Type} (f : Nat → σ → σ) (s : σ) : forLoop 0 1 f s = f 0 s := by
  rfl

/-- Invariant rule for `forLoop`: a predicate that holds on entry and is carried by every
iteration holds on exit. -/
theorem forLoop_inv {σ : Type} (P : Nat → σ → Prop) {lo hi : Nat} (h : lo ≤ hi)
    (f : Nat → σ → σ) (s : σ) (h0 : P lo s)
    (hstep : ∀ i s, lo ≤ i → i < hi → P i s → P (i + 1) (f i s)) :
    P hi (forLoop lo hi f s) := by
  induction hi with
  | zero =>
    have : lo = 0 := by omega
    subst this
    simpa [forLoop, loopN] using h0
  | succ n ih =>
    by_cases hl : lo ≤ n
    · rw [forLoop_succ hl]
      exact hstep n _ hl (Nat.lt_succ_self n)
        (ih hl (fun i s h1 h2 hp => hstep i s h1 (Nat.lt_succ_of_lt h2) hp))
    · have : lo = n + 1 := by omega
      subst this
      rw [forLoop_of_le (Nat.le_refl _)]
      exact h0

theorem forLoop_congr {σ : Type} {lo hi : Nat} (f g : Nat → σ → σ) (s : σ)
    (hfg : ∀ i s, lo ≤ i → i < hi → f i s = g i s) :
    forLoop lo hi f s = forLoop lo hi g s := by
  by_cases h : lo ≤ hi
  · induction hi with
    | zero => rw [forLoop_of_le (Nat.zero_le lo), forLoop_of_le (Nat.zero_le lo)]
    | succ n ih =>
      by_cases hl : lo ≤ n
      · rw [forLoop_succ hl, forLoop_succ hl,
          ih (fun i s h1 h2 => hfg i s h1 (Nat.lt_succ_of_lt h2)) hl]
        exact hfg n _ hl (Nat.lt_succ_self n)
      · rw [forLoop_of_le (by omega), forLoop_of_le (by omega)]
  · rw [forLoop_of_le (by omega), forLoop_of_le (by omega)]

/-- A summation loop computes its start value plus the finite sum of the summands. -/
theorem forLoop_sum {β : Type} [AddCommMonoid β] (g : Nat → β) (n : Nat) (y : β) :
    forLoop 0 n (fun i acc => acc + g i) y = y + ∑ i in Finset.range n, g i := by
  induction n with
  | zero => simp [forLoop, loopN]
  | succ n ih =>
    rw [forLoop_succ (Nat.zero_le n), ih, Finset.sum_range_succ, add_assoc]

theorem forLoop_dsum {β : Type} [AddCommMonoid β] (g : Nat → Nat → β) (n m : Nat) (y : β) :
    forLoop 0 n (fun q acc => forLoop 0 m (fun t acc => acc + g q t) acc) y
      = y + dsum n m g := by
  induction n with
  | zero => simp [forLoop, loopN, dsum]
  | succ n ih =>
    rw [forLoop_succ (Nat.zero_le n), ih, forLoop_sum]
    unfold dsum
    rw [Finset.sum_range_succ, add_assoc]

/-! ## Blob stores -/

section MatLemmas

variable {α : Type}

@[simp] theorem Mat.set_w (m : Mat α) (q : Nat) (p : Int) (v : α) : (m.set q p v).w = m.w := rfl
@[simp] theorem Mat.set_h (m : Mat α) (q : Nat) (p : Int) (v : α) : (m.set q p v).h = m.h := rfl
@[simp] theorem Mat.set_c (m : Mat α) (q : Nat) (p : Int) (v : α) : (m.set q p v).c = m.c := rfl
@[simp] theorem Mat.set_dims (m : Mat α) (q : Nat) (p : Int) (v : α) :
    (m.set q p v).dims = m.dims := rfl
@[simp] theorem Mat.set_elempack (m : Mat α) (q : Nat) (p : Int) (v : α) :
    (m.set q p v).elempack = m.elempack := rfl

@[simp] theorem Mat.set_data_same (m : Mat α) (q : Nat) (p : Int) (v : α) :
    (m.set q p v).data q p = v := by
  simp [Mat.set]

theorem Mat.set_data (m : Mat α) (q : Nat) (p : Int) (v : α) (q' : Nat) (p' : Int) :
    (m.set q p v).data q' p' = if q' = q ∧ p' = p then v else m.data q' p' := rfl

theorem Mat.set_data_ne (m : Mat α) (q : Nat) (p : Int) (v : α) (q' : Nat) (p' : Int)
    (h : ¬(q' = q ∧ p' = p)) : (m.set q p v).data q' p' = m.data q' p' := by
  simp [Mat.set, h]

/-- Distinct in-range positions of a row-major plane have distinct offsets. -/
theorem out_pos_inj {outw i j i' j' : Nat} (hj : j < outw) (hj' : j' < outw)
    (h : out_pos outw i j = out_pos outw i' j') : i = i' ∧ j = j' := by
  unfold out_pos at h
  have h2 : i * outw + j = i' * outw + j' := by exact_mod_cast h
  have hi : i = i' := by
    rcases Nat.lt_trichotomy i i' with hlt | heq | hgt
    · exfalso
      have : (i + 1) * outw ≤ i' * outw := Nat.mul_le_mul_right _ hlt
      rw [Nat.add_mul] at this
      omega
    · exact heq
    · exfalso
      have : (i' + 1) * outw ≤ i * outw := Nat.mul_le_mul_right _ hgt
      rw [Nat.add_mul] at this
      omega
  subst hi
  exact ⟨rfl, by omega⟩

end MatLemmas

end Conv

namespace Conv

/-- Invariant rule for the triple loop nest of the kernels.  `Q d s` states the invariant
for the set `d` of positions already visited; it may only depend on `d` inside the
iteration space. -/
theorem loop3_done {σ : Type} (H W K : Nat) (f : Nat → Nat → Nat → σ → σ)
    (Q : (Nat → Nat → Nat → Prop) → σ → Prop)
    (hQ : ∀ (d d' : Nat → Nat → Nat → Prop) s,
      (∀ i j k, i < H → j < W → k < K → (d i j k ↔ d' i j k)) → Q d s → Q d' s)
    (hstep : ∀ i j k s, i < H → j < W → k < K →
      Q (fun i' j' k' => lex_lt i' j' k' i j k) s →
      Q (fun i' j' k' => lex_lt i' j' k' i j (k + 1)) (f i j k s))
    (s : σ) (h0 : Q (fun _ _ _ => False) s) :
    Q (fun _ _ _ => True)
      (forLoop 0 H (fun i s => forLoop 0 W (fun j s => forLoop 0 K (fun k s => f i j k s) s) s)
        s) := by
  have hi := forLoop_inv (fun i s => Q (fun i' j' k' => lex_lt i' j' k' i 0 0) s)
    (Nat.zero_le H)
    (fun i s => forLoop 0 W (fun j s => forLoop 0 K (fun k s => f i j k s) s) s) s
    (hQ _ _ s (fun i j k _ _ _ => by
      unfold lex_lt; constructor <;> intro h <;> first | trivial | omega) h0)
    (by
      intro i s _ hiH hP
      have hj := forLoop_inv (fun j s => Q (fun i' j' k' => lex_lt i' j' k' i j 0) s)
        (Nat.zero_le W) (fun j s => forLoop 0 K (fun k s => f i j k s) s) s hP
        (by
          intro j s _ hjW hP
          have hk := forLoop_inv (fun k s => Q (fun i' j' k' => lex_lt i' j' k' i j k) s)
            (Nat.zero_le K) (fun k s => f i j k s) s hP
            (fun k s _ hkK hP => hstep i j k s hiH hjW hkK hP)
          exact hQ _ _ _ (fun i' j' k' _ _ hk' => by
            unfold lex_lt; constructor <;> intro h <;> first | trivial | omega) hk)
      exact hQ _ _ _ (fun i' j' k' _ hj' _ => by
        unfold lex_lt; constructor <;> intro h <;> first | trivial | omega) hj)
  exact hQ _ _ _ (fun i' j' k' hi' _ _ => by
    unfold lex_lt; constructor <;> intro h <;> first | trivial | omega) hi

end Conv

namespace Conv

/-- Invariant rule for the triple loop nest with a predicate indexed by the position about
to be visited: it is carried by every step and across the ends of the two inner loops. -/
theorem loop3_inv {σ : Type} (H W K : Nat) (f : Nat → Nat → Nat → σ → σ)
    (P : Nat → Nat → Nat → σ → Prop)
    (hstep : ∀ i j k s, i < H → j < W → k < K → P i j k s → P i j (k + 1) (f i j k s))
    (hk : ∀ i j s, i < H → j < W → P i j K s → P i (j + 1) 0 s)
    (hj : ∀ i s, i < H → P i W 0 s → P (i + 1) 0 0 s)
    (s : σ) (h0 : P 0 0 0 s) :
    P H 0 0
      (forLoop 0 H (fun i s => forLoop 0 W (fun j s => forLoop 0 K (fun k s => f i j k s) s) s)
        s) :=
  forLoop_inv (fun i s => P i 0 0 s) (Nat.zero_le H)
    (fun i s => forLoop 0 W (fun j s => forLoop 0 K (fun k s => f i j k s) s) s) s h0
    (fun i s _ hiH hP => hj i _ hiH
      (forLoop_inv (fun j s => P i j 0 s) (Nat.zero_le W)
        (fun j s => forLoop 0 K (fun k s => f i j k s) s) s hP
        (fun j s _ hjW hP => hk i j _ hiH hjW
          (forLoop_inv (fun k s => P i j k s) (Nat.zero_le K) (fun k s => f i j k s) s hP
            (fun k s _ hkK hP => hstep i j k s hiH hjW hkK hP)))))

end Conv

namespace Conv

section Sums

variable {α : Type} [LinearOrderedField α]

/-- A loop that accumulates into the first component and bumps a pointer by a constant in
the second computes the nested sum with the pointer in closed form. -/
theorem forLoop_ptr_dsum {β : Type} [AddCommMonoid β] (g : Int → Nat → Nat → β) (n m : Nat)
    (step : Int) (y : β) (kptr : Int) :
    forLoop 0 n (fun q (s : β × Int) =>
        (forLoop 0 m (fun t acc => acc + g s.2 q t) s.1, s.2 + step)) (y, kptr)
      = (y + dsum n m (fun q t => g (kptr + q * step) q t), kptr + n * step) := by
  induction n with
  | zero => simp [forLoop, loopN, dsum]
  | succ n ih =>
    rw [forLoop_succ (Nat.zero_le n), ih]
    simp only [forLoop_sum]
    unfold dsum
    rw [Finset.sum_range_succ, add_assoc]
    congr 1
    push_cast
    ring

theorem accumulate_eq (in_x weight_data : Mat α) (space_ofs : Nat → Int) (inch maxk : Nat)
    (sptr kptr : Int) (y : α) :
    accumulate in_x weight_data space_ofs inch maxk sptr kptr y
      = y + dsum inch maxk (fun q t =>
          patch_at in_x space_ofs q sptr t * weight_data.flat (kptr + q * maxk + t)) := by
  unfold accumulate
  have h := forLoop_ptr_dsum
    (fun kp q t => patch_at in_x space_ofs q sptr t * weight_data.flat (kp + t)) inch maxk
    (maxk : Int) y kptr
  simp only at h
  rw [h]

/-- The exact pre-activation is the bias term plus the bias-free sum. -/
theorem exact_y_eq (a : ConvArgs α) (in_x : Mat α) (i j k : Nat) :
    exact_y a in_x i j k = a.y_init k + conv_sum a in_x i j k := by
  unfold exact_y conv_sum ConvArgs.weight
  rw [accumulate_eq]

theorem temporal_dx2_sum_eq (a : ConvArgs α) (in_x last_x : Mat α) (i j : Nat) :
    temporal_dx2_sum a in_x last_x i j = temporal_sq a in_x last_x i j := by
  unfold temporal_dx2_sum temporal_sq
  have h := forLoop_dsum (fun q t =>
    (patch_at in_x (a.space_ofs in_x) q (row_ptr in_x a.stride_w a.stride_h i j) t
      - patch_at last_x (a.space_ofs in_x) q (row_ptr last_x a.stride_w a.stride_h i j) t)
    * (patch_at in_x (a.space_ofs in_x) q (row_ptr in_x a.stride_w a.stride_h i j) t
      - patch_at last_x (a.space_ofs in_x) q (row_ptr last_x a.stride_w a.stride_h i j) t))
    in_x.c a.maxk (0 : α)
  simp only [zero_add] at h
  exact h

theorem dsum_nonneg (n m : Nat) (g : Nat → Nat → α) (h : ∀ q t, 0 ≤ g q t) : 0 ≤ dsum n m g :=
  Finset.sum_nonneg (fun q _ => Finset.sum_nonneg (fun t _ => h q t))

theorem dsum_add (n m : Nat) (f g : Nat → Nat → α) :
    dsum n m (fun q t => f q t + g q t) = dsum n m f + dsum n m g := by
  unfold dsum
  simp only [Finset.sum_add_distrib]

theorem dsum_sub (n m : Nat) (f g : Nat → Nat → α) :
    dsum n m (fun q t => f q t - g q t) = dsum n m f - dsum n m g := by
  unfold dsum
  simp only [Finset.sum_sub_distrib]

theorem dsum_eq_sum_product (n m : Nat) (g : Nat → Nat → α) :
    dsum n m g = ∑ p in Finset.range n ×ˢ Finset.range m, g p.1 p.2 := by
  unfold dsum
  rw [Finset.sum_product]

/-- Cauchy-Schwarz for patch sums, squared form. -/
theorem dsum_mul_sq_le (n m : Nat) (f g : Nat → Nat → α) :
    (dsum n m (fun q t => f q t * g q t)) ^ 2
      ≤ dsum n m (fun q t => f q t * f q t) * dsum n m (fun q t => g q t * g q t) := by
  rw [dsum_eq_sum_product, dsum_eq_sum_product, dsum_eq_sum_product]
  have h := Finset.sum_mul_sq_le_sq_mul_sq (Finset.range n ×ˢ Finset.range m)
    (fun p : Nat × Nat => f p.1 p.2) (fun p : Nat × Nat => g p.1 p.2)
  simpa [pow_two] using h

end Sums

/-- Cauchy-Schwarz for patch sums over the reals: the sum of products is at most the
product of the two Euclidean norms. -/
theorem dsum_mul_le_sqrt (n m : Nat) (f g : Nat → Nat → ℝ) :
    dsum n m (fun q t => f q t * g q t)
      ≤ Real.sqrt (dsum n m (fun q t => f q t * f q t))
        * Real.sqrt (dsum n m (fun q t => g q t * g q t)) := by
  have hf : 0 ≤ dsum n m (fun q t => f q t * f q t) :=
    dsum_nonneg n m _ (fun q t => mul_self_nonneg _)
  rw [← Real.sqrt_mul hf]
  exact Real.le_sqrt_of_sq_le (dsum_mul_sq_le n m f g)

end Conv

namespace Conv

section Pointwise

variable {α : Type}

theorem Mat.set_set (m : Mat α) (q : Nat) (p : Int) (v v' : α) :
    (m.set q p v).set q p v' = m.set q p v' := by
  unfold Mat.set
  congr 1
  funext q' p'
  by_cases h : q' = q ∧ p' = p <;> simp [h]

@[simp] theorem Mat.flat_setFlat_same (m : Mat α) (p : Int) (v : α) :
    (m.setFlat p v).flat p = v := by
  simp [Mat.flat, Mat.setFlat]

theorem Mat.flat_setFlat_ne (m : Mat α) (p p' : Int) (v : α) (h : p' ≠ p) :
    (m.setFlat p v).flat p' = m.flat p' := by
  simp [Mat.flat, Mat.setFlat, Mat.set, h]

theorem Mat.setFlat_setFlat (m : Mat α) (p : Int) (v v' : α) :
    (m.setFlat p v).setFlat p v' = m.setFlat p v' := by
  unfold Mat.setFlat
  exact Mat.set_set m 0 p v v'

/-- A loop nest whose step at `(i, j, k)` stores into element `(k, i, j)` of an output blob
and of a cache blob values computed from the cache's old element: afterwards every
in-range element holds the value computed from the initial cache. -/
theorem pointwise_loop3 (H W K : Nat) (g : Nat → Nat → Nat → α → α × α)
    (f : Nat → Nat → Nat → Mat α × Mat α → Mat α × Mat α)
    (hf : ∀ i j k s, f i j k s =
      (s.1.set k (out_pos W i j) (g i j k (s.2.data k (out_pos W i j))).1,
       s.2.set k (out_pos W i j) (g i j k (s.2.data k (out_pos W i j))).2))
    (s0 : Mat α × Mat α) :
    let r := forLoop 0 H (fun i s =>
      forLoop 0 W (fun j s => forLoop 0 K (fun k s => f i j k s) s) s) s0
    (r.1.w = s0.1.w ∧ r.1.h = s0.1.h ∧ r.1.c = s0.1.c) ∧
    (r.2.w = s0.2.w ∧ r.2.h = s0.2.h ∧ r.2.c = s0.2.c) ∧
    ∀ i j k, i < H → j < W → k < K →
      r.1.data k (out_pos W i j) = (g i j k (s0.2.data k (out_pos W i j))).1 ∧
      r.2.data k (out_pos W i j) = (g i j k (s0.2.data k (out_pos W i j))).2 := by
  intro r
  have h := loop3_done H W K f
    (fun d s =>
      (s.1.w = s0.1.w ∧ s.1.h = s0.1.h ∧ s.1.c = s0.1.c) ∧
      (s.2.w = s0.2.w ∧ s.2.h = s0.2.h ∧ s.2.c = s0.2.c) ∧
      ∀ i j k, i < H → j < W → k < K →
        (d i j k →
          s.1.data k (out_pos W i j) = (g i j k (s0.2.data k (out_pos W i j))).1 ∧
          s.2.data k (out_pos W i j) = (g i j k (s0.2.data k (out_pos W i j))).2) ∧
        (¬ d i j k → s.2.data k (out_pos W i j) = s0.2.data k (out_pos W i j)))
    (by
      intro d d' s hdd hq
      refine ⟨hq.1, hq.2.1, ?_⟩
      intro i j k hi hj hk
      have h3 := hq.2.2 i j k hi hj hk
      rw [← hdd i j k hi hj hk]
      exact h3)
    (by
      intro i j k s hi hj hk hq
      rw [hf]
      refine ⟨by simpa using hq.1, by simpa using hq.2.1, ?_⟩
      intro i' j' k' hi' hj' hk'
      have h3 := hq.2.2 i' j' k' hi' hj' hk'
      by_cases hsame : k' = k ∧ out_pos W i' j' = out_pos W i j
      · obtain ⟨hk1, hp1⟩ := hsame
        obtain ⟨hi1, hj1⟩ := out_pos_inj hj' hj hp1
        subst hk1; subst hi1; subst hj1
        have hnot : ¬ lex_lt i' j' k' i' j' k' := by unfold lex_lt; omega
        have hold := (hq.2.2 i' j' k' hi hj hk).2 hnot
        constructor
        · intro _
          simp only [Mat.set_data_same, hold, and_self]
        · intro hn
          exfalso
          apply hn
          unfold lex_lt; omega
      · have hne : ¬ (i' = i ∧ j' = j ∧ k' = k) := by
          rintro ⟨rfl, rfl, rfl⟩
          exact hsame ⟨rfl, rfl⟩
        simp only [Mat.set_data_ne _ _ _ _ _ _ hsame]
        constructor
        · intro hd
          apply h3.1
          unfold lex_lt at hd ⊢
          omega
        · intro hd
          apply h3.2
          intro hd'
          apply hd
          unfold lex_lt at hd' ⊢
          omega)
    s0
    (by
      refine ⟨⟨rfl, rfl, rfl⟩, ⟨rfl, rfl, rfl⟩, ?_⟩
      intro i j k _ _ _
      exact ⟨fun h => h.elim, fun _ => rfl⟩)
  refine ⟨h.1, h.2.1, ?_⟩
  intro i j k hi hj hk
  exact (h.2.2 i j k hi hj hk).1 trivial

end Pointwise

end Conv

namespace Conv

section Single

variable {α : Type}

/-- A loop nest whose step at `(i, j, k)` stores a value that depends only on the position
into element `(k, i, j)` of the output blob. -/
theorem store_loop3 (H W K : Nat) (g : Nat → Nat → Nat → α) (m0 : Mat α) :
    let r := forLoop 0 H (fun i m =>
      forLoop 0 W (fun j m => forLoop 0 K (fun k m => m.set k (out_pos W i j) (g i j k)) m) m) m0
    (r.w = m0.w ∧ r.h = m0.h ∧ r.c = m0.c) ∧
    ∀ i j k, i < H → j < W → k < K → r.data k (out_pos W i j) = g i j k := by
  intro r
  have h := loop3_done H W K (fun i j k (m : Mat α) => m.set k (out_pos W i j) (g i j k))
    (fun d s =>
      (s.w = m0.w ∧ s.h = m0.h ∧ s.c = m0.c) ∧
      ∀ i j k, i < H → j < W → k < K → d i j k → s.data k (out_pos W i j) = g i j k)
    (by
      intro d d' s hdd hq
      refine ⟨hq.1, ?_⟩
      intro i j k hi hj hk hd
      exact hq.2 i j k hi hj hk ((hdd i j k hi hj hk).2 hd))
    (by
      intro i j k s hi hj hk hq
      refine ⟨by simpa using hq.1, ?_⟩
      intro i' j' k' hi' hj' hk' hd
      by_cases hsame : k' = k ∧ out_pos W i' j' = out_pos W i j
      · obtain ⟨hk1, hp1⟩ := hsame
        obtain ⟨hi1, hj1⟩ := out_pos_inj hj' hj hp1
        subst hk1; subst hi1; subst hj1
        simp only [Mat.set_data_same]
      · rw [Mat.set_data_ne _ _ _ _ _ _ hsame]
        apply hq.2 i' j' k' hi' hj' hk'
        have hne : ¬ (i' = i ∧ j' = j ∧ k' = k) := by
          rintro ⟨rfl, rfl, rfl⟩
          exact hsame ⟨rfl, rfl⟩
        unfold lex_lt at hd ⊢
        omega)
    m0
    (by
      refine ⟨⟨rfl, rfl, rfl⟩, ?_⟩
      intro i j k _ _ _ hd
      exact hd.elim)
  refine ⟨h.1, ?_⟩
  intro i j k hi hj hk
  exact h.2 i j k hi hj hk trivial

end Single

section Temporal

variable {α : Type} [LinearOrderedField α]

/-- The reference kernel stores the activated exact pre-activation at every position. -/
theorem raw_convolution_spec (exp : α → α) (bottom_blob top_blob : Mat α) (a : ConvArgs α) :
    ((raw_convolution exp bottom_blob top_blob a).w = top_blob.w ∧
      (raw_convolution exp bottom_blob top_blob a).h = top_blob.h ∧
      (raw_convolution exp bottom_blob top_blob a).c = top_blob.c) ∧
    ∀ i j k, i < top_blob.h → j < top_blob.w → k < top_blob.c →
      (raw_convolution exp bottom_blob top_blob a).data k (out_pos top_blob.w i j)
        = a.act exp (exact_y a bottom_blob i j k) :=
  store_loop3 top_blob.h top_blob.w top_blob.c
    (fun i j k => a.act exp (exact_y a bottom_blob i j k)) top_blob

/-- The value a first call caches for a position: the pre-activation minus the bias. -/
theorem exact_compute_spec (exp : α → α) (a : ConvArgs α) (in_x out_y last_y : Mat α) :
    ((exact_compute exp a in_x out_y last_y).1.w = out_y.w ∧
      (exact_compute exp a in_x out_y last_y).1.h = out_y.h ∧
      (exact_compute exp a in_x out_y last_y).1.c = out_y.c) ∧
    ((exact_compute exp a in_x out_y last_y).2.w = last_y.w ∧
      (exact_compute exp a in_x out_y last_y).2.h = last_y.h ∧
      (exact_compute exp a in_x out_y last_y).2.c = last_y.c) ∧
    ∀ i j k, i < out_y.h → j < out_y.w → k < out_y.c →
      (exact_compute exp a in_x out_y last_y).1.data k (out_pos out_y.w i j)
        = a.act exp (exact_y a in_x i j k) ∧
      (exact_compute exp a in_x out_y last_y).2.data k (out_pos out_y.w i j)
        = conv_sum a in_x i j k := by
  have h := pointwise_loop3 out_y.h out_y.w out_y.c
    (fun i j k _ => (a.act exp (exact_y a in_x i j k), conv_sum a in_x i j k))
    (fun i j k s => exact_compute_step exp a in_x out_y.w i j k s)
    (by
      intro i j k s
      unfold exact_compute_step
      simp only [exact_y_eq]
      by_cases hb : a.bias_term = true
      · simp [hb, ConvArgs.y_init]
      · simp [hb, ConvArgs.y_init])
    (out_y, last_y)
  exact h

end Temporal

end Conv

namespace Conv

section Norms

variable {α : Type} [LinearOrderedField α]

/-- An in-place accumulation into one cell of a blob computes the sum in that cell. -/
theorem cell_sum_loop (m : Mat α) (k : Int) (g : Nat → α) (n : Nat) (v : α) :
    forLoop 0 n (fun t wn => wn.setFlat k (wn.flat k + g t)) (m.setFlat k v)
      = m.setFlat k (v + ∑ t in Finset.range n, g t) := by
  induction n with
  | zero => simp [forLoop, loopN]
  | succ n ih =>
    rw [forLoop_succ (Nat.zero_le n), ih, Mat.flat_setFlat_same, Mat.setFlat_setFlat,
      Finset.sum_range_succ, add_assoc]

theorem norm_accumulate_eq (weight_data : Mat α) (inch maxk k : Nat) (kptr : Int) (m : Mat α)
    (v : α) :
    norm_accumulate weight_data inch maxk k kptr (m.setFlat k v)
      = m.setFlat k (v + dsum inch maxk (fun q t =>
          weight_data.flat (kptr + q * maxk + t) * weight_data.flat (kptr + q * maxk + t))) := by
  unfold norm_accumulate
  have h : ∀ n : Nat,
      forLoop 0 n (fun _ (s : Mat α × Int) =>
        (forLoop 0 maxk (fun w_i wn =>
          wn.setFlat k (wn.flat k
            + weight_data.flat (s.2 + w_i) * weight_data.flat (s.2 + w_i))) s.1,
          s.2 + maxk)) (m.setFlat k v, kptr)
      = (m.setFlat k (v + dsum n maxk (fun q t =>
          weight_data.flat (kptr + q * maxk + t) * weight_data.flat (kptr + q * maxk + t))),
          kptr + n * maxk) := by
    intro n
    induction n with
    | zero => simp [forLoop, loopN, dsum]
    | succ n ih =>
      rw [forLoop_succ (Nat.zero_le n), ih]
      simp only
      rw [cell_sum_loop]
      unfold dsum
      rw [Finset.sum_range_succ, add_assoc]
      congr 1
      push_cast
      ring
  rw [h inch]

/-- After the block "calculate w_norm2" entry `k` holds the square root of the squared norm
of filter `k`. -/
theorem calc_w_norm2_spec (sqrt : α → α) (a : ConvArgs α) (inch outch : Nat) (m : Mat α) :
    ∀ k, k < outch → (calc_w_norm2 sqrt a inch outch m).flat k = sqrt (weight_sq a inch k) := by
  unfold calc_w_norm2
  have hstep : ∀ (k : Nat) (w : Mat α),
      (norm_accumulate a.weight_data inch a.maxk k (a.kptr inch k) (w.setFlat k 0)).setFlat k
        (sqrt ((norm_accumulate a.weight_data inch a.maxk k (a.kptr inch k)
          (w.setFlat k 0)).flat k))
      = w.setFlat k (sqrt (weight_sq a inch k)) := by
    intro k w
    rw [norm_accumulate_eq, Mat.flat_setFlat_same, Mat.setFlat_setFlat, zero_add]
    rfl
  have h := forLoop_inv
    (fun n (w : Mat α) => ∀ k, k < n → w.flat k = sqrt (weight_sq a inch k))
    (Nat.zero_le outch)
    (fun k w_norm2 =>
      (norm_accumulate a.weight_data inch a.maxk k (a.kptr inch k) (w_norm2.setFlat k 0)).setFlat
        k (sqrt ((norm_accumulate a.weight_data inch a.maxk k (a.kptr inch k)
          (w_norm2.setFlat k 0)).flat k)))
    m (fun k hk => absurd hk (Nat.not_lt_zero k))
    (by
      intro n w _ _ hP k hk
      simp only [hstep]
      by_cases hkn : k = n
      · subst hkn
        simp
      · rw [Mat.flat_setFlat_ne _ _ _ _ (by exact_mod_cast hkn)]
        exact hP k (by omega))
  exact h

end Norms

end Conv

namespace Conv

section TemporalBound

variable {α : Type} [LinearOrderedField α]

/-- The bound branch of `mlsys_convolution`, position by position: where the skip test on
the cached value succeeds the output is `0` and the cache grows by the bound increment,
elsewhere the output is the activated exact pre-activation and the cache is the exact
bias-free sum. -/
theorem mlsys_bound_spec (sqrt exp : α → α) (in_x out_y : Mat α) (a : ConvArgs α)
    (last_x last_y w_norm2 : Mat α) (hne : ¬ last_x.total ≤ 0) :
    let r := mlsys_convolution sqrt exp in_x out_y a last_x last_y w_norm2
    r.last_x = in_x ∧ r.w_norm2 = w_norm2 ∧
    (r.out_y.w = out_y.w ∧ r.out_y.h = out_y.h ∧ r.out_y.c = out_y.c) ∧
    ∀ i j k, i < out_y.h → j < out_y.w → k < out_y.c →
      (mlsys_skips sqrt a in_x last_x w_norm2 i j k (last_y.data k (out_pos out_y.w i j)) →
        r.out_y.data k (out_pos out_y.w i j) = 0 ∧
        r.last_y.data k (out_pos out_y.w i j)
          = last_y.data k (out_pos out_y.w i j)
            + w_norm2.flat k * sqrt (temporal_dx2_sum a in_x last_x i j)) ∧
      (¬ mlsys_skips sqrt a in_x last_x w_norm2 i j k (last_y.data k (out_pos out_y.w i j)) →
        r.out_y.data k (out_pos out_y.w i j) = a.act exp (exact_y a in_x i j k) ∧
        r.last_y.data k (out_pos out_y.w i j) = conv_sum a in_x i j k) := by
  intro r
  have hr : r = mlsys_convolution sqrt exp in_x out_y a last_x last_y w_norm2 := rfl
  unfold mlsys_convolution at hr
  simp only [hne, if_false] at hr
  have h := pointwise_loop3 out_y.h out_y.w out_y.c
    (fun i j k v =>
      if v + w_norm2.flat k * sqrt (temporal_dx2_sum a in_x last_x i j) ≤ -a.y_init k then
        (0, v + w_norm2.flat k * sqrt (temporal_dx2_sum a in_x last_x i j))
      else (a.act exp (exact_y a in_x i j k), conv_sum a in_x i j k))
    (fun i j k s => mlsys_step exp a in_x w_norm2
      (sqrt (temporal_dx2_sum a in_x last_x i j)) out_y.w i j k s)
    (by
      intro i j k s
      unfold mlsys_step
      simp only
      split_ifs with hc
      · rfl
      · rw [Mat.set_data_same, Mat.set_set, exact_y_eq]
        congr 2
        ring)
    (out_y, last_y)
  simp only at h
  rw [hr]
  refine ⟨rfl, rfl, h.1, ?_⟩
  intro i j k hi hj hk
  have h3 := h.2.2 i j k hi hj hk
  unfold mlsys_skips
  constructor
  · intro hs
    rw [if_pos hs] at h3
    exact h3
  · intro hs
    rw [if_neg hs] at h3
    exact h3

/-- The first call of `mlsys_convolution` (empty `last_x`), position by position. -/
theorem mlsys_first_spec (sqrt exp : α → α) (in_x out_y : Mat α) (a : ConvArgs α)
    (last_x last_y w_norm2 : Mat α) (he : last_x.total ≤ 0) :
    let r := mlsys_convolution sqrt exp in_x out_y a last_x last_y w_norm2
    r.last_x = in_x ∧
    (∀ k, k < out_y.c → r.w_norm2.flat k = sqrt (weight_sq a in_x.c k)) ∧
    (r.out_y.w = out_y.w ∧ r.out_y.h = out_y.h ∧ r.out_y.c = out_y.c) ∧
    ∀ i j k, i < out_y.h → j < out_y.w → k < out_y.c →
      r.out_y.data k (out_pos out_y.w i j) = a.act exp (exact_y a in_x i j k) ∧
      r.last_y.data k (out_pos out_y.w i j) = conv_sum a in_x i j k := by
  intro r
  have hr : r = mlsys_convolution sqrt exp in_x out_y a last_x last_y w_norm2 := rfl
  unfold mlsys_convolution at hr
  simp only [he, if_true] at hr
  have h := exact_compute_spec exp a in_x out_y out_y
  rw [hr]
  exact ⟨rfl, calc_w_norm2_spec sqrt a in_x.c out_y.c _, h.1, h.2.2⟩

end TemporalBound

end Conv

namespace Conv

/-- Cauchy-Schwarz step of the temporal bound: the bias-free pre-activation of the new
input exceeds that of the cached input by at most `||W_k|| * ||x_ij - last_x_ij||`. -/
theorem temporal_cs (a : ConvArgs ℝ) (in_x last_x : Mat ℝ) (hw : last_x.w = in_x.w)
    (hc : last_x.c = in_x.c) (i j k : Nat) :
    conv_sum a in_x i j k ≤ conv_sum a last_x i j k
      + Real.sqrt (weight_sq a in_x.c k) * Real.sqrt (temporal_sq a in_x last_x i j) := by
  have hso : a.space_ofs last_x = a.space_ofs in_x := by
    unfold ConvArgs.space_ofs
    rw [hw]
  have hd : conv_sum a in_x i j k - conv_sum a last_x i j k
      = dsum in_x.c a.maxk (fun q t => a.weight in_x.c k q t *
          (patch_at in_x (a.space_ofs in_x) q (row_ptr in_x a.stride_w a.stride_h i j) t
          - patch_at last_x (a.space_ofs in_x) q
              (row_ptr last_x a.stride_w a.stride_h i j) t)) := by
    unfold conv_sum
    rw [hso, hc, ← dsum_sub]
    unfold dsum
    refine Finset.sum_congr rfl (fun q _ => Finset.sum_congr rfl (fun t _ => ?_))
    ring
  have hcs := dsum_mul_le_sqrt in_x.c a.maxk (fun q t => a.weight in_x.c k q t)
    (fun q t =>
      patch_at in_x (a.space_ofs in_x) q (row_ptr in_x a.stride_w a.stride_h i j) t
        - patch_at last_x (a.space_ofs in_x) q (row_ptr last_x a.stride_w a.stride_h i j) t)
  have hcs2 : conv_sum a in_x i j k - conv_sum a last_x i j k
      ≤ Real.sqrt (weight_sq a in_x.c k) * Real.sqrt (temporal_sq a in_x last_x i j) := by
    rw [hd]
    exact hcs
  linarith

/-- One call of `mlsys_convolution` from caches that are empty or satisfy the cache
invariant: the invariant holds afterwards, every cached value bounds the bias-free
pre-activation of the call's input (with equality on an exact branch), and every output
is the activated exact pre-activation or a `0` written where that pre-activation is
non-positive. -/
theorem mlsys_call_sound (exp : ℝ → ℝ) (a : ConvArgs ℝ) (x out : Mat ℝ)
    (s : Mat ℝ × Mat ℝ × Mat ℝ)
    (hgood : s.1.total ≤ 0 ∨ temporal_inv Real.sqrt a x.w x.c out.w out.h out.c s) :
    let r := mlsys_convolution Real.sqrt exp x out a s.1 s.2.1 s.2.2
    temporal_inv Real.sqrt a x.w x.c out.w out.h out.c (r.last_x, r.last_y, r.w_norm2) ∧
    (r.out_y.w = out.w ∧ r.out_y.h = out.h ∧ r.out_y.c = out.c) ∧
    ∀ i j k, i < out.h → j < out.w → k < out.c →
      (mlsys_takes_exact Real.sqrt a x s.1 s.2.1 s.2.2 out.w i j k →
        r.out_y.data k (out_pos out.w i j) = a.act exp (exact_y a x i j k) ∧
        r.last_y.data k (out_pos out.w i j) = conv_sum a x i j k) ∧
      (¬ mlsys_takes_exact Real.sqrt a x s.1 s.2.1 s.2.2 out.w i j k →
        r.out_y.data k (out_pos out.w i j) = 0 ∧ exact_y a x i j k ≤ 0 ∧
        conv_sum a x i j k ≤ r.last_y.data k (out_pos out.w i j)) := by
  intro r
  by_cases he : s.1.total ≤ 0
  · have h := mlsys_first_spec Real.sqrt exp x out a s.1 s.2.1 s.2.2 he
    simp only at h
    obtain ⟨hx, hn, hd, hp⟩ := h
    refine ⟨⟨?_, ?_, ?_, ?_⟩, hd, ?_⟩
    · show r.last_x.w = x.w
      rw [hx]
    · show r.last_x.c = x.c
      rw [hx]
    · exact hn
    · intro i j k hi hj hk
      show conv_sum a r.last_x i j k ≤ r.last_y.data k (out_pos out.w i j)
      rw [hx, (hp i j k hi hj hk).2]
    · intro i j k hi hj hk
      constructor
      · intro _
        exact hp i j k hi hj hk
      · intro hn
        exact absurd (Or.inl he) hn
  · have hinv : temporal_inv Real.sqrt a x.w x.c out.w out.h out.c s := by
      rcases hgood with h | h
      · exact absurd h he
      · exact h
    obtain ⟨hw, hc, hnorm, hbound⟩ := hinv
    have h := mlsys_bound_spec Real.sqrt exp x out a s.1 s.2.1 s.2.2 he
    simp only at h
    obtain ⟨hx, hwn, hd, hp⟩ := h
    have key : ∀ i j k, i < out.h → j < out.w → k < out.c →
        conv_sum a x i j k ≤ s.2.1.data k (out_pos out.w i j)
          + s.2.2.flat k * Real.sqrt (temporal_dx2_sum a x s.1 i j) := by
      intro i j k hi hj hk
      have h1 := temporal_cs a x s.1 hw hc i j k
      have h2 := hbound i j k hi hj hk
      rw [hnorm k hk, temporal_dx2_sum_eq]
      linarith
    have hcases : ∀ i j k, i < out.h → j < out.w → k < out.c →
        (mlsys_takes_exact Real.sqrt a x s.1 s.2.1 s.2.2 out.w i j k →
          r.out_y.data k (out_pos out.w i j) = a.act exp (exact_y a x i j k) ∧
          r.last_y.data k (out_pos out.w i j) = conv_sum a x i j k) ∧
        (¬ mlsys_takes_exact Real.sqrt a x s.1 s.2.1 s.2.2 out.w i j k →
          r.out_y.data k (out_pos out.w i j) = 0 ∧ exact_y a x i j k ≤ 0 ∧
          conv_sum a x i j k ≤ r.last_y.data k (out_pos out.w i j)) := by
      intro i j k hi hj hk
      have h3 := hp i j k hi hj hk
      constructor
      · intro ht
        rcases ht with ht | ht
        · exact absurd ht he
        · exact h3.2 ht
      · intro ht
        have hs : mlsys_skips Real.sqrt a x s.1 s.2.2 i j k
            (s.2.1.data k (out_pos out.w i j)) := by
          by_contra hcon
          exact ht (Or.inr hcon)
        obtain ⟨ho, hl⟩ := h3.1 hs
        refine ⟨ho, ?_, ?_⟩
        · have hk1 := key i j k hi hj hk
          unfold mlsys_skips at hs
          rw [exact_y_eq]
          linarith
        · rw [hl]
          exact key i j k hi hj hk
    refine ⟨⟨?_, ?_, ?_, ?_⟩, hd, hcases⟩
    · show r.last_x.w = x.w
      rw [hx]
    · show r.last_x.c = x.c
      rw [hx]
    · intro k hk
      show r.w_norm2.flat k = _
      rw [hwn]
      exact hnorm k hk
    · intro i j k hi hj hk
      show conv_sum a r.last_x i j k ≤ r.last_y.data k (out_pos out.w i j)
      rw [hx]
      by_cases ht : mlsys_takes_exact Real.sqrt a x s.1 s.2.1 s.2.2 out.w i j k
      · rw [((hcases i j k hi hj hk).1 ht).2]
      · exact ((hcases i j k hi hj hk).2 ht).2.2

/-- The caches left by any sequence of same-shaped calls from empty caches are empty or
satisfy the cache invariant. -/
theorem mlsys_run_good (exp : ℝ → ℝ) (a : ConvArgs ℝ) (W C OW OH OC : Nat)
    (calls : List (Mat ℝ × Mat ℝ))
    (hshape : ∀ c ∈ calls, c.1.w = W ∧ c.1.c = C ∧ c.2.w = OW ∧ c.2.h = OH ∧ c.2.c = OC)
    (s : Mat ℝ × Mat ℝ × Mat ℝ)
    (hgood : s.1.total ≤ 0 ∨ temporal_inv Real.sqrt a W C OW OH OC s) :
    (run_state (mlsys_call Real.sqrt exp a) s calls).1.total ≤ 0 ∨
      temporal_inv Real.sqrt a W C OW OH OC (run_state (mlsys_call Real.sqrt exp a) s calls) := by
  induction calls generalizing s with
  | nil => exact hgood
  | cons c cs ih =>
    unfold run_state
    apply ih (fun c' hc' => hshape c' (List.mem_cons_of_mem _ hc'))
    right
    obtain ⟨h1, h2, h3, h4, h5⟩ := hshape c (List.mem_cons_self _ _)
    have h := (mlsys_call_sound exp a c.1 c.2 s (by rw [h1, h2, h3, h4, h5]; exact hgood)).1
    rw [h1, h2, h3, h4, h5] at h
    exact h

end Conv

namespace Conv

section Forward

variable {α : Type} [LinearOrderedField α]

/-- A successful bound-mode forward call that is not sent to `InnerProduct` is the call of
`mlsys_convolution` on the padded input, the created output and the layer's caches. -/
theorem forward_bound_eq (sqrt exp : α → α) (ext : Externals α) (self : Convolution α)
    (bottom top : Mat α) (hnf : self.is_flattened bottom = false)
    (hret : (Convolution.forward sqrt exp ext self bottom top ⟨true⟩).1 = 0) :
    Convolution.forward sqrt exp ext self bottom top ⟨true⟩
      = (0,
        (mlsys_convolution sqrt exp (self.make_padding ext bottom)
          (self.create_top (self.make_padding ext bottom) top) self.args
          self.record1 self.record2 self.record3).out_y,
        { self with
          record1 := (mlsys_convolution sqrt exp (self.make_padding ext bottom)
            (self.create_top (self.make_padding ext bottom) top) self.args
            self.record1 self.record2 self.record3).last_x,
          record2 := (mlsys_convolution sqrt exp (self.make_padding ext bottom)
            (self.create_top (self.make_padding ext bottom) top) self.args
            self.record1 self.record2 self.record3).last_y,
          record3 := (mlsys_convolution sqrt exp (self.make_padding ext bottom)
            (self.create_top (self.make_padding ext bottom) top) self.args
            self.record1 self.record2 self.record3).w_norm2 }) := by
  unfold Convolution.forward at hret ⊢
  simp only [hnf, Bool.false_eq_true, if_false] at hret ⊢
  by_cases h1 : (self.make_padding ext bottom).empty = true
  · simp [h1] at hret
  · by_cases h2 : (self.create_top (self.make_padding ext bottom) top).empty = true
    · simp [h1, h2] at hret
    · simp [h1, h2]

/-- After `load_param` the cache `record1` (`last_x`) is empty, also after `load_model`. -/
theorem loaded_record1_total (ext : Externals α) (self : Convolution α) (pd : ParamDict α) :
    (Convolution.loaded ext self pd).record1.total = 0 := by
  unfold Convolution.loaded Convolution.load_model Convolution.load_param
  simp only
  split_ifs <;> rfl

theorem exact_y_sub_bias (a : ConvArgs α) (in_x : Mat α) (i j k : Nat) :
    conv_sum a in_x i j k
      = if a.bias_term then exact_y a in_x i j k - a.bias_data.flat k
        else exact_y a in_x i j k := by
  rw [exact_y_eq]
  unfold ConvArgs.y_init
  split_ifs <;> ring

end Forward

end Conv

namespace Conv

/-- The extents of the created output depend only on the extents of the padded input. -/
theorem create_top_dims {α : Type} (self : Convolution α) (b b' t t' : Mat α) (hw : b.w = b'.w)
    (hh : b.h = b'.h) :
    (self.create_top b t).w = (self.create_top b' t').w ∧
    (self.create_top b t).h = (self.create_top b' t').h ∧
    (self.create_top b t).c = (self.create_top b' t').c := by
  unfold Convolution.create_top Mat.create3
  simp [hw, hh]

section ForwardSeq

variable {α : Type} [LinearOrderedField α]

/-- A forward call changes at most the three caches of the layer. -/
theorem forward_layer (sqrt exp : α → α) (ext : Externals α) (self : Convolution α)
    (bottom top : Mat α) (opt : Opt) :
    (Convolution.forward sqrt exp ext self bottom top opt).2.2 = self ∨
    ((self.is_flattened bottom = false ∧ opt.use_reserved_0 = true ∧
      (self.create_top (self.make_padding ext bottom) top).empty = false) ∧
    (Convolution.forward sqrt exp ext self bottom top opt).2.2
      = { self with
          record1 := (mlsys_convolution sqrt exp (self.make_padding ext bottom)
            (self.create_top (self.make_padding ext bottom) top) self.args
            self.record1 self.record2 self.record3).last_x,
          record2 := (mlsys_convolution sqrt exp (self.make_padding ext bottom)
            (self.create_top (self.make_padding ext bottom) top) self.args
            self.record1 self.record2 self.record3).last_y,
          record3 := (mlsys_convolution sqrt exp (self.make_padding ext bottom)
            (self.create_top (self.make_padding ext bottom) top) self.args
            self.record1 self.record2 self.record3).w_norm2 }) := by
  unfold Convolution.forward
  by_cases h0 : self.is_flattened bottom = true
  · left; simp [h0]
  · by_cases h1 : (self.make_padding ext bottom).empty = true
    · left; simp [h0, h1]
    · by_cases h2 : (self.create_top (self.make_padding ext bottom) top).empty = true
      · left; simp [h0, h1, h2]
      · by_cases h3 : opt.use_reserved_0 = true
        · right
          refine ⟨⟨by simpa using h0, h3, by simpa using h2⟩, ?_⟩
          simp [h0, h1, h2, h3]
        · left; simp [h0, h1, h2, h3]

end ForwardSeq

/-- The layers reached by forward calls on same-shaped padded inputs, from a layer whose
caches are empty or satisfy the temporal cache invariant: the configuration is unchanged
and the caches are still empty or satisfy the invariant. -/
theorem forward_state_good (exp : ℝ → ℝ) (ext : Externals ℝ) (self0 : Convolution ℝ)
    (W C OW OH OC : Nat) (calls : List (Mat ℝ × Mat ℝ × Opt))
    (hshape : ∀ c ∈ calls, (self0.make_padding ext c.1).w = W ∧
      (self0.make_padding ext c.1).c = C ∧
      (self0.create_top (self0.make_padding ext c.1) c.2.1).w = OW ∧
      (self0.create_top (self0.make_padding ext c.1) c.2.1).h = OH ∧
      (self0.create_top (self0.make_padding ext c.1) c.2.1).c = OC)
    (self : Convolution ℝ)
    (hcfg : self =
      { self0 with
        record1 := self.record1, record2 := self.record2, record3 := self.record3 })
    (hgood : self.record1.total ≤ 0 ∨
      temporal_inv Real.sqrt self0.args W C OW OH OC
        (self.record1, self.record2, self.record3)) :
    (forward_state Real.sqrt exp ext self calls
      = { self0 with
          record1 := (forward_state Real.sqrt exp ext self calls).record1,
          record2 := (forward_state Real.sqrt exp ext self calls).record2,
          record3 := (forward_state Real.sqrt exp ext self calls).record3 }) ∧
    ((forward_state Real.sqrt exp ext self calls).record1.total ≤ 0 ∨
      temporal_inv Real.sqrt self0.args W C OW OH OC
        ((forward_state Real.sqrt exp ext self calls).record1,
          (forward_state Real.sqrt exp ext self calls).record2,
          (forward_state Real.sqrt exp ext self calls).record3)) := by
  induction calls generalizing self with
  | nil => exact ⟨hcfg, hgood⟩
  | cons c cs ih =>
    unfold forward_state run_state
    have hpad : self.make_padding ext c.1 = self0.make_padding ext c.1 := by
      rw [hcfg]; rfl
    have hargs : self.args = self0.args := by
      rw [hcfg]; rfl
    have htop : self.create_top (self0.make_padding ext c.1) c.2.1
        = self0.create_top (self0.make_padding ext c.1) c.2.1 := by
      rw [hcfg]; rfl
    rcases forward_layer Real.sqrt exp ext self c.1 c.2.1 c.2.2 with h | ⟨_, h⟩
    · have e : (forward_call Real.sqrt exp ext self c).2 = self := h
      rw [e]
      exact ih (fun c' hc' => hshape c' (List.mem_cons_of_mem _ hc')) self hcfg hgood
    · have e : (forward_call Real.sqrt exp ext self c).2 = _ := h
      rw [e]
      apply ih (fun c' hc' => hshape c' (List.mem_cons_of_mem _ hc'))
      · rw [hcfg]
      · right
        obtain ⟨h1, h2, h3, h4, h5⟩ := hshape c (List.mem_cons_self _ _)
        rw [hpad, htop, hargs]
        have hs := (mlsys_call_sound exp self0.args (self0.make_padding ext c.1)
          (self0.create_top (self0.make_padding ext c.1) c.2.1)
          (self.record1, self.record2, self.record3)
          (by rw [h1, h2, h3, h4, h5]; exact hgood)).1
        rw [h1, h2, h3, h4, h5] at hs
        exact hs

end Conv

namespace Conv

/-- The temporal delta of an input against itself is zero. -/
theorem temporal_dx2_sum_self {α : Type} [LinearOrderedField α] (a : ConvArgs α) (x : Mat α)
    (i j : Nat) : temporal_dx2_sum a x x i j = 0 := by
  rw [temporal_dx2_sum_eq]
  unfold temporal_sq dsum
  simp

/-- Replaying the input of a first call: a position whose exact pre-activation is
non-positive takes the skip branch in the second call and is written as `0`, whatever the
activation. -/
theorem mlsys_replay_skip (exp : ℝ → ℝ) (a : ConvArgs ℝ) (x out out' lx ly wn : Mat ℝ)
    (he : lx.total ≤ 0) (hx : ¬ x.total ≤ 0)
    (hd : out'.w = out.w ∧ out'.h = out.h ∧ out'.c = out.c)
    (i j k : Nat) (hi : i < out.h) (hj : j < out.w) (hk : k < out.c)
    (hneg : exact_y a x i j k ≤ 0) :
    (mlsys_convolution Real.sqrt exp x out' a
        (mlsys_convolution Real.sqrt exp x out a lx ly wn).last_x
        (mlsys_convolution Real.sqrt exp x out a lx ly wn).last_y
        (mlsys_convolution Real.sqrt exp x out a lx ly wn).w_norm2).out_y.data k
      (out_pos out.w i j) = 0 := by
  have h1 := mlsys_first_spec Real.sqrt exp x out a lx ly wn he
  simp only at h1
  obtain ⟨hlx, _, _, hp⟩ := h1
  have hne : ¬ (mlsys_convolution Real.sqrt exp x out a lx ly wn).last_x.total ≤ 0 := by
    rw [hlx]; exact hx
  have h2 := mlsys_bound_spec Real.sqrt exp x out' a _ (mlsys_convolution Real.sqrt exp x out a
    lx ly wn).last_y (mlsys_convolution Real.sqrt exp x out a lx ly wn).w_norm2 hne
  simp only at h2
  obtain ⟨_, _, _, hq⟩ := h2
  have h3 := (hq i j k (by rw [hd.2.1]; exact hi) (by rw [hd.1]; exact hj)
    (by rw [hd.2.2]; exact hk)).1
  rw [hd.1] at h3
  apply (h3 _).1
  unfold mlsys_skips
  rw [hlx, temporal_dx2_sum_self, Real.sqrt_zero, mul_zero, add_zero, (hp i j k hi hj hk).2]
  rw [exact_y_eq] at hneg
  linarith

/-- A successful forward call outside the `InnerProduct` path had a non-empty padded input
and a non-empty output. -/
theorem forward_ok_nonempty {α : Type} [LinearOrderedField α] (sqrt exp : α → α)
    (ext : Externals α) (self : Convolution α) (bottom top : Mat α) (opt : Opt)
    (hnf : self.is_flattened bottom = false)
    (hret : (Convolution.forward sqrt exp ext self bottom top opt).1 = 0) :
    (self.make_padding ext bottom).empty = false ∧
    (self.create_top (self.make_padding ext bottom) top).empty = false := by
  unfold Convolution.forward at hret
  simp only [hnf, Bool.false_eq_true, if_false] at hret
  by_cases h1 : (self.make_padding ext bottom).empty = true
  · simp [h1] at hret
  · by_cases h2 : (self.create_top (self.make_padding ext bottom) top).empty = true
    · simp [h1, h2] at hret
    · exact ⟨by simpa using h1, by simpa using h2⟩

/-- The status of a forward call does not depend on the caches. -/
theorem forward_ret_records {α : Type} [LinearOrderedField α] (sqrt exp : α → α)
    (ext : Externals α) (self : Convolution α) (r1 r2 r3 bottom top : Mat α) (opt : Opt) :
    (Convolution.forward sqrt exp ext
        { self with record1 := r1, record2 := r2, record3 := r3 } bottom top opt).1
      = (Convolution.forward sqrt exp ext self bottom top opt).1 := by
  have e1 : ({ self with record1 := r1, record2 := r2, record3 := r3 } :
      Convolution α).is_flattened bottom = self.is_flattened bottom := rfl
  have e2 : ({ self with record1 := r1, record2 := r2, record3 := r3 } :
      Convolution α).make_padding ext bottom = self.make_padding ext bottom := rfl
  have e3 : ∀ b : Mat α, ({ self with record1 := r1, record2 := r2, record3 := r3 } :
      Convolution α).create_top b top = self.create_top b top := fun _ => rfl
  unfold Convolution.forward
  simp only [e1, e2, e3]
  by_cases h0 : self.is_flattened bottom = true
  · simp [h0]
  · by_cases h1 : (self.make_padding ext bottom).empty = true
    · simp [h0, h1]
    · by_cases h2 : (self.create_top (self.make_padding ext bottom) top).empty = true
      · simp [h0, h1, h2]
      · by_cases h3 : opt.use_reserved_0 = true <;> simp [h0, h1, h2, h3]

/-- A successful bound-mode forward call from given caches writes the output of
`mlsys_convolution` run on those caches. -/
theorem forward_bound_records {α : Type} [LinearOrderedField α] (sqrt exp : α → α)
    (ext : Externals α) (self : Convolution α) (r1 r2 r3 bottom top : Mat α)
    (hnf : self.is_flattened bottom = false)
    (hret : (Convolution.forward sqrt exp ext self bottom top ⟨true⟩).1 = 0) :
    (Convolution.forward sqrt exp ext
        { self with record1 := r1, record2 := r2, record3 := r3 } bottom top ⟨true⟩).2.1
      = (mlsys_convolution sqrt exp (self.make_padding ext bottom)
          (self.create_top (self.make_padding ext bottom) top) self.args r1 r2 r3).out_y := by
  have h := forward_bound_eq sqrt exp ext
    ({ self with record1 := r1, record2 := r2, record3 := r3 } : Convolution α) bottom top hnf
    ((forward_ret_records sqrt exp ext self r1 r2 r3 bottom top ⟨true⟩).trans hret)
  rw [h]
  rfl

/-- Replaying the input of a first bound-mode forward call: a position whose exact
pre-activation is non-positive is written as `0` by the second call, whatever the
activation. -/
theorem forward_replay_zero (exp : ℝ → ℝ) (ext : Externals ℝ) (self : Convolution ℝ)
    (bottom top top' : Mat ℝ) (he : self.record1.total ≤ 0)
    (hnf : self.is_flattened bottom = false)
    (hret : (Convolution.forward Real.sqrt exp ext self bottom top ⟨true⟩).1 = 0)
    (i j k : Nat)
    (hi : i < (self.create_top (self.make_padding ext bottom) top).h)
    (hj : j < (self.create_top (self.make_padding ext bottom) top).w)
    (hk : k < (self.create_top (self.make_padding ext bottom) top).c)
    (hneg : exact_y self.args (self.make_padding ext bottom) i j k ≤ 0) :
    (Convolution.forward Real.sqrt exp ext
        (Convolution.forward Real.sqrt exp ext self bottom top ⟨true⟩).2.2 bottom top'
        ⟨true⟩).2.1.data k
      (out_pos (self.create_top (self.make_padding ext bottom) top).w i j) = 0 := by
  have hne := forward_ok_nonempty Real.sqrt exp ext self bottom top ⟨true⟩ hnf hret
  rw [forward_bound_eq Real.sqrt exp ext self bottom top hnf hret]
  simp only
  have hret' : (Convolution.forward Real.sqrt exp ext self bottom top' ⟨true⟩).1 = 0 := by
    have hd := create_top_dims self (self.make_padding ext bottom)
      (self.make_padding ext bottom) top' top rfl rfl
    have hne2 : (self.create_top (self.make_padding ext bottom) top').empty = false := by
      have h2 := hne.2
      unfold Mat.empty Mat.total at h2 ⊢
      rw [hd.1, hd.2.1, hd.2.2]
      exact h2
    unfold Convolution.forward
    simp [hnf, hne.1, hne2]
  rw [forward_bound_records Real.sqrt exp ext self _ _ _ bottom top' hnf hret']
  have hx : ¬ (self.make_padding ext bottom).total ≤ 0 := by
    have h1 := hne.1
    unfold Mat.empty at h1
    simp only [beq_eq_false_iff_ne, ne_eq] at h1
    omega
  exact mlsys_replay_skip exp self.args (self.make_padding ext bottom)
    (self.create_top (self.make_padding ext bottom) top)
    (self.create_top (self.make_padding ext bottom) top') self.record1 self.record2
    self.record3 he hx
    (create_top_dims self (self.make_padding ext bottom) (self.make_padding ext bottom)
      top' top rfl rfl) i j k hi hj hk hneg

/-- Every successful bound-mode forward call, after any sequence of forward calls on
same-shaped padded inputs from empty caches, writes at each position the activated exact
pre-activation, or `0` at a position whose exact pre-activation is non-positive. -/
theorem forward_bound_sound (exp : ℝ → ℝ) (ext : Externals ℝ) (self0 : Convolution ℝ)
    (calls : List (Mat ℝ × Mat ℝ × Opt)) (bottom top : Mat ℝ)
    (hempty : self0.record1.total ≤ 0)
    (hshape : same_padded_shapes ext self0 calls bottom)
    (hnf : self0.is_flattened bottom = false)
    (hret : (Convolution.forward Real.sqrt exp ext
      (forward_state Real.sqrt exp ext self0 calls) bottom top ⟨true⟩).1 = 0)
    (i j k : Nat)
    (hi : i < (self0.create_top (self0.make_padding ext bottom) top).h)
    (hj : j < (self0.create_top (self0.make_padding ext bottom) top).w)
    (hk : k < (self0.create_top (self0.make_padding ext bottom) top).c) :
    (Convolution.forward Real.sqrt exp ext (forward_state Real.sqrt exp ext self0 calls)
        bottom top ⟨true⟩).2.1.data k
        (out_pos (self0.create_top (self0.make_padding ext bottom) top).w i j)
      = self0.args.act exp (exact_y self0.args (self0.make_padding ext bottom) i j k) ∨
    ((Convolution.forward Real.sqrt exp ext (forward_state Real.sqrt exp ext self0 calls)
        bottom top ⟨true⟩).2.1.data k
        (out_pos (self0.create_top (self0.make_padding ext bottom) top).w i j) = 0 ∧
      exact_y self0.args (self0.make_padding ext bottom) i j k ≤ 0) := by
  have hg := forward_state_good exp ext self0 (self0.make_padding ext bottom).w
    (self0.make_padding ext bottom).c
    (self0.create_top (self0.make_padding ext bottom) top).w
    (self0.create_top (self0.make_padding ext bottom) top).h
    (self0.create_top (self0.make_padding ext bottom) top).c calls
    (by
      intro c hc
      obtain ⟨h1, h2, h3⟩ := hshape c hc
      have hd := create_top_dims self0 (self0.make_padding ext c.1)
        (self0.make_padding ext bottom) c.2.1 top h1 h2
      exact ⟨h1, h3, hd.1, hd.2.1, hd.2.2⟩)
    self0 rfl (Or.inl hempty)
  obtain ⟨hcfg, hgood⟩ := hg
  rw [hcfg] at hret ⊢
  have hret0 : (Convolution.forward Real.sqrt exp ext self0 bottom top ⟨true⟩).1 = 0 :=
    (forward_ret_records Real.sqrt exp ext self0 _ _ _ bottom top ⟨true⟩).symm.trans hret
  rw [forward_bound_records Real.sqrt exp ext self0 _ _ _ bottom top hnf hret0]
  have hs := mlsys_call_sound exp self0.args (self0.make_padding ext bottom)
    (self0.create_top (self0.make_padding ext bottom) top)
    ((forward_state Real.sqrt exp ext self0 calls).record1,
      (forward_state Real.sqrt exp ext self0 calls).record2,
      (forward_state Real.sqrt exp ext self0 calls).record3) hgood
  simp only at hs
  obtain ⟨_, _, hp⟩ := hs
  by_cases ht : mlsys_takes_exact Real.sqrt self0.args (self0.make_padding ext bottom)
      (forward_state Real.sqrt exp ext self0 calls).record1
      (forward_state Real.sqrt exp ext self0 calls).record2
      (forward_state Real.sqrt exp ext self0 calls).record3
      (self0.create_top (self0.make_padding ext bottom) top).w i j k
  · left
    exact ((hp i j k hi hj hk).1 ht).1
  · right
    exact ⟨((hp i j k hi hj hk).2 ht).1, ((hp i j k hi hj hk).2 ht).2.1⟩

end Conv

namespace Conv

/-- Closed form of the kernel offset table: entry `t` is the offset of kernel row
`t / kernel_w` and kernel column `t % kernel_w`. -/
theorem make_space_ofs_eq (w : Nat) (kernel_w kernel_h dilation_w dilation_h : Int)
    (hkw : 0 ≤ kernel_w) (t : Nat) (ht : t < kernel_h.toNat * kernel_w.toNat) :
    make_space_ofs w kernel_w kernel_h dilation_w dilation_h t
      = ((t / kernel_w.toNat : Nat) : Int) * ((w : Int) * dilation_h)
        + ((t % kernel_w.toNat : Nat) : Int) * dilation_w := by
  obtain ⟨kw, rfl⟩ := Int.eq_ofNat_of_zero_le hkw
  simp only [Int.toNat_ofNat] at ht ⊢
  unfold make_space_ofs
  simp only [Int.toNat_ofNat]
  have inner : ∀ (r : Nat) (s : (Nat → Int) × Nat × Int),
      s.2.1 = r * kw → s.2.2 = (r : Int) * ((w : Int) * dilation_h) →
      (∀ t, t < r * kw → s.1 t = ((t / kw : Nat) : Int) * ((w : Int) * dilation_h)
        + ((t % kw : Nat) : Int) * dilation_w) →
      ∀ c, c ≤ kw →
        let s1 := forLoop 0 c (fun _ (t : (Nat → Int) × Nat × Int) =>
          (Function.update t.1 t.2.1 t.2.2, t.2.1 + 1, t.2.2 + dilation_w)) s
        s1.2.1 = r * kw + c ∧
        s1.2.2 = (r : Int) * ((w : Int) * dilation_h) + (c : Int) * dilation_w ∧
        ∀ t, t < r * kw + c → s1.1 t = ((t / kw : Nat) : Int) * ((w : Int) * dilation_h)
          + ((t % kw : Nat) : Int) * dilation_w := by
    intro r s h1 h2 h3 c
    induction c with
    | zero =>
      intro _
      simp only [forLoop_of_le (Nat.le_refl 0)]
      refine ⟨by omega, by simp [h2], ?_⟩
      intro t ht
      exact h3 t (by omega)
    | succ c ih =>
      intro hc
      have ih' := ih (by omega)
      simp only at ih' ⊢
      rw [forLoop_succ (Nat.zero_le c)]
      obtain ⟨e1, e2, e3⟩ := ih'
      refine ⟨by simp only [e1]; omega, by simp only [e2]; push_cast; ring, ?_⟩
      intro t ht
      show Function.update _ _ _ t = _
      rw [Function.update_apply]
      simp only [e1, e2]
      by_cases hlt : t = r * kw + c
      · subst hlt
        rw [if_pos rfl]
        have hkpos : 0 < kw := by omega
        have hd : (r * kw + c) / kw = r := by
          rw [Nat.add_comm, Nat.add_mul_div_right _ _ hkpos, Nat.div_eq_of_lt (by omega)]
          omega
        have hm : (r * kw + c) % kw = c := by
          rw [Nat.add_comm, Nat.add_mul_mod_self_right]
          exact Nat.mod_eq_of_lt (by omega)
        rw [hd, hm]
      · rw [if_neg hlt]
        exact e3 t (by omega)
  have outer : ∀ r, r ≤ kernel_h.toNat →
      let s := forLoop 0 r (fun _ (s : (Nat → Int) × Nat × Int) =>
        ((forLoop 0 kw (fun _ (t : (Nat → Int) × Nat × Int) =>
            (Function.update t.1 t.2.1 t.2.2, t.2.1 + 1, t.2.2 + dilation_w)) s).1,
          (forLoop 0 kw (fun _ (t : (Nat → Int) × Nat × Int) =>
            (Function.update t.1 t.2.1 t.2.2, t.2.1 + 1, t.2.2 + dilation_w)) s).2.1,
          (forLoop 0 kw (fun _ (t : (Nat → Int) × Nat × Int) =>
            (Function.update t.1 t.2.1 t.2.2, t.2.1 + 1, t.2.2 + dilation_w)) s).2.2
            + ((w : Int) * dilation_h - (kw : Int) * dilation_w))) (fun _ => 0, 0, 0)
      s.2.1 = r * kw ∧ s.2.2 = (r : Int) * ((w : Int) * dilation_h) ∧
      ∀ t, t < r * kw → s.1 t = ((t / kw : Nat) : Int) * ((w : Int) * dilation_h)
        + ((t % kw : Nat) : Int) * dilation_w := by
    intro r
    induction r with
    | zero =>
      intro _
      simp only [forLoop_of_le (Nat.le_refl 0)]
      refine ⟨by omega, by simp, ?_⟩
      intro t ht
      omega
    | succ r ih =>
      intro hr
      have ih' := ih (by omega)
      simp only at ih' ⊢
      rw [forLoop_succ (Nat.zero_le r)]
      obtain ⟨e1, e2, e3⟩ := ih'
      have hin := inner r _ e1 e2 e3 kw (Nat.le_refl kw)
      simp only at hin
      obtain ⟨f1, f2, f3⟩ := hin
      refine ⟨by rw [f1]; ring, by rw [f2]; push_cast; ring, ?_⟩
      intro t ht
      exact f3 t (by rw [Nat.add_mul] at ht; omega)
  have h := outer kernel_h.toNat (Nat.le_refl _)
  simp only at h
  exact h.2.2 t ht

end Conv

namespace Conv

section Reference

variable {α : Type} [LinearOrderedField α]

theorem sum_range_mul {β : Type} [AddCommMonoid β] (n m : Nat) (f : Nat → β) :
    ∑ t in Finset.range (n * m), f t
      = ∑ r in Finset.range n, ∑ c in Finset.range m, f (r * m + c) := by
  induction n with
  | zero => simp
  | succ n ih =>
    rw [Nat.add_mul, Nat.one_mul, Finset.sum_range_add, ih, Finset.sum_range_succ]

theorem forLoop_tsum {β : Type} [AddCommMonoid β] (g : Nat → Nat → Nat → β) (n m l : Nat)
    (y : β) :
    forLoop 0 n (fun q acc =>
        forLoop 0 m (fun r acc => forLoop 0 l (fun c acc => acc + g q r c) acc) acc) y
      = y + ∑ q in Finset.range n, ∑ r in Finset.range m, ∑ c in Finset.range l, g q r c := by
  induction n with
  | zero => simp [forLoop, loopN]
  | succ n ih =>
    rw [forLoop_succ (Nat.zero_le n), ih, forLoop_dsum, Finset.sum_range_succ, add_assoc]
    rfl

/-- The exact pre-activation of the kernels is the reference pre-activation. -/
theorem exact_y_eq_reference (a : ConvArgs α) (x : Mat α) (hkw : 0 ≤ a.kernel_w)
    (hkh : 0 ≤ a.kernel_h) (i j k : Nat) : exact_y a x i j k = reference_y a x i j k := by
  obtain ⟨kw, hkw'⟩ := Int.eq_ofNat_of_zero_le hkw
  obtain ⟨kh, hkh'⟩ := Int.eq_ofNat_of_zero_le hkh
  have hmaxk : a.maxk = kh * kw := by
    unfold ConvArgs.maxk
    rw [hkw', hkh', ← Int.natCast_mul, Int.toNat_ofNat, Nat.mul_comm]
  rw [exact_y_eq]
  unfold reference_y conv_sum dsum
  rw [forLoop_tsum, hmaxk, hkw', hkh']
  simp only [Int.toNat_ofNat]
  congr 1
  · unfold ConvArgs.y_init ConvArgs.bias_term
    cases a.bias_data.empty <;> simp
  · refine Finset.sum_congr rfl (fun q _ => ?_)
    rw [sum_range_mul]
    refine Finset.sum_congr rfl (fun r hr => Finset.sum_congr rfl (fun c hc => ?_))
    have hr' : r < kh := Finset.mem_range.mp hr
    have hc' : c < kw := Finset.mem_range.mp hc
    have hso : a.space_ofs x (r * kw + c)
        = (r : Int) * ((x.w : Int) * a.dilation_h) + (c : Int) * a.dilation_w := by
      unfold ConvArgs.space_ofs
      rw [make_space_ofs_eq x.w a.kernel_w a.kernel_h a.dilation_w a.dilation_h hkw
        (r * kw + c) (by
          rw [hkw', hkh']
          simp only [Int.toNat_ofNat]
          calc r * kw + c < r * kw + kw := by omega
            _ = (r + 1) * kw := by ring
            _ ≤ kh * kw := Nat.mul_le_mul_right _ hr')]
      rw [hkw']
      simp only [Int.toNat_ofNat]
      have hd : (r * kw + c) / kw = r := by
        rw [Nat.add_comm, Nat.add_mul_div_right _ _ (by omega), Nat.div_eq_of_lt hc']
        omega
      have hm : (r * kw + c) % kw = c := by
        rw [Nat.add_comm, Nat.add_mul_mod_self_right]
        exact Nat.mod_eq_of_lt hc'
      rw [hd, hm]
    unfold patch_at ConvArgs.weight ConvArgs.kptr row_ptr
    rw [hso, hmaxk, hkw', hkh']
    congr 2
    · ring
    · push_cast
      ring

end Reference

end Conv

namespace Conv

/-- The loop nest of the spatial kernels, for an abstract state with an output blob `top`,
the column buffer `col` and the row buffer `row`.  If every step, run on buffers that
bound the pre-activations `pre` of the left and upper neighbours, stores an acceptable
output and a value that bounds the pre-activation of its own position, then every output
is acceptable.  `T` is any further invariant of the state. -/
theorem spatial_loop3 {σ : Type} (H W K : Nat) (pre : Nat → Nat → Nat → ℝ)
    (Ok : Nat → Nat → Nat → ℝ → Prop) (top col row : σ → Mat ℝ)
    (step : Nat → Nat → Nat → σ → σ) (T : Nat → Nat → Nat → σ → Prop)
    (hstep : ∀ i j k s, i < H → j < W → k < K → T i j k s →
      (0 < j → pre i (j - 1) k ≤ (col s).flat k) →
      (0 < i → pre (i - 1) j k ≤ (row s).flat (out_pos K j k)) →
      ∃ out v, top (step i j k s) = (top s).set k (out_pos W i j) out ∧
        col (step i j k s) = (col s).setFlat k v ∧
        row (step i j k s) = (row s).setFlat (out_pos K j k) v ∧
        Ok i j k out ∧ pre i j k ≤ v ∧ T i j (k + 1) (step i j k s))
    (hTk : ∀ i j s, i < H → j < W → T i j K s → T i (j + 1) 0 s)
    (hTj : ∀ i s, i < H → T i W 0 s → T (i + 1) 0 0 s)
    (s0 : σ) (h0 : T 0 0 0 s0) :
    let r := forLoop 0 H (fun i s =>
      forLoop 0 W (fun j s => forLoop 0 K (fun k s => step i j k s) s) s) s0
    ((top r).w = (top s0).w ∧ (top r).h = (top s0).h ∧ (top r).c = (top s0).c) ∧
    (∀ i j k, i < H → j < W → k < K → Ok i j k ((top r).data k (out_pos W i j))) ∧
    T H 0 0 r := by
  intro r
  have h := loop3_inv H W K step
    (fun i j k s =>
      ((top s).w = (top s0).w ∧ (top s).h = (top s0).h ∧ (top s).c = (top s0).c) ∧
      (∀ i' j' k', i' < H → j' < W → k' < K → lex_lt i' j' k' i j k →
        Ok i' j' k' ((top s).data k' (out_pos W i' j'))) ∧
      (∀ k', k' < K → (k' < k → pre i j k' ≤ (col s).flat k') ∧
        (k ≤ k' → 0 < j → pre i (j - 1) k' ≤ (col s).flat k')) ∧
      (∀ j' k', j' < W → k' < K →
        ((j' < j ∨ (j' = j ∧ k' < k)) → pre i j' k' ≤ (row s).flat (out_pos K j' k')) ∧
        (¬ (j' < j ∨ (j' = j ∧ k' < k)) → 0 < i →
          pre (i - 1) j' k' ≤ (row s).flat (out_pos K j' k'))) ∧
      T i j k s)
    (by
      intro i j k s hi hj hk hP
      obtain ⟨hdim, htop, hcol, hrow, hT⟩ := hP
      have hc1 : 0 < j → pre i (j - 1) k ≤ (col s).flat k :=
        fun hj0 => (hcol k hk).2 (Nat.le_refl k) hj0
      have hr1 : 0 < i → pre (i - 1) j k ≤ (row s).flat (out_pos K j k) :=
        fun hi0 => (hrow j k hj hk).2 (by omega) hi0
      obtain ⟨out, v, e1, e2, e3, hok, hv, hT'⟩ := hstep i j k s hi hj hk hT hc1 hr1
      refine ⟨by rw [e1]; simpa using hdim, ?_, ?_, ?_, hT'⟩
      · intro i' j' k' hi' hj' hk' hlt
        rw [e1]
        by_cases hsame : k' = k ∧ out_pos W i' j' = out_pos W i j
        · obtain ⟨hk1, hp1⟩ := hsame
          obtain ⟨hi1, hj1⟩ := out_pos_inj hj' hj hp1
          subst hk1; subst hi1; subst hj1
          rw [Mat.set_data_same]
          exact hok
        · rw [Mat.set_data_ne _ _ _ _ _ _ hsame]
          apply htop i' j' k' hi' hj' hk'
          have hne : ¬ (i' = i ∧ j' = j ∧ k' = k) := by
            rintro ⟨rfl, rfl, rfl⟩
            exact hsame ⟨rfl, rfl⟩
          unfold lex_lt at hlt ⊢
          omega
      · intro k' hk'
        rw [e2]
        by_cases hkk : k' = k
        · subst hkk
          rw [Mat.flat_setFlat_same]
          exact ⟨fun _ => hv, fun h => absurd h (by omega)⟩
        · rw [Mat.flat_setFlat_ne _ _ _ _ (by exact_mod_cast hkk)]
          exact ⟨fun h => (hcol k' hk').1 (by omega), fun h => (hcol k' hk').2 (by omega)⟩
      · intro j' k' hj' hk'
        rw [e3]
        by_cases hsame : out_pos K j' k' = out_pos K j k
        · obtain ⟨hj1, hk1⟩ := out_pos_inj hk' hk hsame
          subst hj1; subst hk1
          rw [Mat.flat_setFlat_same]
          exact ⟨fun _ => hv, fun h => absurd (Or.inr ⟨rfl, Nat.lt_succ_self _⟩) h⟩
        · rw [Mat.flat_setFlat_ne _ _ _ _ hsame]
          have hne : ¬ (j' = j ∧ k' = k) := by
            rintro ⟨rfl, rfl⟩
            exact hsame rfl
          exact ⟨fun h => (hrow j' k' hj' hk').1 (by omega),
            fun h => (hrow j' k' hj' hk').2 (by omega)⟩)
    (by
      intro i j s hi hj hP
      obtain ⟨hdim, htop, hcol, hrow, hT⟩ := hP
      refine ⟨hdim, ?_, ?_, ?_, hTk i j s hi hj hT⟩
      · intro i' j' k' hi' hj' hk' hlt
        apply htop i' j' k' hi' hj' hk'
        unfold lex_lt at hlt ⊢
        omega
      · intro k' hk'
        refine ⟨fun h => absurd h (Nat.not_lt_zero k'), fun _ _ => ?_⟩
        rw [Nat.add_sub_cancel]
        exact (hcol k' hk').1 hk'
      · intro j' k' hj' hk'
        exact ⟨fun h => (hrow j' k' hj' hk').1 (by omega),
          fun h => (hrow j' k' hj' hk').2 (by omega)⟩)
    (by
      intro i s hi hP
      obtain ⟨hdim, htop, hcol, hrow, hT⟩ := hP
      refine ⟨hdim, ?_, ?_, ?_, hTj i s hi hT⟩
      · intro i' j' k' hi' hj' hk' hlt
        apply htop i' j' k' hi' hj' hk'
        unfold lex_lt at hlt ⊢
        omega
      · intro k' _
        exact ⟨fun h => absurd h (Nat.not_lt_zero k'), fun _ h => absurd h (Nat.lt_irrefl 0)⟩
      · intro j' k' hj' hk'
        refine ⟨fun h => absurd h (by omega), fun _ _ => ?_⟩
        rw [Nat.add_sub_cancel]
        exact (hrow j' k' hj' hk').1 (Or.inl hj'))
    s0
    (by
      refine ⟨⟨rfl, rfl, rfl⟩, ?_, ?_, ?_, h0⟩
      · intro i' j' k' _ _ _ hlt
        unfold lex_lt at hlt
        omega
      · intro k' _
        exact ⟨fun h => absurd h (Nat.not_lt_zero k'), fun _ h => absurd h (Nat.lt_irrefl 0)⟩
      · intro j' k' _ _
        exact ⟨fun h => absurd h (by omega), fun _ h => absurd h (Nat.lt_irrefl 0)⟩)
  obtain ⟨hdim, htop, _, _, hT⟩ := h
  refine ⟨hdim, ?_, hT⟩
  intro i j k hi hj hk
  apply htop i j k hi hj hk
  unfold lex_lt
  omega

end Conv

namespace Conv

/-- The pointer of the left neighbour is the pointer of column `j - 1`. -/
theorem row_ptr_pred {α : Type} (x : Mat α) (stride_w stride_h : Int) (i j : Nat) (hj : 0 < j) :
    row_ptr x stride_w stride_h i j - stride_w = row_ptr x stride_w stride_h i (j - 1) := by
  unfold row_ptr
  have : ((j - 1 : Nat) : Int) = (j : Int) - 1 := by omega
  rw [this]
  ring

section SpatialSums

variable {α : Type} [LinearOrderedField α]

theorem col_delta_sum_eq (a : ConvArgs α) (x : Mat α) (i j : Nat) :
    col_delta_sum a x i j = dsum x.c a.maxk (fun q t =>
      (patch_at x (a.space_ofs x) q (row_ptr x a.stride_w a.stride_h i j) t
        - patch_at x (a.space_ofs x) q (row_ptr x a.stride_w a.stride_h i j - a.stride_w) t)
      * (patch_at x (a.space_ofs x) q (row_ptr x a.stride_w a.stride_h i j) t
        - patch_at x (a.space_ofs x) q (row_ptr x a.stride_w a.stride_h i j - a.stride_w) t)) := by
  unfold col_delta_sum
  have h := forLoop_dsum (fun q t =>
    (patch_at x (a.space_ofs x) q (row_ptr x a.stride_w a.stride_h i j) t
      - patch_at x (a.space_ofs x) q (row_ptr x a.stride_w a.stride_h i j - a.stride_w) t)
    * (patch_at x (a.space_ofs x) q (row_ptr x a.stride_w a.stride_h i j) t
      - patch_at x (a.space_ofs x) q (row_ptr x a.stride_w a.stride_h i j - a.stride_w) t))
    x.c a.maxk (0 : α)
  simp only [zero_add] at h
  exact h

theorem row_delta_sum_eq (a : ConvArgs α) (x : Mat α) (i j : Nat) :
    row_delta_sum a x i j = dsum x.c a.maxk (fun q t =>
      (patch_at x (a.space_ofs x) q (row_ptr x a.stride_w a.stride_h i j) t
        - patch_at x (a.space_ofs x) q (row_ptr x a.stride_w a.stride_h (i - 1) j) t)
      * (patch_at x (a.space_ofs x) q (row_ptr x a.stride_w a.stride_h i j) t
        - patch_at x (a.space_ofs x) q (row_ptr x a.stride_w a.stride_h (i - 1) j) t)) := by
  unfold row_delta_sum
  have h := forLoop_dsum (fun q t =>
    (patch_at x (a.space_ofs x) q (row_ptr x a.stride_w a.stride_h i j) t
      - patch_at x (a.space_ofs x) q (row_ptr x a.stride_w a.stride_h (i - 1) j) t)
    * (patch_at x (a.space_ofs x) q (row_ptr x a.stride_w a.stride_h i j) t
      - patch_at x (a.space_ofs x) q (row_ptr x a.stride_w a.stride_h (i - 1) j) t))
    x.c a.maxk (0 : α)
  simp only [zero_add] at h
  exact h

end SpatialSums

/-- Cauchy-Schwarz step shared by all bounds: for patch values `f` and `g` and weights `w`,
`sum f w <= sum g w + ||w|| * ||f - g||`. -/
theorem cs_step (n m : Nat) (w f g : Nat → Nat → ℝ) :
    dsum n m (fun q t => f q t * w q t)
      ≤ dsum n m (fun q t => g q t * w q t)
        + Real.sqrt (dsum n m (fun q t => w q t * w q t))
          * Real.sqrt (dsum n m (fun q t => (f q t - g q t) * (f q t - g q t))) := by
  have hd : dsum n m (fun q t => f q t * w q t) - dsum n m (fun q t => g q t * w q t)
      = dsum n m (fun q t => w q t * (f q t - g q t)) := by
    rw [← dsum_sub]
    unfold dsum
    refine Finset.sum_congr rfl (fun q _ => Finset.sum_congr rfl (fun t _ => ?_))
    ring
  have hcs := dsum_mul_le_sqrt n m w (fun q t => f q t - g q t)
  rw [← hd] at hcs
  linarith

/-- The column bound is sound: the pre-activation of `(i, j)` exceeds that of its left
neighbour by at most `||x_ij - x_i(j-1)|| * ||W_k||`. -/
theorem col_cs (a : ConvArgs ℝ) (x : Mat ℝ) (i j k : Nat) (hj : 0 < j) :
    conv_sum a x i j k ≤ conv_sum a x i (j - 1) k
      + Real.sqrt (col_delta_sum a x i j) * Real.sqrt (weight_sq a x.c k) := by
  rw [col_delta_sum_eq]
  have h := cs_step x.c a.maxk (fun q t => a.weight x.c k q t)
    (fun q t => patch_at x (a.space_ofs x) q (row_ptr x a.stride_w a.stride_h i j) t)
    (fun q t => patch_at x (a.space_ofs x) q
      (row_ptr x a.stride_w a.stride_h i j - a.stride_w) t)
  rw [row_ptr_pred x a.stride_w a.stride_h i j hj] at h ⊢
  unfold conv_sum weight_sq
  linarith

/-- The row bound is sound: the pre-activation of `(i, j)` exceeds that of its upper
neighbour by at most `||x_ij - x_(i-1)j|| * ||W_k||`. -/
theorem row_cs (a : ConvArgs ℝ) (x : Mat ℝ) (i j k : Nat) :
    conv_sum a x i j k ≤ conv_sum a x (i - 1) j k
      + Real.sqrt (row_delta_sum a x i j) * Real.sqrt (weight_sq a x.c k) := by
  rw [row_delta_sum_eq]
  have h := cs_step x.c a.maxk (fun q t => a.weight x.c k q t)
    (fun q t => patch_at x (a.space_ofs x) q (row_ptr x a.stride_w a.stride_h i j) t)
    (fun q t => patch_at x (a.space_ofs x) q (row_ptr x a.stride_w a.stride_h (i - 1) j) t)
  unfold conv_sum weight_sq
  linarith

/-- The decision step of the spatial kernels with sound bounds and ReLU: the output is the
activated exact pre-activation and the value put in both buffers bounds the bias-free
pre-activation. -/
theorem spatial_decide_ok (a : ConvArgs ℝ) (hrelu : a.activation_type = 1) (x : Mat ℝ)
    (nc nr : ℝ) (outw outch i j k : Nat) (s : Mat ℝ × Mat ℝ × Mat ℝ)
    (hc : 0 < j → conv_sum a x i j k ≤ nc) (hr : 0 < i → conv_sum a x i j k ≤ nr) :
    ∃ out v,
      (spatial_decide Real.exp a x nc nr outw outch i j k s).1 = s.1.set k (out_pos outw i j) out ∧
      (spatial_decide Real.exp a x nc nr outw outch i j k s).2.1 = s.2.1.setFlat k v ∧
      (spatial_decide Real.exp a x nc nr outw outch i j k s).2.2
        = s.2.2.setFlat (out_pos outch j k) v ∧
      out = a.act Real.exp (exact_y a x i j k) ∧ conv_sum a x i j k ≤ v ∧ True := by
  have hact : ∀ v : ℝ, a.act Real.exp v = max v 0 := by
    intro v
    unfold ConvArgs.act activation_ss
    rw [if_pos hrelu]
  have hm : (i ≠ 0 ∨ j ≠ 0) → conv_sum a x i j k
      ≤ (if i ≠ 0 then (if j ≠ 0 then min nr nc else nr) else nc) := by
    intro h
    split_ifs with h1 h2
    · exact le_min (hr (Nat.pos_of_ne_zero h1)) (hc (Nat.pos_of_ne_zero h2))
    · exact hr (Nat.pos_of_ne_zero h1)
    · rcases h with h | h
      · exact absurd h h1
      · exact hc (Nat.pos_of_ne_zero h)
  unfold spatial_decide
  simp only
  by_cases hs : (i ≠ 0 ∨ j ≠ 0)
      ∧ (if i ≠ 0 then (if j ≠ 0 then min nr nc else nr) else nc) + a.y_init k ≤ 0
  · rw [if_pos hs]
    refine ⟨0, _, rfl, rfl, rfl, ?_, hm hs.1, trivial⟩
    rw [hact, exact_y_eq, max_eq_right (by linarith [hs.2, hm hs.1])]
  · rw [if_neg hs]
    refine ⟨a.act Real.exp (exact_y a x i j k), conv_sum a x i j k, rfl, ?_, ?_, rfl,
      le_refl _, trivial⟩
    · simp only [Mat.flat_setFlat_same, Mat.setFlat_setFlat, exact_y_eq]
      congr 1
      ring
    · simp only [Mat.flat_setFlat_same, Mat.setFlat_setFlat, exact_y_eq]
      congr 1
      ring

/-- The kernel `spatial_convolution` under ReLU, with `w_norm2` empty or holding the filter
norms: whatever the buffers hold on entry, every output is the activated exact
pre-activation. -/
theorem spatial_convolution_spec (a : ConvArgs ℝ) (hrelu : a.activation_type = 1)
    (x top w_norm2 col row : Mat ℝ) (ct : ℝ)
    (hn : w_norm2.total ≤ 0 ∨ ∀ k, k < top.c → w_norm2.flat k = Real.sqrt (weight_sq a x.c k)) :
    let r := spatial_convolution Real.sqrt Real.exp x top a w_norm2 col row ct
    (r.top_blob.w = top.w ∧ r.top_blob.h = top.h ∧ r.top_blob.c = top.c) ∧
    ∀ i j k, i < top.h → j < top.w → k < top.c →
      r.top_blob.data k (out_pos top.w i j) = a.act Real.exp (exact_y a x i j k) := by
  intro r
  have hwn : ∀ k, k < top.c →
      (if w_norm2.total ≤ 0 then
        (calc_w_norm2 Real.sqrt a x.c top.c (w_norm2.create1 top.c), col.create1 top.c,
          row.create2 top.c top.w)
        else (w_norm2, col, row)).1.flat k = Real.sqrt (weight_sq a x.c k) := by
    intro k hk
    split_ifs with h
    · exact calc_w_norm2_spec Real.sqrt a x.c top.c _ k hk
    · rcases hn with hn | hn
      · exact absurd hn h
      · exact hn k hk
  have h := spatial_loop3 top.h top.w top.c (fun i j k => conv_sum a x i j k)
    (fun i j k v => v = a.act Real.exp (exact_y a x i j k))
    (fun s : Mat ℝ × Mat ℝ × Mat ℝ => s.1) (fun s => s.2.1) (fun s => s.2.2)
    (fun i j k s => spatial_step Real.exp a x
      (if w_norm2.total ≤ 0 then
        (calc_w_norm2 Real.sqrt a x.c top.c (w_norm2.create1 top.c), col.create1 top.c,
          row.create2 top.c top.w)
        else (w_norm2, col, row)).1
      (if j ≠ 0 then Real.sqrt (col_delta_sum a x i j) else 0)
      (if i ≠ 0 then Real.sqrt (row_delta_sum a x i j) else 0) top.w top.c i j k s)
    (fun _ _ _ _ => True)
    (by
      intro i j k s hi hj hk _ hc1 hr1
      unfold spatial_step
      simp only
      apply spatial_decide_ok a hrelu x
      · intro hj0
        rw [if_pos (Nat.pos_iff_ne_zero.mp hj0), hwn k hk]
        have := col_cs a x i j k hj0
        have := hc1 hj0
        linarith
      · intro hi0
        rw [if_pos (Nat.pos_iff_ne_zero.mp hi0), hwn k hk]
        have := row_cs a x i j k
        have := hr1 hi0
        linarith)
    (fun _ _ _ _ _ _ => trivial) (fun _ _ _ _ => trivial)
    (top, (if w_norm2.total ≤ 0 then
        (calc_w_norm2 Real.sqrt a x.c top.c (w_norm2.create1 top.c), col.create1 top.c,
          row.create2 top.c top.w)
        else (w_norm2, col, row)).2.1,
      (if w_norm2.total ≤ 0 then
        (calc_w_norm2 Real.sqrt a x.c top.c (w_norm2.create1 top.c), col.create1 top.c,
          row.create2 top.c top.w)
        else (w_norm2, col, row)).2.2)
    trivial
  exact ⟨h.1, h.2.1⟩

end Conv

namespace Conv

section FirstOneSums

variable {α : Type} [LinearOrderedField α]

/-- A summation loop from `lo` whose state carries a second component unchanged. -/
theorem forLoop_sum_fst {γ : Type} (g : Nat → α) (lo : Nat) (n : Nat) (s : α × γ) :
    forLoop lo (lo + n) (fun t (s : α × γ) => (s.1 + g t, s.2)) s
      = (s.1 + ∑ t in Finset.range n, g (lo + t), s.2) := by
  induction n with
  | zero => simp [forLoop_of_le (Nat.le_refl lo)]
  | succ n ih =>
    rw [← Nat.add_assoc, forLoop_succ (Nat.le_add_right lo n), ih, Finset.sum_range_succ,
      add_assoc]

/-- Zeroing the first entry of a patch function lowers the patch sum by that entry. -/
theorem dsum_zero_first (n m : Nat) (hn : 0 < n) (hm : 0 < m) (F : Nat → Nat → α) :
    dsum n m (fun q t => if q = 0 ∧ t = 0 then 0 else F q t) = dsum n m F - F 0 0 := by
  obtain ⟨n', rfl⟩ := Nat.exists_eq_succ_of_ne_zero (Nat.pos_iff_ne_zero.mp hn)
  obtain ⟨m', rfl⟩ := Nat.exists_eq_succ_of_ne_zero (Nat.pos_iff_ne_zero.mp hm)
  unfold dsum
  rw [Finset.sum_range_succ', Finset.sum_range_succ' (fun q => ∑ t in Finset.range (m' + 1), F q t)]
  rw [Finset.sum_range_succ' (fun t => if (0 : Nat) = 0 ∧ t = 0 then 0 else F 0 t),
    Finset.sum_range_succ' (fun t => F 0 t)]
  simp
  ring

/-- Loops that peel off the first element of the first channel, recording it, compute the
full sum of squares. -/
theorem peeled_loops (D : Nat → Nat → α) (n m : Nat) (hn : 0 < n) (hm : 0 < m) :
    forLoop 1 n (fun q (s : α × α) =>
        forLoop 0 m (fun t (s : α × α) => (s.1 + D q t * D q t, s.2)) s)
      (forLoop 1 m (fun t (s : α × α) => (s.1 + D 0 t * D 0 t, s.2))
        (0 + D 0 0 * D 0 0, D 0 0))
      = (dsum n m (fun q t => D q t * D q t), D 0 0) := by
  obtain ⟨n', rfl⟩ := Nat.exists_eq_succ_of_ne_zero (Nat.pos_iff_ne_zero.mp hn)
  obtain ⟨m', rfl⟩ := Nat.exists_eq_succ_of_ne_zero (Nat.pos_iff_ne_zero.mp hm)
  have e1 : m'.succ = 1 + m' := by omega
  have e2 : n'.succ = 1 + n' := by omega
  have h1 := forLoop_sum_fst (γ := α) (fun t => D 0 t * D 0 t) 1 m' (0 + D 0 0 * D 0 0, D 0 0)
  have h2 : ∀ (k : Nat) (s : α × α),
      forLoop 1 (1 + k) (fun q (s : α × α) =>
        forLoop 0 (1 + m') (fun t (s : α × α) => (s.1 + D q t * D q t, s.2)) s) s
      = (s.1 + ∑ q in Finset.range k, ∑ t in Finset.range (1 + m'),
          D (1 + q) t * D (1 + q) t, s.2) := by
    intro k s
    induction k with
    | zero => simp [forLoop_of_le (Nat.le_refl 1)]
    | succ k ih =>
      rw [← Nat.add_assoc, forLoop_succ (Nat.le_add_right 1 k), ih]
      have h0 := forLoop_sum_fst (γ := α) (fun t => D (1 + k) t * D (1 + k) t) 0 (1 + m')
      simp only [Nat.zero_add] at h0
      rw [h0, Finset.sum_range_succ, add_assoc]
  rw [e1, e2, h1, h2]
  unfold dsum
  rw [Nat.add_comm 1 n', Nat.add_comm 1 m', Finset.sum_range_succ' _ n',
    Finset.sum_range_succ' _ m']
  simp only [Nat.add_comm 1, zero_add]
  congr 1
  ring

end FirstOneSums

end Conv

namespace Conv

theorem weight_zero {α : Type} (a : ConvArgs α) (inch k : Nat) :
    a.weight_data.flat (a.kptr inch k) = a.weight inch k 0 0 := by
  unfold ConvArgs.weight
  simp

section FirstOneNorms

variable {α : Type} [LinearOrderedField α]

/-- After the norm block of the first-one kernel, entry `k` of `w_norm2` is the filter norm
and entry `k` of `w_norm2_lower` the norm without the first weight. -/
theorem calc_w_norm2_first_one_spec (sqrt : α → α) (a : ConvArgs α) (inch outch : Nat)
    (s : Mat α × Mat α) :
    ∀ k, k < outch →
      (calc_w_norm2_first_one sqrt a inch outch s).1.flat k = sqrt (weight_sq a inch k) ∧
      (calc_w_norm2_first_one sqrt a inch outch s).2.flat k
        = sqrt (weight_sq a inch k - a.weight inch k 0 0 * a.weight inch k 0 0) := by
  unfold calc_w_norm2_first_one
  have hstep : ∀ (k : Nat) (s : Mat α × Mat α),
      (fun k (s : Mat α × Mat α) =>
        ((norm_accumulate a.weight_data inch a.maxk k (a.kptr inch k) (s.1.setFlat k 0)).setFlat k
          (sqrt ((norm_accumulate a.weight_data inch a.maxk k (a.kptr inch k)
            (s.1.setFlat k 0)).flat k)),
        (s.2.setFlat k (a.weight_data.flat (a.kptr inch k)
            * a.weight_data.flat (a.kptr inch k))).setFlat k
          (sqrt ((norm_accumulate a.weight_data inch a.maxk k (a.kptr inch k)
              (s.1.setFlat k 0)).flat k
            - (s.2.setFlat k (a.weight_data.flat (a.kptr inch k)
                * a.weight_data.flat (a.kptr inch k))).flat k)))) k s
      = (s.1.setFlat k (sqrt (weight_sq a inch k)),
        s.2.setFlat k (sqrt (weight_sq a inch k
          - a.weight inch k 0 0 * a.weight inch k 0 0))) := by
    intro k s
    simp only
    rw [norm_accumulate_eq, Mat.flat_setFlat_same, Mat.setFlat_setFlat, Mat.flat_setFlat_same,
      Mat.setFlat_setFlat, zero_add, weight_zero]
    rfl
  have h := forLoop_inv
    (fun n (s : Mat α × Mat α) => ∀ k, k < n →
      s.1.flat k = sqrt (weight_sq a inch k) ∧
      s.2.flat k = sqrt (weight_sq a inch k - a.weight inch k 0 0 * a.weight inch k 0 0))
    (Nat.zero_le outch)
    (fun k (s : Mat α × Mat α) =>
        ((norm_accumulate a.weight_data inch a.maxk k (a.kptr inch k) (s.1.setFlat k 0)).setFlat k
          (sqrt ((norm_accumulate a.weight_data inch a.maxk k (a.kptr inch k)
            (s.1.setFlat k 0)).flat k)),
        (s.2.setFlat k (a.weight_data.flat (a.kptr inch k)
            * a.weight_data.flat (a.kptr inch k))).setFlat k
          (sqrt ((norm_accumulate a.weight_data inch a.maxk k (a.kptr inch k)
              (s.1.setFlat k 0)).flat k
            - (s.2.setFlat k (a.weight_data.flat (a.kptr inch k)
                * a.weight_data.flat (a.kptr inch k))).flat k))))
    s (fun k hk => absurd hk (Nat.not_lt_zero k))
    (by
      intro n s _ _ hP k hk
      rw [hstep]
      by_cases hkn : k = n
      · subst hkn
        simp
      · rw [Mat.flat_setFlat_ne _ _ _ _ (by exact_mod_cast hkn),
          Mat.flat_setFlat_ne _ _ _ _ (by exact_mod_cast hkn)]
        exact hP k (by omega))
  exact h

end FirstOneNorms

/-- Refined Cauchy-Schwarz step of the first-one bound: the first element of the patch is
taken exactly, the rest is bounded with the norm of the filter without its first weight. -/
theorem cs_refined (n m : Nat) (hn : 0 < n) (hm : 0 < m) (w f g : Nat → Nat → ℝ) :
    dsum n m (fun q t => f q t * w q t)
      ≤ dsum n m (fun q t => g q t * w q t)
        + Real.sqrt (dsum n m (fun q t => w q t * w q t) - w 0 0 * w 0 0)
          * Real.sqrt (dsum n m (fun q t => (f q t - g q t) * (f q t - g q t)))
        + (f 0 0 - g 0 0) * w 0 0 := by
  have hd : dsum n m (fun q t => f q t * w q t) - dsum n m (fun q t => g q t * w q t)
      = dsum n m (fun q t => w q t * (f q t - g q t)) := by
    rw [← dsum_sub]
    unfold dsum
    refine Finset.sum_congr rfl (fun q _ => Finset.sum_congr rfl (fun t _ => ?_))
    ring
  have hz := dsum_zero_first n m hn hm (fun q t => w q t * (f q t - g q t))
  have hzw := dsum_zero_first n m hn hm (fun q t => w q t * w q t)
  have hzd := dsum_zero_first n m hn hm (fun q t => (f q t - g q t) * (f q t - g q t))
  have hcs := dsum_mul_le_sqrt n m (fun q t => if q = 0 ∧ t = 0 then 0 else w q t)
    (fun q t => if q = 0 ∧ t = 0 then 0 else f q t - g q t)
  have e1 : dsum n m (fun q t => (if q = 0 ∧ t = 0 then 0 else w q t)
      * (if q = 0 ∧ t = 0 then 0 else f q t - g q t))
      = dsum n m (fun q t => if q = 0 ∧ t = 0 then 0 else w q t * (f q t - g q t)) := by
    unfold dsum
    refine Finset.sum_congr rfl (fun q _ => Finset.sum_congr rfl (fun t _ => ?_))
    by_cases hqt : q = 0 ∧ t = 0 <;> simp [hqt]
  have e2 : dsum n m (fun q t => (if q = 0 ∧ t = 0 then 0 else w q t)
      * (if q = 0 ∧ t = 0 then 0 else w q t))
      = dsum n m (fun q t => if q = 0 ∧ t = 0 then 0 else w q t * w q t) := by
    unfold dsum
    refine Finset.sum_congr rfl (fun q _ => Finset.sum_congr rfl (fun t _ => ?_))
    by_cases hqt : q = 0 ∧ t = 0 <;> simp [hqt]
  have e3 : dsum n m (fun q t => (if q = 0 ∧ t = 0 then 0 else f q t - g q t)
      * (if q = 0 ∧ t = 0 then 0 else f q t - g q t))
      = dsum n m (fun q t => if q = 0 ∧ t = 0 then 0
          else (f q t - g q t) * (f q t - g q t)) := by
    unfold dsum
    refine Finset.sum_congr rfl (fun q _ => Finset.sum_congr rfl (fun t _ => ?_))
    by_cases hqt : q = 0 ∧ t = 0 <;> simp [hqt]
  rw [e1, e2, e3, hz, hzw, hzd] at hcs
  have hmono : Real.sqrt (dsum n m (fun q t => (f q t - g q t) * (f q t - g q t))
      - (f 0 0 - g 0 0) * (f 0 0 - g 0 0))
      ≤ Real.sqrt (dsum n m (fun q t => (f q t - g q t) * (f q t - g q t))) :=
    Real.sqrt_le_sqrt (by linarith [mul_self_nonneg (f 0 0 - g 0 0)])
  have hnn : 0 ≤ Real.sqrt (dsum n m (fun q t => w q t * w q t) - w 0 0 * w 0 0) :=
    Real.sqrt_nonneg _
  have := mul_le_mul_of_nonneg_left hmono hnn
  linarith

end Conv

namespace Conv

section Fused

variable {α : Type} [LinearOrderedField α]

/-- Three accumulations fused in one loop, the second and third under fixed conditions. -/
theorem forLoop_sum3 (A B C : Nat → α) (c1 c2 : Prop) [Decidable c1] [Decidable c2] (m : Nat)
    (s : α × α × α) :
    forLoop 0 m (fun t (s : α × α × α) =>
        (s.1 + A t, (if c1 then s.2.1 + B t else s.2.1),
          (if c2 then s.2.2 + C t else s.2.2))) s
      = (s.1 + ∑ t in Finset.range m, A t,
          (if c1 then s.2.1 + ∑ t in Finset.range m, B t else s.2.1),
          (if c2 then s.2.2 + ∑ t in Finset.range m, C t else s.2.2)) := by
  induction m with
  | zero =>
    rw [forLoop_of_le (Nat.le_refl 0)]
    by_cases h1 : c1 <;> by_cases h2 : c2 <;> simp [h1, h2]
  | succ m ih =>
    rw [forLoop_succ (Nat.zero_le m), ih]
    by_cases h1 : c1 <;> by_cases h2 : c2 <;>
      simp [h1, h2, Finset.sum_range_succ, add_assoc]

theorem forLoop_dsum3 (A B C : Nat → Nat → α) (c1 c2 : Prop) [Decidable c1] [Decidable c2]
    (n m : Nat) (s : α × α × α) :
    forLoop 0 n (fun q (s : α × α × α) =>
        forLoop 0 m (fun t (s : α × α × α) =>
          (s.1 + A q t, (if c1 then s.2.1 + B q t else s.2.1),
            (if c2 then s.2.2 + C q t else s.2.2))) s) s
      = (s.1 + dsum n m A,
          (if c1 then s.2.1 + dsum n m B else s.2.1),
          (if c2 then s.2.2 + dsum n m C else s.2.2)) := by
  induction n with
  | zero =>
    rw [forLoop_of_le (Nat.le_refl 0)]
    by_cases h1 : c1 <;> by_cases h2 : c2 <;> simp [h1, h2, dsum]
  | succ n ih =>
    rw [forLoop_succ (Nat.zero_le n), ih, forLoop_sum3]
    unfold dsum
    by_cases h1 : c1 <;> by_cases h2 : c2 <;>
      simp [h1, h2, Finset.sum_range_succ, add_assoc]

/-- The fused delta loops of `temporal_spatial_convolution` compute the three squared
deltas. -/
theorem fused_delta_sums_eq (a : ConvArgs α) (x last_x : Mat α) (i j : Nat) :
    fused_delta_sums a x last_x i j
      = (temporal_sq a x last_x i j,
          (if i ≠ 0 then row_delta_sum a x i j else 0),
          (if j ≠ 0 then col_delta_sum a x i j else 0)) := by
  unfold fused_delta_sums
  have h := forLoop_dsum3
    (fun q t =>
      (patch_at last_x (a.space_ofs x) q (row_ptr last_x a.stride_w a.stride_h i j) t
        - patch_at x (a.space_ofs x) q (row_ptr x a.stride_w a.stride_h i j) t)
      * (patch_at last_x (a.space_ofs x) q (row_ptr last_x a.stride_w a.stride_h i j) t
        - patch_at x (a.space_ofs x) q (row_ptr x a.stride_w a.stride_h i j) t))
    (fun q t =>
      (patch_at x (a.space_ofs x) q (row_ptr x a.stride_w a.stride_h (i - 1) j) t
        - patch_at x (a.space_ofs x) q (row_ptr x a.stride_w a.stride_h i j) t)
      * (patch_at x (a.space_ofs x) q (row_ptr x a.stride_w a.stride_h (i - 1) j) t
        - patch_at x (a.space_ofs x) q (row_ptr x a.stride_w a.stride_h i j) t))
    (fun q t =>
      (patch_at x (a.space_ofs x) q (row_ptr x a.stride_w a.stride_h i j - a.stride_w) t
        - patch_at x (a.space_ofs x) q (row_ptr x a.stride_w a.stride_h i j) t)
      * (patch_at x (a.space_ofs x) q (row_ptr x a.stride_w a.stride_h i j - a.stride_w) t
        - patch_at x (a.space_ofs x) q (row_ptr x a.stride_w a.stride_h i j) t))
    (i ≠ 0) (j ≠ 0) x.c a.maxk (0, 0, 0)
  simp only at h
  rw [h, row_delta_sum_eq, col_delta_sum_eq]
  unfold temporal_sq
  simp only [zero_add, dsum]
  refine Prod.ext ?_ (Prod.ext ?_ ?_)
  · simp only
    refine Finset.sum_congr rfl (fun q _ => Finset.sum_congr rfl (fun t _ => ?_))
    ring
  · simp only
    split_ifs
    · refine Finset.sum_congr rfl (fun q _ => Finset.sum_congr rfl (fun t _ => ?_))
      ring
    · rfl
  · simp only
    split_ifs
    · refine Finset.sum_congr rfl (fun q _ => Finset.sum_congr rfl (fun t _ => ?_))
      ring
    · rfl

end Fused

end Conv

namespace Conv

/-- The candidate of `temporal_spatial_convolution` built from sound bounds is sound. -/
theorem ts_candidate_sound (i j : Nat) (pre vl vc vr wn dx dc dr : ℝ)
    (ht : pre ≤ vl + wn * dx) (hc : 0 < j → pre ≤ vc + dc * wn)
    (hr : 0 < i → pre ≤ vr + dr * wn) :
    pre ≤ ts_candidate i j vl vc vr wn dx dc dr := by
  unfold ts_candidate
  simp only
  split_ifs with h1 h2 h2
  · exact le_min (le_min ht (hc (Nat.pos_of_ne_zero h2))) (hr (Nat.pos_of_ne_zero h1))
  · exact le_min ht (hr (Nat.pos_of_ne_zero h1))
  · exact le_min ht (hc (Nat.pos_of_ne_zero h2))
  · exact ht

/-- One step of the bound branch of `temporal_spatial_convolution` under ReLU, run on a
cache and buffers that bound the relevant pre-activations. -/
theorem ts_step_ok (a : ConvArgs ℝ) (hrelu : a.activation_type = 1) (x last_x w_norm2 : Mat ℝ)
    (hw : last_x.w = x.w) (hc : last_x.c = x.c) (outw outch i j k : Nat) (s : TSState ℝ)
    (hwn : w_norm2.flat k = Real.sqrt (weight_sq a x.c k))
    (hl : conv_sum a last_x i j k ≤ s.last_y.data k (out_pos outw i j))
    (hc1 : 0 < j → conv_sum a x i (j - 1) k ≤ s.last_y_col.flat k)
    (hr1 : 0 < i → conv_sum a x (i - 1) j k ≤ s.last_y_row.flat (out_pos outch j k)) :
    ∃ out v,
      ts_step Real.exp a x w_norm2 (Real.sqrt (fused_delta_sums a x last_x i j).1)
          (if j ≠ 0 then Real.sqrt (fused_delta_sums a x last_x i j).2.2
            else (fused_delta_sums a x last_x i j).2.2)
          (if i ≠ 0 then Real.sqrt (fused_delta_sums a x last_x i j).2.1
            else (fused_delta_sums a x last_x i j).2.1) outw outch i j k s
        = { top_blob := s.top_blob.set k (out_pos outw i j) out,
            last_y := s.last_y.set k (out_pos outw i j) v,
            last_y_col := s.last_y_col.setFlat k v,
            last_y_row := s.last_y_row.setFlat (out_pos outch j k) v } ∧
      out = a.act Real.exp (exact_y a x i j k) ∧ conv_sum a x i j k ≤ v := by
  have hact : ∀ v : ℝ, a.act Real.exp v = max v 0 := by
    intro v
    unfold ConvArgs.act activation_ss
    rw [if_pos hrelu]
  have hcand : conv_sum a x i j k ≤
      ts_candidate i j (s.last_y.data k (out_pos outw i j)) (s.last_y_col.flat k)
        (s.last_y_row.flat (out_pos outch j k)) (w_norm2.flat k)
        (Real.sqrt (fused_delta_sums a x last_x i j).1)
        (if j ≠ 0 then Real.sqrt (fused_delta_sums a x last_x i j).2.2
          else (fused_delta_sums a x last_x i j).2.2)
        (if i ≠ 0 then Real.sqrt (fused_delta_sums a x last_x i j).2.1
          else (fused_delta_sums a x last_x i j).2.1) := by
    apply ts_candidate_sound
    · rw [fused_delta_sums_eq, hwn]
      have := temporal_cs a x last_x hw hc i j k
      linarith
    · intro hj0
      have hj1 : j ≠ 0 := Nat.pos_iff_ne_zero.mp hj0
      rw [fused_delta_sums_eq, hwn]
      simp only [if_pos hj1]
      have := col_cs a x i j k hj0
      have := hc1 hj0
      linarith
    · intro hi0
      have hi1 : i ≠ 0 := Nat.pos_iff_ne_zero.mp hi0
      rw [fused_delta_sums_eq, hwn]
      simp only [if_pos hi1]
      have := row_cs a x i j k
      have := hr1 hi0
      linarith
  generalize (if j ≠ 0 then Real.sqrt (fused_delta_sums a x last_x i j).2.2
    else (fused_delta_sums a x last_x i j).2.2) = dc at hcand ⊢
  generalize (if i ≠ 0 then Real.sqrt (fused_delta_sums a x last_x i j).2.1
    else (fused_delta_sums a x last_x i j).2.1) = dr at hcand ⊢
  unfold ts_step
  simp only
  by_cases hs : ts_candidate i j (s.last_y.data k (out_pos outw i j)) (s.last_y_col.flat k)
      (s.last_y_row.flat (out_pos outch j k)) (w_norm2.flat k)
      (Real.sqrt (fused_delta_sums a x last_x i j).1) dc dr + a.y_init k ≤ 0
  · rw [if_pos hs]
    refine ⟨0, _, rfl, ?_, hcand⟩
    rw [hact, exact_y_eq, max_eq_right (by linarith)]
  · rw [if_neg hs]
    refine ⟨_, conv_sum a x i j k, ?_, rfl, le_refl _⟩
    rw [← exact_y_sub_bias]

/-- The bound branch of `temporal_spatial_convolution` under ReLU from caches that satisfy
the cache invariant: every output is the activated exact pre-activation and the invariant
holds for the new input. -/
theorem ts_bound_spec (a : ConvArgs ℝ) (hrelu : a.activation_type = 1)
    (x top last_x last_y w_norm2 col row : Mat ℝ) (hne : ¬ last_x.total ≤ 0)
    (hinv : temporal_inv Real.sqrt a x.w x.c top.w top.h top.c (last_x, last_y, w_norm2)) :
    let r := temporal_spatial_convolution Real.sqrt Real.exp x top a last_x last_y w_norm2 col
      row
    r.last_x = x ∧ r.w_norm2 = w_norm2 ∧
    (r.top_blob.w = top.w ∧ r.top_blob.h = top.h ∧ r.top_blob.c = top.c) ∧
    (∀ i j k, i < top.h → j < top.w → k < top.c →
      r.top_blob.data k (out_pos top.w i j) = a.act Real.exp (exact_y a x i j k)) ∧
    ∀ i j k, i < top.h → j < top.w → k < top.c →
      conv_sum a x i j k ≤ r.last_y.data k (out_pos top.w i j) := by
  intro r
  obtain ⟨hw, hc, hnorm, hbound⟩ := hinv
  simp only at hw hc hnorm hbound
  have hr : r = temporal_spatial_convolution Real.sqrt Real.exp x top a last_x last_y w_norm2
    col row := rfl
  unfold temporal_spatial_convolution at hr
  simp only [hne, if_false] at hr
  have h := spatial_loop3 top.h top.w top.c (fun i j k => conv_sum a x i j k)
    (fun i j k v => v = a.act Real.exp (exact_y a x i j k))
    (fun s : TSState ℝ => s.top_blob) (fun s => s.last_y_col) (fun s => s.last_y_row)
    (fun i j k s => ts_step Real.exp a x w_norm2
      (Real.sqrt (fused_delta_sums a x last_x i j).1)
      (if j ≠ 0 then Real.sqrt (fused_delta_sums a x last_x i j).2.2
        else (fused_delta_sums a x last_x i j).2.2)
      (if i ≠ 0 then Real.sqrt (fused_delta_sums a x last_x i j).2.1
        else (fused_delta_sums a x last_x i j).2.1) top.w top.c i j k s)
    (fun i j k s => ∀ i' j' k', i' < top.h → j' < top.w → k' < top.c →
      (lex_lt i' j' k' i j k → conv_sum a x i' j' k' ≤ s.last_y.data k' (out_pos top.w i' j')) ∧
      (¬ lex_lt i' j' k' i j k →
        conv_sum a last_x i' j' k' ≤ s.last_y.data k' (out_pos top.w i' j')))
    (by
      intro i j k s hi hj hk hT hc1 hr1
      have hl := (hT i j k hi hj hk).2 (by unfold lex_lt; omega)
      obtain ⟨out, v, e, hout, hv⟩ := ts_step_ok a hrelu x last_x w_norm2 hw hc top.w top.c
        i j k s (hnorm k hk) hl hc1 hr1
      refine ⟨out, v, by simp only [e], by simp only [e], by simp only [e], hout, hv, ?_⟩
      intro i' j' k' hi' hj' hk'
      simp only [e]
      by_cases hsame : k' = k ∧ out_pos top.w i' j' = out_pos top.w i j
      · obtain ⟨hk1, hp1⟩ := hsame
        obtain ⟨hi1, hj1⟩ := out_pos_inj hj' hj hp1
        subst hk1; subst hi1; subst hj1
        rw [Mat.set_data_same]
        exact ⟨fun _ => hv, fun hn => absurd (by unfold lex_lt; omega) hn⟩
      · rw [Mat.set_data_ne _ _ _ _ _ _ hsame]
        have hne' : ¬ (i' = i ∧ j' = j ∧ k' = k) := by
          rintro ⟨rfl, rfl, rfl⟩
          exact hsame ⟨rfl, rfl⟩
        constructor
        · intro hd
          apply (hT i' j' k' hi' hj' hk').1
          unfold lex_lt at hd ⊢
          omega
        · intro hd
          apply (hT i' j' k' hi' hj' hk').2
          intro hd'
          apply hd
          unfold lex_lt at hd' ⊢
          omega)
    (by
      intro i j s _ _ hT i' j' k' hi' hj' hk'
      have h3 := hT i' j' k' hi' hj' hk'
      constructor
      · intro hd
        apply h3.1
        unfold lex_lt at hd ⊢
        omega
      · intro hd
        apply h3.2
        intro hd'
        apply hd
        unfold lex_lt at hd' ⊢
        omega)
    (by
      intro i s _ hT i' j' k' hi' hj' hk'
      have h3 := hT i' j' k' hi' hj' hk'
      constructor
      · intro hd
        apply h3.1
        unfold lex_lt at hd ⊢
        omega
      · intro hd
        apply h3.2
        intro hd'
        apply hd
        unfold lex_lt at hd' ⊢
        omega)
    (⟨top, last_y, col, row⟩ : TSState ℝ)
    (by
      intro i' j' k' hi' hj' hk'
      exact ⟨fun hd => absurd hd (by unfold lex_lt; omega),
        fun _ => hbound i' j' k' hi' hj' hk'⟩)
  simp only at h
  rw [hr]
  refine ⟨rfl, rfl, h.1, h.2.1, ?_⟩
  intro i j k hi hj hk
  exact (h.2.2 i j k hi hj hk).1 (by unfold lex_lt; omega)

/-- The first call of `temporal_spatial_convolution` (empty `last_x`), position by
position. -/
theorem ts_first_spec {α : Type} [LinearOrderedField α] (sqrt exp : α → α) (x top : Mat α)
    (a : ConvArgs α) (last_x last_y w_norm2 col row : Mat α) (he : last_x.total ≤ 0) :
    let r := temporal_spatial_convolution sqrt exp x top a last_x last_y w_norm2 col row
    r.last_x = x ∧
    (∀ k, k < top.c → r.w_norm2.flat k = sqrt (weight_sq a x.c k)) ∧
    (r.top_blob.w = top.w ∧ r.top_blob.h = top.h ∧ r.top_blob.c = top.c) ∧
    ∀ i j k, i < top.h → j < top.w → k < top.c →
      r.top_blob.data k (out_pos top.w i j) = a.act exp (exact_y a x i j k) ∧
      r.last_y.data k (out_pos top.w i j) = conv_sum a x i j k := by
  intro r
  have hr : r = temporal_spatial_convolution sqrt exp x top a last_x last_y w_norm2 col row :=
    rfl
  unfold temporal_spatial_convolution at hr
  simp only [he, if_true] at hr
  have h := exact_compute_spec exp a x top top
  rw [hr]
  exact ⟨rfl, calc_w_norm2_spec sqrt a x.c top.c _, h.1, h.2.2⟩

/-- One call of `temporal_spatial_convolution` under ReLU from caches that are empty or
satisfy the cache invariant: the output is exact and the invariant holds afterwards. -/
theorem ts_call_sound (a : ConvArgs ℝ) (hrelu : a.activation_type = 1) (x top : Mat ℝ)
    (s : Mat ℝ × Mat ℝ × Mat ℝ × Mat ℝ × Mat ℝ)
    (hgood : s.1.total ≤ 0 ∨
      temporal_inv Real.sqrt a x.w x.c top.w top.h top.c (s.1, s.2.1, s.2.2.1)) :
    let r := temporal_spatial_convolution Real.sqrt Real.exp x top a s.1 s.2.1 s.2.2.1
      s.2.2.2.1 s.2.2.2.2
    temporal_inv Real.sqrt a x.w x.c top.w top.h top.c (r.last_x, r.last_y, r.w_norm2) ∧
    (r.top_blob.w = top.w ∧ r.top_blob.h = top.h ∧ r.top_blob.c = top.c) ∧
    ∀ i j k, i < top.h → j < top.w → k < top.c →
      r.top_blob.data k (out_pos top.w i j) = a.act Real.exp (exact_y a x i j k) := by
  intro r
  by_cases he : s.1.total ≤ 0
  · have h := ts_first_spec Real.sqrt Real.exp x top a s.1 s.2.1 s.2.2.1 s.2.2.2.1 s.2.2.2.2 he
    simp only at h
    obtain ⟨hx, hn, hd, hp⟩ := h
    refine ⟨⟨?_, ?_, hn, ?_⟩, hd, fun i j k hi hj hk => (hp i j k hi hj hk).1⟩
    · show r.last_x.w = x.w
      rw [hx]
    · show r.last_x.c = x.c
      rw [hx]
    · intro i j k hi hj hk
      show conv_sum a r.last_x i j k ≤ r.last_y.data k (out_pos top.w i j)
      rw [hx, (hp i j k hi hj hk).2]
  · have hinv : temporal_inv Real.sqrt a x.w x.c top.w top.h top.c (s.1, s.2.1, s.2.2.1) := by
      rcases hgood with h | h
      · exact absurd h he
      · exact h
    have h := ts_bound_spec a hrelu x top s.1 s.2.1 s.2.2.1 s.2.2.2.1 s.2.2.2.2 he hinv
    simp only at h
    obtain ⟨hx, hwn, hd, hout, hl⟩ := h
    refine ⟨⟨?_, ?_, ?_, ?_⟩, hd, hout⟩
    · show r.last_x.w = x.w
      rw [hx]
    · show r.last_x.c = x.c
      rw [hx]
    · intro k hk
      show r.w_norm2.flat k = _
      rw [hwn]
      exact hinv.2.2.1 k hk
    · intro i j k hi hj hk
      show conv_sum a r.last_x i j k ≤ r.last_y.data k (out_pos top.w i j)
      rw [hx]
      exact hl i j k hi hj hk

/-- The caches left by any sequence of same-shaped calls of `temporal_spatial_convolution`
from empty caches are empty or satisfy the cache invariant. -/
theorem ts_run_good (a : ConvArgs ℝ) (hrelu : a.activation_type = 1) (W C OW OH OC : Nat)
    (calls : List (Mat ℝ × Mat ℝ))
    (hshape : ∀ c ∈ calls, c.1.w = W ∧ c.1.c = C ∧ c.2.w = OW ∧ c.2.h = OH ∧ c.2.c = OC)
    (s : Mat ℝ × Mat ℝ × Mat ℝ × Mat ℝ × Mat ℝ)
    (hgood : s.1.total ≤ 0 ∨ temporal_inv Real.sqrt a W C OW OH OC (s.1, s.2.1, s.2.2.1)) :
    (ts_caches Real.sqrt Real.exp a s calls).1.total ≤ 0 ∨
      temporal_inv Real.sqrt a W C OW OH OC
        ((ts_caches Real.sqrt Real.exp a s calls).1, (ts_caches Real.sqrt Real.exp a s calls).2.1,
          (ts_caches Real.sqrt Real.exp a s calls).2.2.1) := by
  induction calls generalizing s with
  | nil => exact hgood
  | cons c cs ih =>
    unfold ts_caches run_state
    apply ih (fun c' hc' => hshape c' (List.mem_cons_of_mem _ hc'))
    right
    obtain ⟨h1, h2, h3, h4, h5⟩ := hshape c (List.mem_cons_self _ _)
    have h := (ts_call_sound a hrelu c.1 c.2 s (by rw [h1, h2, h3, h4, h5]; exact hgood)).1
    rw [h1, h2, h3, h4, h5] at h
    exact h

end Conv

namespace Conv

/-- A loop whose first iteration is written as a loop of its own. -/
theorem forLoop_split_first {σ : Type} {W : Nat} (hW : 0 < W) (g f : Nat → σ → σ) (s : σ) :
    forLoop 1 W f (forLoop 0 1 g s)
      = forLoop 0 W (fun j s => if j = 0 then g j s else f j s) s := by
  have h : ∀ n : Nat, forLoop 1 (n + 1) f (forLoop 0 1 g s)
      = forLoop 0 (n + 1) (fun j s => if j = 0 then g j s else f j s) s := by
    intro n
    induction n with
    | zero =>
      rw [forLoop_of_le (Nat.le_refl 1), forLoop_one, forLoop_one]
      rfl
    | succ n ih =>
      rw [forLoop_succ (Nat.le_add_left 1 n), forLoop_succ (Nat.zero_le (n + 1)), ih]
      simp only [Nat.add_one_ne_zero, if_false]
  obtain ⟨n, rfl⟩ := Nat.exists_eq_succ_of_ne_zero (Nat.pos_iff_ne_zero.mp hW)
  exact h n

section Chain

variable {α : Type}

/-- A loop nest whose step at `(i, j, k)` stores into element `(k, i, j)` of an output blob
and of a cache blob, and into entry `k` of a column buffer, values computed from the cache's
old element and the column buffer's entry, the latter not being read at column `0`:
afterwards every in-range element holds the value computed from the initial cache and from
the final cache element of the left neighbour. -/
theorem chain_loop3 (H W K : Nat) (G : Nat → Nat → Nat → α → α → α × α)
    (f : Nat → Nat → Nat → Mat α × Mat α × Mat α → Mat α × Mat α × Mat α)
    (hf : ∀ i j k s, f i j k s =
      (s.1.set k (out_pos W i j) (G i j k (s.2.1.data k (out_pos W i j)) (s.2.2.flat k)).1,
       s.2.1.set k (out_pos W i j) (G i j k (s.2.1.data k (out_pos W i j)) (s.2.2.flat k)).2,
       s.2.2.setFlat k (G i j k (s.2.1.data k (out_pos W i j)) (s.2.2.flat k)).2))
    (hG0 : ∀ i k v c c', G i 0 k v c = G i 0 k v c')
    (s0 : Mat α × Mat α × Mat α) :
    let r := forLoop 0 H (fun i s =>
      forLoop 0 W (fun j s => forLoop 0 K (fun k s => f i j k s) s) s) s0
    (r.1.w = s0.1.w ∧ r.1.h = s0.1.h ∧ r.1.c = s0.1.c) ∧
    ∀ i j k, i < H → j < W → k < K →
      r.1.data k (out_pos W i j)
        = (G i j k (s0.2.1.data k (out_pos W i j)) (r.2.1.data k (out_pos W i (j - 1)))).1 ∧
      r.2.1.data k (out_pos W i j)
        = (G i j k (s0.2.1.data k (out_pos W i j)) (r.2.1.data k (out_pos W i (j - 1)))).2 := by
  intro r
  have h := loop3_inv H W K f
    (fun i j k s =>
      (s.1.w = s0.1.w ∧ s.1.h = s0.1.h ∧ s.1.c = s0.1.c) ∧
      (∀ i' j' k', i' < H → j' < W → k' < K →
        (lex_lt i' j' k' i j k →
          s.1.data k' (out_pos W i' j')
            = (G i' j' k' (s0.2.1.data k' (out_pos W i' j'))
                (s.2.1.data k' (out_pos W i' (j' - 1)))).1 ∧
          s.2.1.data k' (out_pos W i' j')
            = (G i' j' k' (s0.2.1.data k' (out_pos W i' j'))
                (s.2.1.data k' (out_pos W i' (j' - 1)))).2) ∧
        (¬ lex_lt i' j' k' i j k →
          s.2.1.data k' (out_pos W i' j') = s0.2.1.data k' (out_pos W i' j'))) ∧
      ∀ k', k' < K →
        (k' < k → j < W → s.2.2.flat k' = s.2.1.data k' (out_pos W i j)) ∧
        (k ≤ k' → 0 < j → j ≤ W → s.2.2.flat k' = s.2.1.data k' (out_pos W i (j - 1))))
    (by
      intro i j k s hi hj hk hP
      obtain ⟨hdim, hpos, hcol⟩ := hP
      rw [hf]
      have hold : s.2.1.data k (out_pos W i j) = s0.2.1.data k (out_pos W i j) :=
        (hpos i j k hi hj hk).2 (by unfold lex_lt; omega)
      have hleft : ∀ i' j' k', i' < H → j' < W → k' < K → lex_lt i' j' k' i j (k + 1) →
          0 < j' → (s.2.1.set k (out_pos W i j)
            (G i j k (s.2.1.data k (out_pos W i j)) (s.2.2.flat k)).2).data k'
              (out_pos W i' (j' - 1))
          = s.2.1.data k' (out_pos W i' (j' - 1)) := by
        intro i' j' k' hi' hj' hk' hlt hj0
        apply Mat.set_data_ne
        rintro ⟨hk1, hp1⟩
        obtain ⟨hi1, hj1⟩ := out_pos_inj (by omega : j' - 1 < W) hj hp1
        unfold lex_lt at hlt
        omega
      refine ⟨by simpa using hdim, ?_, ?_⟩
      · intro i' j' k' hi' hj' hk'
        by_cases hsame : k' = k ∧ out_pos W i' j' = out_pos W i j
        · obtain ⟨hk1, hp1⟩ := hsame
          obtain ⟨hi1, hj1⟩ := out_pos_inj hj' hj hp1
          subst hk1; subst hi1; subst hj1
          constructor
          · intro hlt
            simp only [Mat.set_data_same]
            by_cases hj0 : 0 < j'
            · rw [hleft i' j' k' hi hj hk hlt hj0, ← (hcol k' hk).2 (Nat.le_refl k') hj0
                (Nat.le_of_lt hj), hold]
              exact ⟨rfl, rfl⟩
            · have hj00 : j' = 0 := by omega
              subst hj00
              rw [hold]
              exact ⟨congrArg Prod.fst (hG0 i' k' _ _ _), congrArg Prod.snd (hG0 i' k' _ _ _)⟩
          · intro hn
            exfalso
            apply hn
            unfold lex_lt; omega
        · simp only [Mat.set_data_ne _ _ _ _ _ _ hsame]
          have hne : ¬ (i' = i ∧ j' = j ∧ k' = k) := by
            rintro ⟨rfl, rfl, rfl⟩
            exact hsame ⟨rfl, rfl⟩
          constructor
          · intro hlt
            have hlt' : lex_lt i' j' k' i j k := by
              unfold lex_lt at hlt ⊢
              omega
            by_cases hj0 : 0 < j'
            · rw [hleft i' j' k' hi' hj' hk' hlt hj0]
              exact (hpos i' j' k' hi' hj' hk').1 hlt'
            · have hj00 : j' = 0 := by omega
              subst hj00
              have h4 := (hpos i' 0 k' hi' hj' hk').1 hlt'
              exact ⟨h4.1.trans (congrArg Prod.fst (hG0 i' k' _ _ _)),
                h4.2.trans (congrArg Prod.snd (hG0 i' k' _ _ _))⟩
          · intro hn
            apply (hpos i' j' k' hi' hj' hk').2
            intro hlt
            apply hn
            unfold lex_lt at hlt ⊢
            omega
      · intro k' hk'
        constructor
        · intro hlt _
          by_cases hkk : k' = k
          · subst hkk
            simp only [Mat.flat_setFlat_same, Mat.set_data_same]
          · rw [Mat.flat_setFlat_ne _ _ _ _ (by exact_mod_cast hkk),
              Mat.set_data_ne _ _ _ _ _ _ (fun h => hkk h.1)]
            exact (hcol k' hk').1 (by omega) hj
        · intro hle hj0 hjW
          have hkk : k' ≠ k := by omega
          rw [Mat.flat_setFlat_ne _ _ _ _ (by exact_mod_cast hkk),
            Mat.set_data_ne _ _ _ _ _ _ (fun h => hkk h.1)]
          exact (hcol k' hk').2 (by omega) hj0 hjW)
    (by
      intro i j s hi hj hP
      obtain ⟨hdim, hpos, hcol⟩ := hP
      refine ⟨hdim, ?_, ?_⟩
      · intro i' j' k' hi' hj' hk'
        have h3 := hpos i' j' k' hi' hj' hk'
        constructor
        · intro hlt
          apply h3.1
          unfold lex_lt at hlt ⊢
          omega
        · intro hn
          apply h3.2
          intro hlt
          apply hn
          unfold lex_lt at hlt ⊢
          omega
      · intro k' hk'
        constructor
        · intro hlt _
          exact absurd hlt (Nat.not_lt_zero k')
        · intro _ _ _
          simp only [Nat.add_sub_cancel]
          exact (hcol k' hk').1 hk' hj)
    (by
      intro i s hi hP
      obtain ⟨hdim, hpos, hcol⟩ := hP
      refine ⟨hdim, ?_, ?_⟩
      · intro i' j' k' hi' hj' hk'
        have h3 := hpos i' j' k' hi' hj' hk'
        constructor
        · intro hlt
          apply h3.1
          unfold lex_lt at hlt ⊢
          omega
        · intro hn
          apply h3.2
          intro hlt
          apply hn
          unfold lex_lt at hlt ⊢
          omega
      · intro k' hk'
        constructor
        · intro hlt _
          exact absurd hlt (Nat.not_lt_zero k')
        · intro _ h0 _
          exact absurd h0 (Nat.lt_irrefl 0))
    s0
    (by
      refine ⟨⟨rfl, rfl, rfl⟩, ?_, ?_⟩
      · intro i' j' k' _ _ _
        exact ⟨fun hlt => absurd hlt (by unfold lex_lt; omega), fun _ => rfl⟩
      · intro k' _
        exact ⟨fun hlt => absurd hlt (Nat.not_lt_zero k'),
          fun _ h0 => absurd h0 (Nat.lt_irrefl 0)⟩)
  refine ⟨h.1, ?_⟩
  intro i j k hi hj hk
  exact (h.2.1 i j k hi hj hk).1 (by unfold lex_lt; omega)

end Chain

end Conv

namespace Conv

section LowerSums

variable {α : Type} [LinearOrderedField α]

/-- Two summation loops fused in one loop from `lo` whose state carries a third component
unchanged. -/
theorem forLoop_sum2_fst (γ : Type) (A B : Nat → α) (lo : Nat) (n : Nat) (s : α × α × γ) :
    forLoop lo (lo + n) (fun t (s : α × α × γ) => (s.1 + A t, s.2.1 + B t, s.2.2)) s
      = (s.1 + ∑ t in Finset.range n, A (lo + t), s.2.1 + ∑ t in Finset.range n, B (lo + t),
          s.2.2) := by
  induction n with
  | zero => simp [forLoop_of_le (Nat.le_refl lo)]
  | succ n ih =>
    rw [← Nat.add_assoc, forLoop_succ (Nat.le_add_right lo n), ih, Finset.sum_range_succ,
      Finset.sum_range_succ, add_assoc, add_assoc]

/-- Fused loops that peel off the first element of the first channel, recording it, compute
the two full sums of squares. -/
theorem peeled_loops3 (D C : Nat → Nat → α) (n m : Nat) (hn : 0 < n) (hm : 0 < m) :
    forLoop 1 n (fun q (s : α × α × α) =>
        forLoop 0 m (fun t (s : α × α × α) =>
          (s.1 + D q t * D q t, s.2.1 + C q t * C q t, s.2.2)) s)
      (forLoop 1 m (fun t (s : α × α × α) =>
          (s.1 + D 0 t * D 0 t, s.2.1 + C 0 t * C 0 t, s.2.2))
        (0 + D 0 0 * D 0 0, 0 + C 0 0 * C 0 0, D 0 0))
      = (dsum n m (fun q t => D q t * D q t), dsum n m (fun q t => C q t * C q t), D 0 0) := by
  obtain ⟨n', rfl⟩ := Nat.exists_eq_succ_of_ne_zero (Nat.pos_iff_ne_zero.mp hn)
  obtain ⟨m', rfl⟩ := Nat.exists_eq_succ_of_ne_zero (Nat.pos_iff_ne_zero.mp hm)
  have e1 : m'.succ = 1 + m' := by omega
  have e2 : n'.succ = 1 + n' := by omega
  have h1 := forLoop_sum2_fst α (fun t => D 0 t * D 0 t) (fun t => C 0 t * C 0 t) 1 m'
    (0 + D 0 0 * D 0 0, 0 + C 0 0 * C 0 0, D 0 0)
  have h2 : ∀ (k : Nat) (s : α × α × α),
      forLoop 1 (1 + k) (fun q (s : α × α × α) =>
        forLoop 0 (1 + m') (fun t (s : α × α × α) =>
          (s.1 + D q t * D q t, s.2.1 + C q t * C q t, s.2.2)) s) s
      = (s.1 + ∑ q in Finset.range k, ∑ t in Finset.range (1 + m'),
          D (1 + q) t * D (1 + q) t,
        s.2.1 + ∑ q in Finset.range k, ∑ t in Finset.range (1 + m'),
          C (1 + q) t * C (1 + q) t, s.2.2) := by
    intro k s
    induction k with
    | zero => simp [forLoop_of_le (Nat.le_refl 1)]
    | succ k ih =>
      rw [← Nat.add_assoc, forLoop_succ (Nat.le_add_right 1 k), ih]
      have h0 := forLoop_sum2_fst α (fun t => D (1 + k) t * D (1 + k) t)
        (fun t => C (1 + k) t * C (1 + k) t) 0 (1 + m')
      simp only [Nat.zero_add] at h0
      rw [h0, Finset.sum_range_succ, Finset.sum_range_succ, add_assoc, add_assoc]
  rw [e1, e2, h1, h2]
  unfold dsum
  rw [Nat.add_comm 1 n', Nat.add_comm 1 m', Finset.sum_range_succ' _ n',
    Finset.sum_range_succ' _ n', Finset.sum_range_succ' _ m',
    Finset.sum_range_succ' (fun t => C 0 t * C 0 t) m']
  simp only [Nat.add_comm 1, zero_add]
  refine Prod.ext ?_ (Prod.ext ?_ rfl)
  · simp only
    ring
  · simp only
    ring

/-- The peeled temporal delta loops of the lower-bound kernel at column `0` compute the full
squared temporal delta and record the delta of the first patch element. -/
theorem tslb_delta_j0_eq (a : ConvArgs α) (x last_x : Mat α) (i j : Nat) (hc : 0 < x.c)
    (hm : 0 < a.maxk) :
    tslb_delta_j0 a x last_x i j
      = (temporal_sq a x last_x i j,
        patch_at x (a.space_ofs x) 0 (row_ptr x a.stride_w a.stride_h i j) 0
          - patch_at last_x (a.space_ofs x) 0 (row_ptr last_x a.stride_w a.stride_h i j) 0) := by
  unfold tslb_delta_j0 temporal_sq
  simp only [forLoop_one]
  exact peeled_loops (fun q t =>
    patch_at x (a.space_ofs x) q (row_ptr x a.stride_w a.stride_h i j) t
      - patch_at last_x (a.space_ofs x) q (row_ptr last_x a.stride_w a.stride_h i j) t)
    x.c a.maxk hc hm

/-- The peeled fused delta loops of the lower-bound kernel at a column `j >= 1` compute the
full squared temporal and column deltas and record the temporal delta of the first patch
element. -/
theorem tslb_delta_eq (a : ConvArgs α) (x last_x : Mat α) (i j : Nat) (hc : 0 < x.c)
    (hm : 0 < a.maxk) :
    tslb_delta a x last_x i j
      = (temporal_sq a x last_x i j, col_delta_sum a x i j,
        patch_at x (a.space_ofs x) 0 (row_ptr x a.stride_w a.stride_h i j) 0
          - patch_at last_x (a.space_ofs x) 0 (row_ptr last_x a.stride_w a.stride_h i j) 0) := by
  unfold tslb_delta temporal_sq
  rw [col_delta_sum_eq]
  simp only [forLoop_one]
  have h := peeled_loops3 (fun q t =>
    patch_at x (a.space_ofs x) q (row_ptr x a.stride_w a.stride_h i j) t
      - patch_at last_x (a.space_ofs x) q (row_ptr last_x a.stride_w a.stride_h i j) t)
    (fun q t =>
      patch_at x (a.space_ofs x) q (row_ptr x a.stride_w a.stride_h i j - a.stride_w) t
        - patch_at x (a.space_ofs x) q (row_ptr x a.stride_w a.stride_h i j) t)
    x.c a.maxk hc hm
  rw [h]
  refine Prod.ext rfl (Prod.ext ?_ rfl)
  simp only [dsum]
  refine Finset.sum_congr rfl (fun q _ => Finset.sum_congr rfl (fun t _ => ?_))
  ring

/-- After the norm block of the lower-bound kernel, entry `k` of `w_norm2` is the filter norm
and entry `k` of `w_norm2_lower` the norm without the first weight. -/
theorem calc_w_norm2_ts_lower_spec (sqrt : α → α) (a : ConvArgs α) (inch outch : Nat)
    (s : Mat α × Mat α) :
    ∀ k, k < outch →
      (calc_w_norm2_ts_lower sqrt a inch outch s).1.flat k = sqrt (weight_sq a inch k) ∧
      (calc_w_norm2_ts_lower sqrt a inch outch s).2.flat k
        = sqrt (weight_sq a inch k - a.weight inch k 0 0 * a.weight inch k 0 0) := by
  unfold calc_w_norm2_ts_lower
  have hstep : ∀ (k : Nat) (s : Mat α × Mat α),
      (fun k (s : Mat α × Mat α) =>
        ((norm_accumulate a.weight_data inch a.maxk k (a.kptr inch k) (s.1.setFlat k 0)).setFlat k
          (sqrt ((norm_accumulate a.weight_data inch a.maxk k (a.kptr inch k)
            (s.1.setFlat k 0)).flat k)),
        s.2.setFlat k
          (sqrt ((norm_accumulate a.weight_data inch a.maxk k (a.kptr inch k)
              (s.1.setFlat k 0)).flat k
            - a.weight_data.flat (a.kptr inch k) * a.weight_data.flat (a.kptr inch k)))))
        k s
      = (s.1.setFlat k (sqrt (weight_sq a inch k)),
        s.2.setFlat k (sqrt (weight_sq a inch k
          - a.weight inch k 0 0 * a.weight inch k 0 0))) := by
    intro k s
    simp only
    rw [norm_accumulate_eq, Mat.flat_setFlat_same, Mat.setFlat_setFlat, zero_add, weight_zero]
    rfl
  have h := forLoop_inv
    (fun n (s : Mat α × Mat α) => ∀ k, k < n →
      s.1.flat k = sqrt (weight_sq a inch k) ∧
      s.2.flat k = sqrt (weight_sq a inch k - a.weight inch k 0 0 * a.weight inch k 0 0))
    (Nat.zero_le outch)
    (fun k (s : Mat α × Mat α) =>
        ((norm_accumulate a.weight_data inch a.maxk k (a.kptr inch k) (s.1.setFlat k 0)).setFlat k
          (sqrt ((norm_accumulate a.weight_data inch a.maxk k (a.kptr inch k)
            (s.1.setFlat k 0)).flat k)),
        s.2.setFlat k
          (sqrt ((norm_accumulate a.weight_data inch a.maxk k (a.kptr inch k)
              (s.1.setFlat k 0)).flat k
            - a.weight_data.flat (a.kptr inch k) * a.weight_data.flat (a.kptr inch k)))))
    s (fun k hk => absurd hk (Nat.not_lt_zero k))
    (by
      intro n s _ _ hP k hk
      rw [hstep]
      by_cases hkn : k = n
      · subst hkn
        simp
      · rw [Mat.flat_setFlat_ne _ _ _ _ (by exact_mod_cast hkn),
          Mat.flat_setFlat_ne _ _ _ _ (by exact_mod_cast hkn)]
        exact hP k (by omega))
  exact h

end LowerSums

end Conv

namespace Conv

section LowerKernel

variable {α : Type} [LinearOrderedField α]

/-- The decision of the lower-bound kernel stores into its own position only: `0` and the
candidate on a skip, the activated exact pre-activation and the exact bias-free sum
otherwise. -/
theorem tslb_decide_eq (exp : α → α) (a : ConvArgs α) (x : Mat α) (m : α) (outw i j k : Nat)
    (s : Mat α × Mat α × Mat α) :
    tslb_decide exp a x m outw i j k s
      = (s.1.set k (out_pos outw i j)
          (if m + a.y_init k ≤ 0 then (0, m)
            else (a.act exp (exact_y a x i j k), conv_sum a x i j k)).1,
        s.2.1.set k (out_pos outw i j)
          (if m + a.y_init k ≤ 0 then (0, m)
            else (a.act exp (exact_y a x i j k), conv_sum a x i j k)).2,
        s.2.2.setFlat k
          (if m + a.y_init k ≤ 0 then (0, m)
            else (a.act exp (exact_y a x i j k), conv_sum a x i j k)).2) := by
  unfold tslb_decide
  simp only
  by_cases hs : m + a.y_init k ≤ 0
  · simp only [if_pos hs]
  · simp only [if_neg hs]
    rw [← exact_y_sub_bias]

/-- The bound branch of `temporal_spatial_convolution_lower_bound` on an output of positive
width, position by position: the candidate is computed from the cached value of the position
and, at a column `j >= 1`, the value the call has cached for the left neighbour; the row
buffer and the norm caches are left as they are. -/
theorem tslb_bound_spec (sqrt exp : α → α) (x top : Mat α) (a : ConvArgs α)
    (last_x last_y w_norm2 col row w_norm2_lower : Mat α) (hne : ¬ last_x.total ≤ 0)
    (hW : 0 < top.w) :
    let r := temporal_spatial_convolution_lower_bound sqrt exp x top a last_x last_y w_norm2
      col row w_norm2_lower
    r.last_x = x ∧ r.w_norm2 = w_norm2 ∧ r.w_norm2_lower = w_norm2_lower ∧
    r.last_y_row = row ∧
    (r.top_blob.w = top.w ∧ r.top_blob.h = top.h ∧ r.top_blob.c = top.c) ∧
    ∀ i j k, i < top.h → j < top.w → k < top.c →
      (tslb_min_norm_norm sqrt a x last_x w_norm2 w_norm2_lower i j k
          (last_y.data k (out_pos top.w i j)) (r.last_y.data k (out_pos top.w i (j - 1)))
          + a.y_init k ≤ 0 →
        r.top_blob.data k (out_pos top.w i j) = 0 ∧
        r.last_y.data k (out_pos top.w i j)
          = tslb_min_norm_norm sqrt a x last_x w_norm2 w_norm2_lower i j k
              (last_y.data k (out_pos top.w i j))
              (r.last_y.data k (out_pos top.w i (j - 1)))) ∧
      (¬ tslb_min_norm_norm sqrt a x last_x w_norm2 w_norm2_lower i j k
          (last_y.data k (out_pos top.w i j)) (r.last_y.data k (out_pos top.w i (j - 1)))
          + a.y_init k ≤ 0 →
        r.top_blob.data k (out_pos top.w i j) = a.act exp (exact_y a x i j k) ∧
        r.last_y.data k (out_pos top.w i j) = conv_sum a x i j k) := by
  intro r
  have hr : r = temporal_spatial_convolution_lower_bound sqrt exp x top a last_x last_y
    w_norm2 col row w_norm2_lower := rfl
  unfold temporal_spatial_convolution_lower_bound at hr
  simp only [hne, if_false, forLoop_split_first hW] at hr
  have hbody : ∀ i : Nat,
      (fun j (s : Mat α × Mat α × Mat α) =>
        if j = 0 then
          forLoop 0 top.c (fun k (s : Mat α × Mat α × Mat α) =>
            tslb_decide exp a x
              (tslb_candidate_j0 (s.2.1.data k (out_pos top.w i j)) (w_norm2.flat k)
                (w_norm2_lower.flat k) (sqrt (tslb_delta_j0 a x last_x i j).1)
                (tslb_delta_j0 a x last_x i j).2 (a.weight_data.flat (a.kptr x.c k)))
              top.w i j k s) s
        else
          forLoop 0 top.c (fun k (s : Mat α × Mat α × Mat α) =>
            tslb_decide exp a x
              (tslb_candidate (s.2.1.data k (out_pos top.w i j)) (s.2.2.flat k)
                (w_norm2.flat k) (w_norm2_lower.flat k) (sqrt (tslb_delta a x last_x i j).1)
                (sqrt (tslb_delta a x last_x i j).2.1) (tslb_delta a x last_x i j).2.2
                (a.weight_data.flat (a.kptr x.c k)))
              top.w i j k s) s)
      = fun j s => forLoop 0 top.c (fun k (s : Mat α × Mat α × Mat α) =>
          tslb_decide exp a x
            (tslb_min_norm_norm sqrt a x last_x w_norm2 w_norm2_lower i j k
              (s.2.1.data k (out_pos top.w i j)) (s.2.2.flat k)) top.w i j k s) s := by
    intro i
    funext j s
    unfold tslb_min_norm_norm
    by_cases hj : j = 0
    · simp only [hj, if_true]
    · simp only [hj, if_false]
  simp only [hbody] at hr
  have h := chain_loop3 top.h top.w top.c
    (fun i j k v c =>
      if tslb_min_norm_norm sqrt a x last_x w_norm2 w_norm2_lower i j k v c + a.y_init k ≤ 0
      then (0, tslb_min_norm_norm sqrt a x last_x w_norm2 w_norm2_lower i j k v c)
      else (a.act exp (exact_y a x i j k), conv_sum a x i j k))
    (fun i j k s => tslb_decide exp a x
      (tslb_min_norm_norm sqrt a x last_x w_norm2 w_norm2_lower i j k
        (s.2.1.data k (out_pos top.w i j)) (s.2.2.flat k)) top.w i j k s)
    (fun i j k s => tslb_decide_eq exp a x _ top.w i j k s)
    (by
      intro i k v c c'
      unfold tslb_min_norm_norm
      simp only [if_true])
    (top, last_y, col)
  simp only at h
  rw [hr]
  refine ⟨rfl, rfl, rfl, rfl, h.1, ?_⟩
  intro i j k hi hj hk
  have h3 := h.2 i j k hi hj hk
  constructor
  · intro hs
    rw [if_pos hs] at h3
    exact h3
  · intro hs
    rw [if_neg hs] at h3
    exact h3

/-- The first call of `temporal_spatial_convolution_lower_bound` (empty `last_x`), position
by position. -/
theorem tslb_first_spec (sqrt exp : α → α) (x top : Mat α) (a : ConvArgs α)
    (last_x last_y w_norm2 col row w_norm2_lower : Mat α) (he : last_x.total ≤ 0) :
    let r := temporal_spatial_convolution_lower_bound sqrt exp x top a last_x last_y w_norm2
      col row w_norm2_lower
    r.last_x = x ∧
    (∀ k, k < top.c → r.w_norm2.flat k = sqrt (weight_sq a x.c k) ∧
      r.w_norm2_lower.flat k
        = sqrt (weight_sq a x.c k - a.weight x.c k 0 0 * a.weight x.c k 0 0)) ∧
    (r.top_blob.w = top.w ∧ r.top_blob.h = top.h ∧ r.top_blob.c = top.c) ∧
    ∀ i j k, i < top.h → j < top.w → k < top.c →
      r.top_blob.data k (out_pos top.w i j) = a.act exp (exact_y a x i j k) ∧
      r.last_y.data k (out_pos top.w i j) = conv_sum a x i j k := by
  intro r
  have hr : r = temporal_spatial_convolution_lower_bound sqrt exp x top a last_x last_y
    w_norm2 col row w_norm2_lower := rfl
  unfold temporal_spatial_convolution_lower_bound at hr
  simp only [he, if_true] at hr
  have h := exact_compute_spec exp a x top top
  rw [hr]
  exact ⟨rfl, calc_w_norm2_ts_lower_spec sqrt a x.c top.c _, h.1, h.2.2⟩

/-- The row buffer plays no part in `temporal_spatial_convolution_lower_bound`: the output,
`last_y` and the column buffer do not depend on it, and the bound branch returns it as it
was passed. -/
theorem tslb_row_unused (sqrt exp : α → α) (x top : Mat α) (a : ConvArgs α)
    (last_x last_y w_norm2 col row w_norm2_lower : Mat α) :
    (∀ row2 : Mat α,
      (temporal_spatial_convolution_lower_bound sqrt exp x top a last_x last_y w_norm2 col row2
          w_norm2_lower).top_blob
        = (temporal_spatial_convolution_lower_bound sqrt exp x top a last_x last_y w_norm2 col
            row w_norm2_lower).top_blob ∧
      (temporal_spatial_convolution_lower_bound sqrt exp x top a last_x last_y w_norm2 col row2
          w_norm2_lower).last_y
        = (temporal_spatial_convolution_lower_bound sqrt exp x top a last_x last_y w_norm2 col
            row w_norm2_lower).last_y ∧
      (temporal_spatial_convolution_lower_bound sqrt exp x top a last_x last_y w_norm2 col row2
          w_norm2_lower).last_y_col
        = (temporal_spatial_convolution_lower_bound sqrt exp x top a last_x last_y w_norm2 col
            row w_norm2_lower).last_y_col) ∧
    (¬ last_x.total ≤ 0 →
      (temporal_spatial_convolution_lower_bound sqrt exp x top a last_x last_y w_norm2 col row
          w_norm2_lower).last_y_row = row) := by
  constructor
  · intro row2
    unfold temporal_spatial_convolution_lower_bound
    by_cases he : last_x.total ≤ 0
    · simp only [he, if_true, and_self]
    · simp only [he, if_false, and_self]
  · intro hne
    unfold temporal_spatial_convolution_lower_bound
    simp only [hne, if_false]

end LowerKernel

end Conv

namespace Conv

section LowerCandidate

variable {α : Type} [LinearOrderedField α]

/-- The candidate of the lower-bound kernel in terms of the deltas: at column `0` the refined
temporal bound, at a column `j >= 1` the minimum of a temporal term and the column bound. -/
theorem tslb_min_norm_norm_eq (sqrt : α → α) (a : ConvArgs α) (x last_x w_norm2 w_norm2_lower :
    Mat α) (i j k : Nat) (v c : α) (hc : 0 < x.c) (hm : 0 < a.maxk) :
    tslb_min_norm_norm sqrt a x last_x w_norm2 w_norm2_lower i j k v c
      = if j = 0 then
          (if (patch_at x (a.space_ofs x) 0 (row_ptr x a.stride_w a.stride_h i j) 0
                - patch_at last_x (a.space_ofs x) 0 (row_ptr last_x a.stride_w a.stride_h i j) 0)
              * a.weight x.c k 0 0 ≤ 0 then
            v + w_norm2_lower.flat k * sqrt (temporal_sq a x last_x i j)
              + (patch_at x (a.space_ofs x) 0 (row_ptr x a.stride_w a.stride_h i j) 0
                  - patch_at last_x (a.space_ofs x) 0
                      (row_ptr last_x a.stride_w a.stride_h i j) 0)
                * a.weight x.c k 0 0
          else v + w_norm2.flat k * sqrt (temporal_sq a x last_x i j))
        else
          min
            (if a.weight x.c k 0 0 ≤ 0 ∨
                (patch_at x (a.space_ofs x) 0 (row_ptr x a.stride_w a.stride_h i j) 0
                  - patch_at last_x (a.space_ofs x) 0
                      (row_ptr last_x a.stride_w a.stride_h i j) 0)
                * a.weight x.c k 0 0 > 0 then
              v + w_norm2_lower.flat k * sqrt (temporal_sq a x last_x i j)
            else v + w_norm2.flat k * sqrt (temporal_sq a x last_x i j))
            (c + sqrt (col_delta_sum a x i j) * w_norm2.flat k) := by
  unfold tslb_min_norm_norm tslb_candidate_j0 tslb_candidate
  rw [tslb_delta_j0_eq a x last_x i j hc hm, tslb_delta_eq a x last_x i j hc hm, weight_zero]

end LowerCandidate

end Conv

namespace Conv

/-- Refined Cauchy-Schwarz step of the temporal bound: the first element of the patch is
taken exactly, the rest is bounded with the norm of the filter without its first weight. -/
theorem temporal_cs_refined (a : ConvArgs ℝ) (in_x last_x : Mat ℝ) (hw : last_x.w = in_x.w)
    (hc : last_x.c = in_x.c) (i j k : Nat) (hc0 : 0 < in_x.c) (hm : 0 < a.maxk) :
    conv_sum a in_x i j k ≤ conv_sum a last_x i j k
      + Real.sqrt (weight_sq a in_x.c k - a.weight in_x.c k 0 0 * a.weight in_x.c k 0 0)
        * Real.sqrt (temporal_sq a in_x last_x i j)
      + (patch_at in_x (a.space_ofs in_x) 0 (row_ptr in_x a.stride_w a.stride_h i j) 0
          - patch_at last_x (a.space_ofs in_x) 0 (row_ptr last_x a.stride_w a.stride_h i j) 0)
        * a.weight in_x.c k 0 0 := by
  have hso : a.space_ofs last_x = a.space_ofs in_x := by
    unfold ConvArgs.space_ofs
    rw [hw]
  have h := cs_refined in_x.c a.maxk hc0 hm (fun q t => a.weight in_x.c k q t)
    (fun q t => patch_at in_x (a.space_ofs in_x) q (row_ptr in_x a.stride_w a.stride_h i j) t)
    (fun q t =>
      patch_at last_x (a.space_ofs in_x) q (row_ptr last_x a.stride_w a.stride_h i j) t)
  unfold conv_sum weight_sq temporal_sq
  rw [hso, hc]
  linarith

/-- The candidate of column `0` of the lower-bound kernel, built from a cached value that
bounds the pre-activation of the cached input, bounds the pre-activation of the new input. -/
theorem tslb_candidate_j0_sound (pre v wn wl dx d0w : ℝ) (h1 : pre ≤ v + wn * dx)
    (h2 : pre ≤ v + wl * dx + d0w) :
    pre ≤ (if d0w ≤ 0 then v + wl * dx + d0w else v + wn * dx) := by
  split_ifs
  · exact h2
  · exact h1

/-- One call of `temporal_spatial_convolution_lower_bound` under ReLU on an input with at
least one channel and one tap and an output of positive width, from caches that are empty
or satisfy the cache invariant of column `0`: the invariant holds afterwards and every
output of column `0` is the activated exact pre-activation. -/
theorem tslb_call_sound (a : ConvArgs ℝ) (hrelu : a.activation_type = 1) (x top : Mat ℝ)
    (s : Mat ℝ × Mat ℝ × Mat ℝ × Mat ℝ × Mat ℝ × Mat ℝ) (hc0 : 0 < x.c) (hm : 0 < a.maxk)
    (hW : 0 < top.w)
    (hgood : s.1.total ≤ 0 ∨ tslb_inv Real.sqrt a x.w x.c top.w top.h top.c s) :
    let r := temporal_spatial_convolution_lower_bound Real.sqrt Real.exp x top a s.1 s.2.1
      s.2.2.1 s.2.2.2.1 s.2.2.2.2.1 s.2.2.2.2.2
    tslb_inv Real.sqrt a x.w x.c top.w top.h top.c
      (r.last_x, r.last_y, r.w_norm2, r.last_y_col, r.last_y_row, r.w_norm2_lower) ∧
    (r.top_blob.w = top.w ∧ r.top_blob.h = top.h ∧ r.top_blob.c = top.c) ∧
    ∀ i k, i < top.h → k < top.c →
      r.top_blob.data k (out_pos top.w i 0) = a.act Real.exp (exact_y a x i 0 k) := by
  intro r
  have hact : ∀ v : ℝ, a.act Real.exp v = max v 0 := by
    intro v
    unfold ConvArgs.act activation_ss
    rw [if_pos hrelu]
  by_cases he : s.1.total ≤ 0
  · have h := tslb_first_spec Real.sqrt Real.exp x top a s.1 s.2.1 s.2.2.1 s.2.2.2.1
      s.2.2.2.2.1 s.2.2.2.2.2 he
    simp only at h
    obtain ⟨hx, hn, hd, hp⟩ := h
    refine ⟨⟨?_, ?_, hn, ?_⟩, hd, fun i k hi hk => (hp i 0 k hi hW hk).1⟩
    · show r.last_x.w = x.w
      rw [hx]
    · show r.last_x.c = x.c
      rw [hx]
    · intro i k hi hk
      show conv_sum a r.last_x i 0 k ≤ r.last_y.data k (out_pos top.w i 0)
      rw [hx, (hp i 0 k hi hW hk).2]
  · have hinv : tslb_inv Real.sqrt a x.w x.c top.w top.h top.c s := by
      rcases hgood with h | h
      · exact absurd h he
      · exact h
    obtain ⟨hw, hc, hnorm, hbound⟩ := hinv
    have h := tslb_bound_spec Real.sqrt Real.exp x top a s.1 s.2.1 s.2.2.1 s.2.2.2.1
      s.2.2.2.2.1 s.2.2.2.2.2 he hW
    simp only at h
    obtain ⟨hx, hwn, hwl, _, hd, hp⟩ := h
    have key : ∀ i k, i < top.h → k < top.c → ∀ c : ℝ,
        conv_sum a x i 0 k ≤ tslb_min_norm_norm Real.sqrt a x s.1 s.2.2.1 s.2.2.2.2.2 i 0 k
          (s.2.1.data k (out_pos top.w i 0)) c := by
      intro i k hi hk c
      unfold tslb_min_norm_norm tslb_candidate_j0
      simp only [if_true]
      rw [tslb_delta_j0_eq a x s.1 i 0 hc0 hm, (hnorm k hk).1, (hnorm k hk).2, weight_zero]
      simp only
      have h1 := temporal_cs a x s.1 hw hc i 0 k
      have h2 := temporal_cs_refined a x s.1 hw hc i 0 k hc0 hm
      have h3 := hbound i k hi hk
      apply tslb_candidate_j0_sound
      · linarith
      · linarith
    have hcases : ∀ i k, i < top.h → k < top.c →
        r.top_blob.data k (out_pos top.w i 0) = a.act Real.exp (exact_y a x i 0 k) ∧
        conv_sum a x i 0 k ≤ r.last_y.data k (out_pos top.w i 0) := by
      intro i k hi hk
      have h3 := hp i 0 k hi hW hk
      have hk1 := key i k hi hk (r.last_y.data k (out_pos top.w i (0 - 1)))
      by_cases hs : tslb_min_norm_norm Real.sqrt a x s.1 s.2.2.1 s.2.2.2.2.2 i 0 k
          (s.2.1.data k (out_pos top.w i 0)) (r.last_y.data k (out_pos top.w i (0 - 1)))
          + a.y_init k ≤ 0
      · obtain ⟨ho, hl⟩ := h3.1 hs
        refine ⟨?_, ?_⟩
        · rw [ho, hact, exact_y_eq, max_eq_right (by linarith)]
        · rw [hl]
          exact hk1
      · obtain ⟨ho, hl⟩ := h3.2 hs
        exact ⟨ho, le_of_eq hl.symm⟩
    refine ⟨⟨?_, ?_, ?_, ?_⟩, hd, fun i k hi hk => (hcases i k hi hk).1⟩
    · show r.last_x.w = x.w
      rw [hx]
    · show r.last_x.c = x.c
      rw [hx]
    · intro k hk
      show r.w_norm2.flat k = _ ∧ r.w_norm2_lower.flat k = _
      rw [hwn, hwl]
      exact hnorm k hk
    · intro i k hi hk
      show conv_sum a r.last_x i 0 k ≤ r.last_y.data k (out_pos top.w i 0)
      rw [hx]
      exact (hcases i k hi hk).2

/-- The caches left by any sequence of same-shaped calls of
`temporal_spatial_convolution_lower_bound` from empty caches are empty or satisfy the cache
invariant of column `0`. -/
theorem tslb_run_good (a : ConvArgs ℝ) (hrelu : a.activation_type = 1) (W C OW OH OC : Nat)
    (hC : 0 < C) (hm : 0 < a.maxk) (hOW : 0 < OW) (calls : List (Mat ℝ × Mat ℝ))
    (hshape : ∀ c ∈ calls, c.1.w = W ∧ c.1.c = C ∧ c.2.w = OW ∧ c.2.h = OH ∧ c.2.c = OC)
    (s : Mat ℝ × Mat ℝ × Mat ℝ × Mat ℝ × Mat ℝ × Mat ℝ)
    (hgood : s.1.total ≤ 0 ∨ tslb_inv Real.sqrt a W C OW OH OC s) :
    (tslb_caches Real.sqrt Real.exp a s calls).1.total ≤ 0 ∨
      tslb_inv Real.sqrt a W C OW OH OC (tslb_caches Real.sqrt Real.exp a s calls) := by
  induction calls generalizing s with
  | nil => exact hgood
  | cons c cs ih =>
    unfold tslb_caches run_state
    apply ih (fun c' hc' => hshape c' (List.mem_cons_of_mem _ hc'))
    right
    obtain ⟨h1, h2, h3, h4, h5⟩ := hshape c (List.mem_cons_self _ _)
    have h := (tslb_call_sound a hrelu c.1 c.2 s (by rw [h2]; exact hC) hm
      (by rw [h3]; exact hOW) (by rw [h1, h2, h3, h4, h5]; exact hgood)).1
    rw [h1, h2, h3, h4, h5] at h
    exact h

end Conv

namespace Conv

/-- A loop whose states follow a known sequence ends in the state of that sequence. -/
theorem forLoop_eq_of_step {σ : Type} (f : Nat → σ → σ) (R : Nat → σ)
    (hstep : ∀ i, f i (R i) = R (i + 1)) (n : Nat) : forLoop 0 n f (R 0) = R n := by
  induction n with
  | zero => exact forLoop_of_le (Nat.le_refl 0) f (R 0)
  | succ n ih => rw [forLoop_succ (Nat.zero_le n), ih, hstep]

/-- A loop that stores a value into entry `base + i` of a blob at iteration `i`, the value
not depending on the blob: afterwards entry `base + m` holds the value of iteration `m`. -/
theorem fill_loop {α : Type} (n : Nat) (base : Int) (F : Nat → α) (m0 : Mat α) :
    ∀ m, m < n → (forLoop 0 n (fun i (w : Mat α) => w.setFlat (base + i) (F i)) m0).flat
      (base + m) = F m := by
  have h := forLoop_inv
    (fun n (w : Mat α) => ∀ m, m < n → w.flat (base + m) = F m)
    (Nat.zero_le n) (fun i (w : Mat α) => w.setFlat (base + i) (F i)) m0
    (fun m hm => absurd hm (Nat.not_lt_zero m))
    (by
      intro i w _ _ hP m hm
      by_cases hmi : m = i
      · subst hmi
        simp
      · rw [Mat.flat_setFlat_ne _ _ _ _ (by omega)]
        exact hP m (by omega))
  exact h

section TopESum

variable {α : Type} [LinearOrderedField α]

/-- The value `tobe_sub` of a bit pattern is the sum of the squares of the entries whose bit
is set. -/
theorem select_tobe_sub_eq (V : Mat α) (val_base : Int) (m : Nat) :
    select_tobe_sub V val_base m
      = ∑ t in Finset.range E, if (m >>> (E - 1 - t)) &&& 1 ≠ 0 then
          V.flat (val_base + t) * V.flat (val_base + t) else 0 := by
  unfold select_tobe_sub
  have h := @forLoop_congr α 0 E
    (fun t (tobe_sub : α) =>
      if (m >>> (E - 1 - t)) &&& 1 ≠ 0 then
        tobe_sub + V.flat (val_base + ((E - 1 - (E - 1 - t) : Nat) : Int))
          * V.flat (val_base + ((E - 1 - (E - 1 - t) : Nat) : Int))
      else tobe_sub)
    (fun t (tobe_sub : α) => tobe_sub + (if (m >>> (E - 1 - t)) &&& 1 ≠ 0 then
      V.flat (val_base + t) * V.flat (val_base + t) else 0)) (0 : α)
    (by
      intro t acc _ ht
      have e : E - 1 - (E - 1 - t) = t := by omega
      simp only [e]
      split_ifs
      · rfl
      · rw [add_zero])
  simp only at h
  rw [h, forLoop_sum, zero_add]

end TopESum

section TopE

variable {α : Type} [LinearOrderedField α] [FloorRing α]

/-- The conversion to `int` of an integer-valued float is that integer. -/
theorem to_int_natCast (n : Nat) : to_int ((n : Nat) : α) = n := by
  unfold to_int
  rw [if_pos (Nat.cast_nonneg n)]
  exact Int.floor_natCast n

/-- The three loops of `find_top_E` act on the three arrays one by one. -/
theorem find_top_E_eq (sqrt : α → α) (w_arr : Int → α) (w_arr_len : Nat) (w_full_2 : α)
    (idx_base val_base sel_base : Int) (s : Mat α × Mat α × Mat α) :
    find_top_E sqrt w_arr w_arr_len w_full_2 idx_base val_base sel_base s
      = (forLoop 0 E (fun i (w : Mat α) => w.setFlat (idx_base + i)
            (((vec_at (w_ordered_sorted w_arr w_arr_len) (w_arr_len - 1 - i)).2 : Nat) : α)) s.1,
        forLoop 0 E (fun i (w : Mat α) => w.setFlat (val_base + i)
            (w_arr (to_int ((forLoop 0 E (fun i (w : Mat α) => w.setFlat (idx_base + i)
              (((vec_at (w_ordered_sorted w_arr w_arr_len) (w_arr_len - 1 - i)).2 : Nat) : α))
              s.1).flat (idx_base + i)))))
          (forLoop 0 E (fun i (w : Mat α) => w.setFlat (val_base + i)
            (vec_at (w_ordered_sorted w_arr w_arr_len) (w_arr_len - 1 - i)).1) s.2.1),
        forLoop 0 E_pow_num (fun i (w : Mat α) => w.setFlat (sel_base + i)
            (sqrt (w_full_2 - select_tobe_sub
              (forLoop 0 E (fun i (w : Mat α) => w.setFlat (val_base + i)
                (vec_at (w_ordered_sorted w_arr w_arr_len) (w_arr_len - 1 - i)).1) s.2.1)
              val_base i))) s.2.2) := by
  unfold find_top_E
  simp only
  have h1 := forLoop_eq_of_step
    (fun i (s : Mat α × Mat α × Mat α) =>
      (s.1.setFlat (idx_base + i)
          (((vec_at (w_ordered_sorted w_arr w_arr_len) (w_arr_len - 1 - i)).2 : Nat) : α),
        s.2.1.setFlat (val_base + i)
          (vec_at (w_ordered_sorted w_arr w_arr_len) (w_arr_len - 1 - i)).1, s.2.2))
    (fun n => (forLoop 0 n (fun i (w : Mat α) => w.setFlat (idx_base + i)
          (((vec_at (w_ordered_sorted w_arr w_arr_len) (w_arr_len - 1 - i)).2 : Nat) : α)) s.1,
        forLoop 0 n (fun i (w : Mat α) => w.setFlat (val_base + i)
          (vec_at (w_ordered_sorted w_arr w_arr_len) (w_arr_len - 1 - i)).1) s.2.1, s.2.2))
    (by
      intro i
      simp only [forLoop_succ (Nat.zero_le i)]) E
  simp only [forLoop_of_le (Nat.le_refl 0), Prod.mk.eta] at h1
  rw [h1]
  have h2 := fun (I V T : Mat α) => forLoop_eq_of_step
    (fun i (s : Mat α × Mat α × Mat α) =>
      (s.1, s.2.1,
        s.2.2.setFlat (sel_base + i) (sqrt (w_full_2 - select_tobe_sub s.2.1 val_base i))))
    (fun n => (I, V, forLoop 0 n (fun i (w : Mat α) => w.setFlat (sel_base + i)
      (sqrt (w_full_2 - select_tobe_sub V val_base i))) T))
    (by
      intro i
      simp only [forLoop_succ (Nat.zero_le i)]) E_pow_num
  simp only [forLoop_of_le (Nat.le_refl 0)] at h2
  rw [h2]
  have h3 := fun (I V T : Mat α) => forLoop_eq_of_step
    (fun i (s : Mat α × Mat α × Mat α) =>
      (s.1, s.2.1.setFlat (val_base + i) (w_arr (to_int (s.1.flat (idx_base + i)))), s.2.2))
    (fun n => (I, forLoop 0 n (fun i (w : Mat α) => w.setFlat (val_base + i)
      (w_arr (to_int (I.flat (idx_base + i))))) V, T))
    (by
      intro i
      simp only [forLoop_succ (Nat.zero_le i)]) E
  simp only [forLoop_of_le (Nat.le_refl 0)] at h3
  rw [h3]

/-- What `find_top_E` leaves in its three output arrays: the indices of the `E` last pairs of
the sorted vector, from the last one backwards; the weights at these indices; and for every
bit pattern the square root of `w_full_2` minus the squared absolute values selected by the
pattern. -/
theorem find_top_E_spec (sqrt : α → α) (w_arr : Int → α) (w_arr_len : Nat) (w_full_2 : α)
    (idx_base val_base sel_base : Int) (s : Mat α × Mat α × Mat α) :
    (∀ m, m < E →
      (find_top_E sqrt w_arr w_arr_len w_full_2 idx_base val_base sel_base s).1.flat
          (idx_base + m)
        = (((vec_at (w_ordered_sorted w_arr w_arr_len) (w_arr_len - 1 - m)).2 : Nat) : α)) ∧
    (∀ m, m < E →
      (find_top_E sqrt w_arr w_arr_len w_full_2 idx_base val_base sel_base s).2.1.flat
          (val_base + m)
        = w_arr ((vec_at (w_ordered_sorted w_arr w_arr_len) (w_arr_len - 1 - m)).2 : Nat)) ∧
    ∀ m, m < E_pow_num →
      (find_top_E sqrt w_arr w_arr_len w_full_2 idx_base val_base sel_base s).2.2.flat
          (sel_base + m)
        = sqrt (w_full_2 - ∑ t in Finset.range E, if (m >>> (E - 1 - t)) &&& 1 ≠ 0 then
            (vec_at (w_ordered_sorted w_arr w_arr_len) (w_arr_len - 1 - t)).1
              * (vec_at (w_ordered_sorted w_arr w_arr_len) (w_arr_len - 1 - t)).1 else 0) := by
  rw [find_top_E_eq]
  have hI := fill_loop E idx_base
    (fun i => (((vec_at (w_ordered_sorted w_arr w_arr_len) (w_arr_len - 1 - i)).2 : Nat) : α))
    s.1
  have hV := fill_loop E val_base
    (fun i => (vec_at (w_ordered_sorted w_arr w_arr_len) (w_arr_len - 1 - i)).1) s.2.1
  refine ⟨?_, ?_, ?_⟩
  · intro m hm
    exact hI m hm
  · intro m hm
    have h := fill_loop E val_base
      (fun i => w_arr (to_int ((forLoop 0 E (fun i (w : Mat α) => w.setFlat (idx_base + i)
        (((vec_at (w_ordered_sorted w_arr w_arr_len) (w_arr_len - 1 - i)).2 : Nat) : α))
        s.1).flat (idx_base + i))))
      (forLoop 0 E (fun i (w : Mat α) => w.setFlat (val_base + i)
        (vec_at (w_ordered_sorted w_arr w_arr_len) (w_arr_len - 1 - i)).1) s.2.1) m hm
    simp only at h hI
    rw [hI m hm, to_int_natCast] at h
    exact h
  · intro m hm
    have h := fill_loop E_pow_num sel_base
      (fun i => sqrt (w_full_2 - select_tobe_sub
        (forLoop 0 E (fun i (w : Mat α) => w.setFlat (val_base + i)
          (vec_at (w_ordered_sorted w_arr w_arr_len) (w_arr_len - 1 - i)).1) s.2.1)
        val_base i)) s.2.2 m hm
    simp only at h hV
    rw [select_tobe_sub_eq] at h
    rw [h]
    congr 2
    refine Finset.sum_congr rfl (fun t ht => ?_)
    rw [hV t (Finset.mem_range.mp ht)]

end TopE

end Conv

namespace Conv

/-- The sorted vector of `find_top_E` for the filter `[1, 0, 0, 0, 0, 0]`. -/
theorem first_tap_sorted :
    w_ordered_sorted (fun i => (first_tap_args : ConvArgs ℝ).weight_data.flat
        ((first_tap_args : ConvArgs ℝ).kptr 1 0 + i)) 6
      = [(0, 1), (0, 2), (0, 3), (0, 4), (0, 5), (1, 0)] := by
  have hw : ∀ i : Nat, (first_tap_args : ConvArgs ℝ).weight_data.flat
      ((first_tap_args : ConvArgs ℝ).kptr 1 0 + i) = ([1, 0, 0, 0, 0, 0] : List ℝ).getD i 0 := by
    intro i
    simp [first_tap_args, Mat.of_list, Mat.flat, ConvArgs.kptr]
  unfold w_ordered_sorted
  simp only [hw]
  norm_num [forLoop, loopN, List.insertionSort, List.orderedInsert, pair_le]

/-- What `find_top_E` computes for the filter `[1, 0, 0, 0, 0, 0]`: the first index is `0`,
the weights at the top indices are `1, 0, 0, 0, 0, 0`, and the select norm of the bit pattern
`100000` is the square root of `w_full_2 - 1`. -/
theorem first_tap_find_top_E (w_full_2 : ℝ) (s : Mat ℝ × Mat ℝ × Mat ℝ) :
    (find_top_E Real.sqrt (fun i => (first_tap_args : ConvArgs ℝ).weight_data.flat
        ((first_tap_args : ConvArgs ℝ).kptr 1 0 + i)) 6 w_full_2 0 0 0 s).1.flat 0 = 0 ∧
    (find_top_E Real.sqrt (fun i => (first_tap_args : ConvArgs ℝ).weight_data.flat
        ((first_tap_args : ConvArgs ℝ).kptr 1 0 + i)) 6 w_full_2 0 0 0 s).2.1.flat 0 = 1 ∧
    (∀ m : Nat, 0 < m → m < 6 →
      (find_top_E Real.sqrt (fun i => (first_tap_args : ConvArgs ℝ).weight_data.flat
        ((first_tap_args : ConvArgs ℝ).kptr 1 0 + i)) 6 w_full_2 0 0 0 s).2.1.flat m = 0) ∧
    (find_top_E Real.sqrt (fun i => (first_tap_args : ConvArgs ℝ).weight_data.flat
        ((first_tap_args : ConvArgs ℝ).kptr 1 0 + i)) 6 w_full_2 0 0 0 s).2.2.flat 32
      = Real.sqrt (w_full_2 - 1) := by
  have hs := find_top_E_spec Real.sqrt
    (fun i => (first_tap_args : ConvArgs ℝ).weight_data.flat
      ((first_tap_args : ConvArgs ℝ).kptr 1 0 + i)) 6 w_full_2 0 0 0 s
  rw [first_tap_sorted] at hs
  obtain ⟨hI, hV, hT⟩ := hs
  refine ⟨?_, ?_, ?_, ?_⟩
  · have h := hI 0 (by decide)
    rw [zero_add, Nat.cast_zero] at h
    rw [h]
    simp [vec_at]
  · have h := hV 0 (by decide)
    rw [zero_add, Nat.cast_zero] at h
    rw [h]
    simp [vec_at, first_tap_args, Mat.of_list, Mat.flat, ConvArgs.kptr]
  · intro m hm0 hm6
    have h := hV m hm6
    rw [zero_add] at h
    rw [h]
    interval_cases m <;>
      simp [vec_at, first_tap_args, Mat.of_list, Mat.flat, ConvArgs.kptr]
  · have h := hT 32 (by decide)
    rw [zero_add, Nat.cast_ofNat] at h
    rw [h]
    congr 2
    simp [Finset.sum_range_succ, E, vec_at]

/-- The bit pattern chosen when only the first of the top entries has a positive product
and the other top weights are `0`. -/
theorem top_E_select_first (top_E_indices top_E_w_vals x_vector_diff : Mat ℝ) (k : Nat)
    (h0 : x_vector_diff.flat (to_int (top_E_indices.flat ((k : Int) * E + ((0 : Nat) : Int))))
      * top_E_w_vals.flat ((0 : Nat) : Int) > 0)
    (hrest : ∀ m : Nat, 0 < m → m < 6 → top_E_w_vals.flat m = 0) :
    top_E_select top_E_indices top_E_w_vals x_vector_diff k = 32 := by
  unfold top_E_select
  have h1 := hrest 1 (by decide) (by decide)
  have h2 := hrest 2 (by decide) (by decide)
  have h3 := hrest 3 (by decide) (by decide)
  have h4 := hrest 4 (by decide) (by decide)
  have h5 := hrest 5 (by decide) (by decide)
  have hE : ∀ (f : Nat → Nat → Nat) (s : Nat),
      forLoop 0 E f s = f 5 (f 4 (f 3 (f 2 (f 1 (f 0 s))))) := fun _ _ => rfl
  rw [hE]
  simp only [h1, h2, h3, h4, h5, mul_zero, gt_iff_lt, lt_irrefl, if_false]
  rw [if_pos h0]
  rfl

/-- The first entry of the delta vector between the inputs `[[1, 0, 0, 0, 0, 0]]` and
`[[0, 0, 0, 0, 0, 0]]`. -/
theorem six_step_diff (x_vector_diff : Mat ℝ) :
    (top_E_dx2_sum (first_tap_args : ConvArgs ℝ) six_step six_zero 0 0 x_vector_diff).2.flat 0
      = 1 := by
  have hic : (six_step : Mat ℝ).c = 1 := rfl
  have hmk : (first_tap_args : ConvArgs ℝ).maxk = 6 := by decide
  have hso : (first_tap_args : ConvArgs ℝ).space_ofs (six_step : Mat ℝ) 0 = 0 := by decide
  have h6 : ∀ (f : Nat → ℝ × Mat ℝ → ℝ × Mat ℝ) (s : ℝ × Mat ℝ),
      forLoop 0 6 f s = f 5 (f 4 (f 3 (f 2 (f 1 (f 0 s))))) := fun _ _ => rfl
  unfold top_E_dx2_sum
  rw [hic, hmk, forLoop_one, h6]
  simp only
  rw [Mat.flat_setFlat_ne _ _ _ _ (by norm_num), Mat.flat_setFlat_ne _ _ _ _ (by norm_num),
    Mat.flat_setFlat_ne _ _ _ _ (by norm_num), Mat.flat_setFlat_ne _ _ _ _ (by norm_num),
    Mat.flat_setFlat_ne _ _ _ _ (by norm_num)]
  have e0 : ((0 : Nat) : Int) * ((6 : Nat) : Int) + ((0 : Nat) : Int) = 0 := by norm_num
  rw [e0, Mat.flat_setFlat_same]
  unfold patch_at
  rw [hso]
  simp [six_step, six_zero, Mat.of_rows, row_ptr]

/-- The caches left by the first call of `mlsys_convolution_lower_top_E` on the all-zero
input with the filter `[1, 0, 0, 0, 0, 0]`. -/
theorem first_tap_first_call :
    (mlsys_convolution_lower_top_E Real.sqrt Real.exp six_zero one_top
        (first_tap_args : ConvArgs ℝ) Mat.nil Mat.nil Mat.nil Mat.nil Mat.nil Mat.nil
        Mat.nil).last_x = six_zero ∧
    (mlsys_convolution_lower_top_E Real.sqrt Real.exp six_zero one_top
        (first_tap_args : ConvArgs ℝ) Mat.nil Mat.nil Mat.nil Mat.nil Mat.nil Mat.nil
        Mat.nil).last_y.data 0 (out_pos 1 0 0) = 0 ∧
    (mlsys_convolution_lower_top_E Real.sqrt Real.exp six_zero one_top
        (first_tap_args : ConvArgs ℝ) Mat.nil Mat.nil Mat.nil Mat.nil Mat.nil Mat.nil
        Mat.nil).top_E_indices.flat 0 = 0 ∧
    (mlsys_convolution_lower_top_E Real.sqrt Real.exp six_zero one_top
        (first_tap_args : ConvArgs ℝ) Mat.nil Mat.nil Mat.nil Mat.nil Mat.nil Mat.nil
        Mat.nil).top_E_w_vals.flat 0 = 1 ∧
    (∀ m : Nat, 0 < m → m < 6 →
      (mlsys_convolution_lower_top_E Real.sqrt Real.exp six_zero one_top
        (first_tap_args : ConvArgs ℝ) Mat.nil Mat.nil Mat.nil Mat.nil Mat.nil Mat.nil
        Mat.nil).top_E_w_vals.flat m = 0) ∧
    (mlsys_convolution_lower_top_E Real.sqrt Real.exp six_zero one_top
        (first_tap_args : ConvArgs ℝ) Mat.nil Mat.nil Mat.nil Mat.nil Mat.nil Mat.nil
        Mat.nil).all_select_norms.flat 32 = 0 := by
  have he : (Mat.nil : Mat ℝ).total ≤ 0 := Nat.le_refl 0
  have hc : (one_top : Mat ℝ).c = 1 := rfl
  have hic : (six_zero : Mat ℝ).c = 1 := rfl
  have hmk : (first_tap_args : ConvArgs ℝ).maxk = 6 := by decide
  have hz : ∀ q p, (six_zero : Mat ℝ).data q p = 0 := by
    intro q p
    show (if 0 ≤ p then ([0, 0, 0, 0, 0, 0] : List ℝ).getD p.toNat 0 else 0) = 0
    split_ifs
    · generalize p.toNat = n
      match n with
      | 0 => rfl
      | 1 => rfl
      | 2 => rfl
      | 3 => rfl
      | 4 => rfl
      | 5 => rfl
      | n + 6 => rfl
    · rfl
  have eb : (E : Int) * ((0 : Nat) : Int) = 0 := by simp
  have es : ((0 : Nat) : Int) * (E_pow_num : Int) = 0 := by simp
  unfold mlsys_convolution_lower_top_E
  simp only [he, if_true, hc, hic, hmk, forLoop_one, Nat.mul_one, eb, es]
  have hw2 : (norm_accumulate (first_tap_args : ConvArgs ℝ).weight_data 1 6 0
      ((first_tap_args : ConvArgs ℝ).kptr 1 0)
      (((Mat.nil : Mat ℝ).create1 1).setFlat ((0 : Nat) : Int) 0)).flat ((0 : Nat) : Int) = 1 := by
    rw [norm_accumulate_eq, Mat.flat_setFlat_same]
    simp [dsum, Finset.sum_range_succ, first_tap_args, Mat.of_list, Mat.flat, ConvArgs.kptr]
  rw [hw2]
  have hf := first_tap_find_top_E 1
    ((Mat.nil : Mat ℝ).create1 (1 * E), (Mat.nil : Mat ℝ).create1 (1 * E),
      (Mat.nil : Mat ℝ).create1 (1 * E_pow_num))
  refine ⟨trivial, ?_, hf.1, hf.2.1, hf.2.2.1, ?_⟩
  · have h := (exact_compute_spec Real.exp (first_tap_args : ConvArgs ℝ) six_zero one_top
      one_top).2.2 0 0 0 (by decide) (by decide) (by decide)
    refine h.2.trans ?_
    unfold conv_sum dsum
    simp [patch_at, hz]
  · rw [hf.2.2.2]
    norm_num

end Conv

namespace Conv

/-- The created output in terms of the locals `outw` and `outh`. -/
theorem create_top_eq {α : Type} (self : Convolution α) (b t : Mat α) :
    self.create_top b t = t.create3 (self.outw b) (self.outh b) self.num_output := rfl

/-- An output whose computed width or height is `0` is empty. -/
theorem create_top_empty {α : Type} (self : Convolution α) (b t : Mat α)
    (h : self.outw b = 0 ∨ self.outh b = 0) : (self.create_top b t).empty = true := by
  rw [create_top_eq]
  unfold Mat.empty Mat.total Mat.create3
  rcases h with h | h
  · simp [h]
  · simp [h]

/-- The method `load_model` leaves every cache as it was. -/
theorem load_model_caches {α : Type} (ext : Externals α) (self : Convolution α) :
    (Convolution.load_model ext self).2.record1 = self.record1 ∧
    (Convolution.load_model ext self).2.record2 = self.record2 ∧
    (Convolution.load_model ext self).2.record3 = self.record3 ∧
    (Convolution.load_model ext self).2.record4 = self.record4 ∧
    (Convolution.load_model ext self).2.all_select_norms = self.all_select_norms ∧
    (Convolution.load_model ext self).2.top_E_indices = self.top_E_indices ∧
    (Convolution.load_model ext self).2.top_E_w_vals = self.top_E_w_vals := by
  unfold Convolution.load_model
  simp only
  split_ifs <;> exact ⟨rfl, rfl, rfl, rfl, rfl, rfl, rfl⟩

/-- The status of `load_model` is `0` or `-100`. -/
theorem load_model_status {α : Type} (ext : Externals α) (self : Convolution α) :
    (Convolution.load_model ext self).1 = 0 ∨ (Convolution.load_model ext self).1 = -100 := by
  unfold Convolution.load_model
  simp only
  split_ifs <;> simp

section LayerCalls

variable {α : Type} [LinearOrderedField α]

/-- A forward call outside the `InnerProduct` path whose padded input or created output is
empty returns `-100` with the layer as it was and without a store into the output. -/
theorem forward_fail (sqrt exp : α → α) (ext : Externals α) (self : Convolution α)
    (bottom top : Mat α) (opt : Opt) (hnf : self.is_flattened bottom = false)
    (hfail : (self.make_padding ext bottom).empty = true ∨
      (self.create_top (self.make_padding ext bottom) top).empty = true) :
    Convolution.forward sqrt exp ext self bottom top opt
      = (-100,
        (if (self.make_padding ext bottom).empty = true then top
          else self.create_top (self.make_padding ext bottom) top), self) := by
  unfold Convolution.forward
  simp only [hnf, Bool.false_eq_true, if_false]
  by_cases h1 : (self.make_padding ext bottom).empty = true
  · simp only [h1, if_true]
  · rcases hfail with h | h
    · exact absurd h h1
    · simp only [h1, h, if_true, if_false, Bool.false_eq_true]

/-- A forward call outside the `InnerProduct` path whose padded input and created output
are not empty returns `0` and the output of the kernel chosen by `use_reserved_0`. -/
theorem forward_ok (sqrt exp : α → α) (ext : Externals α) (self : Convolution α)
    (bottom top : Mat α) (opt : Opt) (hnf : self.is_flattened bottom = false)
    (hpad : (self.make_padding ext bottom).empty = false)
    (htop : (self.create_top (self.make_padding ext bottom) top).empty = false) :
    (Convolution.forward sqrt exp ext self bottom top opt).1 = 0 ∧
    (Convolution.forward sqrt exp ext self bottom top opt).2.1
      = if opt.use_reserved_0 = true then
          (mlsys_convolution sqrt exp (self.make_padding ext bottom)
            (self.create_top (self.make_padding ext bottom) top) self.args
            self.record1 self.record2 self.record3).out_y
        else raw_convolution exp (self.make_padding ext bottom)
          (self.create_top (self.make_padding ext bottom) top) self.args := by
  unfold Convolution.forward
  simp only [hnf, hpad, htop, Bool.false_eq_true, if_false]
  by_cases h3 : opt.use_reserved_0 = true
  · simp only [h3, if_true, and_self]
  · simp only [h3, if_false, and_self, Bool.false_eq_true]

/-- The status of a forward call is `0` or `-100`. -/
theorem forward_status (sqrt exp : α → α) (ext : Externals α) (self : Convolution α)
    (bottom top : Mat α) (opt : Opt) :
    (Convolution.forward sqrt exp ext self bottom top opt).1 = 0 ∨
    (Convolution.forward sqrt exp ext self bottom top opt).1 = -100 := by
  unfold Convolution.forward
  by_cases h0 : self.is_flattened bottom = true
  · left; simp [h0]
  · by_cases h1 : (self.make_padding ext bottom).empty = true
    · right; simp [h0, h1]
    · by_cases h2 : (self.create_top (self.make_padding ext bottom) top).empty = true
      · right; simp [h0, h1, h2]
      · by_cases h3 : opt.use_reserved_0 = true
        · left; simp [h0, h1, h2, h3]
        · left; simp [h0, h1, h2, h3]

/-- The kernel `mlsys_convolution` caches its input as `last_x`. -/
theorem mlsys_last_x (sqrt exp : α → α) (x out : Mat α) (a : ConvArgs α) (lx ly wn : Mat α) :
    (mlsys_convolution sqrt exp x out a lx ly wn).last_x = x := by
  by_cases he : lx.total ≤ 0
  · exact (mlsys_first_spec sqrt exp x out a lx ly wn he).1
  · exact (mlsys_bound_spec sqrt exp x out a lx ly wn he).1

/-- The method `load_param` empties the three caches of the temporal kernel. -/
theorem load_param_caches (self : Convolution α) (pd : ParamDict α) :
    (Convolution.load_param self pd).2.record1 = Mat.nil ∧
    (Convolution.load_param self pd).2.record2 = Mat.nil ∧
    (Convolution.load_param self pd).2.record3 = Mat.nil := by
  unfold Convolution.load_param
  simp only
  split_ifs <;> exact ⟨rfl, rfl, rfl⟩

/-- The status of `load_param` depends on the `int8_scale_term` entry only. -/
theorem load_param_status (self : Convolution α) (pd : ParamDict α) :
    (Convolution.load_param self pd).1 = if pd.get_int 8 0 ≠ 0 then -1 else 0 := by
  unfold Convolution.load_param
  simp only
  split_ifs <;> rfl

end LayerCalls

end Conv

namespace Conv

/-- What `load_param` leaves in the layer depends on the layer it is run on only through
the weights, the bias and the two flags of the constructor: the test for flattened blobs,
the padding, the created output and, for equal weights and bias, the kernel arguments are
the same. -/
theorem load_param_same {α : Type} [LinearOrderedField α] (ext : Externals α)
    (A B : Convolution α) (pd : ParamDict α) (x b t t2 : Mat α) :
    (Convolution.load_param A pd).2.is_flattened x
      = (Convolution.load_param B pd).2.is_flattened x ∧
    (Convolution.load_param A pd).2.make_padding ext x
      = (Convolution.load_param B pd).2.make_padding ext x ∧
    (Convolution.load_param A pd).2.create_top b t
      = (Convolution.load_param B pd).2.create_top b t ∧
    ((Convolution.load_param A pd).2.create_top b t).w
      = ((Convolution.load_param B pd).2.create_top b t2).w ∧
    ((Convolution.load_param A pd).2.create_top b t).h
      = ((Convolution.load_param B pd).2.create_top b t2).h ∧
    ((Convolution.load_param A pd).2.create_top b t).c
      = ((Convolution.load_param B pd).2.create_top b t2).c ∧
    (B.weight_data = A.weight_data → B.bias_data = A.bias_data →
      (Convolution.load_param A pd).2.args = (Convolution.load_param B pd).2.args) := by
  unfold Convolution.load_param
  simp only
  refine ⟨?_, ?_, ?_, ?_, ?_, ?_, ?_⟩
  · split_ifs <;> rfl
  · split_ifs <;> rfl
  · split_ifs <;> rfl
  · split_ifs <;> rfl
  · split_ifs <;> rfl
  · split_ifs <;> rfl
  · intro hw hb
    unfold Convolution.args
    split_ifs <;> simp only [hw, hb]

end Conv

namespace Conv

section Replay

variable {α : Type} [LinearOrderedField α]

/-- Every position of a call of `mlsys_convolution` holds the activated exact pre-activation
and caches the exact bias-free sum, or holds `0` and caches a value that passes the skip
test with a zero delta. -/
theorem mlsys_call_cases (sqrt exp : α → α) (x out : Mat α) (a : ConvArgs α)
    (lx ly wn : Mat α) (i j k : Nat) (hi : i < out.h) (hj : j < out.w) (hk : k < out.c) :
    ((mlsys_convolution sqrt exp x out a lx ly wn).out_y.data k (out_pos out.w i j)
        = a.act exp (exact_y a x i j k) ∧
      (mlsys_convolution sqrt exp x out a lx ly wn).last_y.data k (out_pos out.w i j)
        = conv_sum a x i j k) ∨
    ((mlsys_convolution sqrt exp x out a lx ly wn).out_y.data k (out_pos out.w i j) = 0 ∧
      (mlsys_convolution sqrt exp x out a lx ly wn).last_y.data k (out_pos out.w i j)
        + a.y_init k ≤ 0) := by
  by_cases he : lx.total ≤ 0
  · left
    exact (mlsys_first_spec sqrt exp x out a lx ly wn he).2.2.2 i j k hi hj hk
  · have h := (mlsys_bound_spec sqrt exp x out a lx ly wn he).2.2.2 i j k hi hj hk
    by_cases hs : mlsys_skips sqrt a x lx wn i j k (ly.data k (out_pos out.w i j))
    · right
      obtain ⟨ho, hl⟩ := h.1 hs
      refine ⟨ho, ?_⟩
      rw [hl]
      unfold mlsys_skips at hs
      linarith
    · left
      exact h.2 hs

/-- With a square root that maps `0` to `0`, the skip test of a replayed input compares the
cached value plus the bias with `0`. -/
theorem mlsys_skips_replay (sqrt : α → α) (hs0 : sqrt 0 = 0) (a : ConvArgs α) (x wn : Mat α)
    (i j k : Nat) (v : α) : mlsys_skips sqrt a x x wn i j k v ↔ v + a.y_init k ≤ 0 := by
  unfold mlsys_skips
  rw [temporal_dx2_sum_self, hs0, mul_zero, add_zero]
  constructor
  · intro h
    linarith
  · intro h
    linarith

/-- A call of `mlsys_convolution` on the cached input: a position whose cached value passes
the skip test holds `0` and keeps the cached value, any other position holds the activated
exact pre-activation and caches the exact bias-free sum. -/
theorem mlsys_replay_cases (sqrt exp : α → α) (hs0 : sqrt 0 = 0) (x out : Mat α)
    (a : ConvArgs α) (ly wn : Mat α) (hx : ¬ x.total ≤ 0) (i j k : Nat) (hi : i < out.h)
    (hj : j < out.w) (hk : k < out.c) :
    (ly.data k (out_pos out.w i j) + a.y_init k ≤ 0 →
      (mlsys_convolution sqrt exp x out a x ly wn).out_y.data k (out_pos out.w i j) = 0 ∧
      (mlsys_convolution sqrt exp x out a x ly wn).last_y.data k (out_pos out.w i j)
        = ly.data k (out_pos out.w i j)) ∧
    (¬ ly.data k (out_pos out.w i j) + a.y_init k ≤ 0 →
      (mlsys_convolution sqrt exp x out a x ly wn).out_y.data k (out_pos out.w i j)
        = a.act exp (exact_y a x i j k) ∧
      (mlsys_convolution sqrt exp x out a x ly wn).last_y.data k (out_pos out.w i j)
        = conv_sum a x i j k) := by
  have h := (mlsys_bound_spec sqrt exp x out a x ly wn hx).2.2.2 i j k hi hj hk
  constructor
  · intro hv
    obtain ⟨ho, hl⟩ := h.1 ((mlsys_skips_replay sqrt hs0 a x wn i j k _).mpr hv)
    refine ⟨ho, ?_⟩
    rw [hl, temporal_dx2_sum_self, hs0, mul_zero, add_zero]
  · intro hv
    exact h.2 (fun hs => hv ((mlsys_skips_replay sqrt hs0 a x wn i j k _).mp hs))

/-- Replaying the input of the previous call of `mlsys_convolution`: `last_x` and every
cached value stay as they are, and under ReLU so does every output. -/
theorem mlsys_replay_same (sqrt exp : α → α) (hs0 : sqrt 0 = 0) (x out out2 : Mat α)
    (a : ConvArgs α) (lx ly wn : Mat α) (hx : ¬ x.total ≤ 0)
    (hd : out2.w = out.w ∧ out2.h = out.h ∧ out2.c = out.c) :
    (mlsys_convolution sqrt exp x out2 a (mlsys_convolution sqrt exp x out a lx ly wn).last_x
        (mlsys_convolution sqrt exp x out a lx ly wn).last_y
        (mlsys_convolution sqrt exp x out a lx ly wn).w_norm2).last_x
      = (mlsys_convolution sqrt exp x out a lx ly wn).last_x ∧
    ∀ i j k, i < out.h → j < out.w → k < out.c →
      (mlsys_convolution sqrt exp x out2 a (mlsys_convolution sqrt exp x out a lx ly wn).last_x
          (mlsys_convolution sqrt exp x out a lx ly wn).last_y
          (mlsys_convolution sqrt exp x out a lx ly wn).w_norm2).last_y.data k
          (out_pos out.w i j)
        = (mlsys_convolution sqrt exp x out a lx ly wn).last_y.data k (out_pos out.w i j) ∧
      (a.activation_type = 1 →
        (mlsys_convolution sqrt exp x out2 a (mlsys_convolution sqrt exp x out a lx ly wn).last_x
            (mlsys_convolution sqrt exp x out a lx ly wn).last_y
            (mlsys_convolution sqrt exp x out a lx ly wn).w_norm2).out_y.data k
            (out_pos out.w i j)
          = (mlsys_convolution sqrt exp x out a lx ly wn).out_y.data k (out_pos out.w i j)) := by
  rw [mlsys_last_x sqrt exp x out a lx ly wn]
  refine ⟨mlsys_last_x sqrt exp x out2 a x _ _, ?_⟩
  intro i j k hi hj hk
  have h1 := mlsys_call_cases sqrt exp x out a lx ly wn i j k hi hj hk
  have h2 := mlsys_replay_cases sqrt exp hs0 x out2 a
    (mlsys_convolution sqrt exp x out a lx ly wn).last_y
    (mlsys_convolution sqrt exp x out a lx ly wn).w_norm2 hx i j k
    (by rw [hd.2.1]; exact hi) (by rw [hd.1]; exact hj) (by rw [hd.2.2]; exact hk)
  rw [hd.1] at h2
  by_cases hv : (mlsys_convolution sqrt exp x out a lx ly wn).last_y.data k (out_pos out.w i j)
      + a.y_init k ≤ 0
  · obtain ⟨ho, hl⟩ := h2.1 hv
    refine ⟨hl, ?_⟩
    intro hrelu
    rw [ho]
    rcases h1 with h1 | h1
    · rw [h1.1]
      unfold ConvArgs.act activation_ss
      rw [if_pos hrelu]
      rw [h1.2] at hv
      rw [exact_y_eq, max_eq_right (by linarith)]
    · exact h1.1.symm
  · obtain ⟨ho, hl⟩ := h2.2 hv
    rcases h1 with h1 | h1
    · exact ⟨hl.trans h1.2.symm, fun _ => ho.trans h1.1.symm⟩
    · exact absurd h1.2 hv

end Replay

end Conv

namespace Conv

/-- The exact pre-activations of scenario S1 are the input values `1`, `-2` and `3`, also
without the bias, which is absent. -/
theorem s1_exact_y :
    (s1_args : ConvArgs ℝ).y_init 0 = 0 ∧
    conv_sum (s1_args : ConvArgs ℝ) s1_input 0 0 0 = 1 ∧
    conv_sum (s1_args : ConvArgs ℝ) s1_input 0 1 0 = -2 ∧
    conv_sum (s1_args : ConvArgs ℝ) s1_input 0 2 0 = 3 ∧
    exact_y (s1_args : ConvArgs ℝ) s1_input 0 0 0 = 1 ∧
    exact_y (s1_args : ConvArgs ℝ) s1_input 0 1 0 = -2 ∧
    exact_y (s1_args : ConvArgs ℝ) s1_input 0 2 0 = 3 := by
  have hyi : (s1_args : ConvArgs ℝ).y_init 0 = 0 := by
    simp [ConvArgs.y_init, ConvArgs.bias_term, s1_args, Mat.nil, Mat.empty, Mat.total]
  have hso : (s1_args : ConvArgs ℝ).space_ofs (s1_input : Mat ℝ) 0 = 0 := by decide
  have hmk : (s1_args : ConvArgs ℝ).maxk = 1 := by decide
  have hc : (s1_input : Mat ℝ).c = 1 := rfl
  have hwt : (s1_args : ConvArgs ℝ).weight 1 0 0 0 = 1 := by
    simp [ConvArgs.weight, ConvArgs.kptr, s1_args, Mat.of_list, Mat.flat]
  have hcs : ∀ j : Nat, conv_sum (s1_args : ConvArgs ℝ) s1_input 0 j 0
      = (s1_input : Mat ℝ).data 0 (row_ptr (s1_input : Mat ℝ) 1 1 0 j) := by
    intro j
    unfold conv_sum dsum
    rw [hc, hmk]
    simp only [Finset.sum_range_one]
    unfold patch_at
    rw [hso, hwt, mul_one, add_zero]
    rfl
  have h0 : conv_sum (s1_args : ConvArgs ℝ) s1_input 0 0 0 = 1 := by
    rw [hcs]
    simp [s1_input, Mat.of_rows, row_ptr]
  have h1 : conv_sum (s1_args : ConvArgs ℝ) s1_input 0 1 0 = -2 := by
    rw [hcs]
    simp [s1_input, Mat.of_rows, row_ptr]
  have h2 : conv_sum (s1_args : ConvArgs ℝ) s1_input 0 2 0 = 3 := by
    rw [hcs]
    simp [s1_input, Mat.of_rows, row_ptr]
  refine ⟨hyi, h0, h1, h2, ?_, ?_, ?_⟩
  · rw [exact_y_eq, hyi, h0, zero_add]
  · rw [exact_y_eq, hyi, h1, zero_add]
  · rw [exact_y_eq, hyi, h2, zero_add]

/-- The activation of scenario S1 is ReLU. -/
theorem s1_act (v : ℝ) : (s1_args : ConvArgs ℝ).act Real.exp v = max v 0 := by
  unfold ConvArgs.act activation_ss
  have ht : (s1_args : ConvArgs ℝ).activation_type = 1 := rfl
  rw [if_pos ht]

/-- The first call of `mlsys_convolution` in scenario S1 writes `[[1, 0, 3]]` and caches
`[[1, -2, 3]]`. -/
theorem s1_first_call :
    ((mlsys_convolution Real.sqrt Real.exp s1_input s1_top (s1_args : ConvArgs ℝ) Mat.nil
        Mat.nil Mat.nil).out_y.data 0 (out_pos 3 0 0) = 1 ∧
      (mlsys_convolution Real.sqrt Real.exp s1_input s1_top (s1_args : ConvArgs ℝ) Mat.nil
        Mat.nil Mat.nil).out_y.data 0 (out_pos 3 0 1) = 0 ∧
      (mlsys_convolution Real.sqrt Real.exp s1_input s1_top (s1_args : ConvArgs ℝ) Mat.nil
        Mat.nil Mat.nil).out_y.data 0 (out_pos 3 0 2) = 3) ∧
    (mlsys_convolution Real.sqrt Real.exp s1_input s1_top (s1_args : ConvArgs ℝ) Mat.nil
        Mat.nil Mat.nil).last_y.data 0 (out_pos 3 0 0) = 1 ∧
    (mlsys_convolution Real.sqrt Real.exp s1_input s1_top (s1_args : ConvArgs ℝ) Mat.nil
        Mat.nil Mat.nil).last_y.data 0 (out_pos 3 0 1) = -2 ∧
    (mlsys_convolution Real.sqrt Real.exp s1_input s1_top (s1_args : ConvArgs ℝ) Mat.nil
        Mat.nil Mat.nil).last_y.data 0 (out_pos 3 0 2) = 3 := by
  have h := (mlsys_first_spec Real.sqrt Real.exp s1_input s1_top (s1_args : ConvArgs ℝ) Mat.nil
    Mat.nil Mat.nil (Nat.le_refl 0)).2.2.2
  obtain ⟨_, c0, c1, c2, e0, e1, e2⟩ := s1_exact_y
  have p0 := h 0 0 0 (by decide) (by decide) (by decide)
  have p1 := h 0 1 0 (by decide) (by decide) (by decide)
  have p2 := h 0 2 0 (by decide) (by decide) (by decide)
  rw [e0, s1_act, c0] at p0
  rw [e1, s1_act, c1] at p1
  rw [e2, s1_act, c2] at p2
  refine ⟨⟨p0.1.trans (by norm_num), p1.1.trans (by norm_num), p2.1.trans (by norm_num)⟩,
    p0.2, p1.2, p2.2⟩

end Conv

namespace Conv

section NormCache

variable {α : Type} [LinearOrderedField α]

/-- The squared norm of a non-empty filter is at least the square of its first weight. -/
theorem weight_sq_sub_first_nonneg (a : ConvArgs α) (inch k : Nat) (hc : 0 < inch)
    (hk : 0 < a.maxk) :
    0 ≤ weight_sq a inch k - a.weight inch k 0 0 * a.weight inch k 0 0 := by
  unfold weight_sq
  rw [← dsum_zero_first inch a.maxk hc hk
    (fun q t => a.weight inch k q t * a.weight inch k q t)]
  apply dsum_nonneg
  intro q t
  split_ifs
  · exact le_refl 0
  · exact mul_self_nonneg _

/-- The squared norm of a filter is non-negative. -/
theorem weight_sq_nonneg (a : ConvArgs α) (inch k : Nat) : 0 ≤ weight_sq a inch k := by
  unfold weight_sq
  exact dsum_nonneg _ _ _ (fun q t => mul_self_nonneg _)

/-- The first call of `spatial_convolution_lower_bound_first_one` (empty `w_norm2`) fills the
two norm caches. -/
theorem first_one_norms (sqrt exp : α → α) (x top : Mat α) (a : ConvArgs α)
    (w_norm2 col row w_norm2_lower : Mat α) (he : w_norm2.total ≤ 0) :
    ∀ k, k < top.c →
      (spatial_convolution_lower_bound_first_one sqrt exp x top a w_norm2 col row
          w_norm2_lower).w_norm2.flat k = sqrt (weight_sq a x.c k) ∧
      (spatial_convolution_lower_bound_first_one sqrt exp x top a w_norm2 col row
          w_norm2_lower).w_norm2_lower.flat k
        = sqrt (weight_sq a x.c k - a.weight x.c k 0 0 * a.weight x.c k 0 0) := by
  unfold spatial_convolution_lower_bound_first_one
  simp only [he, if_true]
  exact calc_w_norm2_first_one_spec sqrt a x.c top.c _

end NormCache

end Conv

namespace Conv

/-- A loop that stores into the entries `base + i` of a blob leaves every entry outside
`[base, base + n)` as it was. -/
theorem fill_loop_frame {α : Type} (n : Nat) (base : Int) (F : Nat → α) (m0 : Mat α) (z : Int)
    (hz : z < base ∨ base + n ≤ z) :
    (forLoop 0 n (fun i (w : Mat α) => w.setFlat (base + i) (F i)) m0).flat z = m0.flat z := by
  have h := forLoop_inv
    (fun _ (w : Mat α) => w.flat z = m0.flat z)
    (Nat.zero_le n) (fun i (w : Mat α) => w.setFlat (base + i) (F i)) m0 rfl
    (by
      intro i w _ hi hP
      rw [Mat.flat_setFlat_ne _ _ _ _ (by omega)]
      exact hP)
  exact h

/-- Entry `p` of slice `k` lies before slice `k2` when `k < k2`. -/
theorem slice_lt (n k k2 p : Nat) (h : k < k2) (hp : p < n) :
    (n : Int) * k + p < (n : Int) * k2 := by
  have h1 : n * k + p < n * k2 :=
    calc n * k + p < n * k + n := by omega
      _ = n * (k + 1) := by ring
      _ ≤ n * k2 := Nat.mul_le_mul_left _ h
  exact_mod_cast h1

/-- Entry `p` of slice `k` lies before slice `k2` when `k < k2` (slice length on the right). -/
theorem slice_lt_right (n k k2 p : Nat) (h : k < k2) (hp : p < n) :
    (k : Int) * n + p < (k2 : Int) * n := by
  have h1 := slice_lt n k k2 p h hp
  rw [mul_comm (n : Int) k, mul_comm (n : Int) k2] at h1
  exact h1

section Sorted

variable {α : Type} [LinearOrderedField α]

/-- The pairs pushed by `find_top_E`, in index order. -/
theorem pushed_eq (w_arr : Int → α) (n : Nat) :
    forLoop 0 n (fun i (l : List (α × Nat)) => l ++ [(|w_arr i|, i)]) []
      = (List.range n).map (fun i : Nat => (|w_arr (i : Int)|, i)) := by
  induction n with
  | zero => simp [forLoop_of_le (Nat.le_refl 0)]
  | succ n ih =>
    rw [forLoop_succ (Nat.zero_le n), ih, List.range_succ, List.map_append]
    rfl

/-- The sorted vector is a rearrangement of the pushed pairs. -/
theorem w_ordered_sorted_perm (w_arr : Int → α) (n : Nat) :
    (w_ordered_sorted w_arr n).Perm
      ((List.range n).map (fun i : Nat => (|w_arr (i : Int)|, i))) := by
  unfold w_ordered_sorted
  rw [pushed_eq]
  exact List.perm_insertionSort _ _

/-- The sorted vector has one pair per weight. -/
theorem w_ordered_sorted_length (w_arr : Int → α) (n : Nat) :
    (w_ordered_sorted w_arr n).length = n := by
  rw [(w_ordered_sorted_perm w_arr n).length_eq]
  simp

/-- Every pair of the sorted vector is `(abs(w_arr[i]), i)` for an index `i` of the filter. -/
theorem w_ordered_sorted_entry (w_arr : Int → α) (n j : Nat) (hj : j < n) :
    ((w_ordered_sorted w_arr n).getD j (0, 0)).2 < n ∧
    ((w_ordered_sorted w_arr n).getD j (0, 0)).1
      = |w_arr (((w_ordered_sorted w_arr n).getD j (0, 0)).2 : Nat)| := by
  have hl : j < (w_ordered_sorted w_arr n).length := by
    rw [w_ordered_sorted_length]
    exact hj
  have hm : (w_ordered_sorted w_arr n).getD j (0, 0) ∈ w_ordered_sorted w_arr n := by
    rw [List.getD_eq_getElem _ _ hl]
    exact List.getElem_mem hl
  have hm2 := (w_ordered_sorted_perm w_arr n).mem_iff.mp hm
  rw [List.mem_map] at hm2
  obtain ⟨i, hi, e⟩ := hm2
  rw [← e]
  exact ⟨List.mem_range.mp hi, rfl⟩

/-- A sum over the positions of a list is the sum of the mapped list. -/
theorem sum_getD_eq {β : Type} (l : List β) (d : β) (f : β → α) :
    ∑ j in Finset.range l.length, f (l.getD j d) = (l.map f).sum := by
  induction l with
  | nil => simp
  | cons x l ih =>
    rw [List.length_cons, Finset.sum_range_succ', List.map_cons, List.sum_cons, ← ih]
    simp [add_comm]

/-- The sum of a function over the mapped range list. -/
theorem sum_map_range {β : Type} (n : Nat) (g : Nat → β) (f : β → α) :
    (((List.range n).map g).map f).sum = ∑ i in Finset.range n, f (g i) := by
  induction n with
  | zero => simp
  | succ n ih =>
    rw [List.range_succ, List.map_append, List.map_append, List.sum_append, ih,
      Finset.sum_range_succ]
    simp

/-- The squared first components of the sorted vector add up to the squared norm of the
filter. -/
theorem w_ordered_sorted_sum (w_arr : Int → α) (n : Nat) :
    ∑ j in Finset.range n, ((w_ordered_sorted w_arr n).getD j (0, 0)).1
        * ((w_ordered_sorted w_arr n).getD j (0, 0)).1
      = ∑ i in Finset.range n, w_arr (i : Nat) * w_arr (i : Nat) := by
  have h := sum_getD_eq (w_ordered_sorted w_arr n) (0, 0) (fun p : α × Nat => p.1 * p.1)
  rw [w_ordered_sorted_length] at h
  rw [h, ((w_ordered_sorted_perm w_arr n).map _).sum_eq, sum_map_range]
  refine Finset.sum_congr rfl (fun i _ => ?_)
  exact abs_mul_abs_self _

/-- The read of the sorted vector at `w_arr_len - 1 - t` for `t` below the length. -/
theorem vec_at_top (w_arr : Int → α) (n t : Nat) (ht : t < n) :
    vec_at (w_ordered_sorted w_arr n) ((n : Int) - 1 - t)
      = (w_ordered_sorted w_arr n).getD (n - 1 - t) (0, 0) := by
  unfold vec_at
  have h0 : (0 : Int) ≤ (n : Int) - 1 - t := by omega
  rw [if_pos h0]
  congr 1
  omega

/-- The squares selected by a bit pattern add up to at most the squared norm of the filter,
when the filter has at least `E` weights. -/
theorem select_sum_le (w_arr : Int → α) (n : Nat) (hn : E ≤ n) (m : Nat) :
    (∑ t in Finset.range E, if (m >>> (E - 1 - t)) &&& 1 ≠ 0 then
        (vec_at (w_ordered_sorted w_arr n) ((n : Int) - 1 - t)).1
          * (vec_at (w_ordered_sorted w_arr n) ((n : Int) - 1 - t)).1 else 0)
      ≤ ∑ i in Finset.range n, w_arr (i : Nat) * w_arr (i : Nat) := by
  have h1 : (∑ t in Finset.range E, if (m >>> (E - 1 - t)) &&& 1 ≠ 0 then
        (vec_at (w_ordered_sorted w_arr n) ((n : Int) - 1 - t)).1
          * (vec_at (w_ordered_sorted w_arr n) ((n : Int) - 1 - t)).1 else 0)
      ≤ ∑ t in Finset.range E, ((w_ordered_sorted w_arr n).getD (n - 1 - t) (0, 0)).1
          * ((w_ordered_sorted w_arr n).getD (n - 1 - t) (0, 0)).1 := by
    refine Finset.sum_le_sum (fun t ht => ?_)
    rw [vec_at_top w_arr n t (lt_of_lt_of_le (Finset.mem_range.mp ht) hn)]
    split_ifs
    · exact le_refl _
    · exact mul_self_nonneg _
  have h2 : (∑ t in Finset.range E, ((w_ordered_sorted w_arr n).getD (n - 1 - t) (0, 0)).1
          * ((w_ordered_sorted w_arr n).getD (n - 1 - t) (0, 0)).1)
      ≤ ∑ t in Finset.range n, ((w_ordered_sorted w_arr n).getD (n - 1 - t) (0, 0)).1
          * ((w_ordered_sorted w_arr n).getD (n - 1 - t) (0, 0)).1 :=
    Finset.sum_le_sum_of_subset_of_nonneg
      (Finset.range_subset.mpr hn) (fun t _ _ => mul_self_nonneg _)
  have h3 := Finset.sum_range_reflect
    (fun j => ((w_ordered_sorted w_arr n).getD j (0, 0)).1
      * ((w_ordered_sorted w_arr n).getD j (0, 0)).1) n
  simp only at h3
  rw [h3, w_ordered_sorted_sum] at h2
  exact le_trans h1 h2

end Sorted

end Conv

namespace Conv

section FlatNorm

variable {α : Type} [LinearOrderedField α]

/-- The squared norm of filter `k` as a sum over the flat filter. -/
theorem weight_sq_flat (a : ConvArgs α) (inch k : Nat) :
    weight_sq a inch k
      = ∑ i in Finset.range (a.maxk * inch),
          a.weight_data.flat (a.kptr inch k + (i : Nat)) * a.weight_data.flat (a.kptr inch k + (i : Nat)) := by
  unfold weight_sq dsum ConvArgs.weight
  rw [Nat.mul_comm, sum_range_mul]
  refine Finset.sum_congr rfl (fun q _ => Finset.sum_congr rfl (fun t _ => ?_))
  push_cast
  rw [add_assoc]

end FlatNorm

section TopETables

variable {α : Type} [LinearOrderedField α] [FloorRing α]

/-- The function `find_top_E` writes only into its three output slices. -/
theorem find_top_E_frame (sqrt : α → α) (w_arr : Int → α) (w_arr_len : Nat) (w_full_2 : α)
    (idx_base val_base sel_base : Int) (s : Mat α × Mat α × Mat α) :
    (∀ z, (z < idx_base ∨ idx_base + E ≤ z) →
      (find_top_E sqrt w_arr w_arr_len w_full_2 idx_base val_base sel_base s).1.flat z
        = s.1.flat z) ∧
    (∀ z, (z < val_base ∨ val_base + E ≤ z) →
      (find_top_E sqrt w_arr w_arr_len w_full_2 idx_base val_base sel_base s).2.1.flat z
        = s.2.1.flat z) ∧
    ∀ z, (z < sel_base ∨ sel_base + E_pow_num ≤ z) →
      (find_top_E sqrt w_arr w_arr_len w_full_2 idx_base val_base sel_base s).2.2.flat z
        = s.2.2.flat z := by
  rw [find_top_E_eq]
  refine ⟨fun z hz => ?_, fun z hz => ?_, fun z hz => ?_⟩
  · simp only
    rw [fill_loop_frame E idx_base _ _ z hz]
  · simp only
    rw [fill_loop_frame E val_base _ _ z hz, fill_loop_frame E val_base _ _ z hz]
  · simp only
    rw [fill_loop_frame E_pow_num sel_base _ _ z hz]

/-- One iteration of the channel loop of the first call of `mlsys_convolution_lower_top_E`. -/
theorem top_E_channel_step (sqrt : α → α) (a : ConvArgs α) (inch k : Nat)
    (s : Mat α × Mat α × Mat α × Mat α) :
    ((norm_accumulate a.weight_data inch a.maxk k (a.kptr inch k) (s.1.setFlat k 0)).setFlat k
        (sqrt ((norm_accumulate a.weight_data inch a.maxk k (a.kptr inch k)
          (s.1.setFlat k 0)).flat k)),
      find_top_E sqrt (fun i => a.weight_data.flat (a.kptr inch k + i)) (a.maxk * inch)
        ((norm_accumulate a.weight_data inch a.maxk k (a.kptr inch k) (s.1.setFlat k 0)).flat k)
        ((E : Int) * k) ((E : Int) * k) ((k : Int) * E_pow_num) s.2)
    = (s.1.setFlat k (sqrt (weight_sq a inch k)),
      find_top_E sqrt (fun i => a.weight_data.flat (a.kptr inch k + i)) (a.maxk * inch)
        (weight_sq a inch k) ((E : Int) * k) ((E : Int) * k) ((k : Int) * E_pow_num) s.2) := by
  rw [norm_accumulate_eq, Mat.flat_setFlat_same, Mat.setFlat_setFlat, zero_add]
  rfl

/-- The tables that the first call of `mlsys_convolution_lower_top_E` (empty `last_x`)
leaves behind, channel by channel: the filter norm, the indices of the `E` last pairs of the
sorted vector, the weights at these indices, and the table of residual norms. -/
theorem top_E_first_tables (sqrt exp : α → α) (in_x out_y : Mat α) (a : ConvArgs α)
    (last_x last_y w_norm2 all_select_norms top_E_indices top_E_w_vals x_vector_diff : Mat α)
    (he : last_x.total ≤ 0) :
    ∀ k, k < out_y.c →
      (mlsys_convolution_lower_top_E sqrt exp in_x out_y a last_x last_y w_norm2
          all_select_norms top_E_indices top_E_w_vals x_vector_diff).w_norm2.flat k
        = sqrt (weight_sq a in_x.c k) ∧
      (∀ p, p < E →
        (mlsys_convolution_lower_top_E sqrt exp in_x out_y a last_x last_y w_norm2
            all_select_norms top_E_indices top_E_w_vals x_vector_diff).top_E_indices.flat
            ((E : Int) * k + p)
          = (((vec_at (w_ordered_sorted (fun i => a.weight_data.flat (a.kptr in_x.c k + i))
              (a.maxk * in_x.c)) (((a.maxk * in_x.c : Nat) : Int) - 1 - p)).2 : Nat) : α)) ∧
      (∀ p, p < E →
        (mlsys_convolution_lower_top_E sqrt exp in_x out_y a last_x last_y w_norm2
            all_select_norms top_E_indices top_E_w_vals x_vector_diff).top_E_w_vals.flat
            ((E : Int) * k + p)
          = a.weight_data.flat (a.kptr in_x.c k
              + ((vec_at (w_ordered_sorted (fun i => a.weight_data.flat (a.kptr in_x.c k + i))
                (a.maxk * in_x.c)) (((a.maxk * in_x.c : Nat) : Int) - 1 - p)).2 : Nat))) ∧
      ∀ m, m < E_pow_num →
        (mlsys_convolution_lower_top_E sqrt exp in_x out_y a last_x last_y w_norm2
            all_select_norms top_E_indices top_E_w_vals x_vector_diff).all_select_norms.flat
            ((k : Int) * E_pow_num + m)
          = sqrt (weight_sq a in_x.c k
              - ∑ t in Finset.range E, if (m >>> (E - 1 - t)) &&& 1 ≠ 0 then
                (vec_at (w_ordered_sorted (fun i => a.weight_data.flat (a.kptr in_x.c k + i))
                    (a.maxk * in_x.c)) (((a.maxk * in_x.c : Nat) : Int) - 1 - t)).1
                  * (vec_at (w_ordered_sorted (fun i => a.weight_data.flat (a.kptr in_x.c k + i))
                    (a.maxk * in_x.c)) (((a.maxk * in_x.c : Nat) : Int) - 1 - t)).1
                else 0) := by
  unfold mlsys_convolution_lower_top_E
  simp only [he, if_true]
  have h := forLoop_inv
    (fun n (s : Mat α × Mat α × Mat α × Mat α) => ∀ k, k < n →
      s.1.flat k = sqrt (weight_sq a in_x.c k) ∧
      (∀ p, p < E → s.2.1.flat ((E : Int) * k + p)
          = (((vec_at (w_ordered_sorted (fun i => a.weight_data.flat (a.kptr in_x.c k + i))
              (a.maxk * in_x.c)) (((a.maxk * in_x.c : Nat) : Int) - 1 - p)).2 : Nat) : α)) ∧
      (∀ p, p < E → s.2.2.1.flat ((E : Int) * k + p)
          = a.weight_data.flat (a.kptr in_x.c k
              + ((vec_at (w_ordered_sorted (fun i => a.weight_data.flat (a.kptr in_x.c k + i))
                (a.maxk * in_x.c)) (((a.maxk * in_x.c : Nat) : Int) - 1 - p)).2 : Nat))) ∧
      ∀ m, m < E_pow_num → s.2.2.2.flat ((k : Int) * E_pow_num + m)
          = sqrt (weight_sq a in_x.c k
              - ∑ t in Finset.range E, if (m >>> (E - 1 - t)) &&& 1 ≠ 0 then
                (vec_at (w_ordered_sorted (fun i => a.weight_data.flat (a.kptr in_x.c k + i))
                    (a.maxk * in_x.c)) (((a.maxk * in_x.c : Nat) : Int) - 1 - t)).1
                  * (vec_at (w_ordered_sorted (fun i => a.weight_data.flat (a.kptr in_x.c k + i))
                    (a.maxk * in_x.c)) (((a.maxk * in_x.c : Nat) : Int) - 1 - t)).1
                else 0))
    (Nat.zero_le out_y.c)
    (fun k (s : Mat α × Mat α × Mat α × Mat α) =>
      ((norm_accumulate a.weight_data in_x.c a.maxk k (a.kptr in_x.c k)
          (s.1.setFlat k 0)).setFlat k
        (sqrt ((norm_accumulate a.weight_data in_x.c a.maxk k (a.kptr in_x.c k)
          (s.1.setFlat k 0)).flat k)),
      find_top_E sqrt (fun i => a.weight_data.flat (a.kptr in_x.c k + i)) (a.maxk * in_x.c)
        ((norm_accumulate a.weight_data in_x.c a.maxk k (a.kptr in_x.c k)
          (s.1.setFlat k 0)).flat k)
        ((E : Int) * k) ((E : Int) * k) ((k : Int) * E_pow_num) s.2))
    (w_norm2.create1 out_y.c, top_E_indices.create1 (out_y.c * E),
      top_E_w_vals.create1 (out_y.c * E), all_select_norms.create1 (out_y.c * E_pow_num))
    (fun k hk => absurd hk (Nat.not_lt_zero k))
    (by
      intro n s _ _ hP k hk
      beta_reduce
      rw [top_E_channel_step]
      have hspec := find_top_E_spec sqrt (fun i => a.weight_data.flat (a.kptr in_x.c n + i))
        (a.maxk * in_x.c) (weight_sq a in_x.c n) ((E : Int) * n) ((E : Int) * n)
        ((n : Int) * E_pow_num) s.2
      have hframe := find_top_E_frame sqrt (fun i => a.weight_data.flat (a.kptr in_x.c n + i))
        (a.maxk * in_x.c) (weight_sq a in_x.c n) ((E : Int) * n) ((E : Int) * n)
        ((n : Int) * E_pow_num) s.2
      by_cases hkn : k = n
      · subst hkn
        refine ⟨Mat.flat_setFlat_same _ _ _, hspec.1, hspec.2.1, hspec.2.2⟩
      · have hlt : k < n := by omega
        have hold := hP k hlt
        refine ⟨?_, ?_, ?_, ?_⟩
        · simp only
          rw [Mat.flat_setFlat_ne _ _ _ _ (by exact_mod_cast hkn)]
          exact hold.1
        · intro p hp
          simp only
          rw [hframe.1 _ (Or.inl (slice_lt E k n p hlt hp))]
          exact hold.2.1 p hp
        · intro p hp
          simp only
          rw [hframe.2.1 _ (Or.inl (slice_lt E k n p hlt hp))]
          exact hold.2.2.1 p hp
        · intro m hm
          simp only
          rw [hframe.2.2 _ (Or.inl (slice_lt_right E_pow_num k n m hlt hm))]
          exact hold.2.2.2 m hm)
  exact h

end TopETables

end Conv

namespace Conv

/-- Every bit of the pattern `2^E - 1` is set. -/
theorem all_bits_set : ∀ t, t < E → ((E_pow_num - 1) >>> (E - 1 - t)) &&& 1 ≠ 0 := by
  decide

section SelectNorm

variable {α : Type} [LinearOrderedField α] [FloorRing α]

/-- After the first call of `mlsys_convolution_lower_top_E`, for a channel whose flat filter
has at least `E` weights, the square of the stored weight `top_E_w_vals[k, p]` is the square
of the first component of the pair it was selected from. -/
theorem top_E_val_sq (sqrt exp : α → α) (in_x out_y : Mat α) (a : ConvArgs α)
    (last_x last_y w_norm2 all_select_norms top_E_indices top_E_w_vals x_vector_diff : Mat α)
    (he : last_x.total ≤ 0) (k : Nat) (hk : k < out_y.c) (hlen : E ≤ a.maxk * in_x.c)
    (p : Nat) (hp : p < E) :
    (mlsys_convolution_lower_top_E sqrt exp in_x out_y a last_x last_y w_norm2
          all_select_norms top_E_indices top_E_w_vals x_vector_diff).top_E_w_vals.flat
          ((E : Int) * k + p)
        * (mlsys_convolution_lower_top_E sqrt exp in_x out_y a last_x last_y w_norm2
          all_select_norms top_E_indices top_E_w_vals x_vector_diff).top_E_w_vals.flat
          ((E : Int) * k + p)
      = (vec_at (w_ordered_sorted (fun i => a.weight_data.flat (a.kptr in_x.c k + i))
            (a.maxk * in_x.c)) (((a.maxk * in_x.c : Nat) : Int) - 1 - p)).1
          * (vec_at (w_ordered_sorted (fun i => a.weight_data.flat (a.kptr in_x.c k + i))
            (a.maxk * in_x.c)) (((a.maxk * in_x.c : Nat) : Int) - 1 - p)).1 := by
  have h := (top_E_first_tables sqrt exp in_x out_y a last_x last_y w_norm2 all_select_norms
    top_E_indices top_E_w_vals x_vector_diff he k hk).2.2.1 p hp
  rw [h]
  have hpl : p < a.maxk * in_x.c := lt_of_lt_of_le hp hlen
  have hv := vec_at_top (fun i => a.weight_data.flat (a.kptr in_x.c k + i)) (a.maxk * in_x.c)
    p hpl
  have he2 := (w_ordered_sorted_entry (fun i => a.weight_data.flat (a.kptr in_x.c k + i))
    (a.maxk * in_x.c) (a.maxk * in_x.c - 1 - p) (by omega)).2
  rw [← hv] at he2
  rw [he2]
  exact (abs_mul_abs_self _).symm

/-- The sum selected by a bit pattern, written with the stored weights or with the first
components of the sorted pairs. -/
theorem top_E_select_sum (sqrt exp : α → α) (in_x out_y : Mat α) (a : ConvArgs α)
    (last_x last_y w_norm2 all_select_norms top_E_indices top_E_w_vals x_vector_diff : Mat α)
    (he : last_x.total ≤ 0) (k : Nat) (hk : k < out_y.c) (hlen : E ≤ a.maxk * in_x.c)
    (m : Nat) :
    (∑ p in Finset.range E, if (m >>> (E - 1 - p)) &&& 1 ≠ 0 then
        (mlsys_convolution_lower_top_E sqrt exp in_x out_y a last_x last_y w_norm2
          all_select_norms top_E_indices top_E_w_vals x_vector_diff).top_E_w_vals.flat
          ((E : Int) * k + p) ^ 2 else 0)
      = ∑ t in Finset.range E, if (m >>> (E - 1 - t)) &&& 1 ≠ 0 then
          (vec_at (w_ordered_sorted (fun i => a.weight_data.flat (a.kptr in_x.c k + i))
              (a.maxk * in_x.c)) (((a.maxk * in_x.c : Nat) : Int) - 1 - t)).1
            * (vec_at (w_ordered_sorted (fun i => a.weight_data.flat (a.kptr in_x.c k + i))
              (a.maxk * in_x.c)) (((a.maxk * in_x.c : Nat) : Int) - 1 - t)).1
          else 0 := by
  refine Finset.sum_congr rfl (fun p hp => ?_)
  rw [sq, top_E_val_sq sqrt exp in_x out_y a last_x last_y w_norm2 all_select_norms
    top_E_indices top_E_w_vals x_vector_diff he k hk hlen p (Finset.mem_range.mp hp)]

/-- The sum selected by a bit pattern is at most the squared norm of the filter. -/
theorem top_E_select_sum_le (sqrt exp : α → α) (in_x out_y : Mat α) (a : ConvArgs α)
    (last_x last_y w_norm2 all_select_norms top_E_indices top_E_w_vals x_vector_diff : Mat α)
    (he : last_x.total ≤ 0) (k : Nat) (hk : k < out_y.c) (hlen : E ≤ a.maxk * in_x.c)
    (m : Nat) :
    (∑ p in Finset.range E, if (m >>> (E - 1 - p)) &&& 1 ≠ 0 then
        (mlsys_convolution_lower_top_E sqrt exp in_x out_y a last_x last_y w_norm2
          all_select_norms top_E_indices top_E_w_vals x_vector_diff).top_E_w_vals.flat
          ((E : Int) * k + p) ^ 2 else 0)
      ≤ weight_sq a in_x.c k := by
  rw [top_E_select_sum sqrt exp in_x out_y a last_x last_y w_norm2 all_select_norms
    top_E_indices top_E_w_vals x_vector_diff he k hk hlen m, weight_sq_flat]
  exact select_sum_le (fun i => a.weight_data.flat (a.kptr in_x.c k + i)) (a.maxk * in_x.c)
    hlen m

end SelectNorm

end Conv

namespace Conv

section Order

variable {α : Type} [LinearOrderedField α]

/-- The order of the pairs is total. -/
theorem pair_le_total (p q : α × Nat) : pair_le p q ∨ pair_le q p := by
  unfold pair_le
  rcases lt_trichotomy p.1 q.1 with h | h | h
  · exact Or.inl (Or.inl h)
  · rcases Nat.le_total p.2 q.2 with h2 | h2
    · exact Or.inl (Or.inr ⟨h, h2⟩)
    · exact Or.inr (Or.inr ⟨h.symm, h2⟩)
  · exact Or.inr (Or.inl h)

/-- The order of the pairs is transitive. -/
theorem pair_le_trans (p q r : α × Nat) (h1 : pair_le p q) (h2 : pair_le q r) :
    pair_le p r := by
  unfold pair_le at h1 h2 ⊢
  rcases h1 with h1 | ⟨h1, h1b⟩
  · rcases h2 with h2 | ⟨h2, _⟩
    · exact Or.inl (lt_trans h1 h2)
    · exact Or.inl (h2 ▸ h1)
  · rcases h2 with h2 | ⟨h2, h2b⟩
    · exact Or.inl (h1 ▸ h2)
    · exact Or.inr ⟨h1.trans h2, Nat.le_trans h1b h2b⟩

/-- The vector of `find_top_E` is sorted after `std::sort`. -/
theorem w_ordered_sorted_sorted (w_arr : Int → α) (n : Nat) :
    (w_ordered_sorted w_arr n).Sorted pair_le := by
  unfold w_ordered_sorted
  haveI : IsTotal (α × Nat) pair_le := ⟨pair_le_total⟩
  haveI : IsTrans (α × Nat) pair_le := ⟨pair_le_trans⟩
  exact List.sorted_insertionSort _ _

/-- Two positions of a sorted list in increasing order hold entries in increasing order. -/
theorem sorted_getD_lt {β : Type} (r : β → β → Prop) (l : List β) (d : β) (hs : l.Sorted r)
    (j j2 : Nat) (h : j < j2) (h2 : j2 < l.length) : r (l.getD j d) (l.getD j2 d) := by
  rw [List.getD_eq_getElem _ _ (lt_trans h h2), List.getD_eq_getElem _ _ h2]
  exact (List.pairwise_iff_getElem.mp hs) j j2 (lt_trans h h2) h2 h

/-- Two positions of the sorted vector in increasing order hold pairs in increasing order. -/
theorem w_ordered_sorted_lt (w_arr : Int → α) (n j j2 : Nat) (h : j < j2) (h2 : j2 < n) :
    pair_le ((w_ordered_sorted w_arr n).getD j (0, 0))
      ((w_ordered_sorted w_arr n).getD j2 (0, 0)) :=
  sorted_getD_lt pair_le _ _ (w_ordered_sorted_sorted w_arr n) j j2 h
    (by rw [w_ordered_sorted_length]; exact h2)

/-- Positions of a list whose second components are pairwise distinct are told apart by
the second component. -/
theorem snd_inj_of_nodup {β : Type} (l : List (β × Nat)) (d : β × Nat)
    (hn : (l.map Prod.snd).Nodup) (j j2 : Nat) (hj : j < l.length) (hj2 : j2 < l.length)
    (h : (l.getD j d).2 = (l.getD j2 d).2) : j = j2 := by
  rw [List.getD_eq_getElem _ _ hj, List.getD_eq_getElem _ _ hj2] at h
  have hj' : j < (l.map Prod.snd).length := by rw [List.length_map]; exact hj
  have hj2' : j2 < (l.map Prod.snd).length := by rw [List.length_map]; exact hj2
  have h3 : (l.map Prod.snd)[j] = (l.map Prod.snd)[j2] := by
    rw [List.getElem_map, List.getElem_map]
    exact h
  exact (List.Nodup.getElem_inj_iff hn).mp h3

/-- The second components of the sorted vector are pairwise distinct. -/
theorem w_ordered_sorted_snd_inj (w_arr : Int → α) (n j j2 : Nat) (hj : j < n) (hj2 : j2 < n)
    (h : ((w_ordered_sorted w_arr n).getD j (0, 0)).2
      = ((w_ordered_sorted w_arr n).getD j2 (0, 0)).2) : j = j2 := by
  have hl := w_ordered_sorted_length w_arr n
  have hp := (w_ordered_sorted_perm w_arr n).map Prod.snd
  have hn : ((w_ordered_sorted w_arr n).map Prod.snd).Nodup := by
    rw [hp.nodup_iff, List.map_map]
    have e : (Prod.snd ∘ fun i : Nat => (|w_arr (i : Int)|, i)) = id := rfl
    rw [e, List.map_id]
    exact List.nodup_range n
  exact snd_inj_of_nodup _ _ hn j j2 (by rw [hl]; exact hj) (by rw [hl]; exact hj2) h

/-- Every index of the filter sits at some position of the sorted vector. -/
theorem w_ordered_sorted_pos (w_arr : Int → α) (n u : Nat) (hu : u < n) :
    ∃ j, j < n ∧ (w_ordered_sorted w_arr n).getD j (0, 0) = (|w_arr (u : Int)|, u) := by
  have hl := w_ordered_sorted_length w_arr n
  have hm : ((|w_arr (u : Int)|, u) : α × Nat) ∈ w_ordered_sorted w_arr n := by
    rw [(w_ordered_sorted_perm w_arr n).mem_iff, List.mem_map]
    exact ⟨u, List.mem_range.mpr hu, rfl⟩
  obtain ⟨j, hj, e⟩ := List.getElem_of_mem hm
  refine ⟨j, by omega, ?_⟩
  rw [List.getD_eq_getElem _ _ hj]
  exact e

end Order

end Conv

namespace Conv

section Selection

variable {α : Type} [LinearOrderedField α]

/-- The `E` last pairs of the sorted vector of a filter with at least `E` weights: each is
`(abs(w_arr[u]), u)` for an index `u` of the filter, their indices are pairwise distinct,
they decrease from the last pair backwards, and the pair of every other index is below all
of them. -/
theorem sorted_top (w_arr : Int → α) (n : Nat) (hn : E ≤ n) :
    (∀ p, p < E →
      ((w_ordered_sorted w_arr n).getD (n - 1 - p) (0, 0)).2 < n ∧
      ((w_ordered_sorted w_arr n).getD (n - 1 - p) (0, 0)).1
        = |w_arr (((w_ordered_sorted w_arr n).getD (n - 1 - p) (0, 0)).2 : Nat)|) ∧
    (∀ p q, p < E → q < E →
      ((w_ordered_sorted w_arr n).getD (n - 1 - p) (0, 0)).2
        = ((w_ordered_sorted w_arr n).getD (n - 1 - q) (0, 0)).2 → p = q) ∧
    (∀ p q, p < q → q < E →
      pair_le ((w_ordered_sorted w_arr n).getD (n - 1 - q) (0, 0))
        ((w_ordered_sorted w_arr n).getD (n - 1 - p) (0, 0))) ∧
    ∀ u, u < n →
      (∀ p, p < E → ((w_ordered_sorted w_arr n).getD (n - 1 - p) (0, 0)).2 ≠ u) →
      ∀ p, p < E →
        pair_le (|w_arr (u : Nat)|, u) ((w_ordered_sorted w_arr n).getD (n - 1 - p) (0, 0)) := by
  refine ⟨?_, ?_, ?_, ?_⟩
  · intro p hp
    exact w_ordered_sorted_entry w_arr n (n - 1 - p) (by omega)
  · intro p q hp hq h
    have := w_ordered_sorted_snd_inj w_arr n (n - 1 - p) (n - 1 - q) (by omega) (by omega) h
    omega
  · intro p q hpq hq
    exact w_ordered_sorted_lt w_arr n (n - 1 - q) (n - 1 - p) (by omega) (by omega)
  · intro u hu hun p hp
    obtain ⟨j, hj, e⟩ := w_ordered_sorted_pos w_arr n u hu
    have hjlt : j < n - 1 - p := by
      by_contra hge
      have hq : n - 1 - j < E := by omega
      have h1 := hun (n - 1 - j) hq
      have e2 : n - 1 - (n - 1 - j) = j := by omega
      rw [e2, e] at h1
      exact h1 rfl
    rw [← e]
    exact w_ordered_sorted_lt w_arr n j (n - 1 - p) hjlt (by omega)

/-- The indices and values stored by `find_top_E` for a filter with at least `E` weights:
entry `p` of the index array converts to the index of the pair at position
`w_arr_len - 1 - p` of the sorted vector, and entry `p` of the value array is the weight at
that index. -/
theorem find_top_E_stored [FloorRing α] (sqrt : α → α) (w_arr : Int → α) (n : Nat)
    (hn : E ≤ n) (w_full_2 : α) (idx_base val_base sel_base : Int)
    (s : Mat α × Mat α × Mat α) :
    ∀ p, p < E →
      to_int ((find_top_E sqrt w_arr n w_full_2 idx_base val_base sel_base s).1.flat
          (idx_base + p))
        = (((w_ordered_sorted w_arr n).getD (n - 1 - p) (0, 0)).2 : Nat) ∧
      (find_top_E sqrt w_arr n w_full_2 idx_base val_base sel_base s).2.1.flat (val_base + p)
        = w_arr (((w_ordered_sorted w_arr n).getD (n - 1 - p) (0, 0)).2 : Nat) := by
  intro p hp
  obtain ⟨hI, hV, _⟩ := find_top_E_spec sqrt w_arr n w_full_2 idx_base val_base sel_base s
  have hv := vec_at_top w_arr n p (by omega)
  rw [hI p hp, hV p hp, hv, to_int_natCast]
  exact ⟨rfl, rfl⟩

end Selection

end Conv

namespace Conv

/-- The sorted vector of `find_top_E` for a filter of seven weights `1`. -/
theorem seven_ones_sorted :
    w_ordered_sorted (fun _ : Int => (1 : ℝ)) 7
      = [(1, 0), (1, 1), (1, 2), (1, 3), (1, 4), (1, 5), (1, 6)] := by
  unfold w_ordered_sorted
  norm_num [forLoop, loopN, List.insertionSort, List.orderedInsert, pair_le]

section Ties

variable {α : Type} [LinearOrderedField α]

/-- The first components of ordered pairs are ordered. -/
theorem pair_le_fst (p q : α × Nat) (h : pair_le p q) : p.1 ≤ q.1 := by
  rcases h with h | ⟨h, _⟩
  · exact le_of_lt h
  · exact le_of_eq h

/-- Ordered pairs with equal first components have ordered second components. -/
theorem pair_le_snd (p q : α × Nat) (h : pair_le p q) (he : p.1 = q.1) : p.2 ≤ q.2 := by
  rcases h with h | ⟨_, h⟩
  · rw [he] at h
    exact absurd h (lt_irrefl _)
  · exact h

end Ties

end Conv

namespace Conv

/-- The shift-and-set loop over `E` tests builds a pattern below `2^E` whose bit `E-1-p` is
set exactly when test `p` succeeded. -/
theorem shift_loop_bits (c : Nat → Prop) [DecidablePred c] :
    forLoop 0 E (fun ii (m : Nat) => if c ii then (m <<< 1) ||| 1 else m <<< 1) 0 < E_pow_num ∧
    ∀ p, p < E →
      (((forLoop 0 E (fun ii (m : Nat) => if c ii then (m <<< 1) ||| 1 else m <<< 1) 0)
          >>> (E - 1 - p)) &&& 1 ≠ 0 ↔ c p) := by
  have hE : ∀ (f : Nat → Nat → Nat) (s : Nat),
      forLoop 0 E f s = f 5 (f 4 (f 3 (f 2 (f 1 (f 0 s))))) := fun _ _ => rfl
  rw [hE]
  have h64 : E_pow_num = 64 := rfl
  have h6 : E = 6 := rfl
  rw [h64, h6]
  by_cases h0 : c 0 <;> by_cases h1 : c 1 <;> by_cases h2 : c 2 <;> by_cases h3 : c 3 <;>
    by_cases h4 : c 4 <;> by_cases h5 : c 5 <;>
    (refine ⟨?_, fun p hp => ?_⟩
     · simp [h0, h1, h2, h3, h4, h5]
     · interval_cases p <;> simp [h0, h1, h2, h3, h4, h5])

section SelectBits

variable {α : Type} [LinearOrderedField α] [FloorRing α]

/-- The pattern `select_norm_index` built by the sign loop of `mlsys_convolution_lower_top_E`
for channel `k` is below `2^E`, and its bit `E-1-p` is set exactly when the product
`x_vector_diff[(int) top_E_indices[k * E + p]] * top_E_w_vals[p]` is positive. -/
theorem top_E_select_bits (top_E_indices top_E_w_vals x_vector_diff : Mat α) (k : Nat) :
    top_E_select top_E_indices top_E_w_vals x_vector_diff k < E_pow_num ∧
    ∀ p, p < E →
      ((top_E_select top_E_indices top_E_w_vals x_vector_diff k >>> (E - 1 - p)) &&& 1 ≠ 0 ↔
        x_vector_diff.flat (to_int (top_E_indices.flat ((k : Int) * E + p)))
          * top_E_w_vals.flat p > 0) :=
  shift_loop_bits (fun ii =>
    x_vector_diff.flat (to_int (top_E_indices.flat ((k : Int) * E + ii)))
      * top_E_w_vals.flat ii > 0)

end SelectBits

end Conv

namespace Conv

section Loop3At

variable {σ : Type}

/-- Reaching `(i, j, k + 1)` is reaching `(i, j, k)` and running its body. -/
theorem loop3_at_succ_k (W K : Nat) (f : Nat → Nat → Nat → σ → σ) (i j k : Nat) (s : σ) :
    loop3_at W K f i j (k + 1) s = f i j k (loop3_at W K f i j k s) := by
  unfold loop3_at
  rw [forLoop_succ (Nat.zero_le k)]

/-- Reaching the start of column `j + 1` is reaching the end of column `j`. -/
theorem loop3_at_succ_j (W K : Nat) (f : Nat → Nat → Nat → σ → σ) (i j : Nat) (s : σ) :
    loop3_at W K f i (j + 1) 0 s = loop3_at W K f i j K s := by
  unfold loop3_at
  rw [forLoop_succ (Nat.zero_le j), forLoop_of_le (Nat.le_refl 0)]

/-- Reaching the start of row `i + 1` is reaching the end of row `i`. -/
theorem loop3_at_succ_i (W K : Nat) (f : Nat → Nat → Nat → σ → σ) (i : Nat) (s : σ) :
    loop3_at W K f (i + 1) 0 0 s = loop3_at W K f i W 0 s := by
  unfold loop3_at
  rw [forLoop_succ (Nat.zero_le i), forLoop_of_le (Nat.le_refl 0),
    forLoop_of_le (Nat.le_refl 0), forLoop_of_le (Nat.le_refl 0)]

/-- The loop nest run to its end has reached row `H`. -/
theorem loop3_at_end (W K H : Nat) (f : Nat → Nat → Nat → σ → σ) (s : σ) :
    forLoop 0 H (fun i s => forLoop 0 W (fun j s => forLoop 0 K (fun k s => f i j k s) s) s) s
      = loop3_at W K f H 0 0 s := by
  unfold loop3_at
  rw [forLoop_of_le (Nat.le_refl 0), forLoop_of_le (Nat.le_refl 0)]

/-- The nest has not run anything on reaching `(0, 0, 0)`. -/
theorem loop3_at_zero (W K : Nat) (f : Nat → Nat → Nat → σ → σ) (s : σ) :
    loop3_at W K f 0 0 0 s = s := by
  unfold loop3_at
  rw [forLoop_of_le (Nat.le_refl 0), forLoop_of_le (Nat.le_refl 0),
    forLoop_of_le (Nat.le_refl 0)]

variable {β : Type}

/-- An observation `g` that the bodies of the channels `k .. k2 - 1` of `(i, j)` leave as it
is has the same value on reaching `(i, j, k2)` as on reaching `(i, j, k)`. -/
theorem loop3_at_frame_k (W K : Nat) (f : Nat → Nat → Nat → σ → σ) (g : σ → β) (i j k k2 : Nat)
    (s : σ) (hk : k ≤ k2)
    (hf : ∀ k', k ≤ k' → k' < k2 → ∀ t, g (f i j k' t) = g t) :
    g (loop3_at W K f i j k2 s) = g (loop3_at W K f i j k s) := by
  induction k2 with
  | zero =>
    have : k = 0 := by omega
    rw [this]
  | succ n ih =>
    rcases Nat.eq_or_lt_of_le hk with h | h
    · rw [h]
    · rw [loop3_at_succ_k, hf n (by omega) (by omega)]
      exact ih (by omega) (fun k' h1 h2 t => hf k' h1 (by omega) t)

/-- An observation that the bodies of the columns `j .. j2 - 1` of row `i` leave as it is
has the same value on reaching `(i, j2, 0)` as on reaching `(i, j, 0)`. -/
theorem loop3_at_frame_j (W K : Nat) (f : Nat → Nat → Nat → σ → σ) (g : σ → β) (i j j2 : Nat)
    (s : σ) (hj : j ≤ j2)
    (hf : ∀ j' k', j ≤ j' → j' < j2 → k' < K → ∀ t, g (f i j' k' t) = g t) :
    g (loop3_at W K f i j2 0 s) = g (loop3_at W K f i j 0 s) := by
  induction j2 with
  | zero =>
    have : j = 0 := by omega
    rw [this]
  | succ n ih =>
    rcases Nat.eq_or_lt_of_le hj with h | h
    · rw [h]
    · rw [loop3_at_succ_j,
        loop3_at_frame_k W K f g i n 0 K s (Nat.zero_le K)
          (fun k' _ h2 t => hf n k' (by omega) (by omega) h2 t)]
      exact ih (by omega) (fun j' k' h1 h2 h3 t => hf j' k' h1 (by omega) h3 t)

/-- An observation that the bodies of the rows `i .. i2 - 1` leave as it is has the same
value on reaching `(i2, 0, 0)` as on reaching `(i, 0, 0)`. -/
theorem loop3_at_frame_i (W K : Nat) (f : Nat → Nat → Nat → σ → σ) (g : σ → β) (i i2 : Nat)
    (s : σ) (hi : i ≤ i2)
    (hf : ∀ i' j' k', i ≤ i' → i' < i2 → j' < W → k' < K → ∀ t, g (f i' j' k' t) = g t) :
    g (loop3_at W K f i2 0 0 s) = g (loop3_at W K f i 0 0 s) := by
  induction i2 with
  | zero =>
    have : i = 0 := by omega
    rw [this]
  | succ n ih =>
    rcases Nat.eq_or_lt_of_le hi with h | h
    · rw [h]
    · rw [loop3_at_succ_i,
        loop3_at_frame_j W K f g n 0 W s (Nat.zero_le W)
          (fun j' k' _ h2 h3 t => hf n j' k' (by omega) (by omega) h2 h3 t)]
      exact ih (by omega) (fun i' j' k' h1 h2 h3 h4 t => hf i' j' k' h1 (by omega) h3 h4 t)

/-- An observation that no body between two positions changes has the same value on
reaching the later position as on reaching the earlier one.  The positions between
`(i, j, k)` and `(i2, j2, k2)` are those not before the first and before the second. -/
theorem loop3_at_frame (W K : Nat) (f : Nat → Nat → Nat → σ → σ) (g : σ → β)
    (i j k i2 j2 k2 : Nat) (s : σ) (hjW : j < W) (hkK : k ≤ K) (hj2 : j2 < W) (hk2 : k2 ≤ K)
    (hle : lex_lt i j k i2 j2 k2 ∨ (i = i2 ∧ j = j2 ∧ k = k2))
    (hf : ∀ i' j' k', j' < W → k' < K → ¬ lex_lt i' j' k' i j k → lex_lt i' j' k' i2 j2 k2 →
      ∀ t, g (f i' j' k' t) = g t) :
    g (loop3_at W K f i2 j2 k2 s) = g (loop3_at W K f i j k s) := by
  rcases hle with hlt | ⟨h1, h2, h3⟩
  · unfold lex_lt at hlt
    have e1 : lex_lt i j k i2 j2 k2 → i < i2 ∨ j < j2 →
        g (loop3_at W K f i j K s) = g (loop3_at W K f i j k s) := fun _ hc =>
      loop3_at_frame_k W K f g i j k K s hkK (fun k' h1 h2 t =>
        hf i j k' hjW h2 (by unfold lex_lt; omega) (by unfold lex_lt; omega) t)
    have e5 : i < i2 ∨ j < j2 →
        g (loop3_at W K f i2 j2 k2 s) = g (loop3_at W K f i2 j2 0 s) := fun hc =>
      loop3_at_frame_k W K f g i2 j2 0 k2 s (Nat.zero_le k2) (fun k' _ h2 t =>
        hf i2 j2 k' hj2 (by omega) (by unfold lex_lt; omega) (by unfold lex_lt; omega) t)
    have hl : lex_lt i j k i2 j2 k2 := hlt
    rcases hlt with hi | ⟨hi, hj | ⟨hj, hk⟩⟩
    · have e2 : g (loop3_at W K f i W 0 s) = g (loop3_at W K f i (j + 1) 0 s) :=
        loop3_at_frame_j W K f g i (j + 1) W s (by omega) (fun j' k' h1 h2 h3 t =>
          hf i j' k' h2 h3 (by unfold lex_lt; omega) (by unfold lex_lt; omega) t)
      have e3 : g (loop3_at W K f i2 0 0 s) = g (loop3_at W K f (i + 1) 0 0 s) :=
        loop3_at_frame_i W K f g (i + 1) i2 s (by omega) (fun i' j' k' h1 h2 h3 h4 t =>
          hf i' j' k' h3 h4 (by unfold lex_lt; omega) (by unfold lex_lt; omega) t)
      have e4 : g (loop3_at W K f i2 j2 0 s) = g (loop3_at W K f i2 0 0 s) :=
        loop3_at_frame_j W K f g i2 0 j2 s (Nat.zero_le j2) (fun j' k' _ h2 h3 t =>
          hf i2 j' k' (by omega) h3 (by unfold lex_lt; omega) (by unfold lex_lt; omega) t)
      rw [e5 (Or.inl hi), e4, e3, loop3_at_succ_i, e2, loop3_at_succ_j, e1 hl (Or.inl hi)]
    · subst hi
      have e2 : g (loop3_at W K f i j2 0 s) = g (loop3_at W K f i (j + 1) 0 s) :=
        loop3_at_frame_j W K f g i (j + 1) j2 s (by omega) (fun j' k' h1 h2 h3 t =>
          hf i j' k' (by omega) h3 (by unfold lex_lt; omega) (by unfold lex_lt; omega) t)
      rw [e5 (Or.inr hj), e2, loop3_at_succ_j, e1 hl (Or.inr hj)]
    · subst hi
      subst hj
      exact loop3_at_frame_k W K f g i j k k2 s (by omega) (fun k' h1 h2 t =>
        hf i j k' hjW (by omega) (by unfold lex_lt; omega) (by unfold lex_lt; omega) t)
  · rw [h1, h2, h3]

end Loop3At

end Conv

namespace Conv

section TSAt

variable {α : Type} [LinearOrderedField α]

/-- The value stored on the exact branch, `y_kij - bias_data[k]` with a bias and `y_kij`
without, is the pre-activation minus the initial value of `y_kij`. -/
theorem sub_bias_eq (a : ConvArgs α) (k : Nat) (y : α) :
    (if a.bias_term then y - a.bias_data.flat k else y) = y - a.y_init k := by
  unfold ConvArgs.y_init
  split_ifs
  · rfl
  · rw [sub_zero]

/-- One step of the bound branch of `temporal_spatial_convolution` whose candidate passes
the skip test. -/
theorem ts_step_skip (exp : α → α) (a : ConvArgs α) (x w_norm2 : Mat α) (dx dc dr : α)
    (outw outch i j k : Nat) (s : TSState α)
    (h : ts_candidate i j (s.last_y.data k (out_pos outw i j)) (s.last_y_col.flat k)
      (s.last_y_row.flat (out_pos outch j k)) (w_norm2.flat k) dx dc dr + a.y_init k ≤ 0) :
    ts_step exp a x w_norm2 dx dc dr outw outch i j k s
      = { top_blob := s.top_blob.set k (out_pos outw i j) 0,
          last_y := s.last_y.set k (out_pos outw i j)
            (ts_candidate i j (s.last_y.data k (out_pos outw i j)) (s.last_y_col.flat k)
              (s.last_y_row.flat (out_pos outch j k)) (w_norm2.flat k) dx dc dr),
          last_y_col := s.last_y_col.setFlat k
            (ts_candidate i j (s.last_y.data k (out_pos outw i j)) (s.last_y_col.flat k)
              (s.last_y_row.flat (out_pos outch j k)) (w_norm2.flat k) dx dc dr),
          last_y_row := s.last_y_row.setFlat (out_pos outch j k)
            (ts_candidate i j (s.last_y.data k (out_pos outw i j)) (s.last_y_col.flat k)
              (s.last_y_row.flat (out_pos outch j k)) (w_norm2.flat k) dx dc dr) } := by
  unfold ts_step
  simp only
  rw [if_pos h]

/-- One step of the bound branch of `temporal_spatial_convolution` whose candidate fails the
skip test. -/
theorem ts_step_exact (exp : α → α) (a : ConvArgs α) (x w_norm2 : Mat α) (dx dc dr : α)
    (outw outch i j k : Nat) (s : TSState α)
    (h : ¬ ts_candidate i j (s.last_y.data k (out_pos outw i j)) (s.last_y_col.flat k)
      (s.last_y_row.flat (out_pos outch j k)) (w_norm2.flat k) dx dc dr + a.y_init k ≤ 0) :
    ts_step exp a x w_norm2 dx dc dr outw outch i j k s
      = { top_blob := s.top_blob.set k (out_pos outw i j) (a.act exp (exact_y a x i j k)),
          last_y := s.last_y.set k (out_pos outw i j) (exact_y a x i j k - a.y_init k),
          last_y_col := s.last_y_col.setFlat k (exact_y a x i j k - a.y_init k),
          last_y_row := s.last_y_row.setFlat (out_pos outch j k)
            (exact_y a x i j k - a.y_init k) } := by
  unfold ts_step
  simp only
  rw [if_neg h, sub_bias_eq]

/-- Every step of the bound branch of `temporal_spatial_convolution` stores one output and
one value, the value into `last_y`, `last_y_col` and `last_y_row` alike. -/
theorem ts_step_writes (exp : α → α) (a : ConvArgs α) (x w_norm2 : Mat α) (dx dc dr : α)
    (outw outch i j k : Nat) (s : TSState α) :
    ∃ out v, ts_step exp a x w_norm2 dx dc dr outw outch i j k s
      = { top_blob := s.top_blob.set k (out_pos outw i j) out,
          last_y := s.last_y.set k (out_pos outw i j) v,
          last_y_col := s.last_y_col.setFlat k v,
          last_y_row := s.last_y_row.setFlat (out_pos outch j k) v } := by
  by_cases h : ts_candidate i j (s.last_y.data k (out_pos outw i j)) (s.last_y_col.flat k)
      (s.last_y_row.flat (out_pos outch j k)) (w_norm2.flat k) dx dc dr + a.y_init k ≤ 0
  · exact ⟨_, _, ts_step_skip exp a x w_norm2 dx dc dr outw outch i j k s h⟩
  · exact ⟨_, _, ts_step_exact exp a x w_norm2 dx dc dr outw outch i j k s h⟩

/-- The body of the loop nest stores one output and one value. -/
theorem ts_body_writes (sqrt exp : α → α) (a : ConvArgs α) (x last_x w_norm2 : Mat α)
    (outw outch i j k : Nat) (s : TSState α) :
    ∃ out v, ts_body sqrt exp a x last_x w_norm2 outw outch i j k s
      = { top_blob := s.top_blob.set k (out_pos outw i j) out,
          last_y := s.last_y.set k (out_pos outw i j) v,
          last_y_col := s.last_y_col.setFlat k v,
          last_y_row := s.last_y_row.setFlat (out_pos outch j k) v } := by
  unfold ts_body
  exact ts_step_writes exp a x w_norm2 _ _ _ outw outch i j k s

/-- The bound branch of `temporal_spatial_convolution` returns the state its loop nest has
on reaching the end. -/
theorem ts_bound_eq_at (sqrt exp : α → α) (x top : Mat α) (a : ConvArgs α)
    (last_x last_y w_norm2 col row : Mat α) (hne : ¬ last_x.total ≤ 0) :
    temporal_spatial_convolution sqrt exp x top a last_x last_y w_norm2 col row
      = ⟨(ts_state_at sqrt exp x top a last_x last_y w_norm2 col row top.h 0 0).top_blob, x,
          (ts_state_at sqrt exp x top a last_x last_y w_norm2 col row top.h 0 0).last_y,
          w_norm2,
          (ts_state_at sqrt exp x top a last_x last_y w_norm2 col row top.h 0 0).last_y_col,
          (ts_state_at sqrt exp x top a last_x last_y w_norm2 col row top.h 0 0).last_y_row⟩ := by
  unfold temporal_spatial_convolution ts_state_at
  simp only [hne, if_false]
  rw [← loop3_at_end]
  rfl

/-- Reaching `(i, j, k + 1)` in a bound-branch call is reaching `(i, j, k)` and running the
body of the loop nest. -/
theorem ts_state_at_succ (sqrt exp : α → α) (x top : Mat α) (a : ConvArgs α)
    (last_x last_y w_norm2 col row : Mat α) (i j k : Nat) :
    ts_state_at sqrt exp x top a last_x last_y w_norm2 col row i j (k + 1)
      = ts_body sqrt exp a x last_x w_norm2 top.w top.c i j k
          (ts_state_at sqrt exp x top a last_x last_y w_norm2 col row i j k) := by
  unfold ts_state_at
  rw [loop3_at_succ_k]

/-- An entry of `last_y_row` read at `(i, j, k)`, `i > 0`, is as the step at `(i-1, j, k)`
left it. -/
theorem ts_row_read (sqrt exp : α → α) (x top : Mat α) (a : ConvArgs α)
    (last_x last_y w_norm2 col row : Mat α) (i j k : Nat) (hi : 0 < i) (hj : j < top.w)
    (hk : k < top.c) :
    (ts_state_at sqrt exp x top a last_x last_y w_norm2 col row i j k).last_y_row.flat
        (out_pos top.c j k)
      = (ts_state_at sqrt exp x top a last_x last_y w_norm2 col row (i - 1) j
          (k + 1)).last_y_row.flat (out_pos top.c j k) := by
  unfold ts_state_at
  apply loop3_at_frame top.w top.c _ (fun s : TSState α => s.last_y_row.flat (out_pos top.c j k))
    (i - 1) j (k + 1) i j k _ hj (by omega) hj (by omega)
    (Or.inl (by unfold lex_lt; omega))
  intro i' j' k' hj' hk' h1 h2 t
  obtain ⟨out, v, e⟩ := ts_body_writes sqrt exp a x last_x w_norm2 top.w top.c i' j' k' t
  rw [e]
  simp only
  apply Mat.flat_setFlat_ne
  intro hc
  obtain ⟨e1, e2⟩ := out_pos_inj hk hk' hc
  subst e1
  subst e2
  unfold lex_lt at h1 h2
  omega

/-- An entry of `last_y_col` read at `(i, j, k)`, `j > 0`, is as the step at `(i, j-1, k)`
left it. -/
theorem ts_col_read (sqrt exp : α → α) (x top : Mat α) (a : ConvArgs α)
    (last_x last_y w_norm2 col row : Mat α) (i j k : Nat) (hj0 : 0 < j) (hj : j < top.w)
    (hk : k < top.c) :
    (ts_state_at sqrt exp x top a last_x last_y w_norm2 col row i j k).last_y_col.flat k
      = (ts_state_at sqrt exp x top a last_x last_y w_norm2 col row i (j - 1)
          (k + 1)).last_y_col.flat k := by
  unfold ts_state_at
  apply loop3_at_frame top.w top.c _ (fun s : TSState α => s.last_y_col.flat k)
    i (j - 1) (k + 1) i j k _ (by omega) (by omega) hj (by omega)
    (Or.inl (by unfold lex_lt; omega))
  intro i' j' k' hj' hk' h1 h2 t
  obtain ⟨out, v, e⟩ := ts_body_writes sqrt exp a x last_x w_norm2 top.w top.c i' j' k' t
  rw [e]
  simp only
  apply Mat.flat_setFlat_ne
  intro hc
  have e1 : k = k' := by exact_mod_cast hc
  subst e1
  unfold lex_lt at h1 h2
  omega

/-- The output and the cached value of a position are as its step left them when the call
returns. -/
theorem ts_final_at (sqrt exp : α → α) (x top : Mat α) (a : ConvArgs α)
    (last_x last_y w_norm2 col row : Mat α) (i j k : Nat) (hi : i < top.h) (hj : j < top.w)
    (hk : k < top.c) :
    (ts_state_at sqrt exp x top a last_x last_y w_norm2 col row top.h 0 0).top_blob.data k
        (out_pos top.w i j)
      = (ts_state_at sqrt exp x top a last_x last_y w_norm2 col row i j (k + 1)).top_blob.data k
          (out_pos top.w i j) ∧
    (ts_state_at sqrt exp x top a last_x last_y w_norm2 col row top.h 0 0).last_y.data k
        (out_pos top.w i j)
      = (ts_state_at sqrt exp x top a last_x last_y w_norm2 col row i j (k + 1)).last_y.data k
          (out_pos top.w i j) := by
  have hne : ∀ i' j' k', j' < top.w → k' < top.c → ¬ lex_lt i' j' k' i j (k + 1) →
      ¬ (k = k' ∧ out_pos top.w i j = out_pos top.w i' j') := by
    intro i' j' k' hj' hk' h1 hc
    obtain ⟨e1, e2⟩ := hc
    obtain ⟨e3, e4⟩ := out_pos_inj hj hj' e2
    subst e1
    subst e3
    subst e4
    unfold lex_lt at h1
    omega
  unfold ts_state_at
  constructor
  · apply loop3_at_frame top.w top.c _
      (fun s : TSState α => s.top_blob.data k (out_pos top.w i j))
      i j (k + 1) top.h 0 0 _ hj (by omega) (by omega) (by omega)
      (Or.inl (by unfold lex_lt; omega))
    intro i' j' k' hj' hk' h1 h2 t
    obtain ⟨out, v, e⟩ := ts_body_writes sqrt exp a x last_x w_norm2 top.w top.c i' j' k' t
    rw [e]
    simp only
    exact Mat.set_data_ne _ _ _ _ _ _ (hne i' j' k' hj' hk' h1)
  · apply loop3_at_frame top.w top.c _
      (fun s : TSState α => s.last_y.data k (out_pos top.w i j))
      i j (k + 1) top.h 0 0 _ hj (by omega) (by omega) (by omega)
      (Or.inl (by unfold lex_lt; omega))
    intro i' j' k' hj' hk' h1 h2 t
    obtain ⟨out, v, e⟩ := ts_body_writes sqrt exp a x last_x w_norm2 top.w top.c i' j' k' t
    rw [e]
    simp only
    exact Mat.set_data_ne _ _ _ _ _ _ (hne i' j' k' hj' hk' h1)

end TSAt

end Conv

namespace Conv

section TSUnread

variable {α : Type} [LinearOrderedField α]

/-- In row `0` the candidate does not depend on the entry of `last_y_row`. -/
theorem ts_candidate_row_unread (j : Nat) (vl vc vr vr2 wn dx dc dr : α) :
    ts_candidate 0 j vl vc vr wn dx dc dr = ts_candidate 0 j vl vc vr2 wn dx dc dr := by
  unfold ts_candidate
  simp

/-- In column `0` the candidate does not depend on the entry of `last_y_col`. -/
theorem ts_candidate_col_unread (i : Nat) (vl vc vc2 vr wn dx dc dr : α) :
    ts_candidate i 0 vl vc vr wn dx dc dr = ts_candidate i 0 vl vc2 vr wn dx dc dr := by
  unfold ts_candidate
  simp

/-- In row `0` the body of the loop nest does not read `last_y_row`: run on another row
buffer it stores the same output and the same value. -/
theorem ts_body_row_unread (sqrt exp : α → α) (a : ConvArgs α) (x last_x w_norm2 : Mat α)
    (outw outch j k : Nat) (s : TSState α) (row2 : Mat α) :
    ∃ out v,
      ts_body sqrt exp a x last_x w_norm2 outw outch 0 j k s
        = { top_blob := s.top_blob.set k (out_pos outw 0 j) out,
            last_y := s.last_y.set k (out_pos outw 0 j) v,
            last_y_col := s.last_y_col.setFlat k v,
            last_y_row := s.last_y_row.setFlat (out_pos outch j k) v } ∧
      ts_body sqrt exp a x last_x w_norm2 outw outch 0 j k
          { top_blob := s.top_blob, last_y := s.last_y, last_y_col := s.last_y_col,
            last_y_row := row2 }
        = { top_blob := s.top_blob.set k (out_pos outw 0 j) out,
            last_y := s.last_y.set k (out_pos outw 0 j) v,
            last_y_col := s.last_y_col.setFlat k v,
            last_y_row := row2.setFlat (out_pos outch j k) v } := by
  unfold ts_body
  simp only
  generalize sqrt (fused_delta_sums a x last_x 0 j).1 = dx
  generalize (if j ≠ 0 then sqrt (fused_delta_sums a x last_x 0 j).2.2
    else (fused_delta_sums a x last_x 0 j).2.2) = dc
  generalize (if (0 : Nat) ≠ 0 then sqrt (fused_delta_sums a x last_x 0 j).2.1
    else (fused_delta_sums a x last_x 0 j).2.1) = dr
  have hc := ts_candidate_row_unread j (s.last_y.data k (out_pos outw 0 j)) (s.last_y_col.flat k)
    (s.last_y_row.flat (out_pos outch j k)) (row2.flat (out_pos outch j k)) (w_norm2.flat k)
    dx dc dr
  by_cases h : ts_candidate 0 j (s.last_y.data k (out_pos outw 0 j)) (s.last_y_col.flat k)
      (s.last_y_row.flat (out_pos outch j k)) (w_norm2.flat k) dx dc dr + a.y_init k ≤ 0
  · refine ⟨_, _, ts_step_skip exp a x w_norm2 dx dc dr outw outch 0 j k s h, ?_⟩
    rw [ts_step_skip exp a x w_norm2 dx dc dr outw outch 0 j k _ (by simp only; rw [← hc]; exact h)]
    simp only [← hc]
  · refine ⟨_, _, ts_step_exact exp a x w_norm2 dx dc dr outw outch 0 j k s h, ?_⟩
    rw [ts_step_exact exp a x w_norm2 dx dc dr outw outch 0 j k _
      (by simp only; rw [← hc]; exact h)]

/-- In column `0` the body of the loop nest does not read `last_y_col`: run on another
column buffer it stores the same output and the same value. -/
theorem ts_body_col_unread (sqrt exp : α → α) (a : ConvArgs α) (x last_x w_norm2 : Mat α)
    (outw outch i k : Nat) (s : TSState α) (col2 : Mat α) :
    ∃ out v,
      ts_body sqrt exp a x last_x w_norm2 outw outch i 0 k s
        = { top_blob := s.top_blob.set k (out_pos outw i 0) out,
            last_y := s.last_y.set k (out_pos outw i 0) v,
            last_y_col := s.last_y_col.setFlat k v,
            last_y_row := s.last_y_row.setFlat (out_pos outch 0 k) v } ∧
      ts_body sqrt exp a x last_x w_norm2 outw outch i 0 k
          { top_blob := s.top_blob, last_y := s.last_y, last_y_col := col2,
            last_y_row := s.last_y_row }
        = { top_blob := s.top_blob.set k (out_pos outw i 0) out,
            last_y := s.last_y.set k (out_pos outw i 0) v,
            last_y_col := col2.setFlat k v,
            last_y_row := s.last_y_row.setFlat (out_pos outch 0 k) v } := by
  unfold ts_body
  simp only
  generalize sqrt (fused_delta_sums a x last_x i 0).1 = dx
  generalize (if (0 : Nat) ≠ 0 then sqrt (fused_delta_sums a x last_x i 0).2.2
    else (fused_delta_sums a x last_x i 0).2.2) = dc
  generalize (if i ≠ 0 then sqrt (fused_delta_sums a x last_x i 0).2.1
    else (fused_delta_sums a x last_x i 0).2.1) = dr
  have hc := ts_candidate_col_unread i (s.last_y.data k (out_pos outw i 0)) (s.last_y_col.flat k)
    (col2.flat k) (s.last_y_row.flat (out_pos outch 0 k)) (w_norm2.flat k) dx dc dr
  by_cases h : ts_candidate i 0 (s.last_y.data k (out_pos outw i 0)) (s.last_y_col.flat k)
      (s.last_y_row.flat (out_pos outch 0 k)) (w_norm2.flat k) dx dc dr + a.y_init k ≤ 0
  · refine ⟨_, _, ts_step_skip exp a x w_norm2 dx dc dr outw outch i 0 k s h, ?_⟩
    rw [ts_step_skip exp a x w_norm2 dx dc dr outw outch i 0 k _ (by simp only; rw [← hc]; exact h)]
    simp only [← hc]
  · refine ⟨_, _, ts_step_exact exp a x w_norm2 dx dc dr outw outch i 0 k s h, ?_⟩
    rw [ts_step_exact exp a x w_norm2 dx dc dr outw outch i 0 k _
      (by simp only; rw [← hc]; exact h)]

end TSUnread

end Conv

namespace Conv

section SpatialAt

variable {α : Type} [LinearOrderedField α]

/-- One step of `spatial_convolution` that takes the skip branch. -/
theorem spatial_step_skip (exp : α → α) (a : ConvArgs α) (x w_norm2 : Mat α) (dc dr : α)
    (outw outch i j k : Nat) (s : Mat α × Mat α × Mat α)
    (h : (i ≠ 0 ∨ j ≠ 0) ∧
      (if i ≠ 0 then
          (if j ≠ 0 then
            min (s.2.2.flat (out_pos outch j k) + dr * w_norm2.flat k)
              (s.2.1.flat k + dc * w_norm2.flat k)
          else s.2.2.flat (out_pos outch j k) + dr * w_norm2.flat k)
        else s.2.1.flat k + dc * w_norm2.flat k) + a.y_init k ≤ 0) :
    spatial_step exp a x w_norm2 dc dr outw outch i j k s
      = (s.1.set k (out_pos outw i j) 0,
        s.2.1.setFlat k
          (if i ≠ 0 then
            (if j ≠ 0 then
              min (s.2.2.flat (out_pos outch j k) + dr * w_norm2.flat k)
                (s.2.1.flat k + dc * w_norm2.flat k)
            else s.2.2.flat (out_pos outch j k) + dr * w_norm2.flat k)
          else s.2.1.flat k + dc * w_norm2.flat k),
        s.2.2.setFlat (out_pos outch j k)
          (if i ≠ 0 then
            (if j ≠ 0 then
              min (s.2.2.flat (out_pos outch j k) + dr * w_norm2.flat k)
                (s.2.1.flat k + dc * w_norm2.flat k)
            else s.2.2.flat (out_pos outch j k) + dr * w_norm2.flat k)
          else s.2.1.flat k + dc * w_norm2.flat k)) := by
  unfold spatial_step spatial_decide
  simp only
  rw [if_pos h]

/-- One step of `spatial_convolution` that takes the exact branch. -/
theorem spatial_step_exact (exp : α → α) (a : ConvArgs α) (x w_norm2 : Mat α) (dc dr : α)
    (outw outch i j k : Nat) (s : Mat α × Mat α × Mat α)
    (h : ¬ ((i ≠ 0 ∨ j ≠ 0) ∧
      (if i ≠ 0 then
          (if j ≠ 0 then
            min (s.2.2.flat (out_pos outch j k) + dr * w_norm2.flat k)
              (s.2.1.flat k + dc * w_norm2.flat k)
          else s.2.2.flat (out_pos outch j k) + dr * w_norm2.flat k)
        else s.2.1.flat k + dc * w_norm2.flat k) + a.y_init k ≤ 0)) :
    spatial_step exp a x w_norm2 dc dr outw outch i j k s
      = (s.1.set k (out_pos outw i j) (a.act exp (exact_y a x i j k)),
        s.2.1.setFlat k (-a.y_init k + exact_y a x i j k),
        s.2.2.setFlat (out_pos outch j k) (-a.y_init k + exact_y a x i j k)) := by
  unfold spatial_step spatial_decide
  simp only
  rw [if_neg h, Mat.flat_setFlat_same, Mat.flat_setFlat_same, Mat.setFlat_setFlat,
    Mat.setFlat_setFlat]

/-- Every step of `spatial_convolution` stores one output at its own position. -/
theorem spatial_step_writes (exp : α → α) (a : ConvArgs α) (x w_norm2 : Mat α) (dc dr : α)
    (outw outch i j k : Nat) (s : Mat α × Mat α × Mat α) :
    ∃ out, (spatial_step exp a x w_norm2 dc dr outw outch i j k s).1
      = s.1.set k (out_pos outw i j) out := by
  by_cases h : (i ≠ 0 ∨ j ≠ 0) ∧
      (if i ≠ 0 then
          (if j ≠ 0 then
            min (s.2.2.flat (out_pos outch j k) + dr * w_norm2.flat k)
              (s.2.1.flat k + dc * w_norm2.flat k)
          else s.2.2.flat (out_pos outch j k) + dr * w_norm2.flat k)
        else s.2.1.flat k + dc * w_norm2.flat k) + a.y_init k ≤ 0
  · exact ⟨_, by rw [spatial_step_skip exp a x w_norm2 dc dr outw outch i j k s h]⟩
  · exact ⟨_, by rw [spatial_step_exact exp a x w_norm2 dc dr outw outch i j k s h]⟩

/-- The step of `spatial_convolution` at position `(0, 0)` takes the exact branch. -/
theorem spatial_step_origin (exp : α → α) (a : ConvArgs α) (x w_norm2 : Mat α) (dc dr : α)
    (outw outch k : Nat) (s : Mat α × Mat α × Mat α) :
    spatial_step exp a x w_norm2 dc dr outw outch 0 0 k s
      = (s.1.set k (out_pos outw 0 0) (a.act exp (exact_y a x 0 0 k)),
        s.2.1.setFlat k (-a.y_init k + exact_y a x 0 0 k),
        s.2.2.setFlat (out_pos outch 0 k) (-a.y_init k + exact_y a x 0 0 k)) :=
  spatial_step_exact exp a x w_norm2 dc dr outw outch 0 0 k s
    (fun h => h.1.elim (fun h0 => h0 rfl) (fun h0 => h0 rfl))

/-- The output of `spatial_convolution` at position `(0, 0)` is the activated exact
pre-activation, whatever the caches hold. -/
theorem spatial_origin_output (sqrt exp : α → α) (x top : Mat α) (a : ConvArgs α)
    (w_norm2 col row : Mat α) (call_time : α) (k : Nat) (hh : 0 < top.h) (hw : 0 < top.w)
    (hk : k < top.c) :
    (spatial_convolution sqrt exp x top a w_norm2 col row call_time).top_blob.data k
        (out_pos top.w 0 0)
      = a.act exp (exact_y a x 0 0 k) := by
  unfold spatial_convolution
  simp only
  generalize (if w_norm2.total ≤ 0 then
      (calc_w_norm2 sqrt a x.c top.c (w_norm2.create1 top.c), col.create1 top.c,
        row.create2 top.c top.w)
    else (w_norm2, col, row)) = c
  rw [loop3_at_end top.w top.c top.h
    (fun i j k s => spatial_step exp a x c.1
      (if j ≠ 0 then sqrt (col_delta_sum a x i j) else 0)
      (if i ≠ 0 then sqrt (row_delta_sum a x i j) else 0) top.w top.c i j k s)
    (top, c.2.1, c.2.2)]
  rw [loop3_at_frame top.w top.c _
    (fun s : Mat α × Mat α × Mat α => s.1.data k (out_pos top.w 0 0))
    0 0 (k + 1) top.h 0 0 _ hw (by omega) hw (by omega) (Or.inl (by unfold lex_lt; omega))
    (by
      intro i' j' k' hj' hk' h1 h2 t
      obtain ⟨out, e⟩ := spatial_step_writes exp a x c.1
        (if j' ≠ 0 then sqrt (col_delta_sum a x i' j') else 0)
        (if i' ≠ 0 then sqrt (row_delta_sum a x i' j') else 0) top.w top.c i' j' k' t
      simp only
      rw [e]
      apply Mat.set_data_ne
      intro hc
      obtain ⟨e1, e2⟩ := hc
      obtain ⟨e3, e4⟩ := out_pos_inj hw hj' e2
      subst e1
      subst e3
      subst e4
      unfold lex_lt at h1
      omega)]
  rw [loop3_at_succ_k, spatial_step_origin]
  exact Mat.set_data_same _ _ _ _

end SpatialAt

end Conv

namespace Conv

/-- The zero input of scenario S2 holds `0` everywhere. -/
theorem s2_zero_data (q : Nat) (p : Int) : (s2_zero : Mat ℝ).data q p = 0 := by
  show (if 0 ≤ p then ([] : List ℝ).getD p.toNat 0 else 0) = 0
  split_ifs <;> rfl

/-- The bias of scenario S2 is `-1`. -/
theorem s2_y_init : (s2_args : ConvArgs ℝ).y_init 0 = -1 := by
  simp [ConvArgs.y_init, ConvArgs.bias_term, s2_args, Mat.of_list, Mat.empty, Mat.total,
    Mat.flat]

/-- The bias-free pre-activations of the zero input of scenario S2 are `0`. -/
theorem s2_zero_conv_sum (i j k : Nat) : conv_sum (s2_args : ConvArgs ℝ) s2_zero i j k = 0 := by
  unfold conv_sum dsum patch_at
  simp only [s2_zero_data, zero_mul, Finset.sum_const_zero]

/-- The squared norm of the filter of scenario S2 is `9 * 0.1^2`. -/
theorem s2_weight_sq : weight_sq (s2_args : ConvArgs ℝ) 1 0 = 9 / 100 := by
  have hmk : (s2_args : ConvArgs ℝ).maxk = 9 := by decide
  have hw : ∀ t : Nat, t < 9 → (s2_args : ConvArgs ℝ).weight 1 0 0 t = 1 / 10 := by
    intro t ht
    unfold ConvArgs.weight
    rw [hmk]
    interval_cases t <;> simp [ConvArgs.kptr, s2_args, Mat.of_list, Mat.flat]
  unfold weight_sq dsum
  rw [hmk, Finset.sum_range_one]
  have e : ∀ t ∈ Finset.range 9,
      (s2_args : ConvArgs ℝ).weight 1 0 0 t * (s2_args : ConvArgs ℝ).weight 1 0 0 t
        = 1 / 100 := by
    intro t ht
    rw [hw t (Finset.mem_range.mp ht)]
    norm_num
  rw [Finset.sum_congr rfl e]
  simp
  norm_num

/-- The norm of the filter of scenario S2 is `0.3`. -/
theorem s2_w_norm : Real.sqrt (weight_sq (s2_args : ConvArgs ℝ) 1 0) = 3 / 10 := by
  rw [s2_weight_sq, show (9 / 100 : ℝ) = (3 / 10) ^ 2 by norm_num,
    Real.sqrt_sq (by norm_num)]

/-- The activation of scenario S2 is ReLU. -/
theorem s2_act (v : ℝ) : (s2_args : ConvArgs ℝ).act Real.exp v = max v 0 := by
  unfold ConvArgs.act activation_ss
  have ht : (s2_args : ConvArgs ℝ).activation_type = 1 := rfl
  rw [if_pos ht]

/-- The first call of `mlsys_convolution` in scenario S2, on the zero input: the output is
all zeros, the cached values are `0` and the cached norm is `0.3`. -/
theorem s2_first_call :
    (mlsys_convolution Real.sqrt Real.exp s2_zero s2_top (s2_args : ConvArgs ℝ) Mat.nil Mat.nil
      Mat.nil).last_x = s2_zero ∧
    (mlsys_convolution Real.sqrt Real.exp s2_zero s2_top (s2_args : ConvArgs ℝ) Mat.nil Mat.nil
      Mat.nil).w_norm2.flat ((0 : Nat) : Int) = 3 / 10 ∧
    ∀ i j, i < 2 → j < 2 →
      (mlsys_convolution Real.sqrt Real.exp s2_zero s2_top (s2_args : ConvArgs ℝ) Mat.nil Mat.nil
        Mat.nil).out_y.data 0 (out_pos 2 i j) = 0 ∧
      (mlsys_convolution Real.sqrt Real.exp s2_zero s2_top (s2_args : ConvArgs ℝ) Mat.nil Mat.nil
        Mat.nil).last_y.data 0 (out_pos 2 i j) = 0 := by
  obtain ⟨h1, h2, _, h4⟩ := mlsys_first_spec Real.sqrt Real.exp s2_zero s2_top
    (s2_args : ConvArgs ℝ) Mat.nil Mat.nil Mat.nil (Nat.le_refl 0)
  refine ⟨h1, (h2 0 (by decide)).trans s2_w_norm, ?_⟩
  intro i j hi hj
  obtain ⟨ho, hl⟩ := h4 i j 0 hi hj (by decide)
  refine ⟨?_, hl.trans (s2_zero_conv_sum i j 0)⟩
  rw [exact_y_eq, s2_y_init, s2_zero_conv_sum, s2_act] at ho
  refine ho.trans ?_
  norm_num

/-- The squared temporal deltas between the perturbed and the zero input of scenario S2 are
at most `1`. -/
theorem s2_step_delta (i j : Nat) (hi : i < 2) (hj : j < 2) :
    temporal_dx2_sum (s2_args : ConvArgs ℝ) s2_step s2_zero i j ≤ 1 := by
  have hmk : (s2_args : ConvArgs ℝ).maxk = 9 := by decide
  have hc : (s2_step : Mat ℝ).c = 1 := rfl
  have hso : ∀ t : Nat, t < 9 →
      (s2_args : ConvArgs ℝ).space_ofs (s2_step : Mat ℝ) t
        = ([0, 1, 2, 4, 5, 6, 8, 9, 10] : List Int).getD t 0 := by
    decide
  have hrp : row_ptr (s2_step : Mat ℝ) (s2_args : ConvArgs ℝ).stride_w
      (s2_args : ConvArgs ℝ).stride_h i j = (i : Int) * 4 + j := by
    simp [row_ptr, s2_args, s2_step, Mat.of_rows]
  have hd : ∀ p : Int, (s2_step : Mat ℝ).data 0 p = if p = 0 then 1 else 0 := by
    intro p
    show (if 0 ≤ p then ([1] : List ℝ).getD p.toNat 0 else 0) = _
    by_cases h0 : 0 ≤ p
    · rw [if_pos h0]
      by_cases hp : p = 0
      · rw [hp]
        rfl
      · rw [if_neg hp]
        have : 1 ≤ p.toNat := by omega
        obtain ⟨n, hn⟩ : ∃ n, p.toNat = n + 1 := ⟨p.toNat - 1, by omega⟩
        rw [hn]
        rfl
    · rw [if_neg h0, if_neg (by omega)]
  rw [temporal_dx2_sum_eq]
  unfold temporal_sq dsum patch_at
  rw [hc, hmk, Finset.sum_range_one]
  simp only [s2_zero_data, sub_zero, hrp, hd]
  have e : ∀ t ∈ Finset.range 9,
      ((if (i : Int) * 4 + j + (s2_args : ConvArgs ℝ).space_ofs (s2_step : Mat ℝ) t = 0
          then (1 : ℝ) else 0)
        * (if (i : Int) * 4 + j + (s2_args : ConvArgs ℝ).space_ofs (s2_step : Mat ℝ) t = 0
          then (1 : ℝ) else 0))
      = (if (i : Int) * 4 + j + ([0, 1, 2, 4, 5, 6, 8, 9, 10] : List Int).getD t 0 = 0
          then (1 : ℝ) else 0) := by
    intro t ht
    rw [hso t (Finset.mem_range.mp ht)]
    split_ifs <;> norm_num
  rw [Finset.sum_congr rfl e]
  interval_cases i <;> interval_cases j <;> norm_num [Finset.sum_range_succ] <;> decide

end Conv

namespace Conv

/-- The weights of the first of the two six-tap filters. -/
theorem two_tap_weights_first (i : Nat) :
    (two_tap_args : ConvArgs ℝ).weight_data.flat ((two_tap_args : ConvArgs ℝ).kptr 1 0 + i)
      = ([1, 0, 0, 0, 0, 0, -1, 0, 0, 0, 0, 0] : List ℝ).getD i 0 := by
  simp [two_tap_args, Mat.of_list, Mat.flat, ConvArgs.kptr]

/-- The weights of the second of the two six-tap filters. -/
theorem two_tap_weights_second (i : Nat) :
    (two_tap_args : ConvArgs ℝ).weight_data.flat ((two_tap_args : ConvArgs ℝ).kptr 1 1 + i)
      = ([-1, 0, 0, 0, 0, 0] : List ℝ).getD i 0 := by
  have e : (two_tap_args : ConvArgs ℝ).kptr 1 1 + (i : Int) = ((i + 6 : Nat) : Int) := by
    simp [ConvArgs.kptr, two_tap_args]
    ring
  rw [e]
  show (if (0 : Nat) = 0 ∧ (0 : Int) ≤ ((i + 6 : Nat) : Int) then
    ([1, 0, 0, 0, 0, 0, -1, 0, 0, 0, 0, 0] : List ℝ).getD (((i + 6 : Nat) : Int)).toNat 0
    else 0) = _
  rw [if_pos ⟨rfl, Int.natCast_nonneg _⟩, Int.toNat_natCast]
  rfl

/-- The sorted vector of `find_top_E` for the first filter `[1, 0, 0, 0, 0, 0]` of the two
six-tap filters. -/
theorem two_tap_sorted_first :
    w_ordered_sorted (fun i => (two_tap_args : ConvArgs ℝ).weight_data.flat
        ((two_tap_args : ConvArgs ℝ).kptr 1 0 + i)) 6
      = [(0, 1), (0, 2), (0, 3), (0, 4), (0, 5), (1, 0)] := by
  unfold w_ordered_sorted
  simp only [two_tap_weights_first]
  norm_num [forLoop, loopN, List.insertionSort, List.orderedInsert, pair_le]

/-- The sorted vector of `find_top_E` for the second filter `[-1, 0, 0, 0, 0, 0]` of the two
six-tap filters. -/
theorem two_tap_sorted_second :
    w_ordered_sorted (fun i => (two_tap_args : ConvArgs ℝ).weight_data.flat
        ((two_tap_args : ConvArgs ℝ).kptr 1 1 + i)) 6
      = [(0, 1), (0, 2), (0, 3), (0, 4), (0, 5), (1, 0)] := by
  unfold w_ordered_sorted
  simp only [two_tap_weights_second]
  norm_num [forLoop, loopN, List.insertionSort, List.orderedInsert, pair_le]

/-- The tables left by the first call of `mlsys_convolution_lower_top_E` with the two
six-tap filters: the first stored index of the second channel is `0`, the stored weights of
the first channel are `1, 0, 0, 0, 0, 0` and those of the second `-1, 0, 0, 0, 0, 0`. -/
theorem two_tap_first_call :
    (mlsys_convolution_lower_top_E Real.sqrt Real.exp six_zero two_top
        (two_tap_args : ConvArgs ℝ) Mat.nil Mat.nil Mat.nil Mat.nil Mat.nil Mat.nil
        Mat.nil).last_x = six_zero ∧
    (mlsys_convolution_lower_top_E Real.sqrt Real.exp six_zero two_top
        (two_tap_args : ConvArgs ℝ) Mat.nil Mat.nil Mat.nil Mat.nil Mat.nil Mat.nil
        Mat.nil).top_E_indices.flat ((E : Int) * ((1 : Nat) : Int) + ((0 : Nat) : Int)) = 0 ∧
    (mlsys_convolution_lower_top_E Real.sqrt Real.exp six_zero two_top
        (two_tap_args : ConvArgs ℝ) Mat.nil Mat.nil Mat.nil Mat.nil Mat.nil Mat.nil
        Mat.nil).top_E_w_vals.flat ((E : Int) * ((0 : Nat) : Int) + ((0 : Nat) : Int)) = 1 ∧
    (mlsys_convolution_lower_top_E Real.sqrt Real.exp six_zero two_top
        (two_tap_args : ConvArgs ℝ) Mat.nil Mat.nil Mat.nil Mat.nil Mat.nil Mat.nil
        Mat.nil).top_E_w_vals.flat ((E : Int) * ((1 : Nat) : Int) + ((0 : Nat) : Int)) = -1 ∧
    (∀ p : Nat, 0 < p → p < 6 →
      (mlsys_convolution_lower_top_E Real.sqrt Real.exp six_zero two_top
        (two_tap_args : ConvArgs ℝ) Mat.nil Mat.nil Mat.nil Mat.nil Mat.nil Mat.nil
        Mat.nil).top_E_w_vals.flat ((E : Int) * ((0 : Nat) : Int) + (p : Int)) = 0) ∧
    ∀ p : Nat, 0 < p → p < 6 →
      (mlsys_convolution_lower_top_E Real.sqrt Real.exp six_zero two_top
        (two_tap_args : ConvArgs ℝ) Mat.nil Mat.nil Mat.nil Mat.nil Mat.nil Mat.nil
        Mat.nil).top_E_w_vals.flat ((E : Int) * ((1 : Nat) : Int) + (p : Int)) = 0 := by
  have he : (Mat.nil : Mat ℝ).total ≤ 0 := Nat.le_refl 0
  have hlen : (two_tap_args : ConvArgs ℝ).maxk * (six_zero : Mat ℝ).c = 6 := by decide
  have hc : (six_zero : Mat ℝ).c = 1 := rfl
  obtain ⟨_, _, hV0, _⟩ := top_E_first_tables Real.sqrt Real.exp six_zero two_top
    (two_tap_args : ConvArgs ℝ) Mat.nil Mat.nil Mat.nil Mat.nil Mat.nil Mat.nil Mat.nil he 0
    (by decide)
  obtain ⟨_, hI1, hV1, _⟩ := top_E_first_tables Real.sqrt Real.exp six_zero two_top
    (two_tap_args : ConvArgs ℝ) Mat.nil Mat.nil Mat.nil Mat.nil Mat.nil Mat.nil Mat.nil he 1
    (by decide)
  rw [hlen, hc, two_tap_sorted_first] at hV0
  rw [hlen, hc, two_tap_sorted_second] at hI1 hV1
  refine ⟨?_, ?_, ?_, ?_, ?_, ?_⟩
  · unfold mlsys_convolution_lower_top_E
    simp only [he, if_true]
  · rw [hI1 0 (by decide)]
    simp [vec_at]
  · rw [hV0 0 (by decide), two_tap_weights_first]
    simp [vec_at]
  · rw [hV1 0 (by decide), two_tap_weights_second]
    simp [vec_at]
  · intro p hp0 hp6
    rw [hV0 p hp6, two_tap_weights_first]
    interval_cases p <;> simp [vec_at]
  · intro p hp0 hp6
    rw [hV1 p hp6, two_tap_weights_second]
    interval_cases p <;> simp [vec_at]

/-- The first entry of the delta vector between the inputs `[[1, 0, 0, 0, 0, 0]]` and
`[[0, 0, 0, 0, 0, 0]]` for the two six-tap filters. -/
theorem two_tap_diff (x_vector_diff : Mat ℝ) :
    (top_E_dx2_sum (two_tap_args : ConvArgs ℝ) six_step six_zero 0 0 x_vector_diff).2.flat 0
      = 1 := by
  have hic : (six_step : Mat ℝ).c = 1 := rfl
  have hmk : (two_tap_args : ConvArgs ℝ).maxk = 6 := by decide
  have hso : (two_tap_args : ConvArgs ℝ).space_ofs (six_step : Mat ℝ) 0 = 0 := by decide
  have h6 : ∀ (f : Nat → ℝ × Mat ℝ → ℝ × Mat ℝ) (s : ℝ × Mat ℝ),
      forLoop 0 6 f s = f 5 (f 4 (f 3 (f 2 (f 1 (f 0 s))))) := fun _ _ => rfl
  unfold top_E_dx2_sum
  rw [hic, hmk, forLoop_one, h6]
  simp only
  rw [Mat.flat_setFlat_ne _ _ _ _ (by norm_num), Mat.flat_setFlat_ne _ _ _ _ (by norm_num),
    Mat.flat_setFlat_ne _ _ _ _ (by norm_num), Mat.flat_setFlat_ne _ _ _ _ (by norm_num),
    Mat.flat_setFlat_ne _ _ _ _ (by norm_num)]
  have e0 : ((0 : Nat) : Int) * ((6 : Nat) : Int) + ((0 : Nat) : Int) = 0 := by norm_num
  rw [e0, Mat.flat_setFlat_same]
  unfold patch_at
  rw [hso]
  simp [six_step, six_zero, Mat.of_rows, row_ptr]

end Conv

namespace Conv

/-- The deltas of the input `[[-1, -1]]` against the cached input `[[0, 0]]` for the
`1 x 1` filter: the temporal deltas are `1` and the column delta at `(0, 1)` is `0`. -/
theorem pair_neg_deltas :
    (fused_delta_sums (s1_args : ConvArgs ℝ) pair_neg pair_zero 0 0).1 = 1 ∧
    (fused_delta_sums (s1_args : ConvArgs ℝ) pair_neg pair_zero 0 1).1 = 1 ∧
    (fused_delta_sums (s1_args : ConvArgs ℝ) pair_neg pair_zero 0 1).2.2 = 0 := by
  have hso : (s1_args : ConvArgs ℝ).space_ofs (pair_neg : Mat ℝ) 0 = 0 := by decide
  have hmk : (s1_args : ConvArgs ℝ).maxk = 1 := by decide
  have hc : (pair_neg : Mat ℝ).c = 1 := rfl
  refine ⟨?_, ?_, ?_⟩
  · rw [fused_delta_sums_eq]
    simp only
    unfold temporal_sq dsum patch_at
    rw [hc, hmk]
    simp only [Finset.sum_range_one]
    rw [hso]
    simp [pair_neg, pair_zero, Mat.of_rows, row_ptr]
  · rw [fused_delta_sums_eq]
    simp only
    unfold temporal_sq dsum patch_at
    rw [hc, hmk]
    simp only [Finset.sum_range_one]
    rw [hso]
    simp [pair_neg, pair_zero, Mat.of_rows, row_ptr, s1_args]
  · rw [fused_delta_sums_eq]
    simp only
    rw [if_pos (by decide), col_delta_sum_eq]
    unfold dsum patch_at
    rw [hc, hmk]
    simp only [Finset.sum_range_one]
    rw [hso]
    simp [pair_neg, Mat.of_rows, row_ptr, s1_args]

/-- The state of the bound-branch call of `temporal_spatial_convolution` on `[[-1, -1]]`
(filter `[1]`, cached input `[[0, 0]]`, cached values `0`, norm `1`) on reaching position
`(0, 1, 0)`: the step at `(0, 0, 0)` took the exact branch and stored `-1`. -/
theorem pair_neg_state :
    (ts_state_at Real.sqrt Real.exp pair_neg pair_top (s1_args : ConvArgs ℝ) pair_zero
      pair_top (Mat.of_list [1]) Mat.nil Mat.nil 0 1 0).last_y_col.flat ((0 : Nat) : Int)
      = -1 ∧
    (ts_state_at Real.sqrt Real.exp pair_neg pair_top (s1_args : ConvArgs ℝ) pair_zero
      pair_top (Mat.of_list [1]) Mat.nil Mat.nil 0 1 0).last_y.data 0
      (out_pos (pair_top : Mat ℝ).w 0 1) = 0 := by
  have hyi : (s1_args : ConvArgs ℝ).y_init 0 = 0 := s1_exact_y.1
  have hw : (Mat.of_list [1] : Mat ℝ).flat ((0 : Nat) : Int) = 1 := by
    simp [Mat.of_list, Mat.flat]
  have hl0 : (pair_top : Mat ℝ).data 0 (out_pos (pair_top : Mat ℝ).w 0 0) = 0 := by
    simp [pair_top, Mat.of_rows, out_pos]
  have hl1 : (pair_top : Mat ℝ).data 0 (out_pos (pair_top : Mat ℝ).w 0 1) = 0 := by
    simp [pair_top, Mat.of_rows, out_pos]
  have hex : exact_y (s1_args : ConvArgs ℝ) pair_neg 0 0 0 = -1 := by
    have hso : (s1_args : ConvArgs ℝ).space_ofs (pair_neg : Mat ℝ) 0 = 0 := by decide
    have hmk : (s1_args : ConvArgs ℝ).maxk = 1 := by decide
    have hc : (pair_neg : Mat ℝ).c = 1 := rfl
    rw [exact_y_eq, hyi, zero_add]
    unfold conv_sum dsum patch_at
    rw [hc, hmk]
    simp only [Finset.sum_range_one]
    rw [hso]
    simp [pair_neg, Mat.of_rows, row_ptr, s1_args, ConvArgs.weight, ConvArgs.kptr, Mat.of_list,
      Mat.flat]
  have hst : ts_state_at Real.sqrt Real.exp pair_neg pair_top (s1_args : ConvArgs ℝ) pair_zero
      pair_top (Mat.of_list [1]) Mat.nil Mat.nil 0 1 0
      = ts_body Real.sqrt Real.exp (s1_args : ConvArgs ℝ) pair_neg pair_zero (Mat.of_list [1])
          (pair_top : Mat ℝ).w (pair_top : Mat ℝ).c 0 0 0 ⟨pair_top, pair_top, Mat.nil, Mat.nil⟩ := by
    unfold ts_state_at
    rw [loop3_at_succ_j]
    have hK : (pair_top : Mat ℝ).c = 0 + 1 := rfl
    rw [show loop3_at (pair_top : Mat ℝ).w (pair_top : Mat ℝ).c
        (ts_body Real.sqrt Real.exp (s1_args : ConvArgs ℝ) pair_neg pair_zero (Mat.of_list [1])
          (pair_top : Mat ℝ).w (pair_top : Mat ℝ).c) 0 0 (pair_top : Mat ℝ).c
        (⟨pair_top, pair_top, Mat.nil, Mat.nil⟩ : TSState ℝ)
      = loop3_at (pair_top : Mat ℝ).w (pair_top : Mat ℝ).c
        (ts_body Real.sqrt Real.exp (s1_args : ConvArgs ℝ) pair_neg pair_zero (Mat.of_list [1])
          (pair_top : Mat ℝ).w (pair_top : Mat ℝ).c) 0 0 (0 + 1)
        (⟨pair_top, pair_top, Mat.nil, Mat.nil⟩ : TSState ℝ) from rfl]
    rw [loop3_at_succ_k, loop3_at_zero]
  have hbody : ts_body Real.sqrt Real.exp (s1_args : ConvArgs ℝ) pair_neg pair_zero
      (Mat.of_list [1]) (pair_top : Mat ℝ).w (pair_top : Mat ℝ).c 0 0 0
      ⟨pair_top, pair_top, Mat.nil, Mat.nil⟩
      = { top_blob := (pair_top : Mat ℝ).set 0 (out_pos (pair_top : Mat ℝ).w 0 0)
            ((s1_args : ConvArgs ℝ).act Real.exp (exact_y (s1_args : ConvArgs ℝ) pair_neg 0 0 0)),
          last_y := (pair_top : Mat ℝ).set 0 (out_pos (pair_top : Mat ℝ).w 0 0)
            (exact_y (s1_args : ConvArgs ℝ) pair_neg 0 0 0 - (s1_args : ConvArgs ℝ).y_init 0),
          last_y_col := (Mat.nil : Mat ℝ).setFlat ((0 : Nat) : Int)
            (exact_y (s1_args : ConvArgs ℝ) pair_neg 0 0 0 - (s1_args : ConvArgs ℝ).y_init 0),
          last_y_row := (Mat.nil : Mat ℝ).setFlat (out_pos (pair_top : Mat ℝ).c 0 0)
            (exact_y (s1_args : ConvArgs ℝ) pair_neg 0 0 0
              - (s1_args : ConvArgs ℝ).y_init 0) } := by
    unfold ts_body
    simp only
    apply ts_step_exact
    simp only
    unfold ts_candidate
    simp only [ne_eq, not_true_eq_false, if_false]
    rw [pair_neg_deltas.1, Real.sqrt_one, hl0, hw, hyi]
    norm_num
  rw [hst, hbody]
  simp only
  refine ⟨?_, ?_⟩
  · rw [Mat.flat_setFlat_same, hex, hyi]
    norm_num
  · rw [Mat.set_data_ne _ _ _ _ _ _ (by simp [out_pos, pair_top, Mat.of_rows]), hl1]

/-- At position `(0, 1, 0)` of that call the temporal bound is `1` and the column bound is
`-1`: only the column bound passes the skip test. -/
theorem pair_neg_bounds :
    0 < (ts_state_at Real.sqrt Real.exp pair_neg pair_top (s1_args : ConvArgs ℝ) pair_zero
          pair_top (Mat.of_list [1]) Mat.nil Mat.nil 0 1 0).last_y.data 0
          (out_pos (pair_top : Mat ℝ).w 0 1)
        + (Mat.of_list [1] : Mat ℝ).flat ((0 : Nat) : Int)
          * Real.sqrt (fused_delta_sums (s1_args : ConvArgs ℝ) pair_neg pair_zero 0 1).1
        + (s1_args : ConvArgs ℝ).y_init 0 ∧
    (ts_state_at Real.sqrt Real.exp pair_neg pair_top (s1_args : ConvArgs ℝ) pair_zero
          pair_top (Mat.of_list [1]) Mat.nil Mat.nil 0 1 0).last_y_col.flat ((0 : Nat) : Int)
        + Real.sqrt (fused_delta_sums (s1_args : ConvArgs ℝ) pair_neg pair_zero 0 1).2.2
          * (Mat.of_list [1] : Mat ℝ).flat ((0 : Nat) : Int)
        + (s1_args : ConvArgs ℝ).y_init 0 ≤ 0 := by
  have hyi : (s1_args : ConvArgs ℝ).y_init 0 = 0 := s1_exact_y.1
  have hw : (Mat.of_list [1] : Mat ℝ).flat ((0 : Nat) : Int) = 1 := by
    simp [Mat.of_list, Mat.flat]
  rw [pair_neg_state.1, pair_neg_state.2, pair_neg_deltas.2.1, pair_neg_deltas.2.2,
    Real.sqrt_one, Real.sqrt_zero, hw, hyi]
  constructor <;> norm_num

end Conv

namespace Conv

section NormsKept

variable {α : Type} [LinearOrderedField α]

/-- A sequence of calls of `mlsys_convolution` on non-empty inputs, each with its own kernel
arguments, started from caches with a non-empty `last_x`, leaves `w_norm2` as it was. -/
theorem mlsys_norms_kept (sqrt exp : α → α) (calls : List (ConvArgs α × Mat α × Mat α))
    (s : Mat α × Mat α × Mat α) (hs : ¬ s.1.total ≤ 0)
    (hne : ∀ c ∈ calls, 0 < c.2.1.total) :
    (run_state (fun s (c : ConvArgs α × Mat α × Mat α) => mlsys_call sqrt exp c.1 s c.2)
      s calls).2.2 = s.2.2 := by
  induction calls generalizing s with
  | nil => rfl
  | cons c cs ih =>
    unfold run_state
    rw [ih _ _ (fun c' hc' => hne c' (List.mem_cons_of_mem _ hc'))]
    · exact (mlsys_bound_spec sqrt exp c.2.1 c.2.2 c.1 s.1 s.2.1 s.2.2 hs).2.1
    · show ¬ (mlsys_convolution sqrt exp c.2.1 c.2.2 c.1 s.1 s.2.1 s.2.2).last_x.total ≤ 0
      rw [mlsys_last_x]
      have := hne c (List.mem_cons_self _ _)
      omega

end NormsKept

end Conv

namespace Conv

section ForwardModes

variable {α : Type} [LinearOrderedField α]

/-- A successful forward call with `use_reserved_0` cleared that is not sent to
`InnerProduct` is the call of `raw_convolution` on the padded input and the created output;
the layer is unchanged. -/
theorem forward_raw_eq (sqrt exp : α → α) (ext : Externals α) (self : Convolution α)
    (bottom top : Mat α) (opt : Opt) (hnf : self.is_flattened bottom = false)
    (hopt : opt.use_reserved_0 = false)
    (hret : (Convolution.forward sqrt exp ext self bottom top opt).1 = 0) :
    Convolution.forward sqrt exp ext self bottom top opt
      = (0, raw_convolution exp (self.make_padding ext bottom)
          (self.create_top (self.make_padding ext bottom) top) self.args, self) := by
  unfold Convolution.forward at hret ⊢
  simp only [hnf, Bool.false_eq_true, if_false] at hret ⊢
  by_cases h1 : (self.make_padding ext bottom).empty = true
  · simp [h1] at hret
  · by_cases h2 : (self.create_top (self.make_padding ext bottom) top).empty = true
    · simp [h1, h2] at hret
    · simp [h1, h2, hopt]

/-- The output of a successful bound-mode forward call has the extents of the created
output. -/
theorem forward_bound_dims (sqrt exp : α → α) (ext : Externals α) (self : Convolution α)
    (bottom top : Mat α) (hnf : self.is_flattened bottom = false)
    (hret : (Convolution.forward sqrt exp ext self bottom top ⟨true⟩).1 = 0) :
    (Convolution.forward sqrt exp ext self bottom top ⟨true⟩).2.1.w
      = (self.create_top (self.make_padding ext bottom) top).w ∧
    (Convolution.forward sqrt exp ext self bottom top ⟨true⟩).2.1.h
      = (self.create_top (self.make_padding ext bottom) top).h ∧
    (Convolution.forward sqrt exp ext self bottom top ⟨true⟩).2.1.c
      = (self.create_top (self.make_padding ext bottom) top).c := by
  rw [forward_bound_eq sqrt exp ext self bottom top hnf hret]
  simp only
  by_cases he : self.record1.total ≤ 0
  · exact (mlsys_first_spec sqrt exp _ _ self.args self.record1 self.record2 self.record3
      he).2.2.1
  · exact (mlsys_bound_spec sqrt exp _ _ self.args self.record1 self.record2 self.record3
      he).2.2.1

end ForwardModes

end Conv

namespace Conv

/-- An output index below `a / s + 1` times the stride stays within `a`. -/
theorem index_below_out (a s : Int) (i : Nat) (ha : 0 ≤ a) (hs : 1 ≤ s)
    (hi : (i : Int) < Int.tdiv a s + 1) : (i : Int) * s ≤ a := by
  rw [Int.tdiv_eq_ediv ha (by omega)] at hi
  have h1 : (i : Int) ≤ a / s := by omega
  have h2 : a / s * s ≤ a := Int.ediv_mul_le a (by omega)
  have h3 : (i : Int) * s ≤ a / s * s := Int.mul_le_mul_of_nonneg_right h1 (by omega)
  omega

/-- A row `R` and a column `C` inside a `w x h` channel give a flat offset inside it. -/
theorem flat_in_range (w h R C : Int) (hR0 : 0 ≤ R) (hR : R ≤ h - 1) (hC0 : 0 ≤ C)
    (hC : C ≤ w - 1) : 0 ≤ R * w + C ∧ R * w + C < w * h := by
  have hw : 0 ≤ w := by omega
  constructor
  · have := Int.mul_nonneg hR0 hw
    omega
  · have h1 : R * w ≤ (h - 1) * w := Int.mul_le_mul_of_nonneg_right hR hw
    have h2 : (h - 1) * w = w * h - w := by ring
    omega

/-- The offset of tap `t` of a call on `x`, split into its kernel row and column. -/
theorem space_ofs_tap {α : Type} (a : ConvArgs α) (x : Mat α) (hkw : 1 ≤ a.kernel_w)
    (hkh : 1 ≤ a.kernel_h) (t : Nat) (ht : t < a.maxk) :
    ∃ r c : Nat, (r : Int) < a.kernel_h ∧ (c : Int) < a.kernel_w ∧
      a.space_ofs x t = (r : Int) * a.dilation_h * x.w + (c : Int) * a.dilation_w := by
  unfold ConvArgs.space_ofs
  unfold ConvArgs.maxk at ht
  generalize a.kernel_w = kw0 at hkw ht ⊢
  generalize a.kernel_h = kh0 at hkh ht ⊢
  obtain ⟨kw, rfl⟩ := Int.eq_ofNat_of_zero_le (by omega : 0 ≤ kw0)
  obtain ⟨kh, rfl⟩ := Int.eq_ofNat_of_zero_le (by omega : 0 ≤ kh0)
  have ht' : t < kh * kw := by
    have e : ((kw : Int) * (kh : Int)).toNat = kw * kh := by
      rw [← Int.ofNat_mul, Int.toNat_ofNat]
    rw [e, Nat.mul_comm] at ht
    exact ht
  have hkwpos : 0 < kw := by omega
  refine ⟨t / kw, t % kw, ?_, ?_, ?_⟩
  · have : t / kw < kh := by
      rw [Nat.div_lt_iff_lt_mul hkwpos]
      exact ht'
    exact_mod_cast this
  · exact_mod_cast Nat.mod_lt t hkwpos
  · rw [make_space_ofs_eq x.w (kw : Int) (kh : Int) a.dilation_w a.dilation_h (by omega) t
      (by simpa using ht')]
    simp only [Int.toNat_ofNat]
    ring

end Conv

namespace Conv

/-- The integer `(w - 1) / s + 1` is the ceiling of `w / s` for `w, s >= 1`. -/
theorem ceil_div_eq (w s : Int) (hw : 1 ≤ w) (hs : 1 ≤ s) :
    Int.tdiv (w - 1) s + 1 = ⌈(w : ℚ) / (s : ℚ)⌉ := by
  rw [Int.tdiv_eq_ediv (by omega) (by omega)]
  symm
  rw [Int.ceil_eq_iff]
  have hsq : (0 : ℚ) < (s : ℚ) := by exact_mod_cast (by omega : (0 : Int) < s)
  have h1 : (w - 1) / s * s ≤ w - 1 := Int.ediv_mul_le _ (by omega)
  have h2 : w - 1 < ((w - 1) / s + 1) * s := Int.lt_ediv_add_one_mul_self _ (by omega)
  constructor
  · rw [lt_div_iff₀ hsq]
    have : (w - 1) / s * s < w := by omega
    have hq : (((w - 1) / s * s : Int) : ℚ) < (w : ℚ) := by exact_mod_cast this
    push_cast at hq ⊢
    linarith
  · rw [div_le_iff₀ hsq]
    have : w ≤ ((w - 1) / s + 1) * s := by omega
    have hq : (w : ℚ) ≤ ((((w - 1) / s + 1) * s : Int) : ℚ) := by exact_mod_cast this
    push_cast at hq ⊢
    linarith

/-- The two halves `p / 2` and `p - p / 2` of a pad `p >= 0`: the first is the floor of
half of `p`, and the second exceeds it by at most one. -/
theorem pad_halves (p : Int) (hp : 0 ≤ p) :
    Int.tdiv p 2 = p / 2 ∧ 0 ≤ Int.tdiv p 2 ∧ 0 ≤ p - Int.tdiv p 2 ∧
    Int.tdiv p 2 ≤ p - Int.tdiv p 2 ∧ p - Int.tdiv p 2 ≤ Int.tdiv p 2 + 1 := by
  rw [Int.tdiv_eq_ediv hp (by omega)]
  omega

/-- The method `make_padding` with all four pads `-233` (SAME_UPPER). -/
theorem make_padding_upper {α : Type} (ext : Externals α) (self : Convolution α) (bottom : Mat α)
    (hp : self.pad_left = -233 ∧ self.pad_right = -233 ∧ self.pad_top = -233
      ∧ self.pad_bottom = -233) :
    self.make_padding ext bottom
      = if self.dilation_w * (self.kernel_w - 1) + 1
            + Int.tdiv ((bottom.w : Int) - 1) self.stride_w * self.stride_w - bottom.w > 0 ∨
          self.dilation_h * (self.kernel_h - 1) + 1
            + Int.tdiv ((bottom.h : Int) - 1) self.stride_h * self.stride_h - bottom.h > 0 then
          ext.copy_make_border bottom
            (Int.tdiv (self.dilation_h * (self.kernel_h - 1) + 1
              + Int.tdiv ((bottom.h : Int) - 1) self.stride_h * self.stride_h - bottom.h) 2)
            (self.dilation_h * (self.kernel_h - 1) + 1
              + Int.tdiv ((bottom.h : Int) - 1) self.stride_h * self.stride_h - bottom.h
              - Int.tdiv (self.dilation_h * (self.kernel_h - 1) + 1
                + Int.tdiv ((bottom.h : Int) - 1) self.stride_h * self.stride_h - bottom.h) 2)
            (Int.tdiv (self.dilation_w * (self.kernel_w - 1) + 1
              + Int.tdiv ((bottom.w : Int) - 1) self.stride_w * self.stride_w - bottom.w) 2)
            (self.dilation_w * (self.kernel_w - 1) + 1
              + Int.tdiv ((bottom.w : Int) - 1) self.stride_w * self.stride_w - bottom.w
              - Int.tdiv (self.dilation_w * (self.kernel_w - 1) + 1
                + Int.tdiv ((bottom.w : Int) - 1) self.stride_w * self.stride_w - bottom.w) 2)
            self.pad_value
        else bottom := by
  obtain ⟨h1, h2, h3, h4⟩ := hp
  unfold Convolution.make_padding
  simp only [h1, h2, h3, h4]
  norm_num

/-- The method `make_padding` with all four pads `-234` (SAME_LOWER). -/
theorem make_padding_lower {α : Type} (ext : Externals α) (self : Convolution α) (bottom : Mat α)
    (hp : self.pad_left = -234 ∧ self.pad_right = -234 ∧ self.pad_top = -234
      ∧ self.pad_bottom = -234) :
    self.make_padding ext bottom
      = if self.dilation_w * (self.kernel_w - 1) + 1
            + Int.tdiv ((bottom.w : Int) - 1) self.stride_w * self.stride_w - bottom.w > 0 ∨
          self.dilation_h * (self.kernel_h - 1) + 1
            + Int.tdiv ((bottom.h : Int) - 1) self.stride_h * self.stride_h - bottom.h > 0 then
          ext.copy_make_border bottom
            (self.dilation_h * (self.kernel_h - 1) + 1
              + Int.tdiv ((bottom.h : Int) - 1) self.stride_h * self.stride_h - bottom.h
              - Int.tdiv (self.dilation_h * (self.kernel_h - 1) + 1
                + Int.tdiv ((bottom.h : Int) - 1) self.stride_h * self.stride_h - bottom.h) 2)
            (Int.tdiv (self.dilation_h * (self.kernel_h - 1) + 1
              + Int.tdiv ((bottom.h : Int) - 1) self.stride_h * self.stride_h - bottom.h) 2)
            (self.dilation_w * (self.kernel_w - 1) + 1
              + Int.tdiv ((bottom.w : Int) - 1) self.stride_w * self.stride_w - bottom.w
              - Int.tdiv (self.dilation_w * (self.kernel_w - 1) + 1
                + Int.tdiv ((bottom.w : Int) - 1) self.stride_w * self.stride_w - bottom.w) 2)
            (Int.tdiv (self.dilation_w * (self.kernel_w - 1) + 1
              + Int.tdiv ((bottom.w : Int) - 1) self.stride_w * self.stride_w - bottom.w) 2)
            self.pad_value
        else bottom := by
  obtain ⟨h1, h2, h3, h4⟩ := hp
  unfold Convolution.make_padding
  simp only [h1, h2, h3, h4]
  norm_num

end Conv

namespace Conv

/-! ## Two runs of a loop nest side by side -/

/-- Relational invariant rule for `forLoop`: a relation between the states of two loops that
holds on entry and is carried by every pair of iterations holds on exit. -/
theorem forLoop_rel {σ τ : Type} (R : Nat → σ → τ → Prop) {lo hi : Nat} (h : lo ≤ hi)
    (f : Nat → σ → σ) (g : Nat → τ → τ) (s : σ) (t : τ) (h0 : R lo s t)
    (hstep : ∀ i s t, lo ≤ i → i < hi → R i s t → R (i + 1) (f i s) (g i t)) :
    R hi (forLoop lo hi f s) (forLoop lo hi g t) := by
  induction hi with
  | zero =>
    have : lo = 0 := by omega
    subst this
    rw [forLoop_of_le (Nat.le_refl 0), forLoop_of_le (Nat.le_refl 0)]
    exact h0
  | succ n ih =>
    by_cases hl : lo ≤ n
    · rw [forLoop_succ hl, forLoop_succ hl]
      exact hstep n _ _ hl (Nat.lt_succ_self n)
        (ih hl (fun i s t h1 h2 hp => hstep i s t h1 (Nat.lt_succ_of_lt h2) hp))
    · have : lo = n + 1 := by omega
      subst this
      rw [forLoop_of_le (Nat.le_refl _), forLoop_of_le (Nat.le_refl _)]
      exact h0

/-- Relational invariant rule for two loop nests over the same `(i, j, k)` range. -/
theorem loop3_rel {σ τ : Type} (H W K : Nat) (f : Nat → Nat → Nat → σ → σ)
    (g : Nat → Nat → Nat → τ → τ) (R : Nat → Nat → Nat → σ → τ → Prop)
    (hstep : ∀ i j k s t, i < H → j < W → k < K → R i j k s t →
      R i j (k + 1) (f i j k s) (g i j k t))
    (hk : ∀ i j s t, i < H → j < W → R i j K s t → R i (j + 1) 0 s t)
    (hj : ∀ i s t, i < H → R i W 0 s t → R (i + 1) 0 0 s t)
    (s : σ) (t : τ) (h0 : R 0 0 0 s t) :
    R H 0 0
      (forLoop 0 H (fun i s => forLoop 0 W (fun j s => forLoop 0 K (fun k s => f i j k s) s) s)
        s)
      (forLoop 0 H (fun i t => forLoop 0 W (fun j t => forLoop 0 K (fun k t => g i j k t) t) t)
        t) :=
  forLoop_rel (fun i s t => R i 0 0 s t) (Nat.zero_le H) _ _ s t h0
    (fun i s t _ hiH hR => hj i _ _ hiH
      (forLoop_rel (fun j s t => R i j 0 s t) (Nat.zero_le W) _ _ s t hR
        (fun j s t _ hjW hR => hk i j _ _ hiH hjW
          (forLoop_rel (fun k s t => R i j k s t) (Nat.zero_le K) _ _ s t hR
            (fun k s t _ hkK hR => hstep i j k s t hiH hjW hkK hR)))))

section SpatialRel

variable {α : Type} [LinearOrderedField α]

/-- Two states of `spatial_convolution` that hold the same output blob and agree on the
buffer entries the step at `(i, j, k)` reads (`last_y_col[k]` when `j != 0`,
`last_y_row[j * outch + k]` when `i != 0`) take the same branch and store the same values. -/
theorem spatial_step_agree (exp : α → α) (a : ConvArgs α) (x w_norm2 : Mat α) (dc dr : α)
    (outw outch i j k : Nat) (s t : Mat α × Mat α × Mat α)
    (hc : j ≠ 0 → s.2.1.flat k = t.2.1.flat k)
    (hr : i ≠ 0 → s.2.2.flat (out_pos outch j k) = t.2.2.flat (out_pos outch j k)) :
    ∃ v u,
      spatial_step exp a x w_norm2 dc dr outw outch i j k s
        = (s.1.set k (out_pos outw i j) v, s.2.1.setFlat k u,
            s.2.2.setFlat (out_pos outch j k) u) ∧
      spatial_step exp a x w_norm2 dc dr outw outch i j k t
        = (t.1.set k (out_pos outw i j) v, t.2.1.setFlat k u,
            t.2.2.setFlat (out_pos outch j k) u) := by
  have hm : (if i ≠ 0 then
          (if j ≠ 0 then
            min (s.2.2.flat (out_pos outch j k) + dr * w_norm2.flat k)
              (s.2.1.flat k + dc * w_norm2.flat k)
          else s.2.2.flat (out_pos outch j k) + dr * w_norm2.flat k)
        else s.2.1.flat k + dc * w_norm2.flat k)
      = if i ≠ 0 then
          (if j ≠ 0 then
            min (t.2.2.flat (out_pos outch j k) + dr * w_norm2.flat k)
              (t.2.1.flat k + dc * w_norm2.flat k)
          else t.2.2.flat (out_pos outch j k) + dr * w_norm2.flat k)
        else if j ≠ 0 then t.2.1.flat k + dc * w_norm2.flat k
          else s.2.1.flat k + dc * w_norm2.flat k := by
    by_cases hi : i ≠ 0
    · rw [if_pos hi, if_pos hi, hr hi]
      by_cases hj : j ≠ 0
      · rw [if_pos hj, if_pos hj, hc hj]
      · rw [if_neg hj, if_neg hj]
    · rw [if_neg hi, if_neg hi]
      by_cases hj : j ≠ 0
      · rw [if_pos hj, hc hj]
      · rw [if_neg hj]
  by_cases h : (i ≠ 0 ∨ j ≠ 0) ∧
      (if i ≠ 0 then
          (if j ≠ 0 then
            min (s.2.2.flat (out_pos outch j k) + dr * w_norm2.flat k)
              (s.2.1.flat k + dc * w_norm2.flat k)
          else s.2.2.flat (out_pos outch j k) + dr * w_norm2.flat k)
        else s.2.1.flat k + dc * w_norm2.flat k) + a.y_init k ≤ 0
  · have hm' : (if i ≠ 0 then
          (if j ≠ 0 then
            min (s.2.2.flat (out_pos outch j k) + dr * w_norm2.flat k)
              (s.2.1.flat k + dc * w_norm2.flat k)
          else s.2.2.flat (out_pos outch j k) + dr * w_norm2.flat k)
        else s.2.1.flat k + dc * w_norm2.flat k)
        = if i ≠ 0 then
          (if j ≠ 0 then
            min (t.2.2.flat (out_pos outch j k) + dr * w_norm2.flat k)
              (t.2.1.flat k + dc * w_norm2.flat k)
          else t.2.2.flat (out_pos outch j k) + dr * w_norm2.flat k)
        else t.2.1.flat k + dc * w_norm2.flat k := by
      rw [hm]
      by_cases hi : i ≠ 0
      · rw [if_pos hi, if_pos hi]
      · rw [if_neg hi, if_neg hi]
        have hj : j ≠ 0 := h.1.resolve_left hi
        rw [if_pos hj]
    have h' := h
    rw [hm'] at h'
    refine ⟨_, _, spatial_step_skip exp a x w_norm2 dc dr outw outch i j k s h, ?_⟩
    rw [spatial_step_skip exp a x w_norm2 dc dr outw outch i j k t h', hm']
  · have h' : ¬ ((i ≠ 0 ∨ j ≠ 0) ∧
        (if i ≠ 0 then
            (if j ≠ 0 then
              min (t.2.2.flat (out_pos outch j k) + dr * w_norm2.flat k)
                (t.2.1.flat k + dc * w_norm2.flat k)
            else t.2.2.flat (out_pos outch j k) + dr * w_norm2.flat k)
          else t.2.1.flat k + dc * w_norm2.flat k) + a.y_init k ≤ 0) := by
      intro ht
      apply h
      refine ⟨ht.1, ?_⟩
      rw [hm]
      by_cases hi : i ≠ 0
      · rw [if_pos hi]
        have := ht.2
        rw [if_pos hi] at this
        exact this
      · rw [if_neg hi]
        have hj : j ≠ 0 := ht.1.resolve_left hi
        rw [if_pos hj]
        have := ht.2
        rw [if_neg hi] at this
        exact this
    exact ⟨_, _, spatial_step_exact exp a x w_norm2 dc dr outw outch i j k s h,
      spatial_step_exact exp a x w_norm2 dc dr outw outch i j k t h'⟩

end SpatialRel

end Conv

namespace Conv

section SpatialRuns

variable {α : Type} [LinearOrderedField α]

/-- The loop nest of `spatial_convolution` run from two pairs of buffers on the same
non-empty output blob: both runs leave the same output blob and the same in-range buffer
entries. -/
theorem spatial_loops_agree (sqrt exp : α → α) (a : ConvArgs α) (x wn top : Mat α)
    (col row col2 row2 : Mat α) (hH : 0 < top.h) (hW : 0 < top.w) :
    (forLoop 0 top.h (fun i s =>
      forLoop 0 top.w (fun j s =>
        forLoop 0 top.c (fun k s =>
          spatial_step exp a x wn (if j ≠ 0 then sqrt (col_delta_sum a x i j) else 0)
            (if i ≠ 0 then sqrt (row_delta_sum a x i j) else 0) top.w top.c i j k s) s) s)
      (top, col, row)).1
      = (forLoop 0 top.h (fun i s =>
          forLoop 0 top.w (fun j s =>
            forLoop 0 top.c (fun k s =>
              spatial_step exp a x wn (if j ≠ 0 then sqrt (col_delta_sum a x i j) else 0)
                (if i ≠ 0 then sqrt (row_delta_sum a x i j) else 0) top.w top.c i j k s) s) s)
          (top, col2, row2)).1 ∧
    (∀ k, k < top.c →
      (forLoop 0 top.h (fun i s =>
        forLoop 0 top.w (fun j s =>
          forLoop 0 top.c (fun k s =>
            spatial_step exp a x wn (if j ≠ 0 then sqrt (col_delta_sum a x i j) else 0)
              (if i ≠ 0 then sqrt (row_delta_sum a x i j) else 0) top.w top.c i j k s) s) s)
        (top, col, row)).2.1.flat k
        = (forLoop 0 top.h (fun i s =>
            forLoop 0 top.w (fun j s =>
              forLoop 0 top.c (fun k s =>
                spatial_step exp a x wn (if j ≠ 0 then sqrt (col_delta_sum a x i j) else 0)
                  (if i ≠ 0 then sqrt (row_delta_sum a x i j) else 0) top.w top.c i j k s) s)
              s)
            (top, col2, row2)).2.1.flat k) ∧
    ∀ j k, j < top.w → k < top.c →
      (forLoop 0 top.h (fun i s =>
        forLoop 0 top.w (fun j s =>
          forLoop 0 top.c (fun k s =>
            spatial_step exp a x wn (if j ≠ 0 then sqrt (col_delta_sum a x i j) else 0)
              (if i ≠ 0 then sqrt (row_delta_sum a x i j) else 0) top.w top.c i j k s) s) s)
        (top, col, row)).2.2.flat (out_pos top.c j k)
        = (forLoop 0 top.h (fun i s =>
            forLoop 0 top.w (fun j s =>
              forLoop 0 top.c (fun k s =>
                spatial_step exp a x wn (if j ≠ 0 then sqrt (col_delta_sum a x i j) else 0)
                  (if i ≠ 0 then sqrt (row_delta_sum a x i j) else 0) top.w top.c i j k s) s)
              s)
            (top, col2, row2)).2.2.flat (out_pos top.c j k) := by
  have h := loop3_rel top.h top.w top.c
    (fun i j k s =>
      spatial_step exp a x wn (if j ≠ 0 then sqrt (col_delta_sum a x i j) else 0)
        (if i ≠ 0 then sqrt (row_delta_sum a x i j) else 0) top.w top.c i j k s)
    (fun i j k s =>
      spatial_step exp a x wn (if j ≠ 0 then sqrt (col_delta_sum a x i j) else 0)
        (if i ≠ 0 then sqrt (row_delta_sum a x i j) else 0) top.w top.c i j k s)
    (fun i j k (s t : Mat α × Mat α × Mat α) =>
      s.1 = t.1 ∧
      (∀ k', k' < top.c → (k' < k ∨ 0 < j ∨ 0 < i) → s.2.1.flat k' = t.2.1.flat k') ∧
      ∀ j' k', j' < top.w → k' < top.c → (0 < i ∨ j' < j ∨ (j' = j ∧ k' < k)) →
        s.2.2.flat (out_pos top.c j' k') = t.2.2.flat (out_pos top.c j' k'))
    (by
      intro i j k s t hi hj hk hR
      obtain ⟨h1, h2, h3⟩ := hR
      obtain ⟨v, u, es, et⟩ := spatial_step_agree exp a x wn
        (if j ≠ 0 then sqrt (col_delta_sum a x i j) else 0)
        (if i ≠ 0 then sqrt (row_delta_sum a x i j) else 0) top.w top.c i j k s t
        (fun hj0 => h2 k hk (Or.inr (Or.inl (Nat.pos_of_ne_zero hj0))))
        (fun hi0 => h3 j k hj hk (Or.inl (Nat.pos_of_ne_zero hi0)))
      simp only
      rw [es, et]
      refine ⟨by simp only [h1], ?_, ?_⟩
      · intro k' hk' hc
        simp only
        by_cases e : k' = k
        · subst e
          rw [Mat.flat_setFlat_same, Mat.flat_setFlat_same]
        · have hne : (k' : Int) ≠ (k : Int) := by exact_mod_cast e
          rw [Mat.flat_setFlat_ne _ _ _ _ hne, Mat.flat_setFlat_ne _ _ _ _ hne]
          exact h2 k' hk' (by omega)
      · intro j' k' hj' hk' hc
        simp only
        by_cases e : j' = j ∧ k' = k
        · obtain ⟨e1, e2⟩ := e
          subst e1
          subst e2
          rw [Mat.flat_setFlat_same, Mat.flat_setFlat_same]
        · have hne : out_pos top.c j' k' ≠ out_pos top.c j k := by
            intro hp
            exact e (out_pos_inj hk' hk hp)
          rw [Mat.flat_setFlat_ne _ _ _ _ hne, Mat.flat_setFlat_ne _ _ _ _ hne]
          exact h3 j' k' hj' hk' (by omega))
    (by
      intro i j s t hi hj hR
      obtain ⟨h1, h2, h3⟩ := hR
      refine ⟨h1, ?_, ?_⟩
      · intro k' hk' _
        exact h2 k' hk' (Or.inl hk')
      · intro j' k' hj' hk' hc
        exact h3 j' k' hj' hk' (by omega))
    (by
      intro i s t hi hR
      obtain ⟨h1, h2, h3⟩ := hR
      refine ⟨h1, ?_, ?_⟩
      · intro k' hk' _
        exact h2 k' hk' (Or.inr (Or.inl hW))
      · intro j' k' hj' hk' _
        exact h3 j' k' hj' hk' (Or.inr (Or.inl hj')))
    (top, col, row) (top, col2, row2)
    ⟨rfl, fun k' _ hc => by omega, fun j' k' _ _ hc => by omega⟩
  obtain ⟨h1, h2, h3⟩ := h
  exact ⟨h1, fun k hk => h2 k hk (Or.inr (Or.inr hH)),
    fun j k hj hk => h3 j k hj hk (Or.inl hH)⟩

end SpatialRuns

end Conv

namespace Conv

/-- A pattern below `2^E` with all `E` bits set is `2^E - 1`. -/
theorem all_bits_full : ∀ m, m < E_pow_num →
    (∀ p, p < E → (m >>> (E - 1 - p)) &&& 1 ≠ 0) → m = E_pow_num - 1 := by
  decide

section Tighten

variable {α : Type} [LinearOrderedField α] [FloorRing α]

/-- When every sign product the kernel computes for channel `k` is positive, the pattern
`select_norm_index` is `2^E - 1`. -/
theorem top_E_select_full (top_E_indices top_E_w_vals x_vector_diff : Mat α) (k : Nat)
    (h : ∀ p, p < E →
      x_vector_diff.flat (to_int (top_E_indices.flat ((k : Int) * E + p)))
        * top_E_w_vals.flat p > 0) :
    top_E_select top_E_indices top_E_w_vals x_vector_diff k = E_pow_num - 1 := by
  obtain ⟨hlt, hbits⟩ := top_E_select_bits top_E_indices top_E_w_vals x_vector_diff k
  exact all_bits_full _ hlt (fun p hp => (hbits p hp).mpr (h p hp))

/-- A call of `mlsys_convolution_lower_top_E` with a non-empty `last_x` leaves the norms and
the three top-E tables as they were. -/
theorem top_E_tables_kept (sqrt exp : α → α) (in_x out_y : Mat α) (a : ConvArgs α)
    (last_x last_y w_norm2 all_select_norms top_E_indices top_E_w_vals x_vector_diff : Mat α)
    (hne : ¬ last_x.total ≤ 0) :
    (mlsys_convolution_lower_top_E sqrt exp in_x out_y a last_x last_y w_norm2
        all_select_norms top_E_indices top_E_w_vals x_vector_diff).w_norm2 = w_norm2 ∧
    (mlsys_convolution_lower_top_E sqrt exp in_x out_y a last_x last_y w_norm2
        all_select_norms top_E_indices top_E_w_vals x_vector_diff).all_select_norms
      = all_select_norms ∧
    (mlsys_convolution_lower_top_E sqrt exp in_x out_y a last_x last_y w_norm2
        all_select_norms top_E_indices top_E_w_vals x_vector_diff).top_E_indices
      = top_E_indices ∧
    (mlsys_convolution_lower_top_E sqrt exp in_x out_y a last_x last_y w_norm2
        all_select_norms top_E_indices top_E_w_vals x_vector_diff).top_E_w_vals
      = top_E_w_vals := by
  unfold mlsys_convolution_lower_top_E
  simp only [hne, if_false, and_self]

end Tighten

end Conv

namespace Conv

namespace F32

/-- The count `bits f n` with enough fuel bounds `n` by a power of two. -/
theorem lt_two_pow_bits : ∀ (f n : Nat), n ≤ f → n < 2 ^ bits f n := by
  intro f
  induction f with
  | zero =>
    intro n hn
    have : n = 0 := by omega
    subst this
    simp [bits]
  | succ f ih =>
    intro n hn
    unfold bits
    by_cases h0 : n = 0
    · rw [if_pos h0, h0]
      simp
    · rw [if_neg h0]
      have h := ih (n / 2) (by omega)
      rw [pow_succ]
      omega

/-- The digit loop of the integer square root keeps `r * r <= M < (r + 2^b)^2`. -/
theorem isqrt_loop_spec : ∀ (b M r : Nat), r * r ≤ M → M < (r + 2 ^ b) * (r + 2 ^ b) →
    isqrt_loop b M r * isqrt_loop b M r ≤ M ∧
    M < (isqrt_loop b M r + 1) * (isqrt_loop b M r + 1) := by
  intro b
  induction b with
  | zero =>
    intro M r h1 h2
    simpa [isqrt_loop] using ⟨h1, h2⟩
  | succ b ih =>
    intro M r h1 h2
    unfold isqrt_loop
    by_cases hc : (r + 2 ^ b) * (r + 2 ^ b) ≤ M
    · rw [if_pos hc]
      apply ih _ _ hc
      have e : r + 2 ^ b + 2 ^ b = r + 2 ^ (b + 1) := by
        rw [pow_succ]
        omega
      rw [e]
      exact h2
    · rw [if_neg hc]
      exact ih _ _ h1 (by omega)

/-- The integer square root is the floor of the square root. -/
theorem isqrt_spec (M : Nat) :
    isqrt M * isqrt M ≤ M ∧ M < (isqrt M + 1) * (isqrt M + 1) := by
  unfold isqrt
  apply isqrt_loop_spec _ _ _ (Nat.zero_le _)
  have h := lt_two_pow_bits M M (Nat.le_refl M)
  have h2 : 2 ^ bits M M ≤ 2 ^ (bits M M / 2 + 1) * 2 ^ (bits M M / 2 + 1) := by
    rw [← pow_add]
    apply Nat.pow_le_pow_right (by decide)
    omega
  rw [Nat.zero_add]
  omega

set_option maxRecDepth 100000 in
/-- Rounding at work: integers of at most 24 bits are `float`s, `2^24 + 1` is a tie and goes
to the even neighbour `2^24`, `2^24 + 3` goes to `2^24 + 4`; the square root of `2` is
`11863283 * 2^-23`, and the square root of a negative number is a NaN. -/
theorem round_examples :
    of_int 16777215 = fin (16777215 * 2 ^ 149) ∧
    of_int 16777217 = of_int 16777216 ∧
    of_int 16777219 = of_int 16777220 ∧
    (18167369 : F32) = 18167368 ∧
    sqrt 2 = fin (11863283 * 2 ^ 126) ∧
    sqrt (fin (-1)) = nan := by
  decide

end F32

end Conv

namespace Conv

/-! ## The claims -/

/-- C1: temporal bound mode equals the exact operator under ReLU.  For every sequence
`calls` of same-shaped calls of `mlsys_convolution` made from empty caches and every further
call `(x, out)` of the same shape, with ReLU activation and exact real arithmetic, the
output of that call is the tensor `raw_convolution` writes for `x`; and a position where the
call did not take an exact branch holds `0`, as does the exact output there. -/
theorem C1_temporal_equals_exact (a : ConvArgs ℝ) (calls : List (Mat ℝ × Mat ℝ))
    (x out last_x last_y w_norm2 : Mat ℝ)
    (hrelu : a.activation_type = 1) (hempty : last_x.total = 0)
    (hshape : same_shapes calls x out) :
    (mlsys_after Real.sqrt Real.exp a (last_x, last_y, w_norm2) calls x out).out_y.same_tensor
        (raw_convolution Real.exp x out a) ∧
    ∀ i j k, i < out.h → j < out.w → k < out.c →
      ¬ mlsys_takes_exact Real.sqrt a x
          (mlsys_caches Real.sqrt Real.exp a (last_x, last_y, w_norm2) calls).1
          (mlsys_caches Real.sqrt Real.exp a (last_x, last_y, w_norm2) calls).2.1
          (mlsys_caches Real.sqrt Real.exp a (last_x, last_y, w_norm2) calls).2.2 out.w i j k →
      (mlsys_after Real.sqrt Real.exp a (last_x, last_y, w_norm2) calls x out).out_y.data k
          (out_pos out.w i j) = 0 ∧
      (raw_convolution Real.exp x out a).data k (out_pos out.w i j) = 0 := by
  have hgood := mlsys_run_good Real.exp a x.w x.c out.w out.h out.c calls
    (fun c hc => ⟨(hshape c hc).1, (hshape c hc).2.2.1, (hshape c hc).2.2.2⟩)
    (last_x, last_y, w_norm2) (Or.inl (Nat.le_of_eq hempty))
  have h := mlsys_call_sound Real.exp a x out _ hgood
  simp only at h
  obtain ⟨_, hd, hp⟩ := h
  have hraw := raw_convolution_spec Real.exp x out a
  have hact : ∀ v : ℝ, a.act Real.exp v = max v 0 := by
    intro v
    unfold ConvArgs.act activation_ss
    rw [if_pos hrelu]
  have hpos : ∀ i j k, i < out.h → j < out.w → k < out.c →
      (mlsys_after Real.sqrt Real.exp a (last_x, last_y, w_norm2) calls x out).out_y.data k
          (out_pos out.w i j) = a.act Real.exp (exact_y a x i j k) := by
    intro i j k hi hj hk
    by_cases ht : mlsys_takes_exact Real.sqrt a x
        (mlsys_caches Real.sqrt Real.exp a (last_x, last_y, w_norm2) calls).1
        (mlsys_caches Real.sqrt Real.exp a (last_x, last_y, w_norm2) calls).2.1
        (mlsys_caches Real.sqrt Real.exp a (last_x, last_y, w_norm2) calls).2.2 out.w i j k
    · exact ((hp i j k hi hj hk).1 ht).1
    · obtain ⟨h0, hle, _⟩ := (hp i j k hi hj hk).2 ht
      rw [hact, max_eq_right hle]
      exact h0
  refine ⟨⟨hd.1.trans hraw.1.1.symm, hd.2.1.trans hraw.1.2.1.symm,
    hd.2.2.trans hraw.1.2.2.symm, ?_⟩, ?_⟩
  · intro k i j hk hi hj
    have e1 : (mlsys_after Real.sqrt Real.exp a (last_x, last_y, w_norm2) calls x out).out_y.w
        = out.w := hd.1
    have e2 : (mlsys_after Real.sqrt Real.exp a (last_x, last_y, w_norm2) calls x out).out_y.h
        = out.h := hd.2.1
    have e3 : (mlsys_after Real.sqrt Real.exp a (last_x, last_y, w_norm2) calls x out).out_y.c
        = out.c := hd.2.2
    rw [e1] at hj ⊢
    rw [e2] at hi
    rw [e3] at hk
    rw [hpos i j k hi hj hk, hraw.2 i j k hi hj hk]
  · intro i j k hi hj hk ht
    obtain ⟨h0, hle, _⟩ := (hp i j k hi hj hk).2 ht
    refine ⟨h0, ?_⟩
    rw [hraw.2 i j k hi hj hk, hact, max_eq_right hle]

/-- Witness of C1 on scenario S1: the second call on the input `[[1, -2, 3]]`. -/
theorem C1_temporal_equals_exact_witness :
    (s1_args : ConvArgs ℝ).activation_type = 1 ∧ (Mat.nil : Mat ℝ).total = 0 ∧
    same_shapes [((s1_input : Mat ℝ), (s1_top : Mat ℝ))] s1_input s1_top ∧
    (mlsys_after Real.sqrt Real.exp s1_args (Mat.nil, Mat.nil, Mat.nil)
        [(s1_input, s1_top)] s1_input s1_top).out_y.same_tensor
      (raw_convolution Real.exp s1_input s1_top s1_args) :=
  ⟨rfl, rfl, fun c hc => by simp at hc; subst hc; exact ⟨rfl, rfl, rfl, rfl, rfl, rfl⟩,
    (C1_temporal_equals_exact s1_args [(s1_input, s1_top)] s1_input s1_top Mat.nil Mat.nil
      Mat.nil rfl rfl
      (fun c hc => by simp at hc; subst hc; exact ⟨rfl, rfl, rfl, rfl, rfl, rfl⟩)).1⟩

/-- C2: cache invariant of the temporal kernel.  After every call of `mlsys_convolution` in
a sequence of same-shaped calls started from empty caches (exact real arithmetic), for
every `(k, i, j)` the cached `last_y[k, i, j]` is at least the bias-free pre-activation
`sum_q sum_t x[q, patch(i, j, t)] * W[k, q, t]` of that call's input, with equality at
every position where the call took an exact branch. -/
theorem C2_temporal_cache_invariant (a : ConvArgs ℝ) (calls : List (Mat ℝ × Mat ℝ))
    (x out last_x last_y w_norm2 : Mat ℝ) (hempty : last_x.total = 0)
    (hshape : same_shapes calls x out) :
    ∀ i j k, i < out.h → j < out.w → k < out.c →
      conv_sum a x i j k
        ≤ (mlsys_after Real.sqrt Real.exp a (last_x, last_y, w_norm2) calls x out).last_y.data k
            (out_pos out.w i j) ∧
      (mlsys_takes_exact Real.sqrt a x
          (mlsys_caches Real.sqrt Real.exp a (last_x, last_y, w_norm2) calls).1
          (mlsys_caches Real.sqrt Real.exp a (last_x, last_y, w_norm2) calls).2.1
          (mlsys_caches Real.sqrt Real.exp a (last_x, last_y, w_norm2) calls).2.2 out.w i j k →
        (mlsys_after Real.sqrt Real.exp a (last_x, last_y, w_norm2) calls x out).last_y.data k
            (out_pos out.w i j) = conv_sum a x i j k) := by
  have hgood := mlsys_run_good Real.exp a x.w x.c out.w out.h out.c calls
    (fun c hc => ⟨(hshape c hc).1, (hshape c hc).2.2.1, (hshape c hc).2.2.2⟩)
    (last_x, last_y, w_norm2) (Or.inl (Nat.le_of_eq hempty))
  have h := mlsys_call_sound Real.exp a x out _ hgood
  simp only at h
  obtain ⟨_, _, hp⟩ := h
  intro i j k hi hj hk
  constructor
  · by_cases ht : mlsys_takes_exact Real.sqrt a x
        (mlsys_caches Real.sqrt Real.exp a (last_x, last_y, w_norm2) calls).1
        (mlsys_caches Real.sqrt Real.exp a (last_x, last_y, w_norm2) calls).2.1
        (mlsys_caches Real.sqrt Real.exp a (last_x, last_y, w_norm2) calls).2.2 out.w i j k
    · exact le_of_eq ((hp i j k hi hj hk).1 ht).2.symm
    · exact ((hp i j k hi hj hk).2 ht).2.2
  · intro ht
    exact ((hp i j k hi hj hk).1 ht).2

/-- Witness of C2 on scenario S1: the cache after the second call, at position `(0, 0, 1)`. -/
theorem C2_temporal_cache_invariant_witness :
    (Mat.nil : Mat ℝ).total = 0 ∧
    same_shapes [((s1_input : Mat ℝ), (s1_top : Mat ℝ))] s1_input s1_top ∧
    conv_sum s1_args (s1_input : Mat ℝ) 0 1 0
      ≤ (mlsys_after Real.sqrt Real.exp s1_args (Mat.nil, Mat.nil, Mat.nil)
          [(s1_input, s1_top)] s1_input s1_top).last_y.data 0 (out_pos 3 0 1) :=
  ⟨rfl, fun c hc => by simp at hc; subst hc; exact ⟨rfl, rfl, rfl, rfl, rfl, rfl⟩,
    (C2_temporal_cache_invariant s1_args [(s1_input, s1_top)] s1_input s1_top Mat.nil Mat.nil
      Mat.nil rfl (fun c hc => by simp at hc; subst hc; exact ⟨rfl, rfl, rfl, rfl, rfl, rfl⟩)
      0 1 0 (by decide) (by decide) (by decide)).1⟩

/-- C3: first-call equivalence.  For every activation type, weights, bias and input, the
first forward call with `use_reserved_0` set after `load_param` and `load_model` (caches
empty), when it succeeds and is not a flattened blob sent to `InnerProduct`, writes the
same output tensor as `raw_convolution` on the same padded input, and caches
`last_y[k, i, j] = y_full - bias[k]` (or `y_full` when there is no bias). -/
theorem C3_first_call_equivalence {α : Type} [LinearOrderedField α] (sqrt exp : α → α)
    (ext : Externals α) (self0 : Convolution α) (pd : ParamDict α) (bottom top : Mat α)
    (hnf : (Convolution.loaded ext self0 pd).is_flattened bottom = false)
    (hret : (Convolution.forward sqrt exp ext (Convolution.loaded ext self0 pd) bottom top
      ⟨true⟩).1 = 0) :
    (Convolution.forward sqrt exp ext (Convolution.loaded ext self0 pd) bottom top
        ⟨true⟩).2.1.same_tensor
      (raw_convolution exp ((Convolution.loaded ext self0 pd).make_padding ext bottom)
        ((Convolution.loaded ext self0 pd).create_top
          ((Convolution.loaded ext self0 pd).make_padding ext bottom) top)
        (Convolution.loaded ext self0 pd).args) ∧
    ∀ i j k,
      i < ((Convolution.loaded ext self0 pd).create_top
          ((Convolution.loaded ext self0 pd).make_padding ext bottom) top).h →
      j < ((Convolution.loaded ext self0 pd).create_top
          ((Convolution.loaded ext self0 pd).make_padding ext bottom) top).w →
      k < ((Convolution.loaded ext self0 pd).create_top
          ((Convolution.loaded ext self0 pd).make_padding ext bottom) top).c →
      (Convolution.forward sqrt exp ext (Convolution.loaded ext self0 pd) bottom top
          ⟨true⟩).2.2.record2.data k
        (out_pos ((Convolution.loaded ext self0 pd).create_top
          ((Convolution.loaded ext self0 pd).make_padding ext bottom) top).w i j)
      = if (Convolution.loaded ext self0 pd).args.bias_term then
          exact_y (Convolution.loaded ext self0 pd).args
              ((Convolution.loaded ext self0 pd).make_padding ext bottom) i j k
            - (Convolution.loaded ext self0 pd).args.bias_data.flat k
        else
          exact_y (Convolution.loaded ext self0 pd).args
            ((Convolution.loaded ext self0 pd).make_padding ext bottom) i j k := by
  rw [forward_bound_eq sqrt exp ext _ bottom top hnf hret]
  have he : (Convolution.loaded ext self0 pd).record1.total ≤ 0 :=
    Nat.le_of_eq (loaded_record1_total ext self0 pd)
  have h := mlsys_first_spec sqrt exp ((Convolution.loaded ext self0 pd).make_padding ext bottom)
    ((Convolution.loaded ext self0 pd).create_top
      ((Convolution.loaded ext self0 pd).make_padding ext bottom) top)
    (Convolution.loaded ext self0 pd).args (Convolution.loaded ext self0 pd).record1
    (Convolution.loaded ext self0 pd).record2 (Convolution.loaded ext self0 pd).record3 he
  simp only at h
  obtain ⟨_, _, hd, hp⟩ := h
  have hraw := raw_convolution_spec exp
    ((Convolution.loaded ext self0 pd).make_padding ext bottom)
    ((Convolution.loaded ext self0 pd).create_top
      ((Convolution.loaded ext self0 pd).make_padding ext bottom) top)
    (Convolution.loaded ext self0 pd).args
  refine ⟨⟨hd.1.trans hraw.1.1.symm, hd.2.1.trans hraw.1.2.1.symm,
    hd.2.2.trans hraw.1.2.2.symm, ?_⟩, ?_⟩
  · intro k i j hk hi hj
    simp only at hk hi hj ⊢
    rw [hd.1] at hj ⊢
    rw [hd.2.1] at hi
    rw [hd.2.2] at hk
    rw [(hp i j k hi hj hk).1, hraw.2 i j k hi hj hk]
  · intro i j k hi hj hk
    simp only
    rw [(hp i j k hi hj hk).2]
    exact exact_y_sub_bias _ _ i j k

/-- Witness of C3 on scenario S1: the first bound-mode forward call on `[[1, -2, 3]]`. -/
theorem C3_first_call_equivalence_witness :
    (Convolution.loaded (scenario_ext [1]) (Convolution.blank : Convolution ℚ)
        s1_params).is_flattened s1_input = false ∧
    (Convolution.forward (fun v => v) (fun v => v) (scenario_ext [1])
        (Convolution.loaded (scenario_ext [1]) (Convolution.blank : Convolution ℚ) s1_params)
        s1_input s1_top ⟨true⟩).1 = 0 ∧
    (Convolution.forward (fun v => v) (fun v => v) (scenario_ext [1])
        (Convolution.loaded (scenario_ext [1]) (Convolution.blank : Convolution ℚ) s1_params)
        s1_input s1_top ⟨true⟩).2.1.same_tensor
      (raw_convolution (fun v => v)
        ((Convolution.loaded (scenario_ext [1]) (Convolution.blank : Convolution ℚ)
          s1_params).make_padding (scenario_ext [1]) s1_input)
        ((Convolution.loaded (scenario_ext [1]) (Convolution.blank : Convolution ℚ)
          s1_params).create_top
          ((Convolution.loaded (scenario_ext [1]) (Convolution.blank : Convolution ℚ)
            s1_params).make_padding (scenario_ext [1]) s1_input) s1_top)
        (Convolution.loaded (scenario_ext [1]) (Convolution.blank : Convolution ℚ)
          s1_params).args) :=
  ⟨by decide, by decide,
    (C3_first_call_equivalence (fun v => v) (fun v => v) (scenario_ext [1])
      Convolution.blank s1_params s1_input s1_top (by decide) (by decide)).1⟩

/-- C4: the exact kernel computes the reference convolution.  For every output position
`(k, i, j)` inside the output blob and non-negative kernel extents, `raw_convolution` writes
`activation(y)` where `y` is accumulated in the order of the specification (`q` outer, taps
`(r, c)` inner) from `b = bias[k]` (or `0` when `bias_data` is empty), and `y` equals
`b + sum_q sum_r sum_c x[q, i*stride_h + r*dilation_h, j*stride_w + c*dilation_w]
* W[k, q, r*kernel_w + c]`. -/
theorem C4_raw_is_reference {α : Type} [LinearOrderedField α] (exp : α → α)
    (x top : Mat α) (a : ConvArgs α) (hkw : 0 ≤ a.kernel_w) (hkh : 0 ≤ a.kernel_h)
    (i j k : Nat) (hi : i < top.h) (hj : j < top.w) (hk : k < top.c) :
    (raw_convolution exp x top a).data k (out_pos top.w i j)
      = a.act exp (reference_y a x i j k) ∧
    reference_y a x i j k
      = (if a.bias_data.empty then 0 else a.bias_data.flat k)
        + ∑ q in Finset.range x.c, ∑ r in Finset.range a.kernel_h.toNat,
            ∑ c in Finset.range a.kernel_w.toNat,
              x.data q
                  (((i : Int) * a.stride_h + (r : Int) * a.dilation_h) * (x.w : Int)
                    + ((j : Int) * a.stride_w + (c : Int) * a.dilation_w))
                * a.weight_data.flat
                  ((k : Int) * ((x.c : Int) * (a.kernel_w * a.kernel_h))
                    + (q : Int) * (a.kernel_w * a.kernel_h)
                    + ((r : Int) * a.kernel_w + (c : Int))) := by
  constructor
  · rw [(raw_convolution_spec exp x top a).2 i j k hi hj hk,
      exact_y_eq_reference a x hkw hkh i j k]
  · unfold reference_y
    rw [forLoop_tsum]

/-- Witness of C4 on scenario S1: output position `(0, 0, 1)` of the input `[[1, -2, 3]]`. -/
theorem C4_raw_is_reference_witness :
    (0 : Int) ≤ (s1_args : ConvArgs ℚ).kernel_w ∧ (0 : Int) ≤ (s1_args : ConvArgs ℚ).kernel_h ∧
    0 < (s1_top : Mat ℚ).h ∧ 1 < (s1_top : Mat ℚ).w ∧ 0 < (s1_top : Mat ℚ).c ∧
    (raw_convolution (fun v => v) (s1_input : Mat ℚ) s1_top s1_args).data 0
        (out_pos (s1_top : Mat ℚ).w 0 1)
      = (s1_args : ConvArgs ℚ).act (fun v => v) (reference_y s1_args s1_input 0 1 0) :=
  ⟨by decide, by decide, by decide, by decide, by decide,
    (C4_raw_is_reference (fun v => v) (s1_input : Mat ℚ) s1_top s1_args (by decide) (by decide)
      0 1 0 (by decide) (by decide) (by decide)).1⟩

/-- C5: temporal+spatial bound mode equals the exact operator under ReLU.  For every
sequence `calls` of same-shaped calls of `temporal_spatial_convolution` made from empty
caches and every further call `(x, top)` of the same shape, with ReLU and exact real
arithmetic, the output of that call is the tensor `raw_convolution` writes for `x` (so a
position written as `0` has exact output `0` and any other position the exact value). -/
theorem C5_temporal_spatial_equals_exact (a : ConvArgs ℝ) (calls : List (Mat ℝ × Mat ℝ))
    (x top last_x last_y w_norm2 last_y_col last_y_row : Mat ℝ)
    (hrelu : a.activation_type = 1) (hempty : last_x.total = 0)
    (hshape : same_shapes calls x top) :
    (ts_after Real.sqrt Real.exp a (last_x, last_y, w_norm2, last_y_col, last_y_row) calls
        x top).top_blob.same_tensor (raw_convolution Real.exp x top a) := by
  have hgood := ts_run_good a hrelu x.w x.c top.w top.h top.c calls
    (fun c hc => ⟨(hshape c hc).1, (hshape c hc).2.2.1, (hshape c hc).2.2.2⟩)
    (last_x, last_y, w_norm2, last_y_col, last_y_row) (Or.inl (Nat.le_of_eq hempty))
  have h := ts_call_sound a hrelu x top _ hgood
  simp only at h
  obtain ⟨_, hd, hp⟩ := h
  have hraw := raw_convolution_spec Real.exp x top a
  refine ⟨hd.1.trans hraw.1.1.symm, hd.2.1.trans hraw.1.2.1.symm,
    hd.2.2.trans hraw.1.2.2.symm, ?_⟩
  intro k i j hk hi hj
  have e1 : (ts_after Real.sqrt Real.exp a (last_x, last_y, w_norm2, last_y_col, last_y_row)
      calls x top).top_blob.w = top.w := hd.1
  have e2 : (ts_after Real.sqrt Real.exp a (last_x, last_y, w_norm2, last_y_col, last_y_row)
      calls x top).top_blob.h = top.h := hd.2.1
  have e3 : (ts_after Real.sqrt Real.exp a (last_x, last_y, w_norm2, last_y_col, last_y_row)
      calls x top).top_blob.c = top.c := hd.2.2
  rw [e1] at hj ⊢
  rw [e2] at hi
  rw [e3] at hk
  rw [hraw.2 i j k hi hj hk]
  exact hp i j k hi hj hk

/-- Witness of C5 on scenario S1: the second call on the input `[[1, -2, 3]]`. -/
theorem C5_temporal_spatial_equals_exact_witness :
    (s1_args : ConvArgs ℝ).activation_type = 1 ∧ (Mat.nil : Mat ℝ).total = 0 ∧
    same_shapes [((s1_input : Mat ℝ), (s1_top : Mat ℝ))] s1_input s1_top ∧
    (ts_after Real.sqrt Real.exp s1_args (Mat.nil, Mat.nil, Mat.nil, Mat.nil, Mat.nil)
        [(s1_input, s1_top)] s1_input s1_top).top_blob.same_tensor
      (raw_convolution Real.exp s1_input s1_top s1_args) :=
  ⟨rfl, rfl, fun c hc => by simp at hc; subst hc; exact ⟨rfl, rfl, rfl, rfl, rfl, rfl⟩,
    C5_temporal_spatial_equals_exact s1_args [(s1_input, s1_top)] s1_input s1_top Mat.nil
      Mat.nil Mat.nil Mat.nil Mat.nil rfl rfl
      (fun c hc => by simp at hc; subst hc; exact ⟨rfl, rfl, rfl, rfl, rfl, rfl⟩)⟩

/-- C6: spatial bound mode equals the exact operator under ReLU on every single call.  For
every input, weights and bias and whatever the two buffers hold, with ReLU and exact real
arithmetic, `spatial_convolution` (with `w_norm2` either empty or holding the filter norms)
writes the same output tensor as `raw_convolution` on the same input. -/
theorem C6_spatial_equals_exact (a : ConvArgs ℝ) (x top w_norm2 last_y_col last_y_row : Mat ℝ)
    (call_time : ℝ) (hrelu : a.activation_type = 1)
    (hnorm : w_norm2.total ≤ 0 ∨
      ∀ k, k < top.c → w_norm2.flat k = Real.sqrt (weight_sq a x.c k)) :
    (spatial_convolution Real.sqrt Real.exp x top a w_norm2 last_y_col last_y_row
        call_time).top_blob.same_tensor (raw_convolution Real.exp x top a) := by
  have h := spatial_convolution_spec a hrelu x top w_norm2 last_y_col last_y_row call_time hnorm
  simp only at h
  obtain ⟨hd, hp⟩ := h
  have hraw := raw_convolution_spec Real.exp x top a
  refine ⟨hd.1.trans hraw.1.1.symm, hd.2.1.trans hraw.1.2.1.symm,
    hd.2.2.trans hraw.1.2.2.symm, ?_⟩
  intro k i j hk hi hj
  rw [hd.1] at hj ⊢
  rw [hd.2.1] at hi
  rw [hd.2.2] at hk
  rw [hraw.2 i j k hi hj hk]
  exact hp i j k hi hj hk

/-- Witness of C6 on scenario S1, from empty caches. -/
theorem C6_spatial_equals_exact_witness :
    (s1_args : ConvArgs ℝ).activation_type = 1 ∧
    ((Mat.nil : Mat ℝ).total ≤ 0 ∨ ∀ k, k < (s1_top : Mat ℝ).c →
      (Mat.nil : Mat ℝ).flat k = Real.sqrt (weight_sq s1_args (s1_input : Mat ℝ).c k)) ∧
    (spatial_convolution Real.sqrt Real.exp s1_input s1_top s1_args Mat.nil Mat.nil Mat.nil
        0).top_blob.same_tensor (raw_convolution Real.exp s1_input s1_top s1_args) :=
  ⟨rfl, Or.inl (Nat.le_refl 0),
    C6_spatial_equals_exact s1_args s1_input s1_top Mat.nil Mat.nil Mat.nil 0 rfl
      (Or.inl (Nat.le_refl 0))⟩

/-- C7 fails on the code: with the filter `[1, 0, 0, 0, 0, 0]`, no bias and ReLU, after a
first call of `mlsys_convolution_lower_top_E` on the all-zero input from empty caches, the
call on the input `[[1, 0, 0, 0, 0, 0]]` writes `0` at position `(0, 0, 0)` through the skip
branch, where the exact operator writes `1`. -/
theorem C7_top_E_skips_positive_output :
    (top_E_after Real.sqrt Real.exp first_tap_args
        (Mat.nil, Mat.nil, Mat.nil, Mat.nil, Mat.nil, Mat.nil, Mat.nil)
        [(six_zero, one_top)] six_step one_top).out_y.data 0 (out_pos 1 0 0) = 0 ∧
    (raw_convolution Real.exp six_step one_top first_tap_args).data 0 (out_pos 1 0 0) = 1 := by
  have hmk : (first_tap_args : ConvArgs ℝ).maxk = 6 := by decide
  have hyi : (first_tap_args : ConvArgs ℝ).y_init 0 = 0 := by
    simp [ConvArgs.y_init, ConvArgs.bias_term, first_tap_args, Mat.nil, Mat.empty, Mat.total]
  constructor
  · have hfirst := first_tap_first_call
    show (mlsys_convolution_lower_top_E Real.sqrt Real.exp six_step one_top
      (first_tap_args : ConvArgs ℝ)
      (mlsys_convolution_lower_top_E Real.sqrt Real.exp six_zero one_top
        (first_tap_args : ConvArgs ℝ) Mat.nil Mat.nil Mat.nil Mat.nil Mat.nil Mat.nil Mat.nil).last_x
      (mlsys_convolution_lower_top_E Real.sqrt Real.exp six_zero one_top
        (first_tap_args : ConvArgs ℝ) Mat.nil Mat.nil Mat.nil Mat.nil Mat.nil Mat.nil Mat.nil).last_y
      (mlsys_convolution_lower_top_E Real.sqrt Real.exp six_zero one_top
        (first_tap_args : ConvArgs ℝ) Mat.nil Mat.nil Mat.nil Mat.nil Mat.nil Mat.nil Mat.nil).w_norm2
      (mlsys_convolution_lower_top_E Real.sqrt Real.exp six_zero one_top
        (first_tap_args : ConvArgs ℝ) Mat.nil Mat.nil Mat.nil Mat.nil Mat.nil Mat.nil Mat.nil).all_select_norms
      (mlsys_convolution_lower_top_E Real.sqrt Real.exp six_zero one_top
        (first_tap_args : ConvArgs ℝ) Mat.nil Mat.nil Mat.nil Mat.nil Mat.nil Mat.nil Mat.nil).top_E_indices
      (mlsys_convolution_lower_top_E Real.sqrt Real.exp six_zero one_top
        (first_tap_args : ConvArgs ℝ) Mat.nil Mat.nil Mat.nil Mat.nil Mat.nil Mat.nil Mat.nil).top_E_w_vals
      (mlsys_convolution_lower_top_E Real.sqrt Real.exp six_zero one_top
        (first_tap_args : ConvArgs ℝ) Mat.nil Mat.nil Mat.nil Mat.nil Mat.nil Mat.nil Mat.nil).x_vector_diff).out_y.data 0 (out_pos 1 0 0) = 0
    generalize (mlsys_convolution_lower_top_E Real.sqrt Real.exp six_zero one_top
        (first_tap_args : ConvArgs ℝ) Mat.nil Mat.nil Mat.nil Mat.nil Mat.nil Mat.nil Mat.nil) = r1 at hfirst ⊢
    obtain ⟨hx, hy, hi0, hv0, hvr, hn⟩ := hfirst
    have hne : ¬ r1.last_x.total ≤ 0 := by
      rw [hx]
      decide
    have hsel := top_E_select_first r1.top_E_indices r1.top_E_w_vals
      (top_E_dx2_sum (first_tap_args : ConvArgs ℝ) six_step six_zero 0 0 r1.x_vector_diff).2 0
      (by
        have e : ((0 : Nat) : Int) * (E : Int) + ((0 : Nat) : Int) = 0 := by simp
        have et : to_int (0 : ℝ) = 0 := by simp [to_int]
        rw [e, hi0, et, six_step_diff, Nat.cast_zero, hv0]
        norm_num)
      hvr
    unfold mlsys_convolution_lower_top_E
    have hc : (one_top : Mat ℝ).c = 1 := rfl
    have hw : (one_top : Mat ℝ).w = 1 := rfl
    have hh : (one_top : Mat ℝ).h = 1 := rfl
    rw [if_neg hne, hc, hw, hh]
    simp only [forLoop_one]
    rw [hx]
    unfold top_E_step
    simp only [hsel, Mat.set_data_same, hy, hyi]
    have e32 : ((0 : Nat) : Int) * (E_pow_num : Int) + ((32 : Nat) : Int) = 32 := by simp
    rw [e32, hn]
    norm_num
  · have hraw := (raw_convolution_spec Real.exp six_step one_top (first_tap_args : ConvArgs ℝ)).2
      0 0 0 (by decide) (by decide) (by decide)
    have hy : exact_y (first_tap_args : ConvArgs ℝ) six_step 0 0 0 = 1 := by
      rw [exact_y_eq, hyi]
      unfold conv_sum dsum
      have hc2 : (six_step : Mat ℝ).c = 1 := rfl
      rw [hmk, hc2]
      have hso : (first_tap_args : ConvArgs ℝ).space_ofs (six_step : Mat ℝ) 0 = 0 := by decide
      have hwt : ∀ t : Nat, (first_tap_args : ConvArgs ℝ).weight 1 0 0 t
          = ([1, 0, 0, 0, 0, 0] : List ℝ).getD t 0 := by
        intro t
        simp [ConvArgs.weight, ConvArgs.kptr, first_tap_args, Mat.of_list, Mat.flat]
      have hp0 : patch_at (six_step : Mat ℝ) ((first_tap_args : ConvArgs ℝ).space_ofs six_step) 0
          (row_ptr (six_step : Mat ℝ) (first_tap_args : ConvArgs ℝ).stride_w
            (first_tap_args : ConvArgs ℝ).stride_h 0 0) 0 = 1 := by
        unfold patch_at
        rw [hso]
        simp [six_step, Mat.of_rows, row_ptr, first_tap_args]
      simp [Finset.sum_range_succ, hwt, hp0]
    have hact : (first_tap_args : ConvArgs ℝ).act Real.exp 1 = 1 := by
      unfold ConvArgs.act activation_ss
      have ht : (first_tap_args : ConvArgs ℝ).activation_type = 1 := rfl
      rw [if_pos ht]
      norm_num
    rw [hy, hact] at hraw
    exact hraw

/-- C9, the code at the failing input: with the `1 x 1` kernel of weight `1`, no bias and
ReLU, after a first call of `temporal_spatial_convolution_lower_bound` on `[[0, 0]]` from
empty caches the call on `[[0, 1]]` writes `0` at position `(0, 0, 1)`, where the exact
operator `raw_convolution` writes `1`: the skip is unsound. -/
theorem C9_lower_bound_skips_positive_output :
    (tslb_after Real.sqrt Real.exp s1_args
        (Mat.nil, Mat.nil, Mat.nil, Mat.nil, Mat.nil, Mat.nil)
        [(pair_zero, pair_top)] pair_step pair_top).top_blob.data 0 (out_pos 2 0 1) = 0 ∧
    (raw_convolution Real.exp pair_step pair_top s1_args).data 0 (out_pos 2 0 1) = 1 := by
  have hso : ∀ x : Mat ℝ, (s1_args : ConvArgs ℝ).space_ofs x 0 = 0 := by
    intro x
    simp [ConvArgs.space_ofs, make_space_ofs, s1_args, forLoop, loopN]
  have hmk : (s1_args : ConvArgs ℝ).maxk = 1 := by decide
  have hyi : (s1_args : ConvArgs ℝ).y_init 0 = 0 := by
    simp [ConvArgs.y_init, ConvArgs.bias_term, s1_args, Mat.nil, Mat.empty, Mat.total]
  have hwt : (s1_args : ConvArgs ℝ).weight 1 0 0 0 = 1 := by
    simp [ConvArgs.weight, ConvArgs.kptr, s1_args, Mat.of_list, Mat.flat]
  have hwsq : weight_sq (s1_args : ConvArgs ℝ) 1 0 = 1 := by
    unfold weight_sq dsum
    rw [hmk]
    simp [hwt]
  constructor
  · have h1 := tslb_first_spec Real.sqrt Real.exp pair_zero pair_top (s1_args : ConvArgs ℝ)
      Mat.nil Mat.nil Mat.nil Mat.nil Mat.nil Mat.nil (Nat.le_refl 0)
    simp only at h1
    obtain ⟨hx1, hn1, _, hp1⟩ := h1
    have hne : ¬ (temporal_spatial_convolution_lower_bound Real.sqrt Real.exp pair_zero
        pair_top (s1_args : ConvArgs ℝ) Mat.nil Mat.nil Mat.nil Mat.nil Mat.nil
        Mat.nil).last_x.total ≤ 0 := by
      rw [hx1]
      decide
    have h2 := tslb_bound_spec Real.sqrt Real.exp pair_step pair_top (s1_args : ConvArgs ℝ)
      _ (temporal_spatial_convolution_lower_bound Real.sqrt Real.exp pair_zero
        pair_top (s1_args : ConvArgs ℝ) Mat.nil Mat.nil Mat.nil Mat.nil Mat.nil Mat.nil).last_y
      (temporal_spatial_convolution_lower_bound Real.sqrt Real.exp pair_zero
        pair_top (s1_args : ConvArgs ℝ) Mat.nil Mat.nil Mat.nil Mat.nil Mat.nil Mat.nil).w_norm2
      (temporal_spatial_convolution_lower_bound Real.sqrt Real.exp pair_zero
        pair_top (s1_args : ConvArgs ℝ) Mat.nil Mat.nil Mat.nil Mat.nil Mat.nil
        Mat.nil).last_y_col
      (temporal_spatial_convolution_lower_bound Real.sqrt Real.exp pair_zero
        pair_top (s1_args : ConvArgs ℝ) Mat.nil Mat.nil Mat.nil Mat.nil Mat.nil
        Mat.nil).last_y_row
      (temporal_spatial_convolution_lower_bound Real.sqrt Real.exp pair_zero
        pair_top (s1_args : ConvArgs ℝ) Mat.nil Mat.nil Mat.nil Mat.nil Mat.nil
        Mat.nil).w_norm2_lower hne (by decide)
    simp only at h2
    have h3 := (h2.2.2.2.2.2 0 1 0 (by decide) (by decide) (by decide)).1
    refine (h3 ?_).1
    have hv := (hp1 0 1 0 (by decide) (by decide) (by decide)).2
    have hz : ∀ q p, (pair_zero : Mat ℝ).data q p = 0 := by
      intro q p
      show (if 0 ≤ p then ([0, 0] : List ℝ).getD p.toNat 0 else 0) = 0
      split_ifs
      · generalize p.toNat = n
        match n with
        | 0 => rfl
        | 1 => rfl
        | n + 2 => rfl
      · rfl
    have hv0 : conv_sum (s1_args : ConvArgs ℝ) pair_zero 0 1 0 = 0 := by
      unfold conv_sum dsum
      rw [hmk]
      simp [patch_at, hz]
    have hc1 : (pair_zero : Mat ℝ).c = 1 := rfl
    have hl : (temporal_spatial_convolution_lower_bound Real.sqrt Real.exp pair_zero
        pair_top (s1_args : ConvArgs ℝ) Mat.nil Mat.nil Mat.nil Mat.nil Mat.nil
        Mat.nil).w_norm2_lower.flat ((0 : Nat) : Int) = 0 := by
      rw [(hn1 0 (by decide)).2, hc1, hwsq, hwt]
      norm_num
    unfold tslb_min_norm_norm tslb_candidate
    simp only [Nat.one_ne_zero, if_false]
    rw [tslb_delta_eq _ _ _ _ _ (by decide) (by decide), hx1, hl, hyi]
    simp only
    rw [hv, hv0, weight_zero]
    have hc2 : (pair_step : Mat ℝ).c = 1 := rfl
    rw [hc2, hwt]
    have hd0 : patch_at (pair_step : Mat ℝ) ((s1_args : ConvArgs ℝ).space_ofs pair_step) 0
        (row_ptr (pair_step : Mat ℝ) (s1_args : ConvArgs ℝ).stride_w
          (s1_args : ConvArgs ℝ).stride_h 0 1) 0 = 1 := by
      unfold patch_at
      rw [hso]
      simp [pair_step, Mat.of_rows, row_ptr, s1_args]
    have hd1 : patch_at (pair_zero : Mat ℝ) ((s1_args : ConvArgs ℝ).space_ofs pair_step) 0
        (row_ptr (pair_zero : Mat ℝ) (s1_args : ConvArgs ℝ).stride_w
          (s1_args : ConvArgs ℝ).stride_h 0 1) 0 = 0 := hz _ _
    rw [hd0, hd1, if_pos (Or.inr (by norm_num))]
    refine le_trans (add_le_add_right (min_le_left _ _) _) ?_
    norm_num
  · have hraw := (raw_convolution_spec Real.exp pair_step pair_top (s1_args : ConvArgs ℝ)).2
      0 1 0 (by decide) (by decide) (by decide)
    have hy : exact_y (s1_args : ConvArgs ℝ) pair_step 0 1 0 = 1 := by
      rw [exact_y_eq, hyi]
      unfold conv_sum dsum
      have hc2 : (pair_step : Mat ℝ).c = 1 := rfl
      rw [hmk, hc2]
      simp only [Finset.sum_range_one]
      unfold patch_at
      rw [hso, hwt]
      simp [pair_step, Mat.of_rows, row_ptr, s1_args]
    have hact : (s1_args : ConvArgs ℝ).act Real.exp 1 = 1 := by
      unfold ConvArgs.act activation_ss
      have ht : (s1_args : ConvArgs ℝ).activation_type = 1 := rfl
      rw [if_pos ht]
      norm_num
    rw [hy, hact] at hraw
    exact hraw

/-- The kernel `temporal_spatial_convolution_lower_bound` as coded.  In a bound-branch call
(ReLU or not) the candidate `m` of position
`(k, i, j)` is, at column `j = 0`, the refined temporal bound
`last_y + w_norm_lower[k] * dx_t + d0 * W[k, 0, 0]` when `d0 * W[k, 0, 0] <= 0` and
`last_y + w_norm[k] * dx_t` otherwise, and at a column `j > 0` the minimum of a temporal term
(`last_y + w_norm_lower[k] * dx_t` or `last_y + w_norm[k] * dx_t`) and the column bound
`c + dx_c * w_norm[k]`, where `c` is the value the call caches for the left neighbour; the
position is skipped (output `0`, cache `m`) exactly when `m + bias <= 0`.  There is no row
bound: the kernel's output and caches do not depend on the row buffer, which a bound-branch
call returns untouched.  And for every sequence of same-shaped calls from empty caches, with
ReLU, exact real arithmetic, at least one input channel and one tap and an output of
positive width, the call writes at every position of column `0` what the exact operator
`raw_convolution` writes. -/
theorem tslb_as_coded (a : ConvArgs ℝ) (calls : List (Mat ℝ × Mat ℝ))
    (x top last_x last_y w_norm2 last_y_col last_y_row w_norm2_lower : Mat ℝ)
    (hrelu : a.activation_type = 1) (hempty : last_x.total = 0)
    (hshape : same_shapes calls x top) (hc : 0 < x.c) (hm : 0 < a.maxk) (hW : 0 < top.w) :
    (∀ lx ly wn col row wl : Mat ℝ, ¬ lx.total ≤ 0 →
      ∀ i j k, i < top.h → j < top.w → k < top.c →
      ∃ m : ℝ,
        (j = 0 → m =
          if (patch_at x (a.space_ofs x) 0 (row_ptr x a.stride_w a.stride_h i j) 0
                - patch_at lx (a.space_ofs x) 0 (row_ptr lx a.stride_w a.stride_h i j) 0)
              * a.weight x.c k 0 0 ≤ 0 then
            ly.data k (out_pos top.w i j)
              + wl.flat k * Real.sqrt (temporal_sq a x lx i j)
              + (patch_at x (a.space_ofs x) 0 (row_ptr x a.stride_w a.stride_h i j) 0
                  - patch_at lx (a.space_ofs x) 0 (row_ptr lx a.stride_w a.stride_h i j) 0)
                * a.weight x.c k 0 0
          else ly.data k (out_pos top.w i j)
            + wn.flat k * Real.sqrt (temporal_sq a x lx i j)) ∧
        (0 < j →
          m = min (ly.data k (out_pos top.w i j)
                + wl.flat k * Real.sqrt (temporal_sq a x lx i j))
              ((temporal_spatial_convolution_lower_bound Real.sqrt Real.exp x top a lx ly wn
                  col row wl).last_y.data k (out_pos top.w i (j - 1))
                + Real.sqrt (col_delta_sum a x i j) * wn.flat k) ∨
          m = min (ly.data k (out_pos top.w i j)
                + wn.flat k * Real.sqrt (temporal_sq a x lx i j))
              ((temporal_spatial_convolution_lower_bound Real.sqrt Real.exp x top a lx ly wn
                  col row wl).last_y.data k (out_pos top.w i (j - 1))
                + Real.sqrt (col_delta_sum a x i j) * wn.flat k)) ∧
        (m + a.y_init k ≤ 0 →
          (temporal_spatial_convolution_lower_bound Real.sqrt Real.exp x top a lx ly wn col row
              wl).top_blob.data k (out_pos top.w i j) = 0 ∧
          (temporal_spatial_convolution_lower_bound Real.sqrt Real.exp x top a lx ly wn col row
              wl).last_y.data k (out_pos top.w i j) = m) ∧
        (¬ m + a.y_init k ≤ 0 →
          (temporal_spatial_convolution_lower_bound Real.sqrt Real.exp x top a lx ly wn col row
              wl).top_blob.data k (out_pos top.w i j) = a.act Real.exp (exact_y a x i j k) ∧
          (temporal_spatial_convolution_lower_bound Real.sqrt Real.exp x top a lx ly wn col row
              wl).last_y.data k (out_pos top.w i j) = conv_sum a x i j k)) ∧
    (∀ lx ly wn col row wl row2 : Mat ℝ,
      ((temporal_spatial_convolution_lower_bound Real.sqrt Real.exp x top a lx ly wn col row2
            wl).top_blob
          = (temporal_spatial_convolution_lower_bound Real.sqrt Real.exp x top a lx ly wn col
              row wl).top_blob ∧
        (temporal_spatial_convolution_lower_bound Real.sqrt Real.exp x top a lx ly wn col row2
            wl).last_y
          = (temporal_spatial_convolution_lower_bound Real.sqrt Real.exp x top a lx ly wn col
              row wl).last_y ∧
        (temporal_spatial_convolution_lower_bound Real.sqrt Real.exp x top a lx ly wn col row2
            wl).last_y_col
          = (temporal_spatial_convolution_lower_bound Real.sqrt Real.exp x top a lx ly wn col
              row wl).last_y_col) ∧
      (¬ lx.total ≤ 0 →
        (temporal_spatial_convolution_lower_bound Real.sqrt Real.exp x top a lx ly wn col row
            wl).last_y_row = row)) ∧
    ∀ i k, i < top.h → k < top.c →
      (tslb_after Real.sqrt Real.exp a
          (last_x, last_y, w_norm2, last_y_col, last_y_row, w_norm2_lower) calls
          x top).top_blob.data k (out_pos top.w i 0)
        = (raw_convolution Real.exp x top a).data k (out_pos top.w i 0) := by
  refine ⟨?_, ?_, ?_⟩
  · intro lx ly wn col row wl hne i j k hi hj hk
    have h := tslb_bound_spec Real.sqrt Real.exp x top a lx ly wn col row wl hne hW
    simp only at h
    have hp := h.2.2.2.2.2 i j k hi hj hk
    have hm_eq := tslb_min_norm_norm_eq Real.sqrt a x lx wn wl i j k
      (ly.data k (out_pos top.w i j))
      ((temporal_spatial_convolution_lower_bound Real.sqrt Real.exp x top a lx ly wn col row
        wl).last_y.data k (out_pos top.w i (j - 1))) hc hm
    refine ⟨_, ?_, ?_, hp.1, hp.2⟩
    · intro hj0
      rw [hm_eq, if_pos hj0]
    · intro hj0
      rw [hm_eq, if_neg (Nat.pos_iff_ne_zero.mp hj0)]
      split_ifs
      · exact Or.inl rfl
      · exact Or.inr rfl
  · intro lx ly wn col row wl row2
    have h := tslb_row_unused Real.sqrt Real.exp x top a lx ly wn col row wl
    exact ⟨h.1 row2, h.2⟩
  · have hgood := tslb_run_good a hrelu x.w x.c top.w top.h top.c hc hm hW calls
      (fun c hc => ⟨(hshape c hc).1, (hshape c hc).2.2.1, (hshape c hc).2.2.2⟩)
      (last_x, last_y, w_norm2, last_y_col, last_y_row, w_norm2_lower)
      (Or.inl (Nat.le_of_eq hempty))
    have h := tslb_call_sound a hrelu x top _ hc hm hW hgood
    simp only at h
    obtain ⟨_, _, hp⟩ := h
    have hraw := raw_convolution_spec Real.exp x top a
    intro i k hi hk
    rw [hraw.2 i 0 k hi hW hk]
    exact hp i k hi hk

/-- Column `0` of the call on `[[0, 1]]` after a first call on `[[0, 0]]`, with the `1 x 1`
kernel of weight `1`, no bias and ReLU, is written as the exact operator writes it. -/
theorem tslb_as_coded_pair :
    (s1_args : ConvArgs ℝ).activation_type = 1 ∧ (Mat.nil : Mat ℝ).total = 0 ∧
    same_shapes [((pair_zero : Mat ℝ), (pair_top : Mat ℝ))] pair_step pair_top ∧
    0 < (pair_step : Mat ℝ).c ∧ 0 < (s1_args : ConvArgs ℝ).maxk ∧ 0 < (pair_top : Mat ℝ).w ∧
    ∀ i k, i < (pair_top : Mat ℝ).h → k < (pair_top : Mat ℝ).c →
      (tslb_after Real.sqrt Real.exp s1_args
          (Mat.nil, Mat.nil, Mat.nil, Mat.nil, Mat.nil, Mat.nil) [(pair_zero, pair_top)]
          pair_step pair_top).top_blob.data k (out_pos (pair_top : Mat ℝ).w i 0)
        = (raw_convolution Real.exp pair_step pair_top s1_args).data k
            (out_pos (pair_top : Mat ℝ).w i 0) :=
  ⟨rfl, rfl, fun c hc => by simp at hc; subst hc; exact ⟨rfl, rfl, rfl, rfl, rfl, rfl⟩,
    by decide, by decide, by decide,
    (tslb_as_coded s1_args [(pair_zero, pair_top)] pair_step pair_top Mat.nil
      Mat.nil Mat.nil Mat.nil Mat.nil Mat.nil rfl rfl
      (fun c hc => by simp at hc; subst hc; exact ⟨rfl, rfl, rfl, rfl, rfl, rfl⟩)
      (by decide) (by decide) (by decide)).2.2⟩

/-- C10 fails as stated: in scenario S6 (scenario S1 with sigmoid activation) the second
bound-mode forward call on the input `[[1, -2, 3]]` does not write the output of the exact
kernel: position `(0, 0, 1)` takes the skip branch and holds `0`, the exact output there is
`sigmoid(-2) > 0`. -/
theorem C10_sigmoid_counterexample :
    ¬ (Convolution.forward Real.sqrt Real.exp (scenario_ext [1])
        (forward_state Real.sqrt Real.exp (scenario_ext [1]) s6_layer
          [(s1_input, s1_top, ⟨true⟩)])
        s1_input s1_top ⟨true⟩).2.1.same_tensor
      (raw_convolution Real.exp
        ((s6_layer : Convolution ℝ).make_padding (scenario_ext [1]) s1_input)
        ((s6_layer : Convolution ℝ).create_top
          ((s6_layer : Convolution ℝ).make_padding (scenario_ext [1]) s1_input) s1_top)
        (s6_layer : Convolution ℝ).args) := by
  intro hsame
  have hy : exact_y (s6_layer : Convolution ℝ).args
      ((s6_layer : Convolution ℝ).make_padding (scenario_ext [1]) s1_input) 0 1 0 = -2 := by
    rw [exact_y_eq]
    have hp : (s6_layer : Convolution ℝ).make_padding (scenario_ext [1]) s1_input = s1_input :=
      rfl
    rw [hp]
    have hso : ((s6_layer : Convolution ℝ).args).space_ofs (s1_input : Mat ℝ) 0 = 0 := by decide
    have hc : (s1_input : Mat ℝ).c = 1 := rfl
    have hm : ((s6_layer : Convolution ℝ).args).maxk = 1 := by decide
    unfold conv_sum dsum
    rw [hc, hm]
    simp only [Finset.sum_range_one]
    unfold patch_at
    rw [hso]
    simp [ConvArgs.y_init, ConvArgs.bias_term, ConvArgs.weight, s6_layer, Convolution.loaded,
      Convolution.load_model, Convolution.load_param, s6_params, ParamDict.of_ints,
      ParamDict.get_int, ParamDict.get_float, ParamDict.get_array, Convolution.args,
      scenario_ext, Mat.of_list, Mat.nil, Mat.empty, Mat.total, Mat.flat, ConvArgs.kptr,
      ConvArgs.maxk, row_ptr, s1_input, Mat.of_rows, Convolution.blank]
  have hzero := forward_replay_zero Real.exp (scenario_ext [1]) (s6_layer : Convolution ℝ)
    s1_input s1_top s1_top (Nat.le_of_eq (loaded_record1_total _ _ _)) (by decide) (by decide)
    0 1 0 (by decide) (by decide) (by decide) (by rw [hy]; norm_num)
  have hraw := (raw_convolution_spec Real.exp
    ((s6_layer : Convolution ℝ).make_padding (scenario_ext [1]) s1_input)
    ((s6_layer : Convolution ℝ).create_top
      ((s6_layer : Convolution ℝ).make_padding (scenario_ext [1]) s1_input) s1_top)
    (s6_layer : Convolution ℝ).args).2 0 1 0 (by decide) (by decide) (by decide)
  have hw : (Convolution.forward Real.sqrt Real.exp (scenario_ext [1])
      (forward_state Real.sqrt Real.exp (scenario_ext [1]) s6_layer
        [(s1_input, s1_top, ⟨true⟩)]) s1_input s1_top ⟨true⟩).2.1.w
      = ((s6_layer : Convolution ℝ).create_top
        ((s6_layer : Convolution ℝ).make_padding (scenario_ext [1]) s1_input) s1_top).w :=
    hsame.1.trans (raw_convolution_spec Real.exp _ _ _).1.1
  have hh := hsame.2.1.trans (raw_convolution_spec Real.exp
    ((s6_layer : Convolution ℝ).make_padding (scenario_ext [1]) s1_input)
    ((s6_layer : Convolution ℝ).create_top
      ((s6_layer : Convolution ℝ).make_padding (scenario_ext [1]) s1_input) s1_top)
    (s6_layer : Convolution ℝ).args).1.2.1
  have hc := hsame.2.2.1.trans (raw_convolution_spec Real.exp
    ((s6_layer : Convolution ℝ).make_padding (scenario_ext [1]) s1_input)
    ((s6_layer : Convolution ℝ).create_top
      ((s6_layer : Convolution ℝ).make_padding (scenario_ext [1]) s1_input) s1_top)
    (s6_layer : Convolution ℝ).args).1.2.2
  have heq := hsame.2.2.2 0 0 1 (by rw [hc]; decide) (by rw [hh]; decide) (by rw [hw]; decide)
  rw [hw] at heq
  have e0 : forward_state Real.sqrt Real.exp (scenario_ext [1]) (s6_layer : Convolution ℝ)
      [(s1_input, s1_top, ⟨true⟩)]
      = (Convolution.forward Real.sqrt Real.exp (scenario_ext [1]) s6_layer s1_input s1_top
          ⟨true⟩).2.2 := rfl
  rw [e0, hzero, hraw, hy] at heq
  have hsig : (s6_layer : Convolution ℝ).args.act Real.exp (-2)
      = 1 / (1 + Real.exp (-(-2))) := by
    unfold ConvArgs.act activation_ss
    have ht : (s6_layer : Convolution ℝ).args.activation_type = 4 := by decide
    rw [ht]
    norm_num
  rw [hsig] at heq
  have hpos : 0 < 1 / (1 + Real.exp (-(-2 : ℝ))) := by
    have := Real.exp_pos (-(-2 : ℝ))
    positivity
  linarith

/-- C10 as the code has it: there is no fallback.  With sigmoid activation, every successful
bound-mode forward call, after any sequence of forward calls on same-shaped padded inputs
from empty caches, writes at each position either the value the exact kernel writes, or `0`
at a position whose exact pre-activation `y` is non-positive, where the exact kernel writes
`1 / (1 + exp(-y))`. -/
theorem C10_sigmoid_bound_mode (ext : Externals ℝ) (self0 : Convolution ℝ)
    (calls : List (Mat ℝ × Mat ℝ × Opt)) (bottom top : Mat ℝ)
    (hsig : self0.activation_type = 4) (hempty : self0.record1.total = 0)
    (hshape : same_padded_shapes ext self0 calls bottom)
    (hnf : self0.is_flattened bottom = false)
    (hret : (Convolution.forward Real.sqrt Real.exp ext
      (forward_state Real.sqrt Real.exp ext self0 calls) bottom top ⟨true⟩).1 = 0)
    (i j k : Nat)
    (hi : i < (self0.create_top (self0.make_padding ext bottom) top).h)
    (hj : j < (self0.create_top (self0.make_padding ext bottom) top).w)
    (hk : k < (self0.create_top (self0.make_padding ext bottom) top).c) :
    (Convolution.forward Real.sqrt Real.exp ext
        (forward_state Real.sqrt Real.exp ext self0 calls) bottom top ⟨true⟩).2.1.data k
        (out_pos (self0.create_top (self0.make_padding ext bottom) top).w i j)
      = (raw_convolution Real.exp (self0.make_padding ext bottom)
          (self0.create_top (self0.make_padding ext bottom) top) self0.args).data k
          (out_pos (self0.create_top (self0.make_padding ext bottom) top).w i j) ∨
    ((Convolution.forward Real.sqrt Real.exp ext
        (forward_state Real.sqrt Real.exp ext self0 calls) bottom top ⟨true⟩).2.1.data k
        (out_pos (self0.create_top (self0.make_padding ext bottom) top).w i j) = 0 ∧
      exact_y self0.args (self0.make_padding ext bottom) i j k ≤ 0 ∧
      (raw_convolution Real.exp (self0.make_padding ext bottom)
          (self0.create_top (self0.make_padding ext bottom) top) self0.args).data k
          (out_pos (self0.create_top (self0.make_padding ext bottom) top).w i j)
        = 1 / (1 + Real.exp (-(exact_y self0.args (self0.make_padding ext bottom) i j k)))) := by
  have hraw := (raw_convolution_spec Real.exp (self0.make_padding ext bottom)
    (self0.create_top (self0.make_padding ext bottom) top) self0.args).2 i j k hi hj hk
  have hact : ∀ v : ℝ, self0.args.act Real.exp v = 1 / (1 + Real.exp (-v)) := by
    intro v
    unfold ConvArgs.act activation_ss
    have ht : self0.args.activation_type = 4 := hsig
    rw [ht]
    norm_num
  rcases forward_bound_sound Real.exp ext self0 calls bottom top (Nat.le_of_eq hempty) hshape
    hnf hret i j k hi hj hk with h | h
  · left
    rw [h, hraw]
  · right
    exact ⟨h.1, h.2, by rw [hraw, hact]⟩

/-- Witness of the amended C10 on scenario S6: the second bound-mode forward call on
`[[1, -2, 3]]`, at position `(0, 0, 1)`. -/
theorem C10_sigmoid_bound_mode_witness :
    (s6_layer : Convolution ℝ).activation_type = 4 ∧
    (s6_layer : Convolution ℝ).record1.total = 0 ∧
    same_padded_shapes (scenario_ext [1]) (s6_layer : Convolution ℝ)
      [(s1_input, s1_top, ⟨true⟩)] s1_input ∧
    (s6_layer : Convolution ℝ).is_flattened s1_input = false ∧
    (Convolution.forward Real.sqrt Real.exp (scenario_ext [1])
      (forward_state Real.sqrt Real.exp (scenario_ext [1]) s6_layer
        [(s1_input, s1_top, ⟨true⟩)]) s1_input s1_top ⟨true⟩).1 = 0 ∧
    ((Convolution.forward Real.sqrt Real.exp (scenario_ext [1])
        (forward_state Real.sqrt Real.exp (scenario_ext [1]) s6_layer
          [(s1_input, s1_top, ⟨true⟩)]) s1_input s1_top ⟨true⟩).2.1.data 0
        (out_pos ((s6_layer : Convolution ℝ).create_top
          ((s6_layer : Convolution ℝ).make_padding (scenario_ext [1]) s1_input) s1_top).w 0 1)
      = (raw_convolution Real.exp
          ((s6_layer : Convolution ℝ).make_padding (scenario_ext [1]) s1_input)
          ((s6_layer : Convolution ℝ).create_top
            ((s6_layer : Convolution ℝ).make_padding (scenario_ext [1]) s1_input) s1_top)
          (s6_layer : Convolution ℝ).args).data 0
          (out_pos ((s6_layer : Convolution ℝ).create_top
            ((s6_layer : Convolution ℝ).make_padding (scenario_ext [1]) s1_input) s1_top).w
            0 1) ∨
    ((Convolution.forward Real.sqrt Real.exp (scenario_ext [1])
        (forward_state Real.sqrt Real.exp (scenario_ext [1]) s6_layer
          [(s1_input, s1_top, ⟨true⟩)]) s1_input s1_top ⟨true⟩).2.1.data 0
        (out_pos ((s6_layer : Convolution ℝ).create_top
          ((s6_layer : Convolution ℝ).make_padding (scenario_ext [1]) s1_input) s1_top).w 0 1)
        = 0 ∧
      exact_y (s6_layer : Convolution ℝ).args
        ((s6_layer : Convolution ℝ).make_padding (scenario_ext [1]) s1_input) 0 1 0 ≤ 0 ∧
      (raw_convolution Real.exp
          ((s6_layer : Convolution ℝ).make_padding (scenario_ext [1]) s1_input)
          ((s6_layer : Convolution ℝ).create_top
            ((s6_layer : Convolution ℝ).make_padding (scenario_ext [1]) s1_input) s1_top)
          (s6_layer : Convolution ℝ).args).data 0
          (out_pos ((s6_layer : Convolution ℝ).create_top
            ((s6_layer : Convolution ℝ).make_padding (scenario_ext [1]) s1_input) s1_top).w
            0 1)
        = 1 / (1 + Real.exp (-(exact_y (s6_layer : Convolution ℝ).args
            ((s6_layer : Convolution ℝ).make_padding (scenario_ext [1]) s1_input) 0 1 0))))) :=
  ⟨by decide, by decide,
    fun c hc => by simp at hc; subst hc; exact ⟨rfl, rfl, rfl⟩,
    by decide, by decide,
    C10_sigmoid_bound_mode (scenario_ext [1]) s6_layer [(s1_input, s1_top, ⟨true⟩)] s1_input
      s1_top (by decide) (by decide)
      (fun c hc => by simp at hc; subst hc; exact ⟨rfl, rfl, rfl⟩)
      (by decide) (by decide) 0 1 0 (by decide) (by decide) (by decide)⟩

/-- C11 fails as stated: in scenario S1 a forward call with `use_reserved_0` cleared returns
`0` and leaves `record1` (`last_x`) empty, so it is not the padded input of the call and a
following bound-mode call takes the first-call branch. -/
theorem C11_raw_call_counterexample :
    (Convolution.forward Real.sqrt Real.exp (scenario_ext [1]) s1_layer s1_input s1_top
      ⟨false⟩).1 = 0 ∧
    (Convolution.forward Real.sqrt Real.exp (scenario_ext [1]) s1_layer s1_input s1_top
      ⟨false⟩).2.2.record1.total ≤ 0 ∧
    (Convolution.forward Real.sqrt Real.exp (scenario_ext [1]) s1_layer s1_input s1_top
      ⟨false⟩).2.2.record1 ≠ (s1_layer : Convolution ℝ).make_padding (scenario_ext [1]) s1_input := by
  refine ⟨by decide, by decide, ?_⟩
  intro h
  have h1 : (Convolution.forward Real.sqrt Real.exp (scenario_ext [1]) s1_layer s1_input s1_top
      ⟨false⟩).2.2.record1.total = 0 := by decide
  have h2 : ((s1_layer : Convolution ℝ).make_padding (scenario_ext [1]) s1_input).total = 3 := by
    decide
  rw [h] at h1
  rw [h1] at h2
  exact absurd h2 (by decide)

/-- C11 as the code has it: after a forward call that returns `0`, if the call was made with
`use_reserved_0` set and was not sent to `InnerProduct`, the cache `record1` (`last_x`) is
the padded input of the call and is not empty, so a following bound-mode call takes the bound
branch; if `use_reserved_0` was cleared, or the call was sent to `InnerProduct`, the layer
and all its caches are as they were. -/
theorem C11_caches_after_forward {α : Type} [LinearOrderedField α] (sqrt exp : α → α)
    (ext : Externals α) (self : Convolution α) (bottom top : Mat α) (opt : Opt)
    (hret : (Convolution.forward sqrt exp ext self bottom top opt).1 = 0) :
    (self.is_flattened bottom = false → opt.use_reserved_0 = true →
      (Convolution.forward sqrt exp ext self bottom top opt).2.2.record1
        = self.make_padding ext bottom ∧
      ¬ (Convolution.forward sqrt exp ext self bottom top opt).2.2.record1.total ≤ 0) ∧
    (self.is_flattened bottom = true ∨ opt.use_reserved_0 = false →
      (Convolution.forward sqrt exp ext self bottom top opt).2.2 = self) := by
  constructor
  · intro hnf hopt
    have hne := (forward_ok_nonempty sqrt exp ext self bottom top opt hnf hret).1
    have ho : opt = ⟨true⟩ := by
      cases opt
      simp only at hopt
      rw [hopt]
    rw [ho] at hret ⊢
    rw [forward_bound_eq sqrt exp ext self bottom top hnf hret]
    simp only
    rw [mlsys_last_x]
    refine ⟨rfl, ?_⟩
    unfold Mat.empty at hne
    intro hle
    have h0 : (self.make_padding ext bottom).total = 0 := Nat.le_zero.mp hle
    rw [h0] at hne
    exact absurd hne (by decide)
  · intro h
    rcases forward_layer sqrt exp ext self bottom top opt with h1 | h1
    · exact h1
    · rcases h with h | h
      · rw [h] at h1
        exact absurd h1.1.1 (by decide)
      · rw [h] at h1
        exact absurd h1.1.2.1 (by decide)

/-- Witness of the amended C11 on scenario S1: the first bound-mode forward call. -/
theorem C11_caches_after_forward_witness :
    (Convolution.forward Real.sqrt Real.exp (scenario_ext [1]) s1_layer s1_input s1_top
      ⟨true⟩).1 = 0 ∧
    ((Convolution.forward Real.sqrt Real.exp (scenario_ext [1]) s1_layer s1_input s1_top
        ⟨true⟩).2.2.record1
      = (s1_layer : Convolution ℝ).make_padding (scenario_ext [1]) s1_input ∧
    ¬ (Convolution.forward Real.sqrt Real.exp (scenario_ext [1]) s1_layer s1_input s1_top
      ⟨true⟩).2.2.record1.total ≤ 0) :=
  ⟨by decide,
    (C11_caches_after_forward Real.sqrt Real.exp (scenario_ext [1]) s1_layer s1_input s1_top
      ⟨true⟩ (by decide)).1 (by decide) rfl⟩

/-- C14 fails as stated: the layer with a `2 x 1` kernel gets a `1 x 1` input, the computed
`outw` is `0`, and the forward call returns `-100`, not `0`. -/
theorem C14_empty_output_counterexample :
    (wide_layer : Convolution ℝ).is_flattened unit_input = false ∧
    ((wide_layer : Convolution ℝ).make_padding (scenario_ext [1, 1]) unit_input).empty = false ∧
    (wide_layer : Convolution ℝ).outw
      ((wide_layer : Convolution ℝ).make_padding (scenario_ext [1, 1]) unit_input) = 0 ∧
    (Convolution.forward Real.sqrt Real.exp (scenario_ext [1, 1]) wide_layer unit_input s1_top
      ⟨true⟩).1 = -100 ∧
    (Convolution.forward Real.sqrt Real.exp (scenario_ext [1, 1]) wide_layer unit_input s1_top
      ⟨false⟩).1 = -100 := by
  refine ⟨by decide, by decide, by decide, by decide, by decide⟩

/-- C14 as the code has it: when the computed output shape is empty (`outw = 0` or
`outh = 0`), a forward call that is not sent to `InnerProduct` returns `-100` and leaves the
layer, and so every cache, unchanged. -/
theorem C14_empty_output_fails {α : Type} [LinearOrderedField α] (sqrt exp : α → α)
    (ext : Externals α) (self : Convolution α) (bottom top : Mat α) (opt : Opt)
    (hnf : self.is_flattened bottom = false)
    (hout : self.outw (self.make_padding ext bottom) = 0 ∨
      self.outh (self.make_padding ext bottom) = 0) :
    (Convolution.forward sqrt exp ext self bottom top opt).1 = -100 ∧
    (Convolution.forward sqrt exp ext self bottom top opt).2.2 = self := by
  have h := forward_fail sqrt exp ext self bottom top opt hnf
    (Or.inr (create_top_empty self _ top hout))
  rw [h]
  exact ⟨rfl, rfl⟩

/-- Witness of the amended C14: the layer with a `2 x 1` kernel on a `1 x 1` input. -/
theorem C14_empty_output_fails_witness :
    (wide_layer : Convolution ℝ).is_flattened unit_input = false ∧
    ((wide_layer : Convolution ℝ).outw
        ((wide_layer : Convolution ℝ).make_padding (scenario_ext [1, 1]) unit_input) = 0 ∨
      (wide_layer : Convolution ℝ).outh
        ((wide_layer : Convolution ℝ).make_padding (scenario_ext [1, 1]) unit_input) = 0) ∧
    (Convolution.forward Real.sqrt Real.exp (scenario_ext [1, 1]) wide_layer unit_input s1_top
      ⟨true⟩).1 = -100 ∧
    (Convolution.forward Real.sqrt Real.exp (scenario_ext [1, 1]) wide_layer unit_input s1_top
      ⟨true⟩).2.2 = wide_layer :=
  ⟨by decide, Or.inl (by decide),
    C14_empty_output_fails Real.sqrt Real.exp (scenario_ext [1, 1]) wide_layer unit_input s1_top
      ⟨true⟩ (by decide) (Or.inl (by decide))⟩

/-- C15 fails as stated: with `weight_data_size = 2` where `num_output * C_in * kernel_w *
kernel_h = 1`, `load_param` and `load_model` return `0` and the forward calls on the
one-channel input `[[1, -2, 3]]` return `0`, in bound mode and in exact mode. -/
theorem C15_weight_size_counterexample :
    (oversized_layer : Convolution ℝ).weight_data_size = 2 ∧
    (oversized_layer : Convolution ℝ).num_output * (s1_input : Mat ℝ).c
      * (oversized_layer : Convolution ℝ).kernel_w * (oversized_layer : Convolution ℝ).kernel_h
      = 1 ∧
    (Convolution.load_param (Convolution.blank : Convolution ℝ) oversized_params).1 = 0 ∧
    (Convolution.load_model (scenario_ext [1, 1])
      (Convolution.load_param (Convolution.blank : Convolution ℝ) oversized_params).2).1 = 0 ∧
    (Convolution.forward Real.sqrt Real.exp (scenario_ext [1, 1]) oversized_layer s1_input
      s1_top ⟨true⟩).1 = 0 ∧
    (Convolution.forward Real.sqrt Real.exp (scenario_ext [1, 1]) oversized_layer s1_input
      s1_top ⟨false⟩).1 = 0 := by
  refine ⟨by decide, by decide, by decide, by decide, by decide, by decide⟩

/-- C15 as the code has it: the size of the weights is never checked.  The status of
`load_param` depends on the `int8_scale_term` entry only, the status of `load_model` and of
`forward` is `0` or `-100`, never `-1`, and a forward call that is not sent to `InnerProduct`
and whose padded input and created output are not empty returns `0` and the output of the
kernel run on the weights (`mlsys_convolution` with `use_reserved_0`, else
`raw_convolution`), whatever `weight_data_size` is. -/
theorem C15_no_weight_size_check {α : Type} [LinearOrderedField α] (sqrt exp : α → α)
    (ext : Externals α) (self : Convolution α) (pd : ParamDict α) (bottom top : Mat α)
    (opt : Opt) (hnf : self.is_flattened bottom = false)
    (hpad : (self.make_padding ext bottom).empty = false)
    (htop : (self.create_top (self.make_padding ext bottom) top).empty = false) :
    (Convolution.load_param self pd).1 = (if pd.get_int 8 0 ≠ 0 then -1 else 0) ∧
    ((Convolution.load_model ext self).1 = 0 ∨ (Convolution.load_model ext self).1 = -100) ∧
    (∀ (b t : Mat α) (o : Opt), (Convolution.forward sqrt exp ext self b t o).1 = 0 ∨
      (Convolution.forward sqrt exp ext self b t o).1 = -100) ∧
    (Convolution.forward sqrt exp ext self bottom top opt).1 = 0 ∧
    (Convolution.forward sqrt exp ext self bottom top opt).2.1
      = (if opt.use_reserved_0 = true then
          (mlsys_convolution sqrt exp (self.make_padding ext bottom)
            (self.create_top (self.make_padding ext bottom) top) self.args
            self.record1 self.record2 self.record3).out_y
        else raw_convolution exp (self.make_padding ext bottom)
          (self.create_top (self.make_padding ext bottom) top) self.args) :=
  ⟨load_param_status self pd, load_model_status ext self,
    fun b t o => forward_status sqrt exp ext self b t o,
    forward_ok sqrt exp ext self bottom top opt hnf hpad htop⟩

/-- Witness of the amended C15: the layer whose `weight_data_size` is `2` on the
one-channel input `[[1, -2, 3]]`, in exact mode. -/
theorem C15_no_weight_size_check_witness :
    (oversized_layer : Convolution ℝ).is_flattened s1_input = false ∧
    ((oversized_layer : Convolution ℝ).make_padding (scenario_ext [1, 1]) s1_input).empty
      = false ∧
    ((oversized_layer : Convolution ℝ).create_top
      ((oversized_layer : Convolution ℝ).make_padding (scenario_ext [1, 1]) s1_input)
      s1_top).empty = false ∧
    (Convolution.forward Real.sqrt Real.exp (scenario_ext [1, 1]) oversized_layer s1_input
      s1_top ⟨false⟩).1 = 0 :=
  ⟨by decide, by decide, by decide,
    (C15_no_weight_size_check Real.sqrt Real.exp (scenario_ext [1, 1]) oversized_layer
      oversized_params s1_input s1_top ⟨false⟩ (by decide) (by decide) (by decide)).2.2.2.1⟩

/-- C16: a failed padding or output creation leaves caches and output untouched.  If
`make_padding` yields an empty padded tensor, `forward` returns `-100`, the layer (and so
every cache) is as it was and `top_blob` is as it was; if the created `top_blob` is empty,
`forward` returns `-100`, the layer is as it was, and `top_blob` is the created empty blob,
no element of its storage being written.  The calls are those that reach `make_padding`,
that is, are not sent to `InnerProduct`. -/
theorem C16_failure_leaves_state {α : Type} [LinearOrderedField α] (sqrt exp : α → α)
    (ext : Externals α) (self : Convolution α) (bottom top : Mat α) (opt : Opt)
    (hnf : self.is_flattened bottom = false)
    (hfail : (self.make_padding ext bottom).empty = true ∨
      (self.create_top (self.make_padding ext bottom) top).empty = true) :
    (Convolution.forward sqrt exp ext self bottom top opt).1 = -100 ∧
    (Convolution.forward sqrt exp ext self bottom top opt).2.2 = self ∧
    (Convolution.forward sqrt exp ext self bottom top opt).2.1.data = top.data ∧
    ((self.make_padding ext bottom).empty = true →
      (Convolution.forward sqrt exp ext self bottom top opt).2.1 = top) ∧
    ((self.make_padding ext bottom).empty = false →
      (Convolution.forward sqrt exp ext self bottom top opt).2.1
          = self.create_top (self.make_padding ext bottom) top ∧
        (Convolution.forward sqrt exp ext self bottom top opt).2.1.empty = true) := by
  rw [forward_fail sqrt exp ext self bottom top opt hnf hfail]
  refine ⟨rfl, rfl, ?_, ?_, ?_⟩
  · simp only
    split_ifs
    · rfl
    · rfl
  · intro h
    simp only [h, if_true]
  · intro h
    simp only [h, Bool.false_eq_true, if_false]
    rcases hfail with h1 | h1
    · rw [h] at h1
      exact absurd h1 (by decide)
    · exact ⟨trivial, h1⟩

/-- Witness of C16: the layer with a `2 x 1` kernel on a `1 x 1` input, whose created
output is empty. -/
theorem C16_failure_leaves_state_witness :
    (wide_layer : Convolution ℝ).is_flattened unit_input = false ∧
    ((wide_layer : Convolution ℝ).create_top
      ((wide_layer : Convolution ℝ).make_padding (scenario_ext [1, 1]) unit_input)
      s1_top).empty = true ∧
    (Convolution.forward Real.sqrt Real.exp (scenario_ext [1, 1]) wide_layer unit_input s1_top
      ⟨true⟩).1 = -100 ∧
    (Convolution.forward Real.sqrt Real.exp (scenario_ext [1, 1]) wide_layer unit_input s1_top
      ⟨true⟩).2.2 = wide_layer ∧
    (Convolution.forward Real.sqrt Real.exp (scenario_ext [1, 1]) wide_layer unit_input s1_top
      ⟨true⟩).2.1.data = (s1_top : Mat ℝ).data :=
  ⟨by decide, by decide,
    (C16_failure_leaves_state Real.sqrt Real.exp (scenario_ext [1, 1]) wide_layer unit_input
      s1_top ⟨true⟩ (by decide) (Or.inr (by decide))).1,
    (C16_failure_leaves_state Real.sqrt Real.exp (scenario_ext [1, 1]) wide_layer unit_input
      s1_top ⟨true⟩ (by decide) (Or.inr (by decide))).2.1,
    (C16_failure_leaves_state Real.sqrt Real.exp (scenario_ext [1, 1]) wide_layer unit_input
      s1_top ⟨true⟩ (by decide) (Or.inr (by decide))).2.2.1⟩

/-- C12: replaying an input is idempotent in temporal mode.  After a call of
`mlsys_convolution` on a non-empty input `x`, made from caches in any state, a further call
on `x` (with an output blob of the same extents) leaves `last_x` and every cached value
`last_y[k, i, j]` unchanged in exact real arithmetic and, with ReLU, writes the same output
at every position; in scenario S1 the first call and the replay both write `[[1, 0, 3]]`. -/
theorem C12_replay_idempotent (a : ConvArgs ℝ) (x out out2 lx ly wn : Mat ℝ)
    (hx : ¬ x.total ≤ 0) (hd : out2.w = out.w ∧ out2.h = out.h ∧ out2.c = out.c) :
    ((mlsys_convolution Real.sqrt Real.exp x out2 a
          (mlsys_convolution Real.sqrt Real.exp x out a lx ly wn).last_x
          (mlsys_convolution Real.sqrt Real.exp x out a lx ly wn).last_y
          (mlsys_convolution Real.sqrt Real.exp x out a lx ly wn).w_norm2).last_x
        = (mlsys_convolution Real.sqrt Real.exp x out a lx ly wn).last_x ∧
      ∀ i j k, i < out.h → j < out.w → k < out.c →
        (mlsys_convolution Real.sqrt Real.exp x out2 a
            (mlsys_convolution Real.sqrt Real.exp x out a lx ly wn).last_x
            (mlsys_convolution Real.sqrt Real.exp x out a lx ly wn).last_y
            (mlsys_convolution Real.sqrt Real.exp x out a lx ly wn).w_norm2).last_y.data k
            (out_pos out.w i j)
          = (mlsys_convolution Real.sqrt Real.exp x out a lx ly wn).last_y.data k
              (out_pos out.w i j) ∧
        (a.activation_type = 1 →
          (mlsys_convolution Real.sqrt Real.exp x out2 a
              (mlsys_convolution Real.sqrt Real.exp x out a lx ly wn).last_x
              (mlsys_convolution Real.sqrt Real.exp x out a lx ly wn).last_y
              (mlsys_convolution Real.sqrt Real.exp x out a lx ly wn).w_norm2).out_y.data k
              (out_pos out.w i j)
            = (mlsys_convolution Real.sqrt Real.exp x out a lx ly wn).out_y.data k
                (out_pos out.w i j))) ∧
    ((mlsys_convolution Real.sqrt Real.exp s1_input s1_top (s1_args : ConvArgs ℝ) Mat.nil
        Mat.nil Mat.nil).out_y.data 0 (out_pos 3 0 0) = 1 ∧
      (mlsys_convolution Real.sqrt Real.exp s1_input s1_top (s1_args : ConvArgs ℝ) Mat.nil
        Mat.nil Mat.nil).out_y.data 0 (out_pos 3 0 1) = 0 ∧
      (mlsys_convolution Real.sqrt Real.exp s1_input s1_top (s1_args : ConvArgs ℝ) Mat.nil
        Mat.nil Mat.nil).out_y.data 0 (out_pos 3 0 2) = 3) ∧
    ((mlsys_after Real.sqrt Real.exp (s1_args : ConvArgs ℝ) (Mat.nil, Mat.nil, Mat.nil)
        [(s1_input, s1_top)] s1_input s1_top).out_y.data 0 (out_pos 3 0 0) = 1 ∧
      (mlsys_after Real.sqrt Real.exp (s1_args : ConvArgs ℝ) (Mat.nil, Mat.nil, Mat.nil)
        [(s1_input, s1_top)] s1_input s1_top).out_y.data 0 (out_pos 3 0 1) = 0 ∧
      (mlsys_after Real.sqrt Real.exp (s1_args : ConvArgs ℝ) (Mat.nil, Mat.nil, Mat.nil)
        [(s1_input, s1_top)] s1_input s1_top).out_y.data 0 (out_pos 3 0 2) = 3) := by
  refine ⟨mlsys_replay_same Real.sqrt Real.exp Real.sqrt_zero x out out2 a lx ly wn hx hd,
    s1_first_call.1, ?_⟩
  have h := (mlsys_replay_same Real.sqrt Real.exp Real.sqrt_zero s1_input s1_top s1_top
    (s1_args : ConvArgs ℝ) Mat.nil Mat.nil Mat.nil (by decide) ⟨rfl, rfl, rfl⟩).2
  have h0 := (h 0 0 0 (by decide) (by decide) (by decide)).2 rfl
  have h1 := (h 0 1 0 (by decide) (by decide) (by decide)).2 rfl
  have h2 := (h 0 2 0 (by decide) (by decide) (by decide)).2 rfl
  exact ⟨h0.trans s1_first_call.1.1, h1.trans s1_first_call.1.2.1,
    h2.trans s1_first_call.1.2.2⟩

/-- Witness of C12 on scenario S1: the replay of `[[1, -2, 3]]` after the first call. -/
theorem C12_replay_idempotent_witness :
    ¬ (s1_input : Mat ℝ).total ≤ 0 ∧
    ((s1_top : Mat ℝ).w = (s1_top : Mat ℝ).w ∧ (s1_top : Mat ℝ).h = (s1_top : Mat ℝ).h ∧
      (s1_top : Mat ℝ).c = (s1_top : Mat ℝ).c) ∧
    (mlsys_convolution Real.sqrt Real.exp s1_input s1_top (s1_args : ConvArgs ℝ)
        (mlsys_convolution Real.sqrt Real.exp s1_input s1_top (s1_args : ConvArgs ℝ) Mat.nil
          Mat.nil Mat.nil).last_x
        (mlsys_convolution Real.sqrt Real.exp s1_input s1_top (s1_args : ConvArgs ℝ) Mat.nil
          Mat.nil Mat.nil).last_y
        (mlsys_convolution Real.sqrt Real.exp s1_input s1_top (s1_args : ConvArgs ℝ) Mat.nil
          Mat.nil Mat.nil).w_norm2).last_x
      = (mlsys_convolution Real.sqrt Real.exp s1_input s1_top (s1_args : ConvArgs ℝ) Mat.nil
          Mat.nil Mat.nil).last_x :=
  ⟨by decide, ⟨rfl, rfl, rfl⟩,
    (C12_replay_idempotent s1_args s1_input s1_top s1_top Mat.nil Mat.nil Mat.nil (by decide)
      ⟨rfl, rfl, rfl⟩).1.1⟩

/-- C13 fails as stated: in scenario S1 the second call receives the input of the first
call, the temporal delta is `0` at every position, and the skip test fails at the positions
`(0, 0, 0)` and `(0, 0, 2)`, whose cached values are `1` and `3`: they take the exact
branch. -/
theorem C13_replay_counterexample :
    (mlsys_caches Real.sqrt Real.exp (s1_args : ConvArgs ℝ) (Mat.nil, Mat.nil, Mat.nil)
      [(s1_input, s1_top)]).1 = s1_input ∧
    ¬ mlsys_skips Real.sqrt (s1_args : ConvArgs ℝ) s1_input
      (mlsys_caches Real.sqrt Real.exp (s1_args : ConvArgs ℝ) (Mat.nil, Mat.nil, Mat.nil)
        [(s1_input, s1_top)]).1
      (mlsys_caches Real.sqrt Real.exp (s1_args : ConvArgs ℝ) (Mat.nil, Mat.nil, Mat.nil)
        [(s1_input, s1_top)]).2.2 0 0 0
      ((mlsys_caches Real.sqrt Real.exp (s1_args : ConvArgs ℝ) (Mat.nil, Mat.nil, Mat.nil)
        [(s1_input, s1_top)]).2.1.data 0 (out_pos 3 0 0)) ∧
    ¬ mlsys_skips Real.sqrt (s1_args : ConvArgs ℝ) s1_input
      (mlsys_caches Real.sqrt Real.exp (s1_args : ConvArgs ℝ) (Mat.nil, Mat.nil, Mat.nil)
        [(s1_input, s1_top)]).1
      (mlsys_caches Real.sqrt Real.exp (s1_args : ConvArgs ℝ) (Mat.nil, Mat.nil, Mat.nil)
        [(s1_input, s1_top)]).2.2 0 2 0
      ((mlsys_caches Real.sqrt Real.exp (s1_args : ConvArgs ℝ) (Mat.nil, Mat.nil, Mat.nil)
        [(s1_input, s1_top)]).2.1.data 0 (out_pos 3 0 2)) := by
  have hx : (mlsys_caches Real.sqrt Real.exp (s1_args : ConvArgs ℝ) (Mat.nil, Mat.nil, Mat.nil)
      [(s1_input, s1_top)]).1 = s1_input :=
    mlsys_last_x Real.sqrt Real.exp s1_input s1_top s1_args Mat.nil Mat.nil Mat.nil
  have hy0 : (mlsys_caches Real.sqrt Real.exp (s1_args : ConvArgs ℝ) (Mat.nil, Mat.nil, Mat.nil)
      [(s1_input, s1_top)]).2.1.data 0 (out_pos 3 0 0) = 1 := s1_first_call.2.1
  have hy2 : (mlsys_caches Real.sqrt Real.exp (s1_args : ConvArgs ℝ) (Mat.nil, Mat.nil, Mat.nil)
      [(s1_input, s1_top)]).2.1.data 0 (out_pos 3 0 2) = 3 := s1_first_call.2.2.2
  refine ⟨hx, ?_, ?_⟩
  · rw [hx, hy0, mlsys_skips_replay Real.sqrt Real.sqrt_zero, s1_exact_y.1]
    norm_num
  · rw [hx, hy2, mlsys_skips_replay Real.sqrt Real.sqrt_zero, s1_exact_y.1]
    norm_num

/-- C13 as the code has it: when a call of `mlsys_convolution`, after any sequence of
same-shaped calls from empty caches, is followed by a call on the same input, so that the
temporal delta is `0` at every position, the second call passes the skip test exactly at the
positions whose exact pre-activation is non-positive, and takes the exact branch at every
other position. -/
theorem C13_replay_skips_nonpositive (a : ConvArgs ℝ) (calls : List (Mat ℝ × Mat ℝ))
    (x out last_x last_y w_norm2 : Mat ℝ) (hempty : last_x.total = 0)
    (hshape : same_shapes calls x out) :
    ∀ i j k, i < out.h → j < out.w → k < out.c →
      (mlsys_skips Real.sqrt a x
          (mlsys_after Real.sqrt Real.exp a (last_x, last_y, w_norm2) calls x out).last_x
          (mlsys_after Real.sqrt Real.exp a (last_x, last_y, w_norm2) calls x out).w_norm2 i j k
          ((mlsys_after Real.sqrt Real.exp a (last_x, last_y, w_norm2) calls x out).last_y.data k
            (out_pos out.w i j))
        ↔ exact_y a x i j k ≤ 0) := by
  have hgood := mlsys_run_good Real.exp a x.w x.c out.w out.h out.c calls
    (fun c hc => ⟨(hshape c hc).1, (hshape c hc).2.2.1, (hshape c hc).2.2.2⟩)
    (last_x, last_y, w_norm2) (Or.inl (Nat.le_of_eq hempty))
  have h := mlsys_call_sound Real.exp a x out _ hgood
  simp only at h
  obtain ⟨_, _, hp⟩ := h
  intro i j k hi hj hk
  have hlx : (mlsys_after Real.sqrt Real.exp a (last_x, last_y, w_norm2) calls x out).last_x = x :=
    mlsys_last_x Real.sqrt Real.exp x out a _ _ _
  have hb : conv_sum a x i j k
      ≤ (mlsys_after Real.sqrt Real.exp a (last_x, last_y, w_norm2) calls x out).last_y.data k
          (out_pos out.w i j) := by
    by_cases ht : mlsys_takes_exact Real.sqrt a x
        (mlsys_caches Real.sqrt Real.exp a (last_x, last_y, w_norm2) calls).1
        (mlsys_caches Real.sqrt Real.exp a (last_x, last_y, w_norm2) calls).2.1
        (mlsys_caches Real.sqrt Real.exp a (last_x, last_y, w_norm2) calls).2.2 out.w i j k
    · exact le_of_eq ((hp i j k hi hj hk).1 ht).2.symm
    · exact ((hp i j k hi hj hk).2 ht).2.2
  have hc := mlsys_call_cases Real.sqrt Real.exp x out a
    (mlsys_caches Real.sqrt Real.exp a (last_x, last_y, w_norm2) calls).1
    (mlsys_caches Real.sqrt Real.exp a (last_x, last_y, w_norm2) calls).2.1
    (mlsys_caches Real.sqrt Real.exp a (last_x, last_y, w_norm2) calls).2.2 i j k hi hj hk
  rw [hlx, mlsys_skips_replay Real.sqrt Real.sqrt_zero, exact_y_eq]
  constructor
  · intro hv
    linarith
  · intro hv
    rcases hc with hc | hc
    · have e : (mlsys_after Real.sqrt Real.exp a (last_x, last_y, w_norm2) calls x
          out).last_y.data k (out_pos out.w i j) = conv_sum a x i j k := hc.2
      rw [e]
      linarith
    · exact hc.2

/-- Witness of the amended C13 on scenario S1: the replay after the first call passes the
skip test at position `(0, 0, 1)`, whose exact pre-activation is `-2`. -/
theorem C13_replay_skips_nonpositive_witness :
    (Mat.nil : Mat ℝ).total = 0 ∧
    same_shapes ([] : List (Mat ℝ × Mat ℝ)) (s1_input : Mat ℝ) (s1_top : Mat ℝ) ∧
    (mlsys_skips Real.sqrt (s1_args : ConvArgs ℝ) s1_input
        (mlsys_after Real.sqrt Real.exp s1_args (Mat.nil, Mat.nil, Mat.nil) [] s1_input
          s1_top).last_x
        (mlsys_after Real.sqrt Real.exp s1_args (Mat.nil, Mat.nil, Mat.nil) [] s1_input
          s1_top).w_norm2 0 1 0
        ((mlsys_after Real.sqrt Real.exp s1_args (Mat.nil, Mat.nil, Mat.nil) [] s1_input
          s1_top).last_y.data 0 (out_pos (s1_top : Mat ℝ).w 0 1))
      ↔ exact_y (s1_args : ConvArgs ℝ) s1_input 0 1 0 ≤ 0) :=
  ⟨rfl, fun c hc => absurd hc (List.not_mem_nil c),
    C13_replay_skips_nonpositive s1_args [] s1_input s1_top Mat.nil Mat.nil Mat.nil rfl
      (fun c hc => absurd hc (List.not_mem_nil c)) 0 1 0 (by decide) (by decide) (by decide)⟩

/-- C17 fails as stated: after the first bound-mode forward call of scenario S1,
`load_model` installs the new weight `[2]` and leaves the cache `record1` (`last_x`) holding
the input of that call, so the cached state is not empty and a following bound-mode call
takes the bound branch. -/
theorem C17_reload_counterexample :
    (Convolution.load_model (scenario_ext [2])
      (forward_state Real.sqrt Real.exp (scenario_ext [1]) (s1_layer : Convolution ℝ)
        [(s1_input, s1_top, ⟨true⟩)])).1 = 0 ∧
    (Convolution.load_model (scenario_ext [2])
      (forward_state Real.sqrt Real.exp (scenario_ext [1]) (s1_layer : Convolution ℝ)
        [(s1_input, s1_top, ⟨true⟩)])).2.weight_data = Mat.of_list [2] ∧
    (Convolution.load_model (scenario_ext [2])
      (forward_state Real.sqrt Real.exp (scenario_ext [1]) (s1_layer : Convolution ℝ)
        [(s1_input, s1_top, ⟨true⟩)])).2.record1 = s1_input ∧
    ¬ (Convolution.load_model (scenario_ext [2])
      (forward_state Real.sqrt Real.exp (scenario_ext [1]) (s1_layer : Convolution ℝ)
        [(s1_input, s1_top, ⟨true⟩)])).2.record1.total ≤ 0 := by
  refine ⟨by decide, rfl, rfl, by decide⟩

/-- C17 as the code has it: the caches are cleared by `load_param`, not by `load_model`.
The method `load_model` leaves `record1` (`last_x`), `record2` (`last_y`) and `record3`
(`w_norm2`) of any layer as they were; after `load_param` followed by `load_model` the three
caches are empty, and a following bound-mode forward call that returns `0` (and is not sent
to `InnerProduct`) takes the first-call branch: it caches the padded input, recomputes
`w_norm2[k]` as the norm of filter `k` of the installed weights, and writes the output of the
exact operator. -/
theorem C17_caches_cleared_by_load_param {α : Type} [LinearOrderedField α] (sqrt exp : α → α)
    (ext : Externals α) (self : Convolution α) (pd : ParamDict α) (bottom top : Mat α)
    (hnf : (Convolution.loaded ext self pd).is_flattened bottom = false)
    (hret : (Convolution.forward sqrt exp ext (Convolution.loaded ext self pd) bottom top
      ⟨true⟩).1 = 0) :
    (∀ (ext2 : Externals α) (old : Convolution α),
      (Convolution.load_model ext2 old).2.record1 = old.record1 ∧
      (Convolution.load_model ext2 old).2.record2 = old.record2 ∧
      (Convolution.load_model ext2 old).2.record3 = old.record3) ∧
    ((Convolution.loaded ext self pd).record1 = Mat.nil ∧
      (Convolution.loaded ext self pd).record2 = Mat.nil ∧
      (Convolution.loaded ext self pd).record3 = Mat.nil) ∧
    (Convolution.forward sqrt exp ext (Convolution.loaded ext self pd) bottom top
        ⟨true⟩).2.2.record1 = (Convolution.loaded ext self pd).make_padding ext bottom ∧
    (∀ k, k < ((Convolution.loaded ext self pd).create_top
        ((Convolution.loaded ext self pd).make_padding ext bottom) top).c →
      (Convolution.forward sqrt exp ext (Convolution.loaded ext self pd) bottom top
          ⟨true⟩).2.2.record3.flat k
        = sqrt (weight_sq (Convolution.loaded ext self pd).args
            ((Convolution.loaded ext self pd).make_padding ext bottom).c k)) ∧
    (Convolution.forward sqrt exp ext (Convolution.loaded ext self pd) bottom top
        ⟨true⟩).2.1.same_tensor
      (raw_convolution exp ((Convolution.loaded ext self pd).make_padding ext bottom)
        ((Convolution.loaded ext self pd).create_top
          ((Convolution.loaded ext self pd).make_padding ext bottom) top)
        (Convolution.loaded ext self pd).args) := by
  have hlm := load_model_caches ext (Convolution.load_param self pd).2
  have hlp := load_param_caches self pd
  have hnil : (Convolution.loaded ext self pd).record1 = Mat.nil ∧
      (Convolution.loaded ext self pd).record2 = Mat.nil ∧
      (Convolution.loaded ext self pd).record3 = Mat.nil := by
    unfold Convolution.loaded
    exact ⟨hlm.1.trans hlp.1, hlm.2.1.trans hlp.2.1, hlm.2.2.1.trans hlp.2.2⟩
  have he : (Convolution.loaded ext self pd).record1.total ≤ 0 :=
    Nat.le_of_eq (loaded_record1_total ext self pd)
  have hf := forward_bound_eq sqrt exp ext (Convolution.loaded ext self pd) bottom top hnf hret
  have hs := mlsys_first_spec sqrt exp ((Convolution.loaded ext self pd).make_padding ext bottom)
    ((Convolution.loaded ext self pd).create_top
      ((Convolution.loaded ext self pd).make_padding ext bottom) top)
    (Convolution.loaded ext self pd).args (Convolution.loaded ext self pd).record1
    (Convolution.loaded ext self pd).record2 (Convolution.loaded ext self pd).record3 he
  simp only at hs
  obtain ⟨hx, hn, hd, hp⟩ := hs
  have hraw := raw_convolution_spec exp ((Convolution.loaded ext self pd).make_padding ext bottom)
    ((Convolution.loaded ext self pd).create_top
      ((Convolution.loaded ext self pd).make_padding ext bottom) top)
    (Convolution.loaded ext self pd).args
  refine ⟨fun ext2 old => ⟨(load_model_caches ext2 old).1, (load_model_caches ext2 old).2.1,
    (load_model_caches ext2 old).2.2.1⟩, hnil, ?_, ?_, ?_⟩
  · rw [hf]
    exact hx
  · intro k hk
    rw [hf]
    exact hn k hk
  · rw [hf]
    refine ⟨hd.1.trans hraw.1.1.symm, hd.2.1.trans hraw.1.2.1.symm,
      hd.2.2.trans hraw.1.2.2.symm, ?_⟩
    intro k i j hk hi hj
    simp only at hk hi hj ⊢
    rw [hd.1] at hj ⊢
    rw [hd.2.1] at hi
    rw [hd.2.2] at hk
    rw [hraw.2 i j k hi hj hk]
    exact (hp i j k hi hj hk).1

/-- Witness of the amended C17 on scenario S1: the first bound-mode forward call after
`load_param` and `load_model`. -/
theorem C17_caches_cleared_by_load_param_witness :
    (Convolution.loaded (scenario_ext [1]) (Convolution.blank : Convolution ℝ)
      s1_params).is_flattened s1_input = false ∧
    (Convolution.forward Real.sqrt Real.exp (scenario_ext [1])
      (Convolution.loaded (scenario_ext [1]) (Convolution.blank : Convolution ℝ) s1_params)
      s1_input s1_top ⟨true⟩).1 = 0 ∧
    (Convolution.forward Real.sqrt Real.exp (scenario_ext [1])
      (Convolution.loaded (scenario_ext [1]) (Convolution.blank : Convolution ℝ) s1_params)
      s1_input s1_top ⟨true⟩).2.2.record1
      = (Convolution.loaded (scenario_ext [1]) (Convolution.blank : Convolution ℝ)
          s1_params).make_padding (scenario_ext [1]) s1_input :=
  ⟨by decide, by decide,
    (C17_caches_cleared_by_load_param Real.sqrt Real.exp (scenario_ext [1]) Convolution.blank
      s1_params s1_input s1_top (by decide) (by decide)).2.2.1⟩

/-- C18: idempotence of initialization.  Let `A` be a layer in any state (after any history
of forward calls) and `B` any layer with the same weights and bias, such as a fresh one.
After `load_param` on both, a bound-mode forward call on `x` that returns `0` on `A` (and
is not sent to `InnerProduct`) also returns `0` on `B`, and both calls leave the same
`last_x`, the same `w_norm2[k]` for every output channel, the same `last_y` and the same
output at every position; with the same output blob the outputs and the three caches are
equal as blobs. -/
theorem C18_reinitialization {α : Type} [LinearOrderedField α] (sqrt exp : α → α)
    (ext : Externals α) (A B : Convolution α) (pd : ParamDict α) (x topA topB : Mat α)
    (hw : B.weight_data = A.weight_data) (hb : B.bias_data = A.bias_data)
    (hnf : (Convolution.load_param A pd).2.is_flattened x = false)
    (hret : (Convolution.forward sqrt exp ext (Convolution.load_param A pd).2 x topA
      ⟨true⟩).1 = 0) :
    (Convolution.forward sqrt exp ext (Convolution.load_param B pd).2 x topB ⟨true⟩).1 = 0 ∧
    (Convolution.forward sqrt exp ext (Convolution.load_param A pd).2 x topA ⟨true⟩).2.2.record1
      = (Convolution.forward sqrt exp ext (Convolution.load_param B pd).2 x topB
          ⟨true⟩).2.2.record1 ∧
    (∀ k, k < (Convolution.forward sqrt exp ext (Convolution.load_param A pd).2 x topA
        ⟨true⟩).2.1.c →
      (Convolution.forward sqrt exp ext (Convolution.load_param A pd).2 x topA
          ⟨true⟩).2.2.record3.flat k
        = (Convolution.forward sqrt exp ext (Convolution.load_param B pd).2 x topB
            ⟨true⟩).2.2.record3.flat k) ∧
    (Convolution.forward sqrt exp ext (Convolution.load_param A pd).2 x topA
        ⟨true⟩).2.1.same_tensor
      (Convolution.forward sqrt exp ext (Convolution.load_param B pd).2 x topB ⟨true⟩).2.1 ∧
    (∀ k i j, k < (Convolution.forward sqrt exp ext (Convolution.load_param A pd).2 x topA
        ⟨true⟩).2.1.c →
      i < (Convolution.forward sqrt exp ext (Convolution.load_param A pd).2 x topA
        ⟨true⟩).2.1.h →
      j < (Convolution.forward sqrt exp ext (Convolution.load_param A pd).2 x topA
        ⟨true⟩).2.1.w →
      (Convolution.forward sqrt exp ext (Convolution.load_param A pd).2 x topA
          ⟨true⟩).2.2.record2.data k
          (out_pos (Convolution.forward sqrt exp ext (Convolution.load_param A pd).2 x topA
            ⟨true⟩).2.1.w i j)
        = (Convolution.forward sqrt exp ext (Convolution.load_param B pd).2 x topB
            ⟨true⟩).2.2.record2.data k
            (out_pos (Convolution.forward sqrt exp ext (Convolution.load_param A pd).2 x topA
              ⟨true⟩).2.1.w i j)) ∧
    (topB = topA →
      (Convolution.forward sqrt exp ext (Convolution.load_param A pd).2 x topA ⟨true⟩).2.1
        = (Convolution.forward sqrt exp ext (Convolution.load_param B pd).2 x topB ⟨true⟩).2.1 ∧
      (Convolution.forward sqrt exp ext (Convolution.load_param A pd).2 x topA
          ⟨true⟩).2.2.record2
        = (Convolution.forward sqrt exp ext (Convolution.load_param B pd).2 x topB
            ⟨true⟩).2.2.record2 ∧
      (Convolution.forward sqrt exp ext (Convolution.load_param A pd).2 x topA
          ⟨true⟩).2.2.record3
        = (Convolution.forward sqrt exp ext (Convolution.load_param B pd).2 x topB
            ⟨true⟩).2.2.record3) := by
  obtain ⟨hfl, hpd, hct, hcw, hch, hcc, harg⟩ := load_param_same ext A B pd x
    ((Convolution.load_param A pd).2.make_padding ext x) topA topB
  have hargs := harg hw hb
  have hne := forward_ok_nonempty sqrt exp ext (Convolution.load_param A pd).2 x topA ⟨true⟩
    hnf hret
  have hnfB : (Convolution.load_param B pd).2.is_flattened x = false := by
    rw [← hfl]
    exact hnf
  have hemp : ∀ t : Mat α, ((Convolution.load_param B pd).2.create_top
      ((Convolution.load_param A pd).2.make_padding ext x) t).empty = false := by
    intro t
    have h1 := hne.2
    have h2 := (load_param_same ext A B pd x
      ((Convolution.load_param A pd).2.make_padding ext x) topA t).2.2.2
    unfold Mat.empty Mat.total at h1 ⊢
    rw [← h2.1, ← h2.2.1, ← h2.2.2.1]
    exact h1
  have hokB := forward_ok sqrt exp ext (Convolution.load_param B pd).2 x topB ⟨true⟩ hnfB
    (by rw [← hpd]; exact hne.1) (by rw [← hpd]; exact hemp topB)
  have hfA := forward_bound_eq sqrt exp ext (Convolution.load_param A pd).2 x topA hnf hret
  have hfB := forward_bound_eq sqrt exp ext (Convolution.load_param B pd).2 x topB hnfB hokB.1
  have hcA := load_param_caches A pd
  have hcB := load_param_caches B pd
  rw [hfA, hfB]
  simp only
  rw [← hpd, ← hargs, hcA.1, hcA.2.1, hcA.2.2, hcB.1, hcB.2.1, hcB.2.2]
  have he : (Mat.nil : Mat α).total ≤ 0 := Nat.le_refl 0
  have hsA := mlsys_first_spec sqrt exp ((Convolution.load_param A pd).2.make_padding ext x)
    ((Convolution.load_param A pd).2.create_top
      ((Convolution.load_param A pd).2.make_padding ext x) topA)
    (Convolution.load_param A pd).2.args Mat.nil Mat.nil Mat.nil he
  have hsB := mlsys_first_spec sqrt exp ((Convolution.load_param A pd).2.make_padding ext x)
    ((Convolution.load_param B pd).2.create_top
      ((Convolution.load_param A pd).2.make_padding ext x) topB)
    (Convolution.load_param A pd).2.args Mat.nil Mat.nil Mat.nil he
  simp only at hsA hsB
  obtain ⟨hxA, hnA, hdA, hpA⟩ := hsA
  obtain ⟨hxB, hnB, hdB, hpB⟩ := hsB
  refine ⟨trivial, hxA.trans hxB.symm, ?_, ?_, ?_, ?_⟩
  · intro k hk
    rw [hdA.2.2] at hk
    rw [hnA k hk, hnB k (by rw [← hcc]; exact hk)]
  · refine ⟨hdA.1.trans (hcw.trans hdB.1.symm), hdA.2.1.trans (hch.trans hdB.2.1.symm),
      hdA.2.2.trans (hcc.trans hdB.2.2.symm), ?_⟩
    intro k i j hk hi hj
    rw [hdA.1] at hj ⊢
    rw [hdA.2.1] at hi
    rw [hdA.2.2] at hk
    rw [(hpA i j k hi hj hk).1]
    have h := (hpB i j k (by rw [← hch]; exact hi) (by rw [← hcw]; exact hj)
      (by rw [← hcc]; exact hk)).1
    rw [← hcw] at h
    rw [h]
  · intro k i j hk hi hj
    rw [hdA.1] at hj ⊢
    rw [hdA.2.1] at hi
    rw [hdA.2.2] at hk
    rw [(hpA i j k hi hj hk).2]
    have h := (hpB i j k (by rw [← hch]; exact hi) (by rw [← hcw]; exact hj)
      (by rw [← hcc]; exact hk)).2
    rw [← hcw] at h
    rw [h]
  · intro ht
    subst ht
    rw [hct]
    exact ⟨rfl, rfl, rfl⟩

/-- Witness of C18 on scenario S1: the layer left by two bound-mode forward calls against
the fresh layer, both after `load_param`. -/
theorem C18_reinitialization_witness :
    (s1_layer : Convolution ℝ).weight_data
      = (forward_state Real.sqrt Real.exp (scenario_ext [1]) (s1_layer : Convolution ℝ)
          [(s1_input, s1_top, ⟨true⟩), (s1_input, s1_top, ⟨true⟩)]).weight_data ∧
    (s1_layer : Convolution ℝ).bias_data
      = (forward_state Real.sqrt Real.exp (scenario_ext [1]) (s1_layer : Convolution ℝ)
          [(s1_input, s1_top, ⟨true⟩), (s1_input, s1_top, ⟨true⟩)]).bias_data ∧
    (Convolution.load_param
      (forward_state Real.sqrt Real.exp (scenario_ext [1]) (s1_layer : Convolution ℝ)
        [(s1_input, s1_top, ⟨true⟩), (s1_input, s1_top, ⟨true⟩)])
      s1_params).2.is_flattened s1_input = false ∧
    (Convolution.forward Real.sqrt Real.exp (scenario_ext [1])
      (Convolution.load_param
        (forward_state Real.sqrt Real.exp (scenario_ext [1]) (s1_layer : Convolution ℝ)
          [(s1_input, s1_top, ⟨true⟩), (s1_input, s1_top, ⟨true⟩)]) s1_params).2
      s1_input s1_top ⟨true⟩).1 = 0 ∧
    (Convolution.forward Real.sqrt Real.exp (scenario_ext [1])
      (Convolution.load_param (s1_layer : Convolution ℝ) s1_params).2 s1_input s1_top
      ⟨true⟩).1 = 0 :=
  ⟨rfl, rfl, by decide, by decide,
    (C18_reinitialization Real.sqrt Real.exp (scenario_ext [1])
      (forward_state Real.sqrt Real.exp (scenario_ext [1]) (s1_layer : Convolution ℝ)
        [(s1_input, s1_top, ⟨true⟩), (s1_input, s1_top, ⟨true⟩)])
      s1_layer s1_params s1_input s1_top s1_top rfl rfl (by decide) (by decide)).1⟩

/-- C19: the weight norm cache of the lower-bound kernels.  After the first call (empty
caches) of `temporal_spatial_convolution_lower_bound` and of
`spatial_convolution_lower_bound_first_one`, for every output channel `k`,
`w_norm[k] = sqrt(sum_q sum_t W[k,q,t]^2)` and
`w_norm_lower[k] = sqrt(sum_q sum_t W[k,q,t]^2 - W[k,0,0]^2)`; for a filter with at least
one weight the radicand is non-negative and `w_norm[k]^2 = w_norm_lower[k]^2 + W[k,0,0]^2`. -/
theorem C19_weight_norm_cache (a : ConvArgs ℝ)
    (x top last_x last_y w_norm2 col row w_norm2_lower : Mat ℝ)
    (he : last_x.total ≤ 0) (hw : w_norm2.total ≤ 0) :
    ∀ k, k < top.c →
      ((temporal_spatial_convolution_lower_bound Real.sqrt Real.exp x top a last_x last_y w_norm2
            col row w_norm2_lower).w_norm2.flat k = Real.sqrt (weight_sq a x.c k) ∧
        (temporal_spatial_convolution_lower_bound Real.sqrt Real.exp x top a last_x last_y w_norm2
            col row w_norm2_lower).w_norm2_lower.flat k
          = Real.sqrt (weight_sq a x.c k - a.weight x.c k 0 0 ^ 2) ∧
        (spatial_convolution_lower_bound_first_one Real.sqrt Real.exp x top a w_norm2 col row
            w_norm2_lower).w_norm2.flat k = Real.sqrt (weight_sq a x.c k) ∧
        (spatial_convolution_lower_bound_first_one Real.sqrt Real.exp x top a w_norm2 col row
            w_norm2_lower).w_norm2_lower.flat k
          = Real.sqrt (weight_sq a x.c k - a.weight x.c k 0 0 ^ 2)) ∧
      (0 < x.c → 0 < a.maxk →
        0 ≤ weight_sq a x.c k - a.weight x.c k 0 0 ^ 2 ∧
        (temporal_spatial_convolution_lower_bound Real.sqrt Real.exp x top a last_x last_y w_norm2
            col row w_norm2_lower).w_norm2.flat k ^ 2
          = (temporal_spatial_convolution_lower_bound Real.sqrt Real.exp x top a last_x last_y
              w_norm2 col row w_norm2_lower).w_norm2_lower.flat k ^ 2
            + a.weight x.c k 0 0 ^ 2 ∧
        (spatial_convolution_lower_bound_first_one Real.sqrt Real.exp x top a w_norm2 col row
            w_norm2_lower).w_norm2.flat k ^ 2
          = (spatial_convolution_lower_bound_first_one Real.sqrt Real.exp x top a w_norm2 col row
              w_norm2_lower).w_norm2_lower.flat k ^ 2
            + a.weight x.c k 0 0 ^ 2) := by
  intro k hk
  have h1 := (tslb_first_spec Real.sqrt Real.exp x top a last_x last_y w_norm2 col row
    w_norm2_lower he).2.1 k hk
  have h2 := first_one_norms Real.sqrt Real.exp x top a w_norm2 col row w_norm2_lower hw k hk
  simp only at h1
  have e : a.weight x.c k 0 0 ^ 2 = a.weight x.c k 0 0 * a.weight x.c k 0 0 := sq _
  rw [e]
  refine ⟨⟨h1.1, h1.2, h2.1, h2.2⟩, ?_⟩
  intro hc hm
  have hn := weight_sq_sub_first_nonneg a x.c k hc hm
  have hs := weight_sq_nonneg a x.c k
  refine ⟨hn, ?_, ?_⟩
  · rw [h1.1, h1.2, Real.sq_sqrt hs, Real.sq_sqrt hn]
    ring
  · rw [h2.1, h2.2, Real.sq_sqrt hs, Real.sq_sqrt hn]
    ring

/-- Witness of C19 on scenario S1 (filter `[1]`, one channel): both norms of channel `0`. -/
theorem C19_weight_norm_cache_witness :
    (Mat.nil : Mat ℝ).total ≤ 0 ∧ 0 < (s1_input : Mat ℝ).c ∧ 0 < (s1_args : ConvArgs ℝ).maxk ∧
    (temporal_spatial_convolution_lower_bound Real.sqrt Real.exp s1_input s1_top
        (s1_args : ConvArgs ℝ) Mat.nil Mat.nil Mat.nil Mat.nil Mat.nil Mat.nil).w_norm2.flat 0 ^ 2
      = (temporal_spatial_convolution_lower_bound Real.sqrt Real.exp s1_input s1_top
          (s1_args : ConvArgs ℝ) Mat.nil Mat.nil Mat.nil Mat.nil Mat.nil
          Mat.nil).w_norm2_lower.flat 0 ^ 2
        + (s1_args : ConvArgs ℝ).weight (s1_input : Mat ℝ).c 0 0 0 ^ 2 :=
  ⟨by decide, by decide, by decide,
    ((C19_weight_norm_cache s1_args s1_input s1_top Mat.nil Mat.nil Mat.nil Mat.nil Mat.nil
      Mat.nil (by decide) (by decide) 0 (by decide)).2 (by decide) (by decide)).2.1⟩

/-- C20: the select-norm table.  After the first call (empty `last_x`) of
`mlsys_convolution_lower_top_E`, for every output channel `k` whose flat filter has at least
`E` weights and every `m` in `[0, 2^E)`, with `S` the sum of `top_E_w_vals[k, p]^2` over the
`p` whose bit `E-1-p` is set in `m`: the radicand `||W_k||^2 - S` is non-negative,
`all_select_norms[k * 2^E + m]` is `sqrt(||W_k||^2 - S)`, which equals
`sqrt(max(0, ||W_k||^2 - S))`, and at `m = 2^E - 1` its square is
`||W_k||^2 - sum_p top_E_w_vals[k, p]^2`; `||W_k||^2` is the square of `w_norm2[k]`. -/
theorem C20_select_norm_table (a : ConvArgs ℝ)
    (in_x out_y last_x last_y w_norm2 all_select_norms top_E_indices top_E_w_vals
      x_vector_diff : Mat ℝ)
    (he : last_x.total ≤ 0) :
    ∀ k, k < out_y.c → E ≤ a.maxk * in_x.c →
      (mlsys_convolution_lower_top_E Real.sqrt Real.exp in_x out_y a last_x last_y w_norm2
          all_select_norms top_E_indices top_E_w_vals x_vector_diff).w_norm2.flat k ^ 2
        = weight_sq a in_x.c k ∧
      ∀ m, m < E_pow_num →
        0 ≤ weight_sq a in_x.c k
            - (∑ p in Finset.range E, if (m >>> (E - 1 - p)) &&& 1 ≠ 0 then
                (mlsys_convolution_lower_top_E Real.sqrt Real.exp in_x out_y a last_x last_y
                  w_norm2 all_select_norms top_E_indices top_E_w_vals
                  x_vector_diff).top_E_w_vals.flat ((E : Int) * k + p) ^ 2 else 0) ∧
        (mlsys_convolution_lower_top_E Real.sqrt Real.exp in_x out_y a last_x last_y w_norm2
            all_select_norms top_E_indices top_E_w_vals x_vector_diff).all_select_norms.flat
            ((k : Int) * E_pow_num + m)
          = Real.sqrt (weight_sq a in_x.c k
              - (∑ p in Finset.range E, if (m >>> (E - 1 - p)) &&& 1 ≠ 0 then
                  (mlsys_convolution_lower_top_E Real.sqrt Real.exp in_x out_y a last_x last_y
                    w_norm2 all_select_norms top_E_indices top_E_w_vals
                    x_vector_diff).top_E_w_vals.flat ((E : Int) * k + p) ^ 2 else 0)) ∧
        (mlsys_convolution_lower_top_E Real.sqrt Real.exp in_x out_y a last_x last_y w_norm2
            all_select_norms top_E_indices top_E_w_vals x_vector_diff).all_select_norms.flat
            ((k : Int) * E_pow_num + m)
          = Real.sqrt (max 0 (weight_sq a in_x.c k
              - (∑ p in Finset.range E, if (m >>> (E - 1 - p)) &&& 1 ≠ 0 then
                  (mlsys_convolution_lower_top_E Real.sqrt Real.exp in_x out_y a last_x last_y
                    w_norm2 all_select_norms top_E_indices top_E_w_vals
                    x_vector_diff).top_E_w_vals.flat ((E : Int) * k + p) ^ 2 else 0))) ∧
        (m = E_pow_num - 1 →
          (mlsys_convolution_lower_top_E Real.sqrt Real.exp in_x out_y a last_x last_y w_norm2
              all_select_norms top_E_indices top_E_w_vals x_vector_diff).all_select_norms.flat
              ((k : Int) * E_pow_num + m) ^ 2
            = weight_sq a in_x.c k
              - ∑ p in Finset.range E,
                  (mlsys_convolution_lower_top_E Real.sqrt Real.exp in_x out_y a last_x last_y
                    w_norm2 all_select_norms top_E_indices top_E_w_vals
                    x_vector_diff).top_E_w_vals.flat ((E : Int) * k + p) ^ 2) := by
  intro k hk hlen
  have ht := top_E_first_tables Real.sqrt Real.exp in_x out_y a last_x last_y w_norm2
    all_select_norms top_E_indices top_E_w_vals x_vector_diff he k hk
  refine ⟨?_, ?_⟩
  · rw [ht.1, Real.sq_sqrt (weight_sq_nonneg a in_x.c k)]
  intro m hm
  have hle := top_E_select_sum_le Real.sqrt Real.exp in_x out_y a last_x last_y w_norm2
    all_select_norms top_E_indices top_E_w_vals x_vector_diff he k hk hlen m
  have hsum := top_E_select_sum Real.sqrt Real.exp in_x out_y a last_x last_y w_norm2
    all_select_norms top_E_indices top_E_w_vals x_vector_diff he k hk hlen m
  have hn := sub_nonneg.mpr hle
  have hs := ht.2.2.2 m hm
  rw [← hsum] at hs
  refine ⟨hn, hs, ?_, ?_⟩
  · rw [max_eq_right hn]
    exact hs
  · intro hm63
    rw [hs, Real.sq_sqrt hn]
    congr 1
    refine Finset.sum_congr rfl (fun p hp => ?_)
    rw [hm63, if_pos (all_bits_set p (Finset.mem_range.mp hp))]

/-- Witness of C20: the first call on the six-tap filter `[1, 0, 0, 0, 0, 0]`, channel `0`,
pattern `2^E - 1`. -/
theorem C20_select_norm_table_witness :
    (Mat.nil : Mat ℝ).total ≤ 0 ∧ 0 < (one_top : Mat ℝ).c ∧
    E ≤ (first_tap_args : ConvArgs ℝ).maxk * (six_zero : Mat ℝ).c ∧
    (mlsys_convolution_lower_top_E Real.sqrt Real.exp six_zero one_top
        (first_tap_args : ConvArgs ℝ) Mat.nil Mat.nil Mat.nil Mat.nil Mat.nil Mat.nil
        Mat.nil).all_select_norms.flat (((0 : Nat) : Int) * E_pow_num + ((63 : Nat) : Int)) ^ 2
      = weight_sq (first_tap_args : ConvArgs ℝ) (six_zero : Mat ℝ).c 0
        - ∑ p in Finset.range E,
            (mlsys_convolution_lower_top_E Real.sqrt Real.exp six_zero one_top
              (first_tap_args : ConvArgs ℝ) Mat.nil Mat.nil Mat.nil Mat.nil Mat.nil Mat.nil
              Mat.nil).top_E_w_vals.flat ((E : Int) * ((0 : Nat) : Int) + p) ^ 2 :=
  ⟨by decide, by decide, by decide,
    ((C20_select_norm_table first_tap_args six_zero one_top Mat.nil Mat.nil Mat.nil Mat.nil
      Mat.nil Mat.nil Mat.nil (by decide) 0 (by decide) (by decide)).2 63 (by decide)).2.2.2
      rfl⟩

set_option maxRecDepth 100000 in
/-- C21 fails as stated: in the binary32 arithmetic of the source, the first-call table block
of `mlsys_convolution_lower_top_E` on the six-tap filter `[1332, 1704, 2075, 1452, 2660,
2199]` accumulates `w_norm2[0]` in index order to `23002968` (the exact sum `23002970`
rounded down at two ties), while `tobe_sub` of the pattern `2^E - 1`, accumulated in the
order of the sorted vector, is `23002970`; the difference is negative,
`all_select_norms[2^E - 1]` is `sqrt(-2)`, a NaN, and the comparison
`all_select_norms[0 * 2^E + 63] <= w_norm[0]` is false. -/
theorem C21_select_norm_counterexample :
    (top_E_tables_f32 rounded_args 1 1 Mat.nil Mat.nil Mat.nil Mat.nil).1.flat ((0 : Nat) : Int)
      = F32.sqrt 23002968 ∧
    select_tobe_sub_f32
        (top_E_tables_f32 rounded_args 1 1 Mat.nil Mat.nil Mat.nil Mat.nil).2.2.1
        ((E : Int) * ((0 : Nat) : Int)) 63 = 23002970 ∧
    (top_E_tables_f32 rounded_args 1 1 Mat.nil Mat.nil Mat.nil Mat.nil).2.2.2.flat
        (((0 : Nat) : Int) * E_pow_num + ((63 : Nat) : Int)) = F32.nan ∧
    F32.le
        ((top_E_tables_f32 rounded_args 1 1 Mat.nil Mat.nil Mat.nil Mat.nil).2.2.2.flat
          (((0 : Nat) : Int) * E_pow_num + ((63 : Nat) : Int)))
        ((top_E_tables_f32 rounded_args 1 1 Mat.nil Mat.nil Mat.nil Mat.nil).1.flat
          ((0 : Nat) : Int)) = false := by
  decide

/-- C21 as the code has it, in exact real arithmetic.  After the first call (empty `last_x`)
of `mlsys_convolution_lower_top_E` on a filter of flat length at least `E`, for every output
channel `k`: `w_norm2[k]` is `sqrt(||W_k||^2)`; `top_E_w_vals[k, p]` is the weight of the
channel at the stored index `(int) top_E_indices[k, p]`; every entry `all_select_norms[k * 2^E + m]`,
`m < 2^E`, is `sqrt(||W_k||^2 - S)`, with `S` the sum of `top_E_w_vals[k, p]^2` over the `p`
whose bit `E-1-p` is set in `m`; the entry of the empty bit pattern is `w_norm2[k]`; every
entry is at most `w_norm2[k]`; and the table is antitone in the bit set: if every bit set in
`m` is set in `m2`, the entry of `m2` is at most the entry of `m`. -/
theorem C21_select_norm_bounds (a : ConvArgs ℝ)
    (in_x out_y last_x last_y w_norm2 all_select_norms top_E_indices top_E_w_vals
      x_vector_diff : Mat ℝ)
    (he : last_x.total ≤ 0) (hlen : E ≤ a.maxk * in_x.c) :
    ∀ k, k < out_y.c →
      (mlsys_convolution_lower_top_E Real.sqrt Real.exp in_x out_y a last_x last_y w_norm2
          all_select_norms top_E_indices top_E_w_vals x_vector_diff).w_norm2.flat k
        = Real.sqrt (weight_sq a in_x.c k) ∧
      (∀ p, p < E →
        (mlsys_convolution_lower_top_E Real.sqrt Real.exp in_x out_y a last_x last_y w_norm2
            all_select_norms top_E_indices top_E_w_vals x_vector_diff).top_E_w_vals.flat
            ((E : Int) * k + p)
          = a.weight_data.flat (a.kptr in_x.c k
              + to_int ((mlsys_convolution_lower_top_E Real.sqrt Real.exp in_x out_y a last_x
                  last_y w_norm2 all_select_norms top_E_indices top_E_w_vals
                  x_vector_diff).top_E_indices.flat ((E : Int) * k + p)))) ∧
      (∀ m, m < E_pow_num →
        (mlsys_convolution_lower_top_E Real.sqrt Real.exp in_x out_y a last_x last_y w_norm2
            all_select_norms top_E_indices top_E_w_vals x_vector_diff).all_select_norms.flat
            ((k : Int) * E_pow_num + m)
          = Real.sqrt (weight_sq a in_x.c k
              - (∑ p in Finset.range E, if (m >>> (E - 1 - p)) &&& 1 ≠ 0 then
                  (mlsys_convolution_lower_top_E Real.sqrt Real.exp in_x out_y a last_x last_y
                    w_norm2 all_select_norms top_E_indices top_E_w_vals
                    x_vector_diff).top_E_w_vals.flat ((E : Int) * k + p) ^ 2 else 0))) ∧
      (mlsys_convolution_lower_top_E Real.sqrt Real.exp in_x out_y a last_x last_y w_norm2
          all_select_norms top_E_indices top_E_w_vals x_vector_diff).all_select_norms.flat
          ((k : Int) * E_pow_num + ((0 : Nat) : Int))
        = (mlsys_convolution_lower_top_E Real.sqrt Real.exp in_x out_y a last_x last_y w_norm2
            all_select_norms top_E_indices top_E_w_vals x_vector_diff).w_norm2.flat k ∧
      (∀ m, m < E_pow_num →
        (mlsys_convolution_lower_top_E Real.sqrt Real.exp in_x out_y a last_x last_y w_norm2
            all_select_norms top_E_indices top_E_w_vals x_vector_diff).all_select_norms.flat
            ((k : Int) * E_pow_num + m)
          ≤ (mlsys_convolution_lower_top_E Real.sqrt Real.exp in_x out_y a last_x last_y
              w_norm2 all_select_norms top_E_indices top_E_w_vals
              x_vector_diff).w_norm2.flat k) ∧
      ∀ m m2, m < E_pow_num → m2 < E_pow_num →
        (∀ b, b < E → (m >>> b) &&& 1 ≠ 0 → (m2 >>> b) &&& 1 ≠ 0) →
        (mlsys_convolution_lower_top_E Real.sqrt Real.exp in_x out_y a last_x last_y w_norm2
            all_select_norms top_E_indices top_E_w_vals x_vector_diff).all_select_norms.flat
            ((k : Int) * E_pow_num + m2)
          ≤ (mlsys_convolution_lower_top_E Real.sqrt Real.exp in_x out_y a last_x last_y
              w_norm2 all_select_norms top_E_indices top_E_w_vals
              x_vector_diff).all_select_norms.flat ((k : Int) * E_pow_num + m) := by
  intro k hk
  obtain ⟨hw, hi, hv, hs⟩ := top_E_first_tables Real.sqrt Real.exp in_x out_y a last_x last_y
    w_norm2 all_select_norms top_E_indices top_E_w_vals x_vector_diff he k hk
  refine ⟨hw, ?_, ?_, ?_, ?_, ?_⟩
  · intro p hp
    rw [hi p hp, to_int_natCast]
    exact hv p hp
  · intro m hm
    rw [hs m hm, top_E_select_sum Real.sqrt Real.exp in_x out_y a last_x last_y w_norm2
      all_select_norms top_E_indices top_E_w_vals x_vector_diff he k hk hlen m]
  · rw [hs 0 (by decide), hw]
    congr 1
    rw [sub_eq_self]
    refine Finset.sum_eq_zero (fun t _ => ?_)
    rw [if_neg]
    simp
  · intro m hm
    rw [hs m hm, hw]
    apply Real.sqrt_le_sqrt
    rw [sub_le_self_iff]
    refine Finset.sum_nonneg (fun t _ => ?_)
    split_ifs
    · exact mul_self_nonneg _
    · exact le_refl 0
  · intro m m2 hm hm2 hsub
    rw [hs m hm, hs m2 hm2]
    apply Real.sqrt_le_sqrt
    apply sub_le_sub_left
    refine Finset.sum_le_sum (fun t ht => ?_)
    have htE : E - 1 - t < E := by
      have := Finset.mem_range.mp ht
      omega
    by_cases hb : (m >>> (E - 1 - t)) &&& 1 ≠ 0
    · rw [if_pos hb, if_pos (hsub _ htE hb)]
    · rw [if_neg hb]
      split_ifs
      · exact mul_self_nonneg _
      · exact le_refl 0

/-- Witness of the amended C21: the first call on the six-tap filter `[1, 0, 0, 0, 0, 0]`,
channel `0`; the entry of the pattern `100000` is at most the entry of the pattern
`000000`. -/
theorem C21_select_norm_bounds_witness :
    (Mat.nil : Mat ℝ).total ≤ 0 ∧
    E ≤ (first_tap_args : ConvArgs ℝ).maxk * (six_zero : Mat ℝ).c ∧
    0 < (one_top : Mat ℝ).c ∧
    (mlsys_convolution_lower_top_E Real.sqrt Real.exp six_zero one_top
        (first_tap_args : ConvArgs ℝ) Mat.nil Mat.nil Mat.nil Mat.nil Mat.nil Mat.nil
        Mat.nil).all_select_norms.flat (((0 : Nat) : Int) * E_pow_num + ((32 : Nat) : Int))
      ≤ (mlsys_convolution_lower_top_E Real.sqrt Real.exp six_zero one_top
          (first_tap_args : ConvArgs ℝ) Mat.nil Mat.nil Mat.nil Mat.nil Mat.nil Mat.nil
          Mat.nil).all_select_norms.flat (((0 : Nat) : Int) * E_pow_num + ((0 : Nat) : Int)) :=
  ⟨by decide, by decide, by decide,
    (C21_select_norm_bounds first_tap_args six_zero one_top Mat.nil Mat.nil Mat.nil Mat.nil
      Mat.nil Mat.nil Mat.nil (by decide) (by decide) 0 (by decide)).2.2.2.2.2 0 32 (by decide)
      (by decide) (by decide)⟩

/-- C22: the top-E selection.  For every filter `w_arr` of flat length at least `E`, the
entries `idx[p]`, `p < E`, that `find_top_E` stores in its index array (read back as `int`)
are pairwise distinct indices in `[0, w_arr_len)`; their absolute weights decrease,
`abs(w_arr[idx[0]]) >= ... >= abs(w_arr[idx[E-1]])`, and bound from above the absolute
weight of every index that is not selected; and the value array holds the signed weights
`w_arr[idx[p]]`. -/
theorem C22_top_E_selection (w_arr : Int → ℝ) (w_arr_len : Nat) (hlen : E ≤ w_arr_len)
    (w_full_2 : ℝ) (idx_base val_base sel_base : Int) (s : Mat ℝ × Mat ℝ × Mat ℝ) :
    (∀ p, p < E →
      0 ≤ to_int ((find_top_E Real.sqrt w_arr w_arr_len w_full_2 idx_base val_base sel_base
          s).1.flat (idx_base + p)) ∧
      to_int ((find_top_E Real.sqrt w_arr w_arr_len w_full_2 idx_base val_base sel_base
          s).1.flat (idx_base + p)) < w_arr_len) ∧
    (∀ p q, p < E → q < E →
      to_int ((find_top_E Real.sqrt w_arr w_arr_len w_full_2 idx_base val_base sel_base
          s).1.flat (idx_base + p))
        = to_int ((find_top_E Real.sqrt w_arr w_arr_len w_full_2 idx_base val_base sel_base
          s).1.flat (idx_base + q)) → p = q) ∧
    (∀ p q, p ≤ q → q < E →
      |w_arr (to_int ((find_top_E Real.sqrt w_arr w_arr_len w_full_2 idx_base val_base
          sel_base s).1.flat (idx_base + q)))|
        ≤ |w_arr (to_int ((find_top_E Real.sqrt w_arr w_arr_len w_full_2 idx_base val_base
          sel_base s).1.flat (idx_base + p)))|) ∧
    (∀ u : Nat, u < w_arr_len →
      (∀ p, p < E →
        to_int ((find_top_E Real.sqrt w_arr w_arr_len w_full_2 idx_base val_base sel_base
          s).1.flat (idx_base + p)) ≠ u) →
      ∀ p, p < E →
        |w_arr u| ≤ |w_arr (to_int ((find_top_E Real.sqrt w_arr w_arr_len w_full_2 idx_base
          val_base sel_base s).1.flat (idx_base + p)))|) ∧
    ∀ p, p < E →
      (find_top_E Real.sqrt w_arr w_arr_len w_full_2 idx_base val_base sel_base s).2.1.flat
          (val_base + p)
        = w_arr (to_int ((find_top_E Real.sqrt w_arr w_arr_len w_full_2 idx_base val_base
          sel_base s).1.flat (idx_base + p))) := by
  have hst := find_top_E_stored Real.sqrt w_arr w_arr_len hlen w_full_2 idx_base val_base
    sel_base s
  obtain ⟨hent, hinj, hord, hout⟩ := sorted_top w_arr w_arr_len hlen
  refine ⟨?_, ?_, ?_, ?_, ?_⟩
  · intro p hp
    rw [(hst p hp).1]
    exact ⟨Int.natCast_nonneg _, by exact_mod_cast (hent p hp).1⟩
  · intro p q hp hq h
    rw [(hst p hp).1, (hst q hq).1] at h
    exact hinj p q hp hq (by exact_mod_cast h)
  · intro p q hpq hq
    have hp : p < E := lt_of_le_of_lt hpq hq
    rw [(hst p hp).1, (hst q hq).1, ← (hent p hp).2, ← (hent q hq).2]
    rcases Nat.eq_or_lt_of_le hpq with h | h
    · rw [h]
    · exact pair_le_fst _ _ (hord p q h hq)
  · intro u hu hun p hp
    rw [(hst p hp).1, ← (hent p hp).2]
    have h := hout u hu (fun q hq hc => hun q hq (by rw [(hst q hq).1, hc])) p hp
    exact pair_le_fst _ _ h
  · intro p hp
    rw [(hst p hp).2, (hst p hp).1]

/-- Witness of C22 on a filter of seven weights `1`: the first stored index lies in
`[0, 7)`. -/
theorem C22_top_E_selection_witness :
    E ≤ 7 ∧
    (0 ≤ to_int ((find_top_E Real.sqrt (fun _ : Int => (1 : ℝ)) 7 7 0 0 0
        (Mat.nil, Mat.nil, Mat.nil)).1.flat (0 + ((0 : Nat) : Int))) ∧
      to_int ((find_top_E Real.sqrt (fun _ : Int => (1 : ℝ)) 7 7 0 0 0
        (Mat.nil, Mat.nil, Mat.nil)).1.flat (0 + ((0 : Nat) : Int))) < ((7 : Nat) : Int)) :=
  ⟨by decide,
    (C22_top_E_selection (fun _ : Int => (1 : ℝ)) 7 (by decide) 7 0 0 0
      (Mat.nil, Mat.nil, Mat.nil)).1 0 (by decide)⟩

/-- C23 fails as stated: for a filter of seven equal weights `1`, `find_top_E` stores the
indices `6, 5, 4, 3, 2, 1`: among the equal absolute values the higher index is selected
first, and the entry left out is the one with the lowest index `0`. -/
theorem C23_tie_break_counterexample :
    to_int ((find_top_E Real.sqrt (fun _ : Int => (1 : ℝ)) 7 7 0 0 0
      (Mat.nil, Mat.nil, Mat.nil)).1.flat (0 + ((0 : Nat) : Int))) = 6 ∧
    to_int ((find_top_E Real.sqrt (fun _ : Int => (1 : ℝ)) 7 7 0 0 0
      (Mat.nil, Mat.nil, Mat.nil)).1.flat (0 + ((1 : Nat) : Int))) = 5 ∧
    to_int ((find_top_E Real.sqrt (fun _ : Int => (1 : ℝ)) 7 7 0 0 0
      (Mat.nil, Mat.nil, Mat.nil)).1.flat (0 + ((2 : Nat) : Int))) = 4 ∧
    to_int ((find_top_E Real.sqrt (fun _ : Int => (1 : ℝ)) 7 7 0 0 0
      (Mat.nil, Mat.nil, Mat.nil)).1.flat (0 + ((3 : Nat) : Int))) = 3 ∧
    to_int ((find_top_E Real.sqrt (fun _ : Int => (1 : ℝ)) 7 7 0 0 0
      (Mat.nil, Mat.nil, Mat.nil)).1.flat (0 + ((4 : Nat) : Int))) = 2 ∧
    to_int ((find_top_E Real.sqrt (fun _ : Int => (1 : ℝ)) 7 7 0 0 0
      (Mat.nil, Mat.nil, Mat.nil)).1.flat (0 + ((5 : Nat) : Int))) = 1 := by
  have hst := find_top_E_stored Real.sqrt (fun _ : Int => (1 : ℝ)) 7 (by decide) 7 0 0 0
    (Mat.nil, Mat.nil, Mat.nil)
  rw [seven_ones_sorted] at hst
  exact ⟨(hst 0 (by decide)).1, (hst 1 (by decide)).1, (hst 2 (by decide)).1,
    (hst 3 (by decide)).1, (hst 4 (by decide)).1, (hst 5 (by decide)).1⟩

/-- C23 as the code has it: among equal absolute values `find_top_E` prefers the higher
index.  For every filter of flat length at least `E`, two selected entries of equal absolute
value appear in order of decreasing index, and an index that is not selected but has the
absolute value of a selected entry is lower than the index of that entry. -/
theorem C23_tie_break_higher_index (w_arr : Int → ℝ) (w_arr_len : Nat) (hlen : E ≤ w_arr_len)
    (w_full_2 : ℝ) (idx_base val_base sel_base : Int) (s : Mat ℝ × Mat ℝ × Mat ℝ) :
    (∀ p q, p < q → q < E →
      |w_arr (to_int ((find_top_E Real.sqrt w_arr w_arr_len w_full_2 idx_base val_base
          sel_base s).1.flat (idx_base + p)))|
        = |w_arr (to_int ((find_top_E Real.sqrt w_arr w_arr_len w_full_2 idx_base val_base
          sel_base s).1.flat (idx_base + q)))| →
      to_int ((find_top_E Real.sqrt w_arr w_arr_len w_full_2 idx_base val_base sel_base
          s).1.flat (idx_base + q))
        < to_int ((find_top_E Real.sqrt w_arr w_arr_len w_full_2 idx_base val_base sel_base
          s).1.flat (idx_base + p))) ∧
    ∀ u : Nat, u < w_arr_len →
      (∀ p, p < E →
        to_int ((find_top_E Real.sqrt w_arr w_arr_len w_full_2 idx_base val_base sel_base
          s).1.flat (idx_base + p)) ≠ u) →
      ∀ p, p < E →
        |w_arr u| = |w_arr (to_int ((find_top_E Real.sqrt w_arr w_arr_len w_full_2 idx_base
          val_base sel_base s).1.flat (idx_base + p)))| →
        (u : Int) < to_int ((find_top_E Real.sqrt w_arr w_arr_len w_full_2 idx_base val_base
          sel_base s).1.flat (idx_base + p)) := by
  have hst := find_top_E_stored Real.sqrt w_arr w_arr_len hlen w_full_2 idx_base val_base
    sel_base s
  obtain ⟨hent, hinj, hord, hout⟩ := sorted_top w_arr w_arr_len hlen
  refine ⟨?_, ?_⟩
  · intro p q hpq hq
    have hp : p < E := lt_trans hpq hq
    rw [(hst p hp).1, (hst q hq).1, ← (hent p hp).2, ← (hent q hq).2]
    intro he
    have h1 := pair_le_snd _ _ (hord p q hpq hq) he.symm
    have h2 : ((w_ordered_sorted w_arr w_arr_len).getD (w_arr_len - 1 - q) (0, 0)).2
        ≠ ((w_ordered_sorted w_arr w_arr_len).getD (w_arr_len - 1 - p) (0, 0)).2 := by
      intro hc
      have := hinj q p hq hp hc
      omega
    exact_mod_cast lt_of_le_of_ne h1 h2
  · intro u hu hun p hp
    have hun' : ∀ q, q < E →
        ((w_ordered_sorted w_arr w_arr_len).getD (w_arr_len - 1 - q) (0, 0)).2 ≠ u :=
      fun q hq hc => hun q hq (by rw [(hst q hq).1, hc])
    rw [(hst p hp).1, ← (hent p hp).2]
    intro he
    have h1 := pair_le_snd _ _ (hout u hu hun' p hp) he
    simp only at h1
    exact_mod_cast lt_of_le_of_ne h1 (fun hc => hun' p hp hc.symm)

/-- Witness of the amended C23 on a filter of seven weights `1`: the second stored index is
below the first. -/
theorem C23_tie_break_higher_index_witness :
    E ≤ 7 ∧
    to_int ((find_top_E Real.sqrt (fun _ : Int => (1 : ℝ)) 7 7 0 0 0
        (Mat.nil, Mat.nil, Mat.nil)).1.flat (0 + ((1 : Nat) : Int)))
      < to_int ((find_top_E Real.sqrt (fun _ : Int => (1 : ℝ)) 7 7 0 0 0
        (Mat.nil, Mat.nil, Mat.nil)).1.flat (0 + ((0 : Nat) : Int))) :=
  ⟨by decide,
    (C23_tie_break_higher_index (fun _ : Int => (1 : ℝ)) 7 (by decide) 7 0 0 0
      (Mat.nil, Mat.nil, Mat.nil)).1 0 1 (by decide) (by decide) rfl⟩

/-- C24: the defaults of `load_param`.  For every parameter dictionary and every layer,
after `load_param`: `num_output` is entry `0` or `0`; `kernel_w` is entry `1` or `0` and
`kernel_h` is entry `11` or `kernel_w`; `dilation_w` is entry `2` or `1` and `dilation_h`
entry `12` or `dilation_w`; `stride_w` is entry `3` or `1` and `stride_h` entry `13` or
`stride_w`; `pad_left` is entry `4` or `0`, `pad_right` entry `15` or `pad_left`, `pad_top`
entry `14` or `pad_left`, `pad_bottom` entry `16` or `pad_top`; `pad_value` is the float
entry `18` or `0`; a supplied entry always is the value of its field; and the status is `0`
whenever the loaded `int8_scale_term` is `0`. -/
theorem C24_load_param_defaults {α : Type} [LinearOrderedField α] (self : Convolution α)
    (pd : ParamDict α) :
    ((Convolution.load_param self pd).2.num_output = (pd.ints 0).getD 0 ∧
      (Convolution.load_param self pd).2.kernel_w = (pd.ints 1).getD 0 ∧
      (Convolution.load_param self pd).2.kernel_h
        = (pd.ints 11).getD (Convolution.load_param self pd).2.kernel_w ∧
      (Convolution.load_param self pd).2.dilation_w = (pd.ints 2).getD 1 ∧
      (Convolution.load_param self pd).2.dilation_h
        = (pd.ints 12).getD (Convolution.load_param self pd).2.dilation_w ∧
      (Convolution.load_param self pd).2.stride_w = (pd.ints 3).getD 1 ∧
      (Convolution.load_param self pd).2.stride_h
        = (pd.ints 13).getD (Convolution.load_param self pd).2.stride_w ∧
      (Convolution.load_param self pd).2.pad_left = (pd.ints 4).getD 0 ∧
      (Convolution.load_param self pd).2.pad_right
        = (pd.ints 15).getD (Convolution.load_param self pd).2.pad_left ∧
      (Convolution.load_param self pd).2.pad_top
        = (pd.ints 14).getD (Convolution.load_param self pd).2.pad_left ∧
      (Convolution.load_param self pd).2.pad_bottom
        = (pd.ints 16).getD (Convolution.load_param self pd).2.pad_top ∧
      (Convolution.load_param self pd).2.pad_value = (pd.floats 18).getD 0) ∧
    (∀ v : Int,
      (pd.ints 0 = some v → (Convolution.load_param self pd).2.num_output = v) ∧
      (pd.ints 1 = some v → (Convolution.load_param self pd).2.kernel_w = v) ∧
      (pd.ints 11 = some v → (Convolution.load_param self pd).2.kernel_h = v) ∧
      (pd.ints 2 = some v → (Convolution.load_param self pd).2.dilation_w = v) ∧
      (pd.ints 12 = some v → (Convolution.load_param self pd).2.dilation_h = v) ∧
      (pd.ints 3 = some v → (Convolution.load_param self pd).2.stride_w = v) ∧
      (pd.ints 13 = some v → (Convolution.load_param self pd).2.stride_h = v) ∧
      (pd.ints 4 = some v → (Convolution.load_param self pd).2.pad_left = v) ∧
      (pd.ints 15 = some v → (Convolution.load_param self pd).2.pad_right = v) ∧
      (pd.ints 14 = some v → (Convolution.load_param self pd).2.pad_top = v) ∧
      (pd.ints 16 = some v → (Convolution.load_param self pd).2.pad_bottom = v)) ∧
    (∀ v : α, pd.floats 18 = some v → (Convolution.load_param self pd).2.pad_value = v) ∧
    ((pd.ints 11 = none →
        (Convolution.load_param self pd).2.kernel_h
          = (Convolution.load_param self pd).2.kernel_w) ∧
      (pd.ints 2 = none → (Convolution.load_param self pd).2.dilation_w = 1) ∧
      (pd.ints 12 = none →
        (Convolution.load_param self pd).2.dilation_h
          = (Convolution.load_param self pd).2.dilation_w) ∧
      (pd.ints 3 = none → (Convolution.load_param self pd).2.stride_w = 1) ∧
      (pd.ints 13 = none →
        (Convolution.load_param self pd).2.stride_h
          = (Convolution.load_param self pd).2.stride_w) ∧
      (pd.ints 4 = none → (Convolution.load_param self pd).2.pad_left = 0) ∧
      (pd.ints 15 = none →
        (Convolution.load_param self pd).2.pad_right
          = (Convolution.load_param self pd).2.pad_left) ∧
      (pd.ints 14 = none →
        (Convolution.load_param self pd).2.pad_top
          = (Convolution.load_param self pd).2.pad_left) ∧
      (pd.ints 16 = none →
        (Convolution.load_param self pd).2.pad_bottom
          = (Convolution.load_param self pd).2.pad_top) ∧
      (pd.floats 18 = none → (Convolution.load_param self pd).2.pad_value = 0) ∧
      (pd.ints 0 = none → (Convolution.load_param self pd).2.num_output = 0)) ∧
    ((Convolution.load_param self pd).2.int8_scale_term = (pd.ints 8).getD 0 ∧
      ((Convolution.load_param self pd).2.int8_scale_term = 0 →
        (Convolution.load_param self pd).1 = 0)) := by
  have hf : (Convolution.load_param self pd).2.num_output = (pd.ints 0).getD 0 ∧
      (Convolution.load_param self pd).2.kernel_w = (pd.ints 1).getD 0 ∧
      (Convolution.load_param self pd).2.kernel_h = (pd.ints 11).getD ((pd.ints 1).getD 0) ∧
      (Convolution.load_param self pd).2.dilation_w = (pd.ints 2).getD 1 ∧
      (Convolution.load_param self pd).2.dilation_h = (pd.ints 12).getD ((pd.ints 2).getD 1) ∧
      (Convolution.load_param self pd).2.stride_w = (pd.ints 3).getD 1 ∧
      (Convolution.load_param self pd).2.stride_h = (pd.ints 13).getD ((pd.ints 3).getD 1) ∧
      (Convolution.load_param self pd).2.pad_left = (pd.ints 4).getD 0 ∧
      (Convolution.load_param self pd).2.pad_right = (pd.ints 15).getD ((pd.ints 4).getD 0) ∧
      (Convolution.load_param self pd).2.pad_top = (pd.ints 14).getD ((pd.ints 4).getD 0) ∧
      (Convolution.load_param self pd).2.pad_bottom
        = (pd.ints 16).getD ((pd.ints 14).getD ((pd.ints 4).getD 0)) ∧
      (Convolution.load_param self pd).2.pad_value = (pd.floats 18).getD 0 ∧
      (Convolution.load_param self pd).2.int8_scale_term = (pd.ints 8).getD 0 ∧
      (Convolution.load_param self pd).1 = (if (pd.ints 8).getD 0 ≠ 0 then -1 else 0) := by
    unfold Convolution.load_param ParamDict.get_int ParamDict.get_float
    simp only
    split_ifs <;> simp
  obtain ⟨h0, h1, h11, h2, h12, h3, h13, h4, h15, h14, h16, h18, h8, hret⟩ := hf
  refine ⟨⟨h0, h1, ?_, h2, ?_, h3, ?_, h4, ?_, ?_, ?_, h18⟩, ?_, ?_, ?_, h8, ?_⟩
  · rw [h11, h1]
  · rw [h12, h2]
  · rw [h13, h3]
  · rw [h15, h4]
  · rw [h14, h4]
  · rw [h16, h14]
  · intro v
    refine ⟨?_, ?_, ?_, ?_, ?_, ?_, ?_, ?_, ?_, ?_, ?_⟩ <;> intro hv
    · rw [h0, hv]; rfl
    · rw [h1, hv]; rfl
    · rw [h11, hv]; rfl
    · rw [h2, hv]; rfl
    · rw [h12, hv]; rfl
    · rw [h3, hv]; rfl
    · rw [h13, hv]; rfl
    · rw [h4, hv]; rfl
    · rw [h15, hv]; rfl
    · rw [h14, hv]; rfl
    · rw [h16, hv]; rfl
  · intro v hv
    rw [h18, hv]; rfl
  · refine ⟨?_, ?_, ?_, ?_, ?_, ?_, ?_, ?_, ?_, ?_, ?_⟩ <;> intro hv
    · rw [h11, h1, hv]; rfl
    · rw [h2, hv]; rfl
    · rw [h12, h2, hv]; rfl
    · rw [h3, hv]; rfl
    · rw [h13, h3, hv]; rfl
    · rw [h4, hv]; rfl
    · rw [h15, h4, hv]; rfl
    · rw [h14, h4, hv]; rfl
    · rw [h16, h14, hv]; rfl
    · rw [h18, hv]; rfl
    · rw [h0, hv]; rfl
  · intro hz
    rw [hret, ← h8, hz]
    rfl

/-- Witness of C24 on the parameters of scenario S1: entry `1` is `1` and entry `11` is
absent, so `kernel_w` is `1` and `kernel_h` is `kernel_w`. -/
theorem C24_load_param_defaults_witness :
    (s1_params : ParamDict ℝ).ints 1 = some 1 ∧ (s1_params : ParamDict ℝ).ints 11 = none ∧
    (Convolution.load_param (Convolution.blank : Convolution ℝ) s1_params).2.kernel_w = 1 ∧
    (Convolution.load_param (Convolution.blank : Convolution ℝ) s1_params).2.kernel_h
      = (Convolution.load_param (Convolution.blank : Convolution ℝ) s1_params).2.kernel_w ∧
    (Convolution.load_param (Convolution.blank : Convolution ℝ) s1_params).1 = 0 :=
  ⟨by decide, by decide,
    ((C24_load_param_defaults Convolution.blank s1_params).2.1 1).2.1 (by decide),
    (C24_load_param_defaults Convolution.blank s1_params).2.2.2.1.1 (by decide),
    (C24_load_param_defaults Convolution.blank s1_params).2.2.2.2.2
      ((C24_load_param_defaults Convolution.blank s1_params).2.2.2.2.1.trans (by decide))⟩

/-- C25: the temporal skip rule.  In the bound branch of `mlsys_convolution`, position
`(k, i, j)` takes the skip branch exactly when
`last_y[k, i, j] + w_norm2[k] * dx_t + b <= 0` (`b` the bias of `k` or `0`), equality
included: then the output is `0` and `last_y[k, i, j]` grows by `w_norm2[k] * dx_t`, the
step being these two stores and nothing else; otherwise the output is the activated exact
pre-activation.  In scenario S2 the first call on the zero input writes zeros, and for every
second input whose patch-delta norm times the filter norm is at most `1` everywhere, every
position of the second call passes the skip test and the output is all zeros. -/
theorem C25_temporal_skip_rule (a : ConvArgs ℝ) (x out last_x last_y w_norm2 : Mat ℝ)
    (hne : ¬ last_x.total ≤ 0) :
    (∀ i j k, i < out.h → j < out.w → k < out.c →
      (last_y.data k (out_pos out.w i j)
          + w_norm2.flat k * Real.sqrt (temporal_dx2_sum a x last_x i j) + a.y_init k ≤ 0 →
        (mlsys_convolution Real.sqrt Real.exp x out a last_x last_y w_norm2).out_y.data k
            (out_pos out.w i j) = 0 ∧
        (mlsys_convolution Real.sqrt Real.exp x out a last_x last_y w_norm2).last_y.data k
            (out_pos out.w i j)
          = last_y.data k (out_pos out.w i j)
            + w_norm2.flat k * Real.sqrt (temporal_dx2_sum a x last_x i j)) ∧
      (¬ last_y.data k (out_pos out.w i j)
          + w_norm2.flat k * Real.sqrt (temporal_dx2_sum a x last_x i j) + a.y_init k ≤ 0 →
        (mlsys_convolution Real.sqrt Real.exp x out a last_x last_y w_norm2).out_y.data k
            (out_pos out.w i j) = a.act Real.exp (exact_y a x i j k) ∧
        (mlsys_convolution Real.sqrt Real.exp x out a last_x last_y w_norm2).last_y.data k
            (out_pos out.w i j) = conv_sum a x i j k)) ∧
    (∀ (dx : ℝ) (outw i j k : Nat) (s : Mat ℝ × Mat ℝ),
      s.2.data k (out_pos outw i j) + w_norm2.flat k * dx + a.y_init k ≤ 0 →
      mlsys_step Real.exp a x w_norm2 dx outw i j k s
        = (s.1.set k (out_pos outw i j) 0,
          s.2.set k (out_pos outw i j) (s.2.data k (out_pos outw i j) + w_norm2.flat k * dx))) ∧
    ∀ x2 : Mat ℝ,
      (∀ i j, i < 2 → j < 2 →
        Real.sqrt (weight_sq (s2_args : ConvArgs ℝ) 1 0)
          * Real.sqrt (temporal_dx2_sum (s2_args : ConvArgs ℝ) x2 s2_zero i j) ≤ 1) →
      ∀ i j, i < 2 → j < 2 →
        (mlsys_convolution Real.sqrt Real.exp s2_zero s2_top (s2_args : ConvArgs ℝ) Mat.nil
          Mat.nil Mat.nil).out_y.data 0 (out_pos 2 i j) = 0 ∧
        mlsys_skips Real.sqrt (s2_args : ConvArgs ℝ) x2
          (mlsys_caches Real.sqrt Real.exp (s2_args : ConvArgs ℝ) (Mat.nil, Mat.nil, Mat.nil)
            [(s2_zero, s2_top)]).1
          (mlsys_caches Real.sqrt Real.exp (s2_args : ConvArgs ℝ) (Mat.nil, Mat.nil, Mat.nil)
            [(s2_zero, s2_top)]).2.2 i j 0
          ((mlsys_caches Real.sqrt Real.exp (s2_args : ConvArgs ℝ) (Mat.nil, Mat.nil, Mat.nil)
            [(s2_zero, s2_top)]).2.1.data 0 (out_pos 2 i j)) ∧
        (mlsys_after Real.sqrt Real.exp (s2_args : ConvArgs ℝ) (Mat.nil, Mat.nil, Mat.nil)
          [(s2_zero, s2_top)] x2 s2_top).out_y.data 0 (out_pos 2 i j) = 0 := by
  refine ⟨?_, ?_, ?_⟩
  · intro i j k hi hj hk
    have h := (mlsys_bound_spec Real.sqrt Real.exp x out a last_x last_y w_norm2 hne).2.2.2 i j
      k hi hj hk
    unfold mlsys_skips at h
    constructor
    · intro hs
      exact h.1 (by linarith)
    · intro hs
      exact h.2 (fun hc => hs (by linarith))
  · intro dx outw i j k s hs
    unfold mlsys_step
    simp only
    rw [if_pos (by linarith)]
  · intro x2 hx i j hi hj
    obtain ⟨hlx, hwn, hpos⟩ := s2_first_call
    obtain ⟨ho1, hl1⟩ := hpos i j hi hj
    have hsk : mlsys_skips Real.sqrt (s2_args : ConvArgs ℝ) x2
        (mlsys_convolution Real.sqrt Real.exp s2_zero s2_top (s2_args : ConvArgs ℝ) Mat.nil
          Mat.nil Mat.nil).last_x
        (mlsys_convolution Real.sqrt Real.exp s2_zero s2_top (s2_args : ConvArgs ℝ) Mat.nil
          Mat.nil Mat.nil).w_norm2 i j 0
        ((mlsys_convolution Real.sqrt Real.exp s2_zero s2_top (s2_args : ConvArgs ℝ) Mat.nil
          Mat.nil Mat.nil).last_y.data 0 (out_pos 2 i j)) := by
      unfold mlsys_skips
      rw [hlx, hwn, hl1, s2_y_init, ← s2_w_norm]
      have := hx i j hi hj
      linarith
    have hne2 : ¬ (mlsys_convolution Real.sqrt Real.exp s2_zero s2_top (s2_args : ConvArgs ℝ)
        Mat.nil Mat.nil Mat.nil).last_x.total ≤ 0 := by
      rw [hlx]
      decide
    have h2 := ((mlsys_bound_spec Real.sqrt Real.exp x2 s2_top (s2_args : ConvArgs ℝ) _ _ _
      hne2).2.2.2 i j 0 hi hj (by decide)).1 hsk
    exact ⟨ho1, hsk, h2.1⟩

/-- Witness of C25 on scenario S2: the second input is the zero input with its first element
changed to `1`, whose patch-delta norm times the filter norm is at most `0.3`. -/
theorem C25_temporal_skip_rule_witness :
    ¬ (s2_zero : Mat ℝ).total ≤ 0 ∧
    (∀ i j, i < 2 → j < 2 →
      Real.sqrt (weight_sq (s2_args : ConvArgs ℝ) 1 0)
        * Real.sqrt (temporal_dx2_sum (s2_args : ConvArgs ℝ) s2_step s2_zero i j) ≤ 1) ∧
    ∀ i j, i < 2 → j < 2 →
      (mlsys_after Real.sqrt Real.exp (s2_args : ConvArgs ℝ) (Mat.nil, Mat.nil, Mat.nil)
        [(s2_zero, s2_top)] s2_step s2_top).out_y.data 0 (out_pos 2 i j) = 0 :=
  ⟨by decide,
    fun i j hi hj => by
      rw [s2_w_norm]
      have h := Real.sqrt_le_sqrt (s2_step_delta i j hi hj)
      rw [Real.sqrt_one] at h
      linarith,
    fun i j hi hj =>
      ((C25_temporal_skip_rule s2_args s2_step s2_top s2_zero s2_top (Mat.of_list [3 / 10])
        (by decide)).2.2 s2_step
        (fun i j hi hj => by
          rw [s2_w_norm]
          have h := Real.sqrt_le_sqrt (s2_step_delta i j hi hj)
          rw [Real.sqrt_one] at h
          linarith) i j hi hj).2.2⟩

/-- C26: the decision step of temporal+spatial mode.  In a bound-branch call of
`temporal_spatial_convolution`, at position `(i, j, k)` with the state `s` the call has on
reaching it, the candidate is `B = min(B_t, B_c if j > 0, B_r if i > 0)` built from
`last_y[k, i, j]`, `last_y_col[k]` and `last_y_row[j * outch + k]`.  If `B + b <= 0` (`b` the
bias of `k` or `0`) the step writes `0` and sets `last_y[k, i, j]`, `last_y_col[k]` and
`last_y_row[j * outch + k]` to `B`; otherwise it writes the activated exact pre-activation
and sets all three to the pre-activation minus `b`; the output and `last_y[k, i, j]` stay so
until the call returns.  A position with `j > 0` and `B_c + b <= 0` is skipped. -/
theorem C26_ts_decision_step (a : ConvArgs ℝ) (x top last_x last_y w_norm2 col row : Mat ℝ)
    (hne : ¬ last_x.total ≤ 0) (i j k : Nat) (hi : i < top.h) (hj : j < top.w)
    (hk : k < top.c) :
    let s := ts_state_at Real.sqrt Real.exp x top a last_x last_y w_norm2 col row i j k
    let t := ts_state_at Real.sqrt Real.exp x top a last_x last_y w_norm2 col row i j (k + 1)
    let r := temporal_spatial_convolution Real.sqrt Real.exp x top a last_x last_y w_norm2 col
      row
    let d := fused_delta_sums a x last_x i j
    let B_t := s.last_y.data k (out_pos top.w i j) + w_norm2.flat k * Real.sqrt d.1
    let B_c := s.last_y_col.flat k + Real.sqrt d.2.2 * w_norm2.flat k
    let B_r := s.last_y_row.flat (out_pos top.c j k) + Real.sqrt d.2.1 * w_norm2.flat k
    let B := if i ≠ 0 then (if j ≠ 0 then min (min B_t B_c) B_r else min B_t B_r)
      else (if j ≠ 0 then min B_t B_c else B_t)
    (B + a.y_init k ≤ 0 →
      t.top_blob.data k (out_pos top.w i j) = 0 ∧
      t.last_y.data k (out_pos top.w i j) = B ∧
      t.last_y_col.flat k = B ∧
      t.last_y_row.flat (out_pos top.c j k) = B ∧
      r.top_blob.data k (out_pos top.w i j) = 0 ∧
      r.last_y.data k (out_pos top.w i j) = B) ∧
    (¬ B + a.y_init k ≤ 0 →
      t.top_blob.data k (out_pos top.w i j) = a.act Real.exp (exact_y a x i j k) ∧
      t.last_y.data k (out_pos top.w i j) = exact_y a x i j k - a.y_init k ∧
      t.last_y_col.flat k = exact_y a x i j k - a.y_init k ∧
      t.last_y_row.flat (out_pos top.c j k) = exact_y a x i j k - a.y_init k ∧
      r.top_blob.data k (out_pos top.w i j) = a.act Real.exp (exact_y a x i j k) ∧
      r.last_y.data k (out_pos top.w i j) = exact_y a x i j k - a.y_init k) ∧
    (j ≠ 0 → B_c + a.y_init k ≤ 0 → r.top_blob.data k (out_pos top.w i j) = 0) := by
  intro s t r d B_t B_c B_r B
  have hfin := ts_final_at Real.sqrt Real.exp x top a last_x last_y w_norm2 col row i j k hi hj
    hk
  have hr : r = _ := ts_bound_eq_at Real.sqrt Real.exp x top a last_x last_y w_norm2 col row hne
  have hrt : r.top_blob.data k (out_pos top.w i j) = t.top_blob.data k (out_pos top.w i j) := by
    rw [hr]
    exact hfin.1
  have hrl : r.last_y.data k (out_pos top.w i j) = t.last_y.data k (out_pos top.w i j) := by
    rw [hr]
    exact hfin.2
  have ht : t = ts_step Real.exp a x w_norm2 (Real.sqrt d.1)
      (if j ≠ 0 then Real.sqrt d.2.2 else d.2.2) (if i ≠ 0 then Real.sqrt d.2.1 else d.2.1)
      top.w top.c i j k s :=
    ts_state_at_succ Real.sqrt Real.exp x top a last_x last_y w_norm2 col row i j k
  have hB : ts_candidate i j (s.last_y.data k (out_pos top.w i j)) (s.last_y_col.flat k)
      (s.last_y_row.flat (out_pos top.c j k)) (w_norm2.flat k) (Real.sqrt d.1)
      (if j ≠ 0 then Real.sqrt d.2.2 else d.2.2) (if i ≠ 0 then Real.sqrt d.2.1 else d.2.1)
      = B := by
    unfold ts_candidate
    simp only [B, B_t, B_c, B_r]
    by_cases h1 : i = 0 <;> by_cases h2 : j = 0 <;> simp [h1, h2]
  have hskip : B + a.y_init k ≤ 0 →
      t.top_blob.data k (out_pos top.w i j) = 0 ∧
      t.last_y.data k (out_pos top.w i j) = B ∧
      t.last_y_col.flat k = B ∧
      t.last_y_row.flat (out_pos top.c j k) = B := by
    intro h
    rw [ht, ts_step_skip Real.exp a x w_norm2 _ _ _ top.w top.c i j k s (by rw [hB]; exact h),
      hB]
    exact ⟨Mat.set_data_same _ _ _ _, Mat.set_data_same _ _ _ _, Mat.flat_setFlat_same _ _ _,
      Mat.flat_setFlat_same _ _ _⟩
  refine ⟨?_, ?_, ?_⟩
  · intro h
    obtain ⟨h1, h2, h3, h4⟩ := hskip h
    exact ⟨h1, h2, h3, h4, hrt.trans h1, hrl.trans h2⟩
  · intro h
    have e := ts_step_exact Real.exp a x w_norm2 (Real.sqrt d.1)
      (if j ≠ 0 then Real.sqrt d.2.2 else d.2.2) (if i ≠ 0 then Real.sqrt d.2.1 else d.2.1)
      top.w top.c i j k s (by rw [hB]; exact h)
    have h1 : t.top_blob.data k (out_pos top.w i j) = a.act Real.exp (exact_y a x i j k) := by
      rw [ht, e]
      exact Mat.set_data_same _ _ _ _
    have h2 : t.last_y.data k (out_pos top.w i j) = exact_y a x i j k - a.y_init k := by
      rw [ht, e]
      exact Mat.set_data_same _ _ _ _
    have h3 : t.last_y_col.flat k = exact_y a x i j k - a.y_init k := by
      rw [ht, e]
      exact Mat.flat_setFlat_same _ _ _
    have h4 : t.last_y_row.flat (out_pos top.c j k) = exact_y a x i j k - a.y_init k := by
      rw [ht, e]
      exact Mat.flat_setFlat_same _ _ _
    exact ⟨h1, h2, h3, h4, hrt.trans h1, hrl.trans h2⟩
  · intro hj0 hc
    have hle : B ≤ B_c := by
      simp only [B, hj0, ne_eq, not_false_eq_true, if_true]
      split_ifs
      · exact min_le_right _ _
      · exact le_trans (min_le_left _ _) (min_le_right _ _)
    exact hrt.trans (hskip (by linarith)).1

/-- Witness of C26: a bound-branch call with the `1 x 1` filter `[1]` on the input
`[[-1, -1]]`, cached input `[[0, 0]]` and cached values `0`.  At position `(0, 1, 0)` the
temporal bound is `1` and the column bound is `-1`: only the column bound passes the skip
test, and the position is skipped. -/
theorem C26_ts_decision_step_witness :
    ¬ (pair_zero : Mat ℝ).total ≤ 0 ∧ 0 < (pair_top : Mat ℝ).h ∧ 1 < (pair_top : Mat ℝ).w ∧
    0 < (pair_top : Mat ℝ).c ∧
    0 < (ts_state_at Real.sqrt Real.exp pair_neg pair_top (s1_args : ConvArgs ℝ) pair_zero
          pair_top (Mat.of_list [1]) Mat.nil Mat.nil 0 1 0).last_y.data 0
          (out_pos (pair_top : Mat ℝ).w 0 1)
        + (Mat.of_list [1] : Mat ℝ).flat ((0 : Nat) : Int)
          * Real.sqrt (fused_delta_sums (s1_args : ConvArgs ℝ) pair_neg pair_zero 0 1).1
        + (s1_args : ConvArgs ℝ).y_init 0 ∧
    (ts_state_at Real.sqrt Real.exp pair_neg pair_top (s1_args : ConvArgs ℝ) pair_zero
          pair_top (Mat.of_list [1]) Mat.nil Mat.nil 0 1 0).last_y_col.flat ((0 : Nat) : Int)
        + Real.sqrt (fused_delta_sums (s1_args : ConvArgs ℝ) pair_neg pair_zero 0 1).2.2
          * (Mat.of_list [1] : Mat ℝ).flat ((0 : Nat) : Int)
        + (s1_args : ConvArgs ℝ).y_init 0 ≤ 0 ∧
    (temporal_spatial_convolution Real.sqrt Real.exp pair_neg pair_top
      (s1_args : ConvArgs ℝ) pair_zero pair_top (Mat.of_list [1]) Mat.nil Mat.nil).top_blob.data
      0 (out_pos (pair_top : Mat ℝ).w 0 1) = 0 :=
  ⟨by decide, by decide, by decide, by decide, pair_neg_bounds.1, pair_neg_bounds.2,
    (C26_ts_decision_step s1_args pair_neg pair_top pair_zero pair_top (Mat.of_list [1])
      Mat.nil Mat.nil (by decide) 0 1 0 (by decide) (by decide) (by decide)).2.2 (by decide)
      pair_neg_bounds.2⟩

/-- C27: the read-after-write order of the spatial buffers.  In a bound-branch call of
`temporal_spatial_convolution`, whose result is the state of the loop nest at its end and
whose states follow each other by the body of the nest: the entry of `last_y_row` read at
`(i, j, k)` with `i > 0` holds the value that the step at `(i-1, j, k)` stored there, the
entry of `last_y_col` read at `(i, j, k)` with `j > 0` holds the value that the step at
`(i, j-1, k)` stored there, and the steps of row `0` do not read `last_y_row` and the steps
of column `0` do not read `last_y_col`: run on any other buffer they store the same output
and the same value. -/
theorem C27_buffer_read_after_write (a : ConvArgs ℝ)
    (x top last_x last_y w_norm2 col row : Mat ℝ) (hne : ¬ last_x.total ≤ 0) (i j k : Nat)
    (hj : j < top.w) (hk : k < top.c) :
    (temporal_spatial_convolution Real.sqrt Real.exp x top a last_x last_y w_norm2 col row
      = ⟨(ts_state_at Real.sqrt Real.exp x top a last_x last_y w_norm2 col row top.h 0
            0).top_blob, x,
          (ts_state_at Real.sqrt Real.exp x top a last_x last_y w_norm2 col row top.h 0
            0).last_y, w_norm2,
          (ts_state_at Real.sqrt Real.exp x top a last_x last_y w_norm2 col row top.h 0
            0).last_y_col,
          (ts_state_at Real.sqrt Real.exp x top a last_x last_y w_norm2 col row top.h 0
            0).last_y_row⟩ ∧
      ts_state_at Real.sqrt Real.exp x top a last_x last_y w_norm2 col row 0 0 0
        = ⟨top, last_y, col, row⟩ ∧
      ts_state_at Real.sqrt Real.exp x top a last_x last_y w_norm2 col row i j (k + 1)
        = ts_body Real.sqrt Real.exp a x last_x w_norm2 top.w top.c i j k
            (ts_state_at Real.sqrt Real.exp x top a last_x last_y w_norm2 col row i j k)) ∧
    (0 < i → ∃ v,
      (ts_state_at Real.sqrt Real.exp x top a last_x last_y w_norm2 col row (i - 1) j
          (k + 1)).last_y_row
        = (ts_state_at Real.sqrt Real.exp x top a last_x last_y w_norm2 col row (i - 1) j
            k).last_y_row.setFlat (out_pos top.c j k) v ∧
      (ts_state_at Real.sqrt Real.exp x top a last_x last_y w_norm2 col row i j
          k).last_y_row.flat (out_pos top.c j k) = v) ∧
    (0 < j → ∃ v,
      (ts_state_at Real.sqrt Real.exp x top a last_x last_y w_norm2 col row i (j - 1)
          (k + 1)).last_y_col
        = (ts_state_at Real.sqrt Real.exp x top a last_x last_y w_norm2 col row i (j - 1)
            k).last_y_col.setFlat k v ∧
      (ts_state_at Real.sqrt Real.exp x top a last_x last_y w_norm2 col row i j
          k).last_y_col.flat k = v) ∧
    (∀ (s : TSState ℝ) (row2 : Mat ℝ), ∃ out v,
      ts_body Real.sqrt Real.exp a x last_x w_norm2 top.w top.c 0 j k s
        = { top_blob := s.top_blob.set k (out_pos top.w 0 j) out,
            last_y := s.last_y.set k (out_pos top.w 0 j) v,
            last_y_col := s.last_y_col.setFlat k v,
            last_y_row := s.last_y_row.setFlat (out_pos top.c j k) v } ∧
      ts_body Real.sqrt Real.exp a x last_x w_norm2 top.w top.c 0 j k
          { top_blob := s.top_blob, last_y := s.last_y, last_y_col := s.last_y_col,
            last_y_row := row2 }
        = { top_blob := s.top_blob.set k (out_pos top.w 0 j) out,
            last_y := s.last_y.set k (out_pos top.w 0 j) v,
            last_y_col := s.last_y_col.setFlat k v,
            last_y_row := row2.setFlat (out_pos top.c j k) v }) ∧
    ∀ (s : TSState ℝ) (col2 : Mat ℝ), ∃ out v,
      ts_body Real.sqrt Real.exp a x last_x w_norm2 top.w top.c i 0 k s
        = { top_blob := s.top_blob.set k (out_pos top.w i 0) out,
            last_y := s.last_y.set k (out_pos top.w i 0) v,
            last_y_col := s.last_y_col.setFlat k v,
            last_y_row := s.last_y_row.setFlat (out_pos top.c 0 k) v } ∧
      ts_body Real.sqrt Real.exp a x last_x w_norm2 top.w top.c i 0 k
          { top_blob := s.top_blob, last_y := s.last_y, last_y_col := col2,
            last_y_row := s.last_y_row }
        = { top_blob := s.top_blob.set k (out_pos top.w i 0) out,
            last_y := s.last_y.set k (out_pos top.w i 0) v,
            last_y_col := col2.setFlat k v,
            last_y_row := s.last_y_row.setFlat (out_pos top.c 0 k) v } := by
  refine ⟨⟨ts_bound_eq_at Real.sqrt Real.exp x top a last_x last_y w_norm2 col row hne,
      loop3_at_zero _ _ _ _,
      ts_state_at_succ Real.sqrt Real.exp x top a last_x last_y w_norm2 col row i j k⟩,
    ?_, ?_,
    fun s row2 => ts_body_row_unread Real.sqrt Real.exp a x last_x w_norm2 top.w top.c j k s row2,
    fun s col2 => ts_body_col_unread Real.sqrt Real.exp a x last_x w_norm2 top.w top.c i k s col2⟩
  · intro hi0
    obtain ⟨out, v, e⟩ := ts_body_writes Real.sqrt Real.exp a x last_x w_norm2 top.w top.c
      (i - 1) j k
      (ts_state_at Real.sqrt Real.exp x top a last_x last_y w_norm2 col row (i - 1) j k)
    refine ⟨v, ?_, ?_⟩
    · rw [ts_state_at_succ, e]
    · rw [ts_row_read Real.sqrt Real.exp x top a last_x last_y w_norm2 col row i j k hi0 hj hk,
        ts_state_at_succ, e]
      exact Mat.flat_setFlat_same _ _ _
  · intro hj0
    obtain ⟨out, v, e⟩ := ts_body_writes Real.sqrt Real.exp a x last_x w_norm2 top.w top.c
      i (j - 1) k
      (ts_state_at Real.sqrt Real.exp x top a last_x last_y w_norm2 col row i (j - 1) k)
    refine ⟨v, ?_, ?_⟩
    · rw [ts_state_at_succ, e]
    · rw [ts_col_read Real.sqrt Real.exp x top a last_x last_y w_norm2 col row i j k hj0 hj hk,
        ts_state_at_succ, e]
      exact Mat.flat_setFlat_same _ _ _

/-- Witness of C27: a bound-branch call with the `1 x 1` filter `[1]` on the input
`[[0, 1]]`, cached input `[[0, 0]]`; the entry of `last_y_col` read at `(0, 1, 0)`. -/
theorem C27_buffer_read_after_write_witness :
    ¬ (pair_zero : Mat ℝ).total ≤ 0 ∧ 1 < (pair_top : Mat ℝ).w ∧ 0 < (pair_top : Mat ℝ).c ∧
    (0 < 1 → ∃ v : ℝ,
      (ts_state_at Real.sqrt Real.exp pair_step pair_top (s1_args : ConvArgs ℝ) pair_zero
          pair_top (Mat.of_list [1]) Mat.nil Mat.nil 0 (1 - 1) (0 + 1)).last_y_col
        = (ts_state_at Real.sqrt Real.exp pair_step pair_top (s1_args : ConvArgs ℝ) pair_zero
            pair_top (Mat.of_list [1]) Mat.nil Mat.nil 0 (1 - 1) 0).last_y_col.setFlat
            ((0 : Nat) : Int) v ∧
      (ts_state_at Real.sqrt Real.exp pair_step pair_top (s1_args : ConvArgs ℝ) pair_zero
          pair_top (Mat.of_list [1]) Mat.nil Mat.nil 0 1 0).last_y_col.flat ((0 : Nat) : Int)
        = v) :=
  ⟨by decide, by decide, by decide,
    (C27_buffer_read_after_write s1_args pair_step pair_top pair_zero pair_top
      (Mat.of_list [1]) Mat.nil Mat.nil (by decide) 0 1 0 (by decide) (by decide)).2.2.1⟩

/-- C28: the boundary positions of spatial-only mode.  In every call of
`spatial_convolution`, whatever the caches hold, the output at position `(0, 0)` of every
channel `k` is the activated exact pre-activation, the step at `(0, 0)` taking the exact
branch from every state; at `i = 0`, `j > 0` the candidate is the column bound
`last_y_col[k] + delta_x_col * w_norm2[k]` alone: the step skips, storing the column bound,
exactly when the column bound plus the bias is `<= 0`; at `j = 0`, `i > 0` the candidate is
the row bound `last_y_row[k] + delta_x_row * w_norm2[k]` alone. -/
theorem C28_spatial_boundary (a : ConvArgs ℝ) (x top w_norm2 col row : Mat ℝ) (call_time : ℝ)
    (k : Nat) (hh : 0 < top.h) (hw : 0 < top.w) (hk : k < top.c) :
    (spatial_convolution Real.sqrt Real.exp x top a w_norm2 col row call_time).top_blob.data k
        (out_pos top.w 0 0)
      = a.act Real.exp (exact_y a x 0 0 k) ∧
    (∀ (wn : Mat ℝ) (dc dr : ℝ) (outw outch : Nat) (s : Mat ℝ × Mat ℝ × Mat ℝ),
      spatial_step Real.exp a x wn dc dr outw outch 0 0 k s
        = (s.1.set k (out_pos outw 0 0) (a.act Real.exp (exact_y a x 0 0 k)),
          s.2.1.setFlat k (-a.y_init k + exact_y a x 0 0 k),
          s.2.2.setFlat (out_pos outch 0 k) (-a.y_init k + exact_y a x 0 0 k))) ∧
    (∀ (wn : Mat ℝ) (dc dr : ℝ) (outw outch j : Nat) (s : Mat ℝ × Mat ℝ × Mat ℝ), j ≠ 0 →
      (s.2.1.flat k + dc * wn.flat k + a.y_init k ≤ 0 →
        spatial_step Real.exp a x wn dc dr outw outch 0 j k s
          = (s.1.set k (out_pos outw 0 j) 0,
            s.2.1.setFlat k (s.2.1.flat k + dc * wn.flat k),
            s.2.2.setFlat (out_pos outch j k) (s.2.1.flat k + dc * wn.flat k))) ∧
      (¬ s.2.1.flat k + dc * wn.flat k + a.y_init k ≤ 0 →
        spatial_step Real.exp a x wn dc dr outw outch 0 j k s
          = (s.1.set k (out_pos outw 0 j) (a.act Real.exp (exact_y a x 0 j k)),
            s.2.1.setFlat k (-a.y_init k + exact_y a x 0 j k),
            s.2.2.setFlat (out_pos outch j k) (-a.y_init k + exact_y a x 0 j k)))) ∧
    ∀ (wn : Mat ℝ) (dc dr : ℝ) (outw outch i : Nat) (s : Mat ℝ × Mat ℝ × Mat ℝ), i ≠ 0 →
      (s.2.2.flat (out_pos outch 0 k) + dr * wn.flat k + a.y_init k ≤ 0 →
        spatial_step Real.exp a x wn dc dr outw outch i 0 k s
          = (s.1.set k (out_pos outw i 0) 0,
            s.2.1.setFlat k (s.2.2.flat (out_pos outch 0 k) + dr * wn.flat k),
            s.2.2.setFlat (out_pos outch 0 k)
              (s.2.2.flat (out_pos outch 0 k) + dr * wn.flat k))) ∧
      (¬ s.2.2.flat (out_pos outch 0 k) + dr * wn.flat k + a.y_init k ≤ 0 →
        spatial_step Real.exp a x wn dc dr outw outch i 0 k s
          = (s.1.set k (out_pos outw i 0) (a.act Real.exp (exact_y a x i 0 k)),
            s.2.1.setFlat k (-a.y_init k + exact_y a x i 0 k),
            s.2.2.setFlat (out_pos outch 0 k) (-a.y_init k + exact_y a x i 0 k))) := by
  refine ⟨spatial_origin_output Real.sqrt Real.exp x top a w_norm2 col row call_time k hh hw hk,
    fun wn dc dr outw outch s => spatial_step_origin Real.exp a x wn dc dr outw outch k s,
    ?_, ?_⟩
  · intro wn dc dr outw outch j s hj
    constructor
    · intro h
      have e := spatial_step_skip Real.exp a x wn dc dr outw outch 0 j k s
        (by simp only [ne_eq, not_true_eq_false, if_false]; exact ⟨Or.inr hj, h⟩)
      simp only [ne_eq, not_true_eq_false, if_false] at e
      exact e
    · intro h
      exact spatial_step_exact Real.exp a x wn dc dr outw outch 0 j k s
        (by simp only [ne_eq, not_true_eq_false, if_false]; exact fun hc => h hc.2)
  · intro wn dc dr outw outch i s hi
    constructor
    · intro h
      have e := spatial_step_skip Real.exp a x wn dc dr outw outch i 0 k s
        (by simp only [ne_eq, hi, not_false_eq_true, not_true_eq_false, if_true, if_false]
            exact ⟨Or.inl trivial, h⟩)
      simp only [ne_eq, hi, not_false_eq_true, not_true_eq_false, if_true, if_false] at e
      exact e
    · intro h
      exact spatial_step_exact Real.exp a x wn dc dr outw outch i 0 k s
        (by simp only [ne_eq, hi, not_false_eq_true, not_true_eq_false, if_true, if_false]
            exact fun hc => h hc.2)

/-- Witness of C28 on scenario S1 with caches that would pass any skip test (`w_norm2 = 0`,
column and row buffers `-5`): the output at `(0, 0)` is the exact one. -/
theorem C28_spatial_boundary_witness :
    0 < (s1_top : Mat ℝ).h ∧ 0 < (s1_top : Mat ℝ).w ∧ 0 < (s1_top : Mat ℝ).c ∧
    (spatial_convolution Real.sqrt Real.exp s1_input s1_top (s1_args : ConvArgs ℝ)
        (Mat.of_list [0]) (Mat.of_list [-5]) (Mat.of_list [-5, -5, -5]) 0).top_blob.data 0
        (out_pos (s1_top : Mat ℝ).w 0 0)
      = (s1_args : ConvArgs ℝ).act Real.exp (exact_y (s1_args : ConvArgs ℝ) s1_input 0 0 0) :=
  ⟨by decide, by decide, by decide,
    (C28_spatial_boundary s1_args s1_input s1_top (Mat.of_list [0]) (Mat.of_list [-5])
      (Mat.of_list [-5, -5, -5]) 0 0 (by decide) (by decide) (by decide)).1⟩

/-- C29 fails in the code: the sign test reads `top_E_w_vals[ii]` without the offset of the
channel.  With the two six-tap filters `[1, 0, 0, 0, 0, 0]` and `[-1, 0, 0, 0, 0, 0]`, after
a first call on the zero input, a second call on `[[1, 0, 0, 0, 0, 0]]` computes for channel
`1` the first sign product with the weight `1` of channel `0`: the product is `1`, where
every product taken with the weights of channel `1` is `<= 0`, and the pattern of channel
`1` is `32` (bit `E-1` set) instead of `0`. -/
theorem C29_sign_test_reads_first_channel :
    (∀ p : Nat, p < E →
      (top_E_dx2_sum (two_tap_args : ConvArgs ℝ) six_step
        (mlsys_convolution_lower_top_E Real.sqrt Real.exp six_zero two_top
          (two_tap_args : ConvArgs ℝ) Mat.nil Mat.nil Mat.nil Mat.nil Mat.nil Mat.nil
          Mat.nil).last_x 0 0
        (mlsys_convolution_lower_top_E Real.sqrt Real.exp six_zero two_top
          (two_tap_args : ConvArgs ℝ) Mat.nil Mat.nil Mat.nil Mat.nil Mat.nil Mat.nil
          Mat.nil).x_vector_diff).2.flat
          (to_int
            ((mlsys_convolution_lower_top_E Real.sqrt Real.exp six_zero two_top
              (two_tap_args : ConvArgs ℝ) Mat.nil Mat.nil Mat.nil Mat.nil Mat.nil Mat.nil
              Mat.nil).top_E_indices.flat
              (((1 : Nat) : Int) * E + p)))
        * (mlsys_convolution_lower_top_E Real.sqrt Real.exp six_zero two_top
            (two_tap_args : ConvArgs ℝ) Mat.nil Mat.nil Mat.nil Mat.nil Mat.nil Mat.nil
            Mat.nil).top_E_w_vals.flat
            (((1 : Nat) : Int) * E + p) ≤ 0) ∧
    (top_E_dx2_sum (two_tap_args : ConvArgs ℝ) six_step
      (mlsys_convolution_lower_top_E Real.sqrt Real.exp six_zero two_top
        (two_tap_args : ConvArgs ℝ) Mat.nil Mat.nil Mat.nil Mat.nil Mat.nil Mat.nil
        Mat.nil).last_x 0 0
      (mlsys_convolution_lower_top_E Real.sqrt Real.exp six_zero two_top
        (two_tap_args : ConvArgs ℝ) Mat.nil Mat.nil Mat.nil Mat.nil Mat.nil Mat.nil
        Mat.nil).x_vector_diff).2.flat
        (to_int
          ((mlsys_convolution_lower_top_E Real.sqrt Real.exp six_zero two_top
            (two_tap_args : ConvArgs ℝ) Mat.nil Mat.nil Mat.nil Mat.nil Mat.nil Mat.nil
            Mat.nil).top_E_indices.flat
            (((1 : Nat) : Int) * E + ((0 : Nat) : Int))))
      * (mlsys_convolution_lower_top_E Real.sqrt Real.exp six_zero two_top
          (two_tap_args : ConvArgs ℝ) Mat.nil Mat.nil Mat.nil Mat.nil Mat.nil Mat.nil
          Mat.nil).top_E_w_vals.flat
          ((0 : Nat) : Int) = 1 ∧
    top_E_select
      (mlsys_convolution_lower_top_E Real.sqrt Real.exp six_zero two_top
        (two_tap_args : ConvArgs ℝ) Mat.nil Mat.nil Mat.nil Mat.nil Mat.nil Mat.nil
        Mat.nil).top_E_indices
      (mlsys_convolution_lower_top_E Real.sqrt Real.exp six_zero two_top
        (two_tap_args : ConvArgs ℝ) Mat.nil Mat.nil Mat.nil Mat.nil Mat.nil Mat.nil
        Mat.nil).top_E_w_vals
      (top_E_dx2_sum (two_tap_args : ConvArgs ℝ) six_step
        (mlsys_convolution_lower_top_E Real.sqrt Real.exp six_zero two_top
          (two_tap_args : ConvArgs ℝ) Mat.nil Mat.nil Mat.nil Mat.nil Mat.nil Mat.nil
          Mat.nil).last_x 0 0
        (mlsys_convolution_lower_top_E Real.sqrt Real.exp six_zero two_top
          (two_tap_args : ConvArgs ℝ) Mat.nil Mat.nil Mat.nil Mat.nil Mat.nil Mat.nil
          Mat.nil).x_vector_diff).2 1 = 32 := by
  show
    let r1 := mlsys_convolution_lower_top_E Real.sqrt Real.exp six_zero two_top
      (two_tap_args : ConvArgs ℝ) Mat.nil Mat.nil Mat.nil Mat.nil Mat.nil Mat.nil Mat.nil
    let d := (top_E_dx2_sum (two_tap_args : ConvArgs ℝ) six_step r1.last_x 0 0
      r1.x_vector_diff).2
    (∀ p : Nat, p < E →
      d.flat (to_int (r1.top_E_indices.flat (((1 : Nat) : Int) * E + p)))
        * r1.top_E_w_vals.flat (((1 : Nat) : Int) * E + p) ≤ 0) ∧
    d.flat (to_int (r1.top_E_indices.flat (((1 : Nat) : Int) * E + ((0 : Nat) : Int))))
      * r1.top_E_w_vals.flat ((0 : Nat) : Int) = 1 ∧
    top_E_select r1.top_E_indices r1.top_E_w_vals d 1 = 32
  intro r1 d
  obtain ⟨hlx, hI, hV00, hV10, hV0, hV1⟩ := two_tap_first_call
  have ei : ∀ p : Nat, ((1 : Nat) : Int) * (E : Int) + (p : Int)
      = (E : Int) * ((1 : Nat) : Int) + (p : Int) := fun p => by ring
  have e0 : ∀ p : Nat, (p : Int) = (E : Int) * ((0 : Nat) : Int) + (p : Int) := fun p => by simp
  have ht : to_int (0 : ℝ) = 0 := by simp [to_int]
  have hd : d.flat 0 = 1 := by
    show (top_E_dx2_sum (two_tap_args : ConvArgs ℝ) six_step r1.last_x 0 0
      r1.x_vector_diff).2.flat 0 = 1
    rw [show r1.last_x = six_zero from hlx]
    exact two_tap_diff _
  have hidx : to_int (r1.top_E_indices.flat (((1 : Nat) : Int) * E + ((0 : Nat) : Int))) = 0 := by
    rw [ei 0, show r1.top_E_indices.flat ((E : Int) * ((1 : Nat) : Int) + ((0 : Nat) : Int)) = 0
      from hI, ht]
  have hprod : d.flat (to_int (r1.top_E_indices.flat (((1 : Nat) : Int) * E + ((0 : Nat) : Int))))
      * r1.top_E_w_vals.flat ((0 : Nat) : Int) = 1 := by
    rw [hidx, hd, e0 0, show r1.top_E_w_vals.flat ((E : Int) * ((0 : Nat) : Int)
      + ((0 : Nat) : Int)) = 1 from hV00, mul_one]
  refine ⟨?_, hprod, ?_⟩
  · intro p hp
    rw [ei p]
    rcases Nat.eq_zero_or_pos p with h0 | h0
    · subst h0
      rw [← ei 0, hidx, hd, ei 0,
        show r1.top_E_w_vals.flat ((E : Int) * ((1 : Nat) : Int) + ((0 : Nat) : Int)) = -1
          from hV10]
      norm_num
    · rw [show r1.top_E_w_vals.flat ((E : Int) * ((1 : Nat) : Int) + (p : Int)) = 0
        from hV1 p h0 hp, mul_zero]
  · apply top_E_select_first
    · rw [hprod]
      norm_num
    · intro m hm0 hm6
      rw [e0 m]
      exact hV0 m hm0 hm6

/-- C30: the bit order of the sign pattern.  For any caches and any delta vector, the index
`m = select_norm_index` that `mlsys_convolution_lower_top_E` builds for channel `k` satisfies
`m < 2^E`, and bit `E-1-p` of `m` is set exactly when the `p`-th sign product the kernel
computes, `x_vector_diff[(int) top_E_indices[k * E + p]] * top_E_w_vals[p]`, is `> 0`; the
skip branch of the step adds `dx_norm * all_select_norms[k * 2^E + m]` to `last_y`.  With
the tables left by a first call, for a channel whose flat filter has at least `E` weights,
the entry looked up is `sqrt(||W_k||^2 - S)`, where `S` sums `top_E_w_vals[k, p]^2` over
exactly the `p` whose sign product is `> 0`. -/
theorem C30_sign_pattern_bits (a : ConvArgs ℝ)
    (in_x out_y last_x last_y w_norm2 all_select_norms top_E_indices top_E_w_vals
      x_vector_diff : Mat ℝ)
    (he : last_x.total ≤ 0) (k : Nat) (hk : k < out_y.c) :
    (∀ idx vals diff : Mat ℝ,
      top_E_select idx vals diff k < E_pow_num ∧
      ∀ p, p < E →
        ((top_E_select idx vals diff k >>> (E - 1 - p)) &&& 1 ≠ 0 ↔
          diff.flat (to_int (idx.flat ((k : Int) * E + p))) * vals.flat p > 0)) ∧
    (∀ (x sel idx vals diff : Mat ℝ) (dx_norm : ℝ) (outw i j : Nat) (s : Mat ℝ × Mat ℝ),
      s.2.data k (out_pos outw i j)
          + dx_norm * sel.flat ((k : Int) * E_pow_num + top_E_select idx vals diff k)
          + a.y_init k ≤ 0 →
      top_E_step Real.exp a x sel idx vals diff dx_norm outw i j k s
        = (s.1.set k (out_pos outw i j) 0,
          s.2.set k (out_pos outw i j) (s.2.data k (out_pos outw i j)
            + dx_norm * sel.flat ((k : Int) * E_pow_num + top_E_select idx vals diff k)))) ∧
    (E ≤ a.maxk * in_x.c → ∀ diff : Mat ℝ,
      (mlsys_convolution_lower_top_E Real.sqrt Real.exp in_x out_y a last_x last_y w_norm2
          all_select_norms top_E_indices top_E_w_vals x_vector_diff).all_select_norms.flat
          ((k : Int) * E_pow_num
            + top_E_select
                (mlsys_convolution_lower_top_E Real.sqrt Real.exp in_x out_y a last_x last_y
                  w_norm2 all_select_norms top_E_indices top_E_w_vals
                  x_vector_diff).top_E_indices
                (mlsys_convolution_lower_top_E Real.sqrt Real.exp in_x out_y a last_x last_y
                  w_norm2 all_select_norms top_E_indices top_E_w_vals
                  x_vector_diff).top_E_w_vals diff k)
        = Real.sqrt (weight_sq a in_x.c k
            - ∑ p in Finset.range E,
                if diff.flat (to_int
                      ((mlsys_convolution_lower_top_E Real.sqrt Real.exp in_x out_y a last_x
                        last_y w_norm2 all_select_norms top_E_indices top_E_w_vals
                        x_vector_diff).top_E_indices.flat ((k : Int) * E + p)))
                    * (mlsys_convolution_lower_top_E Real.sqrt Real.exp in_x out_y a last_x
                        last_y w_norm2 all_select_norms top_E_indices top_E_w_vals
                        x_vector_diff).top_E_w_vals.flat p > 0
                then
                  (mlsys_convolution_lower_top_E Real.sqrt Real.exp in_x out_y a last_x last_y
                    w_norm2 all_select_norms top_E_indices top_E_w_vals
                    x_vector_diff).top_E_w_vals.flat ((E : Int) * k + p) ^ 2
                else 0)) := by
  refine ⟨fun idx vals diff => top_E_select_bits idx vals diff k, ?_, ?_⟩
  · intro x sel idx vals diff dx_norm outw i j s h
    unfold top_E_step
    simp only
    rw [Mat.set_data_same, if_pos h]
  · intro hlen diff
    obtain ⟨hlt, hbits⟩ := top_E_select_bits
      (mlsys_convolution_lower_top_E Real.sqrt Real.exp in_x out_y a last_x last_y w_norm2
        all_select_norms top_E_indices top_E_w_vals x_vector_diff).top_E_indices
      (mlsys_convolution_lower_top_E Real.sqrt Real.exp in_x out_y a last_x last_y w_norm2
        all_select_norms top_E_indices top_E_w_vals x_vector_diff).top_E_w_vals diff k
    have hs := (top_E_first_tables Real.sqrt Real.exp in_x out_y a last_x last_y w_norm2
      all_select_norms top_E_indices top_E_w_vals x_vector_diff he k hk).2.2.2 _ hlt
    have hsum := top_E_select_sum Real.sqrt Real.exp in_x out_y a last_x last_y w_norm2
      all_select_norms top_E_indices top_E_w_vals x_vector_diff he k hk hlen
      (top_E_select
        (mlsys_convolution_lower_top_E Real.sqrt Real.exp in_x out_y a last_x last_y w_norm2
          all_select_norms top_E_indices top_E_w_vals x_vector_diff).top_E_indices
        (mlsys_convolution_lower_top_E Real.sqrt Real.exp in_x out_y a last_x last_y w_norm2
          all_select_norms top_E_indices top_E_w_vals x_vector_diff).top_E_w_vals diff k)
    rw [hs, ← hsum]
    congr 2
    refine Finset.sum_congr rfl (fun p hp => ?_)
    have hb := hbits p (Finset.mem_range.mp hp)
    by_cases hc : diff.flat (to_int
        ((mlsys_convolution_lower_top_E Real.sqrt Real.exp in_x out_y a last_x
          last_y w_norm2 all_select_norms top_E_indices top_E_w_vals
          x_vector_diff).top_E_indices.flat ((k : Int) * E + p)))
      * (mlsys_convolution_lower_top_E Real.sqrt Real.exp in_x out_y a last_x
          last_y w_norm2 all_select_norms top_E_indices top_E_w_vals
          x_vector_diff).top_E_w_vals.flat p > 0
    · rw [if_pos hc, if_pos (hb.mpr hc)]
    · rw [if_neg hc, if_neg (fun h => hc (hb.mp h))]

/-- Witness of C30: the tables of the first call on the six-tap filter `[1, 0, 0, 0, 0, 0]`
and the delta vector `[1, 0, 0, 0, 0, 0]`; the pattern of channel `0` is below `2^E`. -/
theorem C30_sign_pattern_bits_witness :
    (Mat.nil : Mat ℝ).total ≤ 0 ∧ 0 < (one_top : Mat ℝ).c ∧
    top_E_select
        (mlsys_convolution_lower_top_E Real.sqrt Real.exp six_zero one_top
          (first_tap_args : ConvArgs ℝ) Mat.nil Mat.nil Mat.nil Mat.nil Mat.nil Mat.nil
          Mat.nil).top_E_indices
        (mlsys_convolution_lower_top_E Real.sqrt Real.exp six_zero one_top
          (first_tap_args : ConvArgs ℝ) Mat.nil Mat.nil Mat.nil Mat.nil Mat.nil Mat.nil
          Mat.nil).top_E_w_vals (Mat.of_list [1, 0, 0, 0, 0, 0]) 0 < E_pow_num :=
  ⟨by decide, by decide,
    ((C30_sign_pattern_bits first_tap_args six_zero one_top Mat.nil Mat.nil Mat.nil Mat.nil
      Mat.nil Mat.nil Mat.nil (by decide) 0 (by decide)).1 _ _ _).1⟩

set_option maxRecDepth 100000 in
/-- C31 fails as stated: in the binary32 arithmetic of the source, with the tables of the
first call on the six-tap filter `W = [1332, 1704, 2075, 1452, 2660, 2199]` and the input
going from zero to `W`, every product of the delta with the weight at the `E` top taps is
positive and the kernel selects the pattern `m = 2^E - 1`, but `all_select_norms[2^E - 1]`
is the square root of a negative rounded difference, a NaN: `all_select_norms[2^E - 1] <
w_norm[0]` is false, and the top-E bound `last_y + dx_t * all_select_norms[m]` with
`last_y = 0` is a NaN, so that it is not `<=` the plain temporal bound
`last_y + w_norm[0] * dx_t`. -/
theorem C31_top_E_tightening_counterexample :
    (∀ p, p < E →
      F32.lt 0
        ((top_E_dx2_sum_f32 rounded_args rounded_input rounded_zero 0 0 Mat.nil).2.flat
            (F32.to_int
              ((top_E_tables_f32 rounded_args 1 1 Mat.nil Mat.nil Mat.nil Mat.nil).2.1.flat
                ((E : Int) * ((0 : Nat) : Int) + p)))
          * (top_E_tables_f32 rounded_args 1 1 Mat.nil Mat.nil Mat.nil Mat.nil).2.2.1.flat
              ((E : Int) * ((0 : Nat) : Int) + p)) = true) ∧
    top_E_select_f32 (top_E_tables_f32 rounded_args 1 1 Mat.nil Mat.nil Mat.nil Mat.nil).2.1
        (top_E_tables_f32 rounded_args 1 1 Mat.nil Mat.nil Mat.nil Mat.nil).2.2.1
        (top_E_dx2_sum_f32 rounded_args rounded_input rounded_zero 0 0 Mat.nil).2 0
      = E_pow_num - 1 ∧
    F32.lt
        ((top_E_tables_f32 rounded_args 1 1 Mat.nil Mat.nil Mat.nil Mat.nil).2.2.2.flat
          (((0 : Nat) : Int) * E_pow_num + ((E_pow_num - 1 : Nat) : Int)))
        ((top_E_tables_f32 rounded_args 1 1 Mat.nil Mat.nil Mat.nil Mat.nil).1.flat
          ((0 : Nat) : Int)) = false ∧
    F32.le
        (0 + F32.sqrt (top_E_dx2_sum_f32 rounded_args rounded_input rounded_zero 0 0 Mat.nil).1
          * (top_E_tables_f32 rounded_args 1 1 Mat.nil Mat.nil Mat.nil Mat.nil).2.2.2.flat
            (((0 : Nat) : Int) * E_pow_num
              + top_E_select_f32
                  (top_E_tables_f32 rounded_args 1 1 Mat.nil Mat.nil Mat.nil Mat.nil).2.1
                  (top_E_tables_f32 rounded_args 1 1 Mat.nil Mat.nil Mat.nil Mat.nil).2.2.1
                  (top_E_dx2_sum_f32 rounded_args rounded_input rounded_zero 0 0 Mat.nil).2
                  0))
        (0 + (top_E_tables_f32 rounded_args 1 1 Mat.nil Mat.nil Mat.nil Mat.nil).1.flat
            ((0 : Nat) : Int)
          * F32.sqrt
              (top_E_dx2_sum_f32 rounded_args rounded_input rounded_zero 0 0 Mat.nil).1)
      = false := by
  decide

/-- C31 as the code has it, in exact real arithmetic.  With the tables left by the first call
(empty `last_x`) of `mlsys_convolution_lower_top_E` on a filter of flat length at least `E`,
which every later call keeps: `w_norm2[k]` is `||W_k|| = sqrt(||W_k||^2)`,
`top_E_w_vals[k, p]` is the weight of the channel at the stored index, and the entry
`all_select_norms[k * 2^E + m]`, `m < 2^E`, is `sqrt(||W_k||^2 - S)`, with `S` the sum of
`top_E_w_vals[k, p]^2` over the `p` whose bit `E-1-p` is set in `m`; for every later input,
cached input, cached value `v = last_y[k, i, j]` and position, the top-E bound
`v + dx_t * all_select_norms[k * 2^E + m]`, `m` the pattern the kernel selects, is at most
the plain temporal bound `v + w_norm2[k] * dx_t`; and when the delta has a strictly positive
product with the stored weight at all `E` top taps of channel `k`,
`all_select_norms[k * 2^E + 2^E - 1] < w_norm2[k]`.  The pattern the kernel selects is
`m = 2^E - 1` when all `E` products the kernel computes are positive, which for channel `0`
are the products with the stored weights of the channel. -/
theorem C31_top_E_tightening (a : ConvArgs ℝ)
    (in_x out_y last_x last_y w_norm2 all_select_norms top_E_indices top_E_w_vals
      x_vector_diff : Mat ℝ)
    (he : last_x.total ≤ 0) (hlen : E ≤ a.maxk * in_x.c) (k : Nat) (hk : k < out_y.c) :
    (∀ (x out lx ly wn sel idx vals xd : Mat ℝ), ¬ lx.total ≤ 0 →
      (mlsys_convolution_lower_top_E Real.sqrt Real.exp x out a lx ly wn sel idx vals
          xd).w_norm2 = wn ∧
      (mlsys_convolution_lower_top_E Real.sqrt Real.exp x out a lx ly wn sel idx vals
          xd).all_select_norms = sel ∧
      (mlsys_convolution_lower_top_E Real.sqrt Real.exp x out a lx ly wn sel idx vals
          xd).top_E_indices = idx ∧
      (mlsys_convolution_lower_top_E Real.sqrt Real.exp x out a lx ly wn sel idx vals
          xd).top_E_w_vals = vals) ∧
    (mlsys_convolution_lower_top_E Real.sqrt Real.exp in_x out_y a last_x last_y w_norm2
        all_select_norms top_E_indices top_E_w_vals x_vector_diff).w_norm2.flat k
      = Real.sqrt (weight_sq a in_x.c k) ∧
    (∀ p, p < E →
      (mlsys_convolution_lower_top_E Real.sqrt Real.exp in_x out_y a last_x last_y w_norm2
          all_select_norms top_E_indices top_E_w_vals x_vector_diff).top_E_w_vals.flat
          ((E : Int) * k + p)
        = a.weight_data.flat (a.kptr in_x.c k
            + to_int ((mlsys_convolution_lower_top_E Real.sqrt Real.exp in_x out_y a last_x
                last_y w_norm2 all_select_norms top_E_indices top_E_w_vals
                x_vector_diff).top_E_indices.flat ((E : Int) * k + p)))) ∧
    (∀ m, m < E_pow_num →
      (mlsys_convolution_lower_top_E Real.sqrt Real.exp in_x out_y a last_x last_y w_norm2
          all_select_norms top_E_indices top_E_w_vals x_vector_diff).all_select_norms.flat
          ((k : Int) * E_pow_num + m)
        = Real.sqrt (weight_sq a in_x.c k
            - (∑ p in Finset.range E, if (m >>> (E - 1 - p)) &&& 1 ≠ 0 then
                (mlsys_convolution_lower_top_E Real.sqrt Real.exp in_x out_y a last_x last_y
                  w_norm2 all_select_norms top_E_indices top_E_w_vals
                  x_vector_diff).top_E_w_vals.flat ((E : Int) * k + p) ^ 2 else 0))) ∧
    (∀ (x lx xd : Mat ℝ) (i j : Nat) (v : ℝ),
      v + Real.sqrt (top_E_dx2_sum a x lx i j xd).1
          * (mlsys_convolution_lower_top_E Real.sqrt Real.exp in_x out_y a last_x last_y
              w_norm2 all_select_norms top_E_indices top_E_w_vals
              x_vector_diff).all_select_norms.flat
            ((k : Int) * E_pow_num
              + top_E_select
                  (mlsys_convolution_lower_top_E Real.sqrt Real.exp in_x out_y a last_x
                    last_y w_norm2 all_select_norms top_E_indices top_E_w_vals
                    x_vector_diff).top_E_indices
                  (mlsys_convolution_lower_top_E Real.sqrt Real.exp in_x out_y a last_x
                    last_y w_norm2 all_select_norms top_E_indices top_E_w_vals
                    x_vector_diff).top_E_w_vals (top_E_dx2_sum a x lx i j xd).2 k)
        ≤ v + (mlsys_convolution_lower_top_E Real.sqrt Real.exp in_x out_y a last_x last_y
              w_norm2 all_select_norms top_E_indices top_E_w_vals x_vector_diff).w_norm2.flat k
            * Real.sqrt (top_E_dx2_sum a x lx i j xd).1) ∧
    (∀ diff : Mat ℝ,
      (∀ p, p < E →
        diff.flat (to_int
            ((mlsys_convolution_lower_top_E Real.sqrt Real.exp in_x out_y a last_x last_y
              w_norm2 all_select_norms top_E_indices top_E_w_vals
              x_vector_diff).top_E_indices.flat ((E : Int) * k + p)))
          * (mlsys_convolution_lower_top_E Real.sqrt Real.exp in_x out_y a last_x last_y
              w_norm2 all_select_norms top_E_indices top_E_w_vals
              x_vector_diff).top_E_w_vals.flat ((E : Int) * k + p) > 0) →
      (mlsys_convolution_lower_top_E Real.sqrt Real.exp in_x out_y a last_x last_y w_norm2
          all_select_norms top_E_indices top_E_w_vals x_vector_diff).all_select_norms.flat
          ((k : Int) * E_pow_num + ((E_pow_num - 1 : Nat) : Int))
        < (mlsys_convolution_lower_top_E Real.sqrt Real.exp in_x out_y a last_x last_y
            w_norm2 all_select_norms top_E_indices top_E_w_vals x_vector_diff).w_norm2.flat k ∧
      (k = 0 →
        top_E_select
            (mlsys_convolution_lower_top_E Real.sqrt Real.exp in_x out_y a last_x last_y
              w_norm2 all_select_norms top_E_indices top_E_w_vals x_vector_diff).top_E_indices
            (mlsys_convolution_lower_top_E Real.sqrt Real.exp in_x out_y a last_x last_y
              w_norm2 all_select_norms top_E_indices top_E_w_vals x_vector_diff).top_E_w_vals
            diff k = E_pow_num - 1)) ∧
    ∀ idx vals diff : Mat ℝ,
      (∀ p, p < E →
        diff.flat (to_int (idx.flat ((k : Int) * E + p))) * vals.flat p > 0) →
      top_E_select idx vals diff k = E_pow_num - 1 := by
  obtain ⟨hw, hi, hv, hs⟩ := top_E_first_tables Real.sqrt Real.exp in_x out_y a last_x last_y
    w_norm2 all_select_norms top_E_indices top_E_w_vals x_vector_diff he k hk
  refine ⟨?_, hw, ?_, ?_, ?_, ?_, ?_⟩
  · intro x out lx ly wn sel idx vals xd hne
    exact top_E_tables_kept Real.sqrt Real.exp x out a lx ly wn sel idx vals xd hne
  · intro p hp
    rw [hi p hp, to_int_natCast]
    exact hv p hp
  · intro m hm
    rw [hs m hm, top_E_select_sum Real.sqrt Real.exp in_x out_y a last_x last_y w_norm2
      all_select_norms top_E_indices top_E_w_vals x_vector_diff he k hk hlen m]
  · intro x lx xd i j v
    have hm := (top_E_select_bits
      (mlsys_convolution_lower_top_E Real.sqrt Real.exp in_x out_y a last_x last_y w_norm2
        all_select_norms top_E_indices top_E_w_vals x_vector_diff).top_E_indices
      (mlsys_convolution_lower_top_E Real.sqrt Real.exp in_x out_y a last_x last_y w_norm2
        all_select_norms top_E_indices top_E_w_vals x_vector_diff).top_E_w_vals
      (top_E_dx2_sum a x lx i j xd).2 k).1
    rw [hs _ hm, hw, mul_comm (Real.sqrt (weight_sq a in_x.c k))]
    apply add_le_add_left
    apply mul_le_mul_of_nonneg_left _ (Real.sqrt_nonneg _)
    apply Real.sqrt_le_sqrt
    rw [sub_le_self_iff]
    refine Finset.sum_nonneg (fun t _ => ?_)
    split_ifs
    · exact mul_self_nonneg _
    · exact le_refl 0
  · intro diff hpos
    refine ⟨?_, ?_⟩
    swap
    · intro hk0
      apply top_E_select_full
      intro p hp
      have h := hpos p hp
      rw [hk0] at h ⊢
      simp only [Nat.cast_zero, mul_zero, zero_mul, zero_add] at h ⊢
      exact h
    rw [hs (E_pow_num - 1) (by decide), hw]
    have hsum := top_E_select_sum Real.sqrt Real.exp in_x out_y a last_x last_y w_norm2
      all_select_norms top_E_indices top_E_w_vals x_vector_diff he k hk hlen (E_pow_num - 1)
    have hle := top_E_select_sum_le Real.sqrt Real.exp in_x out_y a last_x last_y w_norm2
      all_select_norms top_E_indices top_E_w_vals x_vector_diff he k hk hlen (E_pow_num - 1)
    rw [← hsum]
    apply Real.sqrt_lt_sqrt (by linarith)
    rw [sub_lt_self_iff]
    apply Finset.sum_pos
    · intro p hp
      rw [if_pos (all_bits_set p (Finset.mem_range.mp hp))]
      have hne : (mlsys_convolution_lower_top_E Real.sqrt Real.exp in_x out_y a last_x last_y
          w_norm2 all_select_norms top_E_indices top_E_w_vals
          x_vector_diff).top_E_w_vals.flat ((E : Int) * k + p) ≠ 0 := by
        intro h0
        have := hpos p (Finset.mem_range.mp hp)
        rw [h0, mul_zero] at this
        exact lt_irrefl _ this
      positivity
    · exact ⟨0, Finset.mem_range.mpr (by decide)⟩
  · intro idx vals diff h
    exact top_E_select_full idx vals diff k h

/-- Witness of the amended C31: the first call on the six-tap filter `[1, 0, 0, 0, 0, 0]`
with input zero, then the bounds of channel `0` at position `(0, 0)` for the input
`[[1, 0, 0, 0, 0, 0]]` and the cached value `0`. -/
theorem C31_top_E_tightening_witness :
    (Mat.nil : Mat ℝ).total ≤ 0 ∧
    E ≤ (first_tap_args : ConvArgs ℝ).maxk * (six_zero : Mat ℝ).c ∧
    0 < (one_top : Mat ℝ).c ∧
    (0 : ℝ) + Real.sqrt (top_E_dx2_sum (first_tap_args : ConvArgs ℝ) six_step six_zero 0 0
          Mat.nil).1
        * (mlsys_convolution_lower_top_E Real.sqrt Real.exp six_zero one_top
              (first_tap_args : ConvArgs ℝ) Mat.nil Mat.nil Mat.nil Mat.nil Mat.nil Mat.nil
              Mat.nil).all_select_norms.flat
          (((0 : Nat) : Int) * E_pow_num
            + top_E_select (mlsys_convolution_lower_top_E Real.sqrt Real.exp six_zero one_top
              (first_tap_args : ConvArgs ℝ) Mat.nil Mat.nil Mat.nil Mat.nil Mat.nil Mat.nil
              Mat.nil).top_E_indices
                (mlsys_convolution_lower_top_E Real.sqrt Real.exp six_zero one_top
              (first_tap_args : ConvArgs ℝ) Mat.nil Mat.nil Mat.nil Mat.nil Mat.nil Mat.nil
              Mat.nil).top_E_w_vals
                (top_E_dx2_sum (first_tap_args : ConvArgs ℝ) six_step six_zero 0 0
                  Mat.nil).2 0)
      ≤ 0 + (mlsys_convolution_lower_top_E Real.sqrt Real.exp six_zero one_top
              (first_tap_args : ConvArgs ℝ) Mat.nil Mat.nil Mat.nil Mat.nil Mat.nil Mat.nil
              Mat.nil).w_norm2.flat ((0 : Nat) : Int)
          * Real.sqrt (top_E_dx2_sum (first_tap_args : ConvArgs ℝ) six_step six_zero 0 0
              Mat.nil).1 :=
  ⟨by decide, by decide, by decide,
    (C31_top_E_tightening first_tap_args six_zero one_top Mat.nil Mat.nil Mat.nil Mat.nil
      Mat.nil Mat.nil Mat.nil (by decide) (by decide) 0 (by decide)).2.2.2.2.1 six_step six_zero
      Mat.nil 0 0 0⟩

/-- C32: closed form of the kernel offset table.  For every input row width `w`, kernel
sizes `kernel_w, kernel_h >= 1` and dilations, the table `space_ofs` built at the top of each
kernel satisfies `space_ofs[r * kernel_w + c] = r * w * dilation_h + c * dilation_w` for
every `r < kernel_h` and `c < kernel_w`; and the table of a call does not depend on the
strides: replacing `stride_w` and `stride_h` in the kernel arguments leaves it unchanged. -/
theorem C32_space_ofs_closed_form (w : Nat) (kernel_w kernel_h dilation_w dilation_h : Int)
    (hkw : 1 ≤ kernel_w) (hkh : 1 ≤ kernel_h) :
    (∀ r c : Nat, (r : Int) < kernel_h → (c : Int) < kernel_w →
      make_space_ofs w kernel_w kernel_h dilation_w dilation_h (r * kernel_w.toNat + c)
        = (r : Int) * w * dilation_h + (c : Int) * dilation_w) ∧
    ∀ (a : ConvArgs ℝ) (x : Mat ℝ) (stride_w stride_h : Int),
      a.kernel_w = kernel_w → a.kernel_h = kernel_h → a.dilation_w = dilation_w →
      a.dilation_h = dilation_h → x.w = w →
      ConvArgs.space_ofs { a with stride_w := stride_w, stride_h := stride_h } x
        = make_space_ofs w kernel_w kernel_h dilation_w dilation_h := by
  constructor
  · intro r c hr hc
    obtain ⟨kw, rfl⟩ := Int.eq_ofNat_of_zero_le (by omega : 0 ≤ kernel_w)
    obtain ⟨kh, rfl⟩ := Int.eq_ofNat_of_zero_le (by omega : 0 ≤ kernel_h)
    have hr' : r < kh := by exact_mod_cast hr
    have hc' : c < kw := by exact_mod_cast hc
    have ht : r * kw + c < kh * kw := by
      calc r * kw + c < r * kw + kw := by omega
        _ = (r + 1) * kw := by ring
        _ ≤ kh * kw := Nat.mul_le_mul_right kw hr'
    rw [make_space_ofs_eq w (kw : Int) (kh : Int) dilation_w dilation_h (by omega)
      (r * (kw : Int).toNat + c) (by simpa using ht)]
    simp only [Int.toNat_ofNat]
    have hd : (r * kw + c) / kw = r := by
      rw [Nat.add_comm, Nat.add_mul_div_right _ _ (by omega), Nat.div_eq_of_lt hc']
      omega
    have hm : (r * kw + c) % kw = c := by
      rw [Nat.add_comm, Nat.add_mul_mod_self_right]
      exact Nat.mod_eq_of_lt hc'
    rw [hd, hm]
    ring
  · intro a x sw sh h1 h2 h3 h4 h5
    unfold ConvArgs.space_ofs
    simp only
    rw [h1, h2, h3, h4, h5]

/-- Witness of C32: a `3 x 3` kernel with dilation `2` on rows of width `7`; the entry of the
last tap `(2, 2)`. -/
theorem C32_space_ofs_closed_form_witness :
    (1 : Int) ≤ 3 ∧
    make_space_ofs 7 3 3 2 2 (2 * (3 : Int).toNat + 2)
      = ((2 : Nat) : Int) * (7 : Nat) * 2 + ((2 : Nat) : Int) * 2 :=
  ⟨by decide,
    (C32_space_ofs_closed_form 7 3 3 2 2 (by decide) (by decide)).1 2 2 (by decide)
      (by decide)⟩

/-- C33: the weight norms are populated exactly once.  Every call of `mlsys_convolution`
made while `last_x` is non-empty leaves `w_norm2` unchanged, whatever the weights of that
call are; so after a first call (empty `last_x`) on a non-empty input and any further calls
on non-empty inputs, each with its own kernel arguments, `w_norm2` is the blob the first
call left, whose entry `k` is the norm `sqrt(sum W_k^2)` of the weights of the first call. -/
theorem C33_w_norm2_populated_once (calls : List (ConvArgs ℝ × Mat ℝ × Mat ℝ))
    (a1 : ConvArgs ℝ) (x1 out1 last_x last_y w_norm2 : Mat ℝ)
    (hempty : last_x.total ≤ 0) (hx1 : 0 < x1.total)
    (hne : ∀ c ∈ calls, 0 < c.2.1.total) :
    (∀ (a : ConvArgs ℝ) (x out lx ly wn : Mat ℝ), ¬ lx.total ≤ 0 →
      (mlsys_convolution Real.sqrt Real.exp x out a lx ly wn).w_norm2 = wn) ∧
    (run_state
        (fun s (c : ConvArgs ℝ × Mat ℝ × Mat ℝ) => mlsys_call Real.sqrt Real.exp c.1 s c.2)
        (last_x, last_y, w_norm2) ((a1, x1, out1) :: calls)).2.2
      = (mlsys_convolution Real.sqrt Real.exp x1 out1 a1 last_x last_y w_norm2).w_norm2 ∧
    ∀ k, k < out1.c →
      (run_state
          (fun s (c : ConvArgs ℝ × Mat ℝ × Mat ℝ) => mlsys_call Real.sqrt Real.exp c.1 s c.2)
          (last_x, last_y, w_norm2) ((a1, x1, out1) :: calls)).2.2.flat k
        = Real.sqrt (weight_sq a1 x1.c k) := by
  have hseq : (run_state
        (fun s (c : ConvArgs ℝ × Mat ℝ × Mat ℝ) => mlsys_call Real.sqrt Real.exp c.1 s c.2)
        (last_x, last_y, w_norm2) ((a1, x1, out1) :: calls)).2.2
      = (mlsys_convolution Real.sqrt Real.exp x1 out1 a1 last_x last_y w_norm2).w_norm2 := by
    unfold run_state
    rw [mlsys_norms_kept Real.sqrt Real.exp calls _ _ hne]
    · rfl
    · show ¬ (mlsys_convolution Real.sqrt Real.exp x1 out1 a1 last_x last_y
        w_norm2).last_x.total ≤ 0
      rw [mlsys_last_x]
      omega
  refine ⟨fun a x out lx ly wn hlx =>
    (mlsys_bound_spec Real.sqrt Real.exp x out a lx ly wn hlx).2.1, hseq, ?_⟩
  intro k hk
  rw [hseq]
  exact (mlsys_first_spec Real.sqrt Real.exp x1 out1 a1 last_x last_y w_norm2 hempty).2.1 k hk

/-- Witness of C33 on scenario S1: the first call followed by a call whose weight is `0`;
the cached norm is still that of the first weight `1`. -/
theorem C33_w_norm2_populated_once_witness :
    (Mat.nil : Mat ℝ).total ≤ 0 ∧ 0 < (s1_input : Mat ℝ).total ∧
    (∀ c ∈ [(({ (s1_args : ConvArgs ℝ) with weight_data := Mat.of_list [0] } : ConvArgs ℝ),
        (s1_input : Mat ℝ), (s1_top : Mat ℝ))], 0 < c.2.1.total) ∧
    (run_state
        (fun s (c : ConvArgs ℝ × Mat ℝ × Mat ℝ) => mlsys_call Real.sqrt Real.exp c.1 s c.2)
        (Mat.nil, Mat.nil, Mat.nil)
        [(s1_args, s1_input, s1_top),
          ({ (s1_args : ConvArgs ℝ) with weight_data := Mat.of_list [0] }, s1_input,
            s1_top)]).2.2.flat 0
      = Real.sqrt (weight_sq (s1_args : ConvArgs ℝ) (s1_input : Mat ℝ).c 0) :=
  ⟨by decide, by decide, fun c hc => by simp at hc; subst hc; decide,
    (C33_w_norm2_populated_once
      [({ (s1_args : ConvArgs ℝ) with weight_data := Mat.of_list [0] }, s1_input, s1_top)]
      s1_args s1_input s1_top Mat.nil Mat.nil Mat.nil (by decide) (by decide)
      (fun c hc => by simp at hc; subst hc; decide)).2.2 0 (by decide)⟩

/-- C34: mixing modes stays exact.  After any sequence of forward calls on same-shaped
padded inputs from empty caches, in which each call has `use_reserved_0` set or cleared as
it likes, with ReLU and exact real arithmetic, a further successful forward call in either
mode (not a flattened blob sent to `InnerProduct`) writes the tensor `raw_convolution`
writes for the padded input of that call; and a call with `use_reserved_0` cleared leaves
the layer, with its caches `last_x` and `last_y`, as it was. -/
theorem C34_mixed_modes_exact (ext : Externals ℝ) (self0 : Convolution ℝ)
    (calls : List (Mat ℝ × Mat ℝ × Opt)) (bottom top : Mat ℝ) (opt : Opt)
    (hrelu : self0.activation_type = 1) (hempty : self0.record1.total = 0)
    (hshape : same_padded_shapes ext self0 calls bottom)
    (hnf : self0.is_flattened bottom = false)
    (hret : (Convolution.forward Real.sqrt Real.exp ext
      (forward_state Real.sqrt Real.exp ext self0 calls) bottom top opt).1 = 0) :
    (Convolution.forward Real.sqrt Real.exp ext
        (forward_state Real.sqrt Real.exp ext self0 calls) bottom top opt).2.1.same_tensor
      (raw_convolution Real.exp (self0.make_padding ext bottom)
        (self0.create_top (self0.make_padding ext bottom) top) self0.args) ∧
    (opt.use_reserved_0 = false →
      (Convolution.forward Real.sqrt Real.exp ext
        (forward_state Real.sqrt Real.exp ext self0 calls) bottom top opt).2.2
        = forward_state Real.sqrt Real.exp ext self0 calls) := by
  have hg := forward_state_good Real.exp ext self0 (self0.make_padding ext bottom).w
    (self0.make_padding ext bottom).c
    (self0.create_top (self0.make_padding ext bottom) top).w
    (self0.create_top (self0.make_padding ext bottom) top).h
    (self0.create_top (self0.make_padding ext bottom) top).c calls
    (by
      intro c hc
      obtain ⟨h1, h2, h3⟩ := hshape c hc
      have hd := create_top_dims self0 (self0.make_padding ext c.1)
        (self0.make_padding ext bottom) c.2.1 top h1 h2
      exact ⟨h1, h3, hd.1, hd.2.1, hd.2.2⟩)
    self0 rfl (Or.inl (Nat.le_of_eq hempty))
  obtain ⟨hcfg, _⟩ := hg
  obtain ⟨fs, hfs⟩ : ∃ fs, forward_state Real.sqrt Real.exp ext self0 calls = fs := ⟨_, rfl⟩
  rw [hfs] at hcfg hret ⊢
  have hnf' : fs.is_flattened bottom = false := by
    rw [hcfg]; exact hnf
  have hpad : fs.make_padding ext bottom = self0.make_padding ext bottom := by
    rw [hcfg]; rfl
  have hargs : fs.args = self0.args := by
    rw [hcfg]; rfl
  have htop : fs.create_top (self0.make_padding ext bottom) top
      = self0.create_top (self0.make_padding ext bottom) top := by
    rw [hcfg]; rfl
  have hraw := raw_convolution_spec Real.exp (self0.make_padding ext bottom)
    (self0.create_top (self0.make_padding ext bottom) top) self0.args
  by_cases hopt : opt.use_reserved_0 = true
  · have ho : opt = ⟨true⟩ := by
      cases opt
      simp only at hopt
      rw [hopt]
    subst ho
    have hd := forward_bound_dims Real.sqrt Real.exp ext fs bottom top hnf' hret
    rw [hpad, htop] at hd
    refine ⟨⟨hd.1.trans hraw.1.1.symm, hd.2.1.trans hraw.1.2.1.symm,
      hd.2.2.trans hraw.1.2.2.symm, ?_⟩, fun h => by simp at h⟩
    intro k i j hk hi hj
    rw [hd.1]
    rw [hd.1] at hj
    rw [hd.2.1] at hi
    rw [hd.2.2] at hk
    have hact : ∀ v : ℝ, self0.args.act Real.exp v = max v 0 := by
      intro v
      unfold ConvArgs.act activation_ss
      have ht : self0.args.activation_type = 1 := hrelu
      rw [if_pos ht]
    rw [hraw.2 i j k hi hj hk, hact]
    rcases forward_bound_sound Real.exp ext self0 calls bottom top (Nat.le_of_eq hempty)
      hshape hnf (by rw [hfs]; exact hret) i j k hi hj hk with h | h
    · rw [hfs] at h
      rw [h, hact]
    · rw [hfs] at h
      rw [h.1, max_eq_right h.2]
  · have hopt' : opt.use_reserved_0 = false := by simpa using hopt
    rw [forward_raw_eq Real.sqrt Real.exp ext fs bottom top opt hnf' hopt' hret]
    simp only
    rw [hpad, htop, hargs]
    exact ⟨⟨rfl, rfl, rfl, fun _ _ _ _ _ _ => rfl⟩, fun _ => trivial⟩

/-- Witness of C34 on scenario S1: a bound-mode call, then a call with `use_reserved_0`
cleared, then the bound-mode call whose output is compared. -/
theorem C34_mixed_modes_exact_witness :
    (s1_layer : Convolution ℝ).activation_type = 1 ∧
    (s1_layer : Convolution ℝ).record1.total = 0 ∧
    same_padded_shapes (scenario_ext [1]) (s1_layer : Convolution ℝ)
      [(s1_input, s1_top, ⟨true⟩), (s1_input, s1_top, ⟨false⟩)] s1_input ∧
    (s1_layer : Convolution ℝ).is_flattened s1_input = false ∧
    (Convolution.forward Real.sqrt Real.exp (scenario_ext [1])
      (forward_state Real.sqrt Real.exp (scenario_ext [1]) s1_layer
        [(s1_input, s1_top, ⟨true⟩), (s1_input, s1_top, ⟨false⟩)]) s1_input s1_top
      ⟨true⟩).1 = 0 ∧
    (Convolution.forward Real.sqrt Real.exp (scenario_ext [1])
        (forward_state Real.sqrt Real.exp (scenario_ext [1]) s1_layer
          [(s1_input, s1_top, ⟨true⟩), (s1_input, s1_top, ⟨false⟩)]) s1_input s1_top
        ⟨true⟩).2.1.same_tensor
      (raw_convolution Real.exp
        ((s1_layer : Convolution ℝ).make_padding (scenario_ext [1]) s1_input)
        ((s1_layer : Convolution ℝ).create_top
          ((s1_layer : Convolution ℝ).make_padding (scenario_ext [1]) s1_input) s1_top)
        (s1_layer : Convolution ℝ).args) :=
  ⟨by decide, by decide,
    fun c hc => by
      simp only [List.mem_cons, List.mem_singleton, List.not_mem_nil, or_false] at hc
      rcases hc with hc | hc <;> subst hc <;> exact ⟨rfl, rfl, rfl⟩,
    by decide, by decide,
    (C34_mixed_modes_exact (scenario_ext [1]) s1_layer
      [(s1_input, s1_top, ⟨true⟩), (s1_input, s1_top, ⟨false⟩)] s1_input s1_top ⟨true⟩
      (by decide) (by decide)
      (fun c hc => by
        simp only [List.mem_cons, List.mem_singleton, List.not_mem_nil, or_false] at hc
        rcases hc with hc | hc <;> subst hc <;> exact ⟨rfl, rfl, rfl⟩)
      (by decide) (by decide)).1⟩

/-- C35: input reads are in range.  For kernel sizes, strides and dilations `>= 1` and a
padded input of width `w >= dilation_w * (kernel_w - 1) + 1` and height
`h >= dilation_h * (kernel_h - 1) + 1`, with `outw` and `outh` as `forward` computes them,
every read at the flat channel offset `i * stride_h * w + j * stride_w + space_ofs[t]` for
`i < outh`, `j < outw`, `t < maxk` lies in `[0, w * h)`; so do the left-neighbour read of the
spatial kernels (the offset minus `stride_w`, for `j >= 1`) and their upper-neighbour read
(row `(i - 1) * stride_h`, for `i >= 1`). -/
theorem C35_input_reads_in_range (self : Convolution ℝ) (x : Mat ℝ)
    (hkw : 1 ≤ self.kernel_w) (hkh : 1 ≤ self.kernel_h)
    (hsw : 1 ≤ self.stride_w) (hsh : 1 ≤ self.stride_h)
    (hdw : 1 ≤ self.dilation_w) (hdh : 1 ≤ self.dilation_h)
    (hw : self.dilation_w * (self.kernel_w - 1) + 1 ≤ x.w)
    (hh : self.dilation_h * (self.kernel_h - 1) + 1 ≤ x.h)
    (i j t : Nat) (hi : (i : Int) < self.outh x) (hj : (j : Int) < self.outw x)
    (ht : t < self.args.maxk) :
    (0 ≤ row_ptr x self.stride_w self.stride_h i j + self.args.space_ofs x t ∧
      row_ptr x self.stride_w self.stride_h i j + self.args.space_ofs x t
        < (x.w : Int) * x.h) ∧
    (1 ≤ j →
      0 ≤ row_ptr x self.stride_w self.stride_h i j - self.stride_w
          + self.args.space_ofs x t ∧
      row_ptr x self.stride_w self.stride_h i j - self.stride_w + self.args.space_ofs x t
        < (x.w : Int) * x.h) ∧
    (1 ≤ i →
      0 ≤ row_ptr x self.stride_w self.stride_h (i - 1) j + self.args.space_ofs x t ∧
      row_ptr x self.stride_w self.stride_h (i - 1) j + self.args.space_ofs x t
        < (x.w : Int) * x.h) := by
  obtain ⟨r, c, hr, hc, hofs⟩ := space_ofs_tap self.args x hkw hkh t ht
  have hr' : (r : Int) < self.kernel_h := hr
  have hc' : (c : Int) < self.kernel_w := hc
  have hofs' : self.args.space_ofs x t
      = (r : Int) * self.dilation_h * x.w + (c : Int) * self.dilation_w := hofs
  rw [hofs']
  unfold row_ptr
  unfold Convolution.outh at hi
  unfold Convolution.outw at hj
  simp only at hi hj
  have hI := index_below_out _ _ i (by omega) hsh hi
  have hJ := index_below_out _ _ j (by omega) hsw hj
  have hrd : (r : Int) * self.dilation_h ≤ (self.kernel_h - 1) * self.dilation_h :=
    Int.mul_le_mul_of_nonneg_right (by omega) (by omega)
  have hcd : (c : Int) * self.dilation_w ≤ (self.kernel_w - 1) * self.dilation_w :=
    Int.mul_le_mul_of_nonneg_right (by omega) (by omega)
  have e1 : (self.kernel_h - 1) * self.dilation_h = self.dilation_h * (self.kernel_h - 1) :=
    Int.mul_comm _ _
  have e2 : (self.kernel_w - 1) * self.dilation_w = self.dilation_w * (self.kernel_w - 1) :=
    Int.mul_comm _ _
  have hrd0 : 0 ≤ (r : Int) * self.dilation_h :=
    Int.mul_nonneg (Int.ofNat_nonneg r) (by omega)
  have hcd0 : 0 ≤ (c : Int) * self.dilation_w :=
    Int.mul_nonneg (Int.ofNat_nonneg c) (by omega)
  have hi0 : 0 ≤ (i : Int) * self.stride_h := Int.mul_nonneg (Int.ofNat_nonneg i) (by omega)
  have hj0 : 0 ≤ (j : Int) * self.stride_w := Int.mul_nonneg (Int.ofNat_nonneg j) (by omega)
  refine ⟨?_, ?_, ?_⟩
  · have h := flat_in_range x.w x.h ((i : Int) * self.stride_h + (r : Int) * self.dilation_h)
      ((j : Int) * self.stride_w + (c : Int) * self.dilation_w) (by omega) (by omega)
      (by omega) (by omega)
    have e : (i : Int) * self.stride_h * x.w + (j : Int) * self.stride_w
        + ((r : Int) * self.dilation_h * x.w + (c : Int) * self.dilation_w)
        = ((i : Int) * self.stride_h + (r : Int) * self.dilation_h) * x.w
          + ((j : Int) * self.stride_w + (c : Int) * self.dilation_w) := by ring
    rw [e]
    exact h
  · intro hj1
    have hj2 : ((j : Int) - 1) * self.stride_w = (j : Int) * self.stride_w - self.stride_w := by
      ring
    have hj3 : 0 ≤ ((j : Int) - 1) * self.stride_w :=
      Int.mul_nonneg (by omega) (by omega)
    have h := flat_in_range x.w x.h ((i : Int) * self.stride_h + (r : Int) * self.dilation_h)
      ((j : Int) * self.stride_w - self.stride_w + (c : Int) * self.dilation_w) (by omega)
      (by omega) (by omega) (by omega)
    have e : (i : Int) * self.stride_h * x.w + (j : Int) * self.stride_w - self.stride_w
        + ((r : Int) * self.dilation_h * x.w + (c : Int) * self.dilation_w)
        = ((i : Int) * self.stride_h + (r : Int) * self.dilation_h) * x.w
          + ((j : Int) * self.stride_w - self.stride_w + (c : Int) * self.dilation_w) := by
      ring
    rw [e]
    exact h
  · intro hi1
    have hc1 : (((i - 1 : Nat) : Int)) = (i : Int) - 1 := by omega
    rw [hc1]
    have hi2 : ((i : Int) - 1) * self.stride_h = (i : Int) * self.stride_h - self.stride_h := by
      ring
    have hi3 : 0 ≤ ((i : Int) - 1) * self.stride_h :=
      Int.mul_nonneg (by omega) (by omega)
    have h := flat_in_range x.w x.h
      (((i : Int) - 1) * self.stride_h + (r : Int) * self.dilation_h)
      ((j : Int) * self.stride_w + (c : Int) * self.dilation_w) (by omega) (by omega)
      (by omega) (by omega)
    have e : ((i : Int) - 1) * self.stride_h * x.w + (j : Int) * self.stride_w
        + ((r : Int) * self.dilation_h * x.w + (c : Int) * self.dilation_w)
        = (((i : Int) - 1) * self.stride_h + (r : Int) * self.dilation_h) * x.w
          + ((j : Int) * self.stride_w + (c : Int) * self.dilation_w) := by ring
    rw [e]
    exact h

/-- Witness of C35: the `2 x 1` kernel on the `3 x 1` input `[[1, -2, 3]]`; the read of the
last tap at output position `(0, 1)` is the last element, and its left neighbour is in range
as well. -/
theorem C35_input_reads_in_range_witness :
    1 ≤ (wide_layer : Convolution ℝ).kernel_w ∧ 1 ≤ (wide_layer : Convolution ℝ).kernel_h ∧
    1 ≤ (wide_layer : Convolution ℝ).stride_w ∧ 1 ≤ (wide_layer : Convolution ℝ).stride_h ∧
    1 ≤ (wide_layer : Convolution ℝ).dilation_w ∧
    1 ≤ (wide_layer : Convolution ℝ).dilation_h ∧
    (wide_layer : Convolution ℝ).dilation_w * ((wide_layer : Convolution ℝ).kernel_w - 1) + 1
      ≤ (s1_input : Mat ℝ).w ∧
    (wide_layer : Convolution ℝ).dilation_h * ((wide_layer : Convolution ℝ).kernel_h - 1) + 1
      ≤ (s1_input : Mat ℝ).h ∧
    ((0 : Nat) : Int) < (wide_layer : Convolution ℝ).outh s1_input ∧
    ((1 : Nat) : Int) < (wide_layer : Convolution ℝ).outw s1_input ∧
    1 < (wide_layer : Convolution ℝ).args.maxk ∧
    (0 ≤ row_ptr (s1_input : Mat ℝ) (wide_layer : Convolution ℝ).stride_w
          (wide_layer : Convolution ℝ).stride_h 0 1
        + (wide_layer : Convolution ℝ).args.space_ofs s1_input 1 ∧
      row_ptr (s1_input : Mat ℝ) (wide_layer : Convolution ℝ).stride_w
          (wide_layer : Convolution ℝ).stride_h 0 1
        + (wide_layer : Convolution ℝ).args.space_ofs s1_input 1
        < ((s1_input : Mat ℝ).w : Int) * (s1_input : Mat ℝ).h) :=
  ⟨by decide, by decide, by decide, by decide, by decide, by decide, by decide, by decide,
    by decide, by decide, by decide,
    (C35_input_reads_in_range wide_layer s1_input (by decide) (by decide) (by decide)
      (by decide) (by decide) (by decide) (by decide) (by decide) 0 1 1 (by decide)
      (by decide) (by decide)).1⟩

/-- C36: `find_top_E` needs at least `E` filter entries.  Entry `i < E` of the index array
it stores is read from `w_ordered[w_arr_len - 1 - i]`; these read indices are all within
`[0, L)`, `L = w_arr_len` the length of the sorted vector, if and only if `L >= E`; for
`L < E` the read of `i = E - 1` has a negative index; and the flat filter of scenario S1
(`1 x 1`, one input channel) has length `1 < E = 6`. -/
theorem C36_find_top_E_needs_E_entries (w_arr : Int → ℝ) (w_arr_len : Nat) (w_full_2 : ℝ)
    (idx_base val_base sel_base : Int) (s : Mat ℝ × Mat ℝ × Mat ℝ) :
    (∀ i, i < E →
      (find_top_E Real.sqrt w_arr w_arr_len w_full_2 idx_base val_base sel_base s).1.flat
          (idx_base + i)
        = (((vec_at (w_ordered_sorted w_arr w_arr_len) ((w_arr_len : Int) - 1 - i)).2 : Nat)
            : ℝ)) ∧
    ((∀ i, i < E → 0 ≤ (w_arr_len : Int) - 1 - i ∧
        (w_arr_len : Int) - 1 - i < ((w_ordered_sorted w_arr w_arr_len).length : Int))
      ↔ E ≤ w_arr_len) ∧
    (w_arr_len < E → (w_arr_len : Int) - 1 - ((E - 1 : Nat) : Int) < 0) ∧
    (s1_args : ConvArgs ℝ).maxk * (s1_input : Mat ℝ).c < E ∧ E = 6 := by
  refine ⟨(find_top_E_spec Real.sqrt w_arr w_arr_len w_full_2 idx_base val_base sel_base s).1,
    ?_, ?_, by decide, rfl⟩
  · rw [w_ordered_sorted_length]
    constructor
    · intro h
      have h5 := (h (E - 1) (by decide)).1
      have e : ((E - 1 : Nat) : Int) = 5 := by decide
      rw [e] at h5
      have e6 : E = 6 := rfl
      omega
    · intro h i hi
      have e6 : E = 6 := rfl
      omega
  · intro h
    have e : ((E - 1 : Nat) : Int) = 5 := by decide
    have e6 : E = 6 := rfl
    rw [e]
    omega

/-- C37: spatial mode carries no hidden state between calls.  For every input, weights and
bias and every non-empty output blob, two runs of `spatial_convolution` with the same
`w_norm2` that start from different contents of `last_y_col` and `last_y_row` (and of the
counter `call_time`) write the same output blob and end with the same buffer contents:
`last_y_col[k]` for `k < outch` and `last_y_row[j * outch + k]` for `j < outw`,
`k < outch`. -/
theorem C37_spatial_no_hidden_state (a : ConvArgs ℝ)
    (x top w_norm2 col row col2 row2 : Mat ℝ) (call_time call_time2 : ℝ)
    (hH : 0 < top.h) (hW : 0 < top.w) :
    (spatial_convolution Real.sqrt Real.exp x top a w_norm2 col row call_time).top_blob
      = (spatial_convolution Real.sqrt Real.exp x top a w_norm2 col2 row2
          call_time2).top_blob ∧
    (∀ k, k < top.c →
      (spatial_convolution Real.sqrt Real.exp x top a w_norm2 col row
          call_time).last_y_col.flat k
        = (spatial_convolution Real.sqrt Real.exp x top a w_norm2 col2 row2
            call_time2).last_y_col.flat k) ∧
    ∀ j k, j < top.w → k < top.c →
      (spatial_convolution Real.sqrt Real.exp x top a w_norm2 col row
          call_time).last_y_row.flat (out_pos top.c j k)
        = (spatial_convolution Real.sqrt Real.exp x top a w_norm2 col2 row2
            call_time2).last_y_row.flat (out_pos top.c j k) := by
  unfold spatial_convolution
  simp only
  by_cases hn : w_norm2.total ≤ 0
  · simp only [hn, if_true]
    exact spatial_loops_agree Real.sqrt Real.exp a x _ top _ _ _ _ hH hW
  · simp only [hn, if_false]
    exact spatial_loops_agree Real.sqrt Real.exp a x _ top _ _ _ _ hH hW

/-- Witness of C37 on scenario S1 with `w_norm2 = [1]`: runs from buffers holding zeros and
from buffers holding `5` and `7, 8, 9` write the same output. -/
theorem C37_spatial_no_hidden_state_witness :
    0 < (s1_top : Mat ℝ).h ∧ 0 < (s1_top : Mat ℝ).w ∧
    (spatial_convolution Real.sqrt Real.exp s1_input s1_top s1_args (Mat.of_list [1])
        (Mat.of_list [0]) (Mat.of_list [0, 0, 0]) 0).top_blob
      = (spatial_convolution Real.sqrt Real.exp s1_input s1_top s1_args (Mat.of_list [1])
          (Mat.of_list [5]) (Mat.of_list [7, 8, 9]) 3).top_blob :=
  ⟨by decide, by decide,
    (C37_spatial_no_hidden_state s1_args s1_input s1_top (Mat.of_list [1]) (Mat.of_list [0])
      (Mat.of_list [0, 0, 0]) (Mat.of_list [5]) (Mat.of_list [7, 8, 9]) 0 3 (by decide)
      (by decide)).1⟩

/-- C38: SAME padding yields ceil-sized outputs.  When all four pads are `-233` (or all
`-234`), `w, h >= 1`, the strides are `>= 1`, and
`wpad = kernel_extent_w + (w - 1) / stride_w * stride_w - w` and `hpad` (likewise) are both
`>= 0`, and the padding helper `copy_make_border` returns a blob wider by `left + right` and
higher by `top + bottom`: the blob `make_padding` returns has `wpad` columns and `hpad` rows
more than the input, so `forward` computes `outw = ceil(w / stride_w)` and
`outh = ceil(h / stride_h)`.  When a pad is positive, SAME_UPPER (`-233`) passes
`floor(hpad / 2)` rows as `top` and `floor(wpad / 2)` columns as `left` and the rest as
`bottom` and `right`, SAME_LOWER (`-234`) the mirror image, and otherwise the input is
returned as it is; the two sides differ by at most one. -/
theorem C38_same_padding_ceil (ext : Externals ℝ) (self : Convolution ℝ) (bottom : Mat ℝ)
    (wpad hpad : Int)
    (hpads : (self.pad_left = -233 ∧ self.pad_right = -233 ∧ self.pad_top = -233
        ∧ self.pad_bottom = -233) ∨
      (self.pad_left = -234 ∧ self.pad_right = -234 ∧ self.pad_top = -234
        ∧ self.pad_bottom = -234))
    (hw : 1 ≤ bottom.w) (hh : 1 ≤ bottom.h)
    (hsw : 1 ≤ self.stride_w) (hsh : 1 ≤ self.stride_h)
    (hwp : wpad = self.dilation_w * (self.kernel_w - 1) + 1
      + Int.tdiv ((bottom.w : Int) - 1) self.stride_w * self.stride_w - bottom.w)
    (hhp : hpad = self.dilation_h * (self.kernel_h - 1) + 1
      + Int.tdiv ((bottom.h : Int) - 1) self.stride_h * self.stride_h - bottom.h)
    (hwpad : 0 ≤ wpad) (hhpad : 0 ≤ hpad)
    (hborder : ∀ top bot left right : Int, 0 ≤ top → 0 ≤ bot → 0 ≤ left → 0 ≤ right →
      ((ext.copy_make_border bottom top bot left right self.pad_value).w : Int)
        = bottom.w + left + right ∧
      ((ext.copy_make_border bottom top bot left right self.pad_value).h : Int)
        = bottom.h + top + bot) :
    (((self.make_padding ext bottom).w : Int) = bottom.w + wpad ∧
      ((self.make_padding ext bottom).h : Int) = bottom.h + hpad) ∧
    (self.outw (self.make_padding ext bottom) = ⌈((bottom.w : Int) : ℚ) / (self.stride_w : ℚ)⌉ ∧
      self.outh (self.make_padding ext bottom)
        = ⌈((bottom.h : Int) : ℚ) / (self.stride_h : ℚ)⌉) ∧
    (self.pad_left = -233 → (wpad > 0 ∨ hpad > 0) →
      self.make_padding ext bottom
        = ext.copy_make_border bottom (hpad / 2) (hpad - hpad / 2) (wpad / 2)
            (wpad - wpad / 2) self.pad_value) ∧
    (self.pad_left = -234 → (wpad > 0 ∨ hpad > 0) →
      self.make_padding ext bottom
        = ext.copy_make_border bottom (hpad - hpad / 2) (hpad / 2) (wpad - wpad / 2)
            (wpad / 2) self.pad_value) ∧
    (¬ (wpad > 0 ∨ hpad > 0) → self.make_padding ext bottom = bottom) ∧
    (wpad / 2 ≤ wpad - wpad / 2 ∧ wpad - wpad / 2 ≤ wpad / 2 + 1) ∧
    (hpad / 2 ≤ hpad - hpad / 2 ∧ hpad - hpad / 2 ≤ hpad / 2 + 1) := by
  obtain ⟨ew, ew0, ew1, ew2, ew3⟩ := pad_halves wpad hwpad
  obtain ⟨eh, eh0, eh1, eh2, eh3⟩ := pad_halves hpad hhpad
  have hcase : self.make_padding ext bottom
      = if wpad > 0 ∨ hpad > 0 then
          (if self.pad_left = -233 then
            ext.copy_make_border bottom (hpad / 2) (hpad - hpad / 2) (wpad / 2)
              (wpad - wpad / 2) self.pad_value
          else
            ext.copy_make_border bottom (hpad - hpad / 2) (hpad / 2) (wpad - wpad / 2)
              (wpad / 2) self.pad_value)
        else bottom := by
    rcases hpads with hp | hp
    · rw [make_padding_upper ext self bottom hp, ← hwp, ← hhp, ew, eh, if_pos hp.1]
    · have hne : ¬ self.pad_left = -233 := by rw [hp.1]; decide
      rw [make_padding_lower ext self bottom hp, ← hwp, ← hhp, ew, eh, if_neg hne]
  rw [ew] at ew0 ew1 ew2 ew3
  rw [eh] at eh0 eh1 eh2 eh3
  have hdims : ((self.make_padding ext bottom).w : Int) = bottom.w + wpad ∧
      ((self.make_padding ext bottom).h : Int) = bottom.h + hpad := by
    rw [hcase]
    by_cases hpos : wpad > 0 ∨ hpad > 0
    · rw [if_pos hpos]
      by_cases hu : self.pad_left = -233
      · rw [if_pos hu]
        have hb := hborder (hpad / 2) (hpad - hpad / 2) (wpad / 2) (wpad - wpad / 2) eh0 eh1
          ew0 ew1
        rw [hb.1, hb.2]
        constructor <;> ring
      · rw [if_neg hu]
        have hb := hborder (hpad - hpad / 2) (hpad / 2) (wpad - wpad / 2) (wpad / 2) eh1 eh0
          ew1 ew0
        rw [hb.1, hb.2]
        constructor <;> ring
    · rw [if_neg hpos]
      have h1 : wpad = 0 := by omega
      have h2 : hpad = 0 := by omega
      rw [h1, h2]
      simp
  refine ⟨hdims, ⟨?_, ?_⟩, ?_, ?_, ?_, ⟨ew2, ew3⟩, ⟨eh2, eh3⟩⟩
  · unfold Convolution.outw
    simp only
    rw [hdims.1, hwp, ← ceil_div_eq _ _ (by omega) hsw]
    have e : (bottom.w : Int) + (self.dilation_w * (self.kernel_w - 1) + 1
        + Int.tdiv ((bottom.w : Int) - 1) self.stride_w * self.stride_w - bottom.w)
        - (self.dilation_w * (self.kernel_w - 1) + 1)
        = Int.tdiv ((bottom.w : Int) - 1) self.stride_w * self.stride_w := by ring
    rw [e, Int.tdiv_eq_ediv (by omega : (0 : Int) ≤ (bottom.w : Int) - 1) (by omega),
      Int.tdiv_eq_ediv (Int.mul_nonneg (Int.ediv_nonneg (by omega) (by omega)) (by omega))
        (by omega),
      Int.mul_ediv_cancel _ (by omega)]
  · unfold Convolution.outh
    simp only
    rw [hdims.2, hhp, ← ceil_div_eq _ _ (by omega) hsh]
    have e : (bottom.h : Int) + (self.dilation_h * (self.kernel_h - 1) + 1
        + Int.tdiv ((bottom.h : Int) - 1) self.stride_h * self.stride_h - bottom.h)
        - (self.dilation_h * (self.kernel_h - 1) + 1)
        = Int.tdiv ((bottom.h : Int) - 1) self.stride_h * self.stride_h := by ring
    rw [e, Int.tdiv_eq_ediv (by omega : (0 : Int) ≤ (bottom.h : Int) - 1) (by omega),
      Int.tdiv_eq_ediv (Int.mul_nonneg (Int.ediv_nonneg (by omega) (by omega)) (by omega))
        (by omega),
      Int.mul_ediv_cancel _ (by omega)]
  · intro hu hpos
    rw [hcase, if_pos hpos, if_pos hu]
  · intro hl hpos
    have hne : ¬ self.pad_left = -233 := by rw [hl]; decide
    rw [hcase, if_pos hpos, if_neg hne]
  · intro hpos
    rw [hcase, if_neg hpos]

/-- Witness of C38: the `3 x 3` kernel with stride `2` and SAME_UPPER padding on a `4 x 4`
input, with the padding helper `copy_make_border_spec`: `wpad = hpad = 1`, the padded blob is
`5 x 5`, and `outw = ceil(4 / 2)`. -/
theorem C38_same_padding_ceil_witness :
    ((same_layer : Convolution ℝ).pad_left = -233 ∧
      (same_layer : Convolution ℝ).pad_right = -233 ∧
      (same_layer : Convolution ℝ).pad_top = -233 ∧
      (same_layer : Convolution ℝ).pad_bottom = -233) ∧
    1 ≤ (s2_zero : Mat ℝ).w ∧ 1 ≤ (s2_zero : Mat ℝ).h ∧
    1 ≤ (same_layer : Convolution ℝ).stride_w ∧ 1 ≤ (same_layer : Convolution ℝ).stride_h ∧
    (1 : Int) = (same_layer : Convolution ℝ).dilation_w
        * ((same_layer : Convolution ℝ).kernel_w - 1) + 1
      + Int.tdiv (((s2_zero : Mat ℝ).w : Int) - 1) (same_layer : Convolution ℝ).stride_w
        * (same_layer : Convolution ℝ).stride_w - (s2_zero : Mat ℝ).w ∧
    (∀ top bot left right : Int, 0 ≤ top → 0 ≤ bot → 0 ≤ left → 0 ≤ right →
      (((border_ext [1, 1, 1, 1, 1, 1, 1, 1, 1] : Externals ℝ).copy_make_border s2_zero top
          bot left right (same_layer : Convolution ℝ).pad_value).w : Int)
        = (s2_zero : Mat ℝ).w + left + right ∧
      (((border_ext [1, 1, 1, 1, 1, 1, 1, 1, 1] : Externals ℝ).copy_make_border s2_zero top
          bot left right (same_layer : Convolution ℝ).pad_value).h : Int)
        = (s2_zero : Mat ℝ).h + top + bot) ∧
    (((same_layer : Convolution ℝ).make_padding (border_ext [1, 1, 1, 1, 1, 1, 1, 1, 1])
        s2_zero).w : Int) = (s2_zero : Mat ℝ).w + 1 ∧
    (same_layer : Convolution ℝ).outw
        ((same_layer : Convolution ℝ).make_padding (border_ext [1, 1, 1, 1, 1, 1, 1, 1, 1])
          s2_zero)
      = ⌈(((s2_zero : Mat ℝ).w : Int) : ℚ) / ((same_layer : Convolution ℝ).stride_w : ℚ)⌉ :=
  ⟨by decide, by decide, by decide, by decide, by decide, by decide,
    fun top bot left right ht hb hl hr =>
      ⟨Int.toNat_of_nonneg (by
          show (0 : Int) ≤ ((4 : Nat) : Int) + left + right
          omega),
        Int.toNat_of_nonneg (by
          show (0 : Int) ≤ ((4 : Nat) : Int) + top + bot
          omega)⟩,
    (C38_same_padding_ceil (border_ext [1, 1, 1, 1, 1, 1, 1, 1, 1]) same_layer s2_zero 1 1
      (Or.inl (by decide)) (by decide) (by decide) (by decide) (by decide) (by decide)
      (by decide) (by decide) (by decide)
      (fun top bot left right ht hb hl hr =>
        ⟨Int.toNat_of_nonneg (by
            show (0 : Int) ≤ ((4 : Nat) : Int) + left + right
            omega),
          Int.toNat_of_nonneg (by
            show (0 : Int) ≤ ((4 : Nat) : Int) + top + bot
            omega)⟩)).1.1,
    (C38_same_padding_ceil (border_ext [1, 1, 1, 1, 1, 1, 1, 1, 1]) same_layer s2_zero 1 1
      (Or.inl (by decide)) (by decide) (by decide) (by decide) (by decide) (by decide)
      (by decide) (by decide) (by decide)
      (fun top bot left right ht hb hl hr =>
        ⟨Int.toNat_of_nonneg (by
            show (0 : Int) ≤ ((4 : Nat) : Int) + left + right
            omega),
          Int.toNat_of_nonneg (by
            show (0 : Int) ≤ ((4 : Nat) : Int) + top + bot
            omega)⟩)).2.1.1⟩

end Conv

